import Mathlib

/-!
# Kafka dissector (`epan/dissectors/packet-kafka.c`)

A shallow embedding of the decoding engine of the Kafka dissector: the
buffer accessors, the request/response correlator of `dissect_kafka`, the
length-prefix framing of `get_kafka_pdu_len`, and the message-set decoder.

Conventions of the embedding.

* A buffer (`tvbuff_t`) is the list of its bytes.  An accessor that the C
  code leaves by a bounds exception returns `none`.
* C `int` values are `Int`; every C addition on them is wrapped to 32 bits
  with `to_gint32`, every unsigned 32-bit result with `% 2 ^ 32`.
* Objects allocated with `wmem_new` live in a heap (a list); a pointer is the
  index of the object in the heap.
-/

namespace Kafka

/-! ## Machine integers -/

/-- One octet of a buffer. -/
abbrev guint8 := Fin 256

/-- Conversion of an integer to `gint16` (two's complement). -/
def to_gint16 (x : Int) : Int := (x + 2 ^ 15) % 2 ^ 16 - 2 ^ 15

/-- Conversion of an integer to `gint32` / C `int` (two's complement). -/
def to_gint32 (x : Int) : Int := (x + 2 ^ 31) % 2 ^ 32 - 2 ^ 31

/-- Conversion of an integer to `guint32` / C `guint`. -/
def to_guint32 (x : Int) : Nat := (x % 2 ^ 32).toNat

/-- Conversion of an integer to `gint8`. -/
def to_gint8 (x : Int) : Int := (x + 2 ^ 7) % 2 ^ 8 - 2 ^ 7

/-! ## Buffers -/

/-- The buffer handed to a dissector: its bytes, in order. -/
abbrev tvbuff_t := List guint8

/-- Value of `tvb_captured_length(tvb)`. -/
def tvb_captured_length (tvb : tvbuff_t) : Nat := tvb.length

/-- Modelled from the spec: the buffer accessors of `epan/tvbuff.c` are not part
of the source file; "any primitive read that would violate this fails rather
than reading out of bounds".  An offset that is not negative counts from the
start of the buffer, a negative one from its end; `none` is the bounds
exception. -/
def tvb_abs_offset (tvb : tvbuff_t) (offset : Int) : Option Nat :=
  if 0 ≤ offset then
    if offset.toNat ≤ tvb.length then some offset.toNat else none
  else
    if (-offset).toNat ≤ tvb.length then some (tvb.length - (-offset).toNat) else none

/-- Modelled from the spec: `tvb_ensure_bytes_exist` of `epan/tvbuff.c`, as a
test: the `length` bytes from `offset` on lie inside the buffer. -/
def tvb_bytes_exist (tvb : tvbuff_t) (offset : Int) (length : Int) : Bool :=
  match tvb_abs_offset tvb offset with
  | none => false
  | some a => decide (0 ≤ length) && decide (a + length.toNat ≤ tvb.length)

/-- The `n` bytes at `offset`, or `none` when they are not all in the buffer. -/
def tvb_get_bytes (tvb : tvbuff_t) (offset : Int) (n : Nat) : Option (List guint8) :=
  match tvb_abs_offset tvb offset with
  | none => none
  | some a => if a + n ≤ tvb.length then some ((tvb.drop a).take n) else none

/-- Big-endian value of a run of bytes. -/
def be_value (bs : List guint8) : Nat :=
  bs.foldl (fun acc b => acc * 256 + b.val) 0

/-- Modelled from the spec: `tvb_get_guint8` ("fixed-width big-endian
integers"), one byte. -/
def tvb_get_guint8 (tvb : tvbuff_t) (offset : Int) : Option Nat :=
  (tvb_get_bytes tvb offset 1).map be_value

/-- Modelled from the spec: `tvb_get_ntohs`, an unsigned big-endian 16-bit read. -/
def tvb_get_ntohs (tvb : tvbuff_t) (offset : Int) : Option Nat :=
  (tvb_get_bytes tvb offset 2).map be_value

/-- Modelled from the spec: `tvb_get_ntohl`, an unsigned big-endian 32-bit read. -/
def tvb_get_ntohl (tvb : tvbuff_t) (offset : Int) : Option Nat :=
  (tvb_get_bytes tvb offset 4).map be_value

/-- Modelled from the spec: `tvb_get_ntoh64`, an unsigned big-endian 64-bit read. -/
def tvb_get_ntoh64 (tvb : tvbuff_t) (offset : Int) : Option Nat :=
  (tvb_get_bytes tvb offset 8).map be_value

/-- Modelled from the spec: `tvb_ensure_captured_length_remaining` of
`epan/tvbuff.c`: the number of bytes from `offset` to the end of the buffer,
with the bounds exception when the offset is outside the buffer or no byte is
left. -/
def tvb_ensure_captured_length_remaining (tvb : tvbuff_t) (offset : Int) : Option Nat :=
  match tvb_abs_offset tvb offset with
  | none => none
  | some a => if tvb.length - a = 0 then none else some (tvb.length - a)

/-- Modelled from the spec: `proto_tree_add_item` of `epan/proto.c` for a field
of `length` bytes at `offset`.  The display tree is not modelled; what is
kept is the bounds test made before the item is added: `false` is the bounds
exception.  A length of -1 stands for "to the end of the buffer". -/
def proto_tree_add_item (tvb : tvbuff_t) (offset : Int) (length : Int) : Bool :=
  if length = -1 then
    if tvb.length = 0 then true
    else (tvb_ensure_captured_length_remaining tvb offset).isSome
  else tvb_bytes_exist tvb offset length

/-- Modelled from the spec: `proto_tree_add_subtree` of `epan/proto.c`, which
makes the same bounds test as `proto_tree_add_item` on the span of the
subtree. -/
def proto_tree_add_subtree (tvb : tvbuff_t) (offset : Int) (length : Int) : Bool :=
  proto_tree_add_item tvb offset length

/-! ## Legacy length-prefixed readers -/

/-- What `dissect_kafka_string` and `dissect_kafka_bytes` hand back: the
returned position, the values stored through `p_string_offset` and
`p_string_len`, and whether the bad-length diagnostic was reported. -/
structure kafka_field where
  offset : Int
  value_offset : Int
  value_len : Int
  bad_length : Bool
deriving DecidableEq, Repr

/-- Embedding of `dissect_kafka_string`: a signed 16-bit length, then the
string. -/
def dissect_kafka_string (tvb : tvbuff_t) (offset : Int) : Option kafka_field :=
  match tvb_get_ntohs tvb offset with
  | none => none
  | some l =>
    let len := to_gint16 l
    if !proto_tree_add_item tvb offset 2 then none else
    let offset := to_gint32 (offset + 2)
    if len < -1 then
      some { offset := offset, value_offset := offset, value_len := len, bad_length := true }
    else if len = -1 then
      some { offset := offset, value_offset := offset, value_len := len, bad_length := false }
    else if !proto_tree_add_item tvb offset len then none
    else
      some { offset := to_gint32 (offset + len), value_offset := offset, value_len := len,
             bad_length := false }

/-- Embedding of `dissect_kafka_bytes`: a signed 32-bit length, then the
bytes. -/
def dissect_kafka_bytes (tvb : tvbuff_t) (offset : Int) : Option kafka_field :=
  match tvb_get_ntohl tvb offset with
  | none => none
  | some l =>
    let len := to_gint32 l
    if !proto_tree_add_item tvb offset 4 then none else
    let offset := to_gint32 (offset + 4)
    if len < -1 then
      some { offset := offset, value_offset := offset, value_len := len, bad_length := true }
    else if len = -1 then
      some { offset := offset, value_offset := offset, value_len := len, bad_length := false }
    else if !proto_tree_add_item tvb offset len then none
    else
      some { offset := to_gint32 (offset + len), value_offset := offset, value_len := len,
             bad_length := false }

/-! ## Request/response correlation -/

/-- The C constant `KAFKA_PRODUCE`. -/
def KAFKA_PRODUCE : Int := 0

/-- The C constant `KAFKA_ACK_NOT_REQUIRED`. -/
def KAFKA_ACK_NOT_REQUIRED : Nat := 0

/-- The C struct `kafka_query_response_t`.  `wmem_new` does not initialise
`response_frame`; `none` is the field before its first assignment. -/
structure kafka_query_response_t where
  api_key : Int
  api_version : Int
  request_frame : Nat
  response_frame : Option Nat
  response_found : Bool
deriving DecidableEq, Repr

/-- What `dissect_kafka` reads of `packet_info`: the frame number, the
visited flag of the frame, and the two ports of the direction test. -/
structure packet_info where
  num : Nat
  visited : Bool
  destport : Nat
  match_uint : Nat
deriving DecidableEq, Repr

/-- The state `dissect_kafka` works on for one conversation: the objects
allocated in file scope, the conversation's `match_queue` (pointers, front
first), and the per-frame data stored with `p_add_proto_data` (frame number
and pointer, newest first). -/
structure conv_state where
  heap : List kafka_query_response_t
  match_queue : List Nat
  proto_data : List (Nat × Nat)
deriving DecidableEq, Repr

/-- The state of a conversation before its first message. -/
def conv_state.empty : conv_state := { heap := [], match_queue := [], proto_data := [] }

/-- Modelled from the spec: `p_get_proto_data` of `epan/proto_data.c`, the
"side index from frame identifier" to the stored object: the newest entry of
the frame. -/
def p_get_proto_data (st : conv_state) (num : Nat) : Option Nat :=
  (st.proto_data.find? (fun e => e.1 == num)).map Prod.snd

/-- Modelled from the spec: `p_add_proto_data` of `epan/proto_data.c`. -/
def p_add_proto_data (st : conv_state) (num : Nat) (matcher : Nat) : conv_state :=
  { st with proto_data := (num, matcher) :: st.proto_data }

/-- Modelled from the spec: `wmem_queue_push` of `epan/wmem`; the queue is "an
ordered FIFO": a push goes to the back. -/
def wmem_queue_push (st : conv_state) (matcher : Nat) : conv_state :=
  { st with match_queue := st.match_queue ++ [matcher] }

/-- Modelled from the spec: `wmem_queue_peek`, the front of the FIFO (`NULL`
is `none`). -/
def wmem_queue_peek (st : conv_state) : Option Nat := st.match_queue.head?

/-- Modelled from the spec: `wmem_queue_pop`, removal of the front of the FIFO. -/
def wmem_queue_pop (st : conv_state) : conv_state :=
  { st with match_queue := st.match_queue.tail }

/-- Modelled from the spec: `wmem_queue_count`. -/
def wmem_queue_count (st : conv_state) : Nat := st.match_queue.length

/-- What a call of `dissect_kafka` came to. -/
inductive kafka_result where
  /-- Decoded as a request: the matcher, and the api key and version that
  select the request routine. -/
  | request (matcher : Nat) (api_key api_version : Int)
  /-- Decoded as a response of the request `matcher`. -/
  | response (matcher : Nat) (api_key api_version : Int)
  /-- "Kafka Response (Undecoded, Request Missing)"; the value returned. -/
  | request_missing (ret : Nat)
  /-- A bounds exception left the function. -/
  | exception
  /-- A pointer that was never allocated was followed. -/
  | invalid_pointer
deriving DecidableEq, Repr

/-- The first fields of `dissect_kafka_produce_request`, up to and including
`required_acks`: the position of the field and its value as a signed 16-bit
integer.  (The timeout and the topic array that follow are not part of this
definition.) -/
def dissect_kafka_produce_request (tvb : tvbuff_t) (offset : Int) (api_version : Int) :
    Option (Int × Int) :=
  match (if api_version ≥ 3 then (dissect_kafka_string tvb offset).map (fun f => f.offset)
         else some offset) with
  | none => none
  | some offset =>
    match tvb_get_ntohs tvb offset with
    | none => none
    | some acks => some (offset, to_gint16 acks)

/-- The request branch of `dissect_kafka` once `matcher` is known, from
`col_add_fstr` on. -/
def dissect_kafka_request_body (st : conv_state) (pinfo : packet_info) (tvb : tvbuff_t)
    (matcher : Nat) : conv_state × kafka_result :=
  match st.heap[matcher]? with
  | none => (st, .invalid_pointer)
  | some m =>
    -- api key, api version, correlation id
    if !proto_tree_add_item tvb 4 2 then (st, .exception) else
    if !proto_tree_add_item tvb 6 2 then (st, .exception) else
    if !proto_tree_add_item tvb 8 4 then (st, .exception) else
    -- client id
    match dissect_kafka_string tvb 12 with
    | none => (st, .exception)
    | some client_id =>
      if m.api_key = KAFKA_PRODUCE then
        match tvb_get_ntohs tvb client_id.offset with
        | none => (st, .exception)
        | some acks =>
          let st := if acks ≠ KAFKA_ACK_NOT_REQUIRED ∧ pinfo.visited = false
                    then wmem_queue_push st matcher else st
          (st, .request matcher m.api_key m.api_version)
      else
        (st, .request matcher m.api_key m.api_version)

/-- The response branch of `dissect_kafka` once `matcher` is known, from
`col_add_fstr` on. -/
def dissect_kafka_response_body (st : conv_state) (matcher : Nat) : conv_state × kafka_result :=
  match st.heap[matcher]? with
  | none => (st, .invalid_pointer)
  | some m => (st, .response matcher m.api_key m.api_version)

/-- Embedding of `dissect_kafka`: the correlation of one message with the
state of its conversation.  The per-API routines that decode the body do not
touch this state and are not part of the result.  A matcher that is
allocated but not stored, because reading the api key or version ends with an
exception, is not kept in the heap: nothing points to it. -/
def dissect_kafka (st : conv_state) (pinfo : packet_info) (tvb : tvbuff_t) :
    conv_state × kafka_result :=
  -- the length field
  if !proto_tree_add_item tvb 0 4 then (st, .exception) else
  let matcher : Option Nat := if pinfo.visited then p_get_proto_data st pinfo.num else none
  if pinfo.destport = pinfo.match_uint then
    -- Request (as directed towards server port)
    match matcher with
    | some m => dissect_kafka_request_body st pinfo tvb m
    | none =>
      match tvb_get_ntohs tvb 4 with
      | none => (st, .exception)
      | some key =>
        match tvb_get_ntohs tvb 6 with
        | none => (st, .exception)
        | some version =>
          let m : kafka_query_response_t :=
            { api_key := to_gint16 key, api_version := to_gint16 version,
              request_frame := pinfo.num, response_frame := none, response_found := false }
          let matcher := st.heap.length
          let st := { st with heap := st.heap ++ [m] }
          let st := p_add_proto_data st pinfo.num matcher
          let st := if m.api_key ≠ KAFKA_PRODUCE then wmem_queue_push st matcher else st
          dissect_kafka_request_body st pinfo tvb matcher
  else
    -- Response: the correlation id
    if !proto_tree_add_item tvb 4 4 then (st, .exception) else
    match matcher with
    | some m => dissect_kafka_response_body st m
    | none =>
      let matcher : Option Nat := if wmem_queue_count st > 0 then wmem_queue_peek st else none
      match matcher with
      | none => (st, .request_missing (tvb_captured_length tvb))
      | some p =>
        match st.heap[p]? with
        | none => (st, .invalid_pointer)
        | some m =>
          if m.request_frame ≥ pinfo.num then
            (st, .request_missing (tvb_captured_length tvb))
          else
            let st := wmem_queue_pop st
            let m := { m with response_frame := some pinfo.num, response_found := true }
            let st := { st with heap := st.heap.set p m }
            let st := p_add_proto_data st pinfo.num p
            dissect_kafka_response_body st p

/-- Decoding of the messages of a conversation one after the other: the final
state and the result of every call, in order. -/
def dissect_frames (st : conv_state) : List (packet_info × tvbuff_t) →
    conv_state × List kafka_result
  | [] => (st, [])
  | (pinfo, tvb) :: rest =>
    let r := dissect_kafka st pinfo tvb
    let rs := dissect_frames r.1 rest
    (rs.1, r.2 :: rs.2)

/-! ## Stream framing -/

/-- Embedding of `get_kafka_pdu_len`: `4 + tvb_get_ntohl(tvb, offset)` in
`guint` arithmetic. -/
def get_kafka_pdu_len (tvb : tvbuff_t) (offset : Int) : Option Nat :=
  (tvb_get_ntohl tvb offset).map (fun l => (4 + l) % 2 ^ 32)

/-- Modelled from the spec: the loop of `tcp_dissect_pdus`
(`epan/dissectors/packet-tcp.c`, not part of the source) over the bytes at
hand, with reassembly enabled: "read the next complete logical message ... If
fewer than 4+declared-length bytes are currently available, signal need N
more bytes and suspend — no partial message is ever handed downstream. Once a
full message is available, dispatch it and resume scanning immediately after
it".  `fixed_len` is the length of the header that `get_pdu_len` reads.  The
result is the list of messages handed to the dissector and the bytes kept for
later.  A computed length shorter than the header is no message; the loop
stops there.  `fuel` bounds the number of messages. -/
def tcp_dissect_pdus_loop (fixed_len : Nat) (get_pdu_len : tvbuff_t → Int → Option Nat) :
    Nat → List guint8 → List tvbuff_t × List guint8
  | 0, buf => ([], buf)
  | fuel + 1, buf =>
    if buf.length < fixed_len then ([], buf)
    else
      match get_pdu_len buf 0 with
      | none => ([], buf)
      | some plen =>
        if plen = 0 ∨ plen < fixed_len then ([], buf)
        else if buf.length < plen then ([], buf)
        else
          let r := tcp_dissect_pdus_loop fixed_len get_pdu_len fuel (buf.drop plen)
          (buf.take plen :: r.1, r.2)

/-- Modelled from the spec: `tcp_dissect_pdus` on the bytes at hand. -/
def tcp_dissect_pdus (fixed_len : Nat) (get_pdu_len : tvbuff_t → Int → Option Nat)
    (buf : List guint8) : List tvbuff_t × List guint8 :=
  tcp_dissect_pdus_loop fixed_len get_pdu_len buf.length buf

/-- Embedding of `dissect_kafka_tcp`: `tcp_dissect_pdus` with a fixed header
of 4 bytes and `get_kafka_pdu_len`; the messages are what `dissect_kafka` is
called with. -/
def dissect_kafka_tcp (buf : List guint8) : List tvbuff_t × List guint8 :=
  tcp_dissect_pdus 4 get_kafka_pdu_len buf

/-- Modelled from the spec: the stream of one direction arriving in chunks: the
bytes kept from before are put in front of each chunk ("buffers incomplete
tails").  The result is every message handed to `dissect_kafka`, in order,
and the bytes still kept. -/
def dissect_kafka_stream : List guint8 → List (List guint8) → List tvbuff_t × List guint8
  | kept, [] => ([], kept)
  | kept, chunk :: chunks =>
    let r := dissect_kafka_tcp (kept ++ chunk)
    let rs := dissect_kafka_stream r.2 chunks
    (r.1 ++ rs.1, rs.2)

/-- The 4-byte big-endian encoding of a length. -/
def be32 (n : Nat) : List guint8 :=
  [Fin.ofNat (n / 2 ^ 24), Fin.ofNat (n / 2 ^ 16), Fin.ofNat (n / 2 ^ 8), Fin.ofNat n]

/-- A payload prefixed by its 4-byte big-endian length. -/
def frame_message (payload : List guint8) : List guint8 := be32 payload.length ++ payload

/-- The byte stream of a sequence of payloads, each with its length prefix. -/
def frame_stream (payloads : List (List guint8)) : List guint8 :=
  (payloads.map frame_message).flatten

/-- A length prefix with all bits set. -/
def max_length_prefix : tvbuff_t := [0xFF, 0xFF, 0xFF, 0xFF]

/-- A payload of 2^32 - 4 bytes. -/
def huge_payload : List guint8 := List.replicate (2 ^ 32 - 4) 0

/-! ## Records and message sets -/

/-- The diagnostics (`expert_add_info`) of the record and message decoders. -/
inductive expert_info where
  | ei_kafka_bad_string_length
  | ei_kafka_bad_bytes_length
  | ei_kafka_bad_array_length
  | ei_kafka_bad_varint
  | ei_kafka_bad_record_length
  | ei_kafka_unknown_message_magic
  | ei_kafka_bad_message_set_length
  | ei_kafka_unknown_api_key
  | ei_kafka_unsupported_api_version
deriving DecidableEq, Repr

/-- The C constant `FT_VARINT_MAX_LEN`. -/
def FT_VARINT_MAX_LEN : Nat := 10

/-- The C constant `KAFKA_MESSAGE_CODEC_MASK`. -/
def KAFKA_MESSAGE_CODEC_MASK : Nat := 0x07

/-- Conversion of an integer to `gint64` (two's complement). -/
def to_gint64 (x : Int) : Int := (x + 2 ^ 63) % 2 ^ 64 - 2 ^ 63

/-- The un-zigzag step of `tvb_get_varint` on a `guint64`:
`(value >> 1) ^ ((value & 1) ? -1 : 0)`. -/
def unzigzag (value : Nat) : Nat :=
  (value >>> 1) ^^^ (if value &&& 1 = 1 then 2 ^ 64 - 1 else 0)

/-- Modelled from the spec: the loop of `tvb_get_varint` (`epan/tvbuff.c`) for
`ENC_VARINT_ZIGZAG`: "a little-endian base-128 varint (continuation bit = high
bit of each byte, up to a fixed maximum width)", un-zigzagged.  `i` is the
index of the byte read next, `n` the number of bytes that may still be read.
The result is the number of bytes consumed (0 for a varint that does not end)
and the 64-bit value; `none` is the bounds exception. -/
def tvb_get_varint_loop (tvb : tvbuff_t) (offset : Int) :
    Nat → Nat → Nat → Option (Nat × Nat)
  | 0, _, value => some (0, value)
  | n + 1, i, value =>
    match tvb_get_guint8 tvb (to_gint32 (offset + i)) with
    | none => none
    | some b =>
      let value := (value ||| ((b &&& 0x7F) <<< (i * 7))) % 2 ^ 64
      if b < 0x80 then some (i + 1, unzigzag value)
      else tvb_get_varint_loop tvb offset n (i + 1) value

/-- Modelled from the spec: `tvb_get_varint(tvb, offset, maxlen, &value,
ENC_VARINT_ZIGZAG)`. -/
def tvb_get_varint (tvb : tvbuff_t) (offset : Int) (maxlen : Nat) : Option (Nat × Nat) :=
  tvb_get_varint_loop tvb offset (min FT_VARINT_MAX_LEN maxlen) 0 0

/-- Embedding of `dissect_kafka_timestamp_delta`: the returned position, the
timestamp in milliseconds (`first_timestamp + val` as `guint64`), and the
diagnostics. -/
def dissect_kafka_timestamp_delta (tvb : tvbuff_t) (offset : Int) (first_timestamp : Nat) :
    Option (Int × Nat × List expert_info) :=
  match tvb_get_varint tvb offset FT_VARINT_MAX_LEN with
  | none => none
  | some (len, val) =>
    let milliseconds := (first_timestamp + val) % 2 ^ 64
    if len = 0 then
      some (to_gint32 (offset + FT_VARINT_MAX_LEN), milliseconds, [.ei_kafka_bad_varint])
    else some (to_gint32 (offset + len), milliseconds, [])

/-- Embedding of `dissect_kafka_offset_delta`: the returned position, the
offset shown (`base_offset + val` as `gint64`), and the diagnostics. -/
def dissect_kafka_offset_delta (tvb : tvbuff_t) (offset : Int) (base_offset : Nat) :
    Option (Int × Int × List expert_info) :=
  match tvb_get_varint tvb offset FT_VARINT_MAX_LEN with
  | none => none
  | some (len, val) =>
    let shown := to_gint64 (base_offset + val)
    if len = 0 then
      some (to_gint32 (offset + FT_VARINT_MAX_LEN), shown, [.ei_kafka_bad_varint])
    else some (to_gint32 (offset + len), shown, [])

/-- How `dissect_kafka_string_new` and `dissect_kafka_bytes_new` show a value:
its bytes, "<EMPTY>", "<NULL>" or "<INVALID>". -/
inductive compact_shown where
  | value
  | empty
  | null
  | invalid
deriving DecidableEq, Repr

/-- What `dissect_kafka_string_new` and `dissect_kafka_bytes_new` hand back:
the returned position, the values stored through the two pointers, how the
value is shown, and the diagnostics. -/
structure kafka_compact_field where
  offset : Int
  value_offset : Int
  value_len : Int
  shown : compact_shown
  diags : List expert_info
deriving DecidableEq, Repr

/-- The common body of `dissect_kafka_string_new` and `dissect_kafka_bytes_new`;
`bad_length` is the diagnostic of a length below -1. -/
def dissect_kafka_compact (bad_length : expert_info) (tvb : tvbuff_t) (offset : Int) :
    Option kafka_compact_field :=
  match tvb_get_varint tvb offset 5 with
  | none => none
  | some (len, v) =>
    let val := to_gint64 v
    if len = 0 then
      some { offset := to_gint32 (offset + 5 + 0), value_offset := to_gint32 (offset + 5),
             value_len := 0, shown := .invalid, diags := [.ei_kafka_bad_varint] }
    else if val > 0 then
      if !proto_tree_add_item tvb (to_gint32 (offset + len)) (to_gint32 val) then none
      else
        some { offset := to_gint32 (offset + len + to_gint32 val),
               value_offset := to_gint32 (offset + len), value_len := to_gint32 val,
               shown := .value, diags := [] }
    else if val = 0 then
      some { offset := to_gint32 (offset + len + 0), value_offset := to_gint32 (offset + len),
             value_len := 0, shown := .empty, diags := [] }
    else if val = -1 then
      some { offset := to_gint32 (offset + len + 0), value_offset := to_gint32 (offset + len),
             value_len := 0, shown := .null, diags := [] }
    else
      some { offset := to_gint32 (offset + len + 0), value_offset := to_gint32 (offset + len),
             value_len := 0, shown := .invalid, diags := [bad_length] }

/-- Embedding of `dissect_kafka_string_new`. -/
def dissect_kafka_string_new (tvb : tvbuff_t) (offset : Int) : Option kafka_compact_field :=
  dissect_kafka_compact .ei_kafka_bad_string_length tvb offset

/-- Embedding of `dissect_kafka_bytes_new`. -/
def dissect_kafka_bytes_new (tvb : tvbuff_t) (offset : Int) : Option kafka_compact_field :=
  dissect_kafka_compact .ei_kafka_bad_bytes_length tvb offset

/-- Modelled from the spec: `tvb_get_string_enc` of `epan/tvbuff.c`, as the
bounds test on the bytes of the string (a length of -1 is "to the end"). -/
def tvb_get_string_enc (tvb : tvbuff_t) (offset : Int) (length : Int) : Bool :=
  if length = -1 then (tvb_abs_offset tvb offset).isSome else tvb_bytes_exist tvb offset length

/-- Embedding of `dissect_kafka_record_headers_header`: one header, a compact
string key and a compact bytes value. -/
def dissect_kafka_record_headers_header (tvb : tvbuff_t) (offset : Int) :
    Option (Int × List expert_info) :=
  if !proto_tree_add_subtree tvb offset (-1) then none else
  match dissect_kafka_string_new tvb offset with
  | none => none
  | some key =>
    match dissect_kafka_bytes_new tvb key.offset with
    | none => none
    | some value =>
      if !tvb_get_string_enc tvb key.value_offset key.value_len then none
      else some (value.offset, key.diags ++ value.diags)

/-- The loop `for (i=0;i<count;i++)` of `dissect_kafka_record_headers`, with
`n` headers left. -/
def dissect_kafka_record_headers_loop (tvb : tvbuff_t) :
    Nat → Int → List expert_info → Option (Int × List expert_info)
  | 0, offset, diags => some (offset, diags)
  | n + 1, offset, diags =>
    match dissect_kafka_record_headers_header tvb offset with
    | none => none
    | some (offset, ds) => dissect_kafka_record_headers_loop tvb n offset (diags ++ ds)

/-- Embedding of `dissect_kafka_record_headers`. -/
def dissect_kafka_record_headers (tvb : tvbuff_t) (offset : Int) :
    Option (Int × List expert_info) :=
  if !proto_tree_add_subtree tvb offset (-1) then none else
  match tvb_get_varint tvb offset 5 with
  | none => none
  | some (len, c) =>
    let count := to_gint64 c
    let len1 := if len = 0 then 5 else len
    let diags : List expert_info :=
      if len = 0 then [.ei_kafka_bad_varint]
      else if count < -1 then [.ei_kafka_bad_array_length] else []
    dissect_kafka_record_headers_loop tvb count.toNat (to_gint32 (offset + len1)) diags

/-- Embedding of `dissect_kafka_record`: the returned position and the
diagnostics, in the order they are reported. -/
def dissect_kafka_record (tvb : tvbuff_t) (start_offset : Int) (base_offset : Nat)
    (first_timestamp : Nat) : Option (Int × List expert_info) :=
  let offset := start_offset
  if !proto_tree_add_subtree tvb offset (-1) then none else
  match tvb_get_varint tvb offset 5 with
  | none => none
  | some (len, s) =>
    let size := to_gint64 s
    if len = 0 then some (to_gint32 (offset + 5), [.ei_kafka_bad_varint])
    else if size < 6 then some (to_gint32 (offset + len), [.ei_kafka_bad_record_length])
    else
      let end_offset := to_gint32 (offset + len + to_gint32 size)
      let offset := to_gint32 (offset + len)
      if !proto_tree_add_item tvb offset 1 then none else
      let offset := to_gint32 (offset + 1)
      match dissect_kafka_timestamp_delta tvb offset first_timestamp with
      | none => none
      | some (offset, _, d1) =>
        match dissect_kafka_offset_delta tvb offset base_offset with
        | none => none
        | some (offset, _, d2) =>
          match dissect_kafka_bytes_new tvb offset with
          | none => none
          | some key =>
            match dissect_kafka_bytes_new tvb key.offset with
            | none => none
            | some value =>
              match dissect_kafka_record_headers tvb value.offset with
              | none => none
              | some (offset, d5) =>
                let diags := d1 ++ d2 ++ key.diags ++ value.diags ++ d5
                some (end_offset,
                  if offset ≠ end_offset then diags ++ [.ei_kafka_bad_record_length]
                  else diags)

/-- The codecs that `decompress` hands a span to.  Each one stands for
`decompress_gzip`, `decompress_snappy`, `decompress_lz4`, `decompress_zstd` on
the span `length` bytes from `offset`: `none` is an exception, `some none` the
result 0 (failure, or a codec that is not compiled in), `some (some out)` the
decompressed buffer (read from offset 0). -/
structure codec_lib where
  decompress_gzip : tvbuff_t → Int → Int → Option (Option tvbuff_t)
  decompress_snappy : tvbuff_t → Int → Int → Option (Option tvbuff_t)
  decompress_lz4 : tvbuff_t → Int → Int → Option (Option tvbuff_t)
  decompress_zstd : tvbuff_t → Int → Int → Option (Option tvbuff_t)

/-- Embedding of `decompress_none`. -/
def decompress_none (tvb : tvbuff_t) (offset : Int) : Option (Option (tvbuff_t × Int)) :=
  some (some (tvb, offset))

/-- Embedding of `decompress`: `none` is an exception, `some none` the result
0, `some (some (tvb, offset))` the decompressed buffer and where to read it. -/
def decompress (lib : codec_lib) (tvb : tvbuff_t) (offset : Int) (length : Int) (codec : Nat) :
    Option (Option (tvbuff_t × Int)) :=
  if codec = 2 then (lib.decompress_snappy tvb offset length).map (Option.map (fun t => (t, 0)))
  else if codec = 3 then (lib.decompress_lz4 tvb offset length).map (Option.map (fun t => (t, 0)))
  else if codec = 4 then (lib.decompress_zstd tvb offset length).map (Option.map (fun t => (t, 0)))
  else if codec = 1 then (lib.decompress_gzip tvb offset length).map (Option.map (fun t => (t, 0)))
  else if codec = 0 then decompress_none tvb offset
  else some none

/-- How a decoder that may loop ends: with a value, with a bounds exception,
or not within the given number of steps. -/
inductive decoded (α : Type) where
  | ok (a : α)
  | exception
  | out_of_fuel
deriving DecidableEq, Repr

/-- A position together with the diagnostics reported on the way. -/
abbrev kafka_position := Int × List expert_info

/-- The loop `for (i=0;i<count;i++)` of `dissect_kafka_message_new` over the
records, with `n` records left. -/
def dissect_kafka_records_loop (tvb : tvbuff_t) (base_offset first_timestamp : Nat) :
    Nat → Int → List expert_info → Option kafka_position
  | 0, offset, diags => some (offset, diags)
  | n + 1, offset, diags =>
    match dissect_kafka_record tvb offset base_offset first_timestamp with
    | none => none
    | some (offset, ds) =>
      dissect_kafka_records_loop tvb base_offset first_timestamp n offset (diags ++ ds)

/-- What `dissect_kafka_message_new` has read when it tests the magic byte:
the message size, the base offset, the magic byte, and the position after the
magic byte. -/
structure kafka_batch_head where
  message_size : Nat
  base_offset : Nat
  magic : Nat
  offset : Int
deriving DecidableEq, Repr

/-- The part of `dissect_kafka_message_new` up to the test of the magic byte;
`none` is an exception. -/
def dissect_kafka_batch_head (tvb : tvbuff_t) (offset : Int) : Option kafka_batch_head :=
  let start_offset := offset
  match tvb_get_ntohl tvb (to_gint32 (start_offset + 8)) with
  | none => none
  | some message_size =>
    if !proto_tree_add_subtree tvb start_offset (to_gint32 ((message_size + 12) % 2 ^ 32))
    then none else
    match tvb_get_ntoh64 tvb offset with
    | none => none
    | some base_offset =>
      if !proto_tree_add_item tvb offset 8 then none else
      let offset := to_gint32 (offset + 8)
      if !proto_tree_add_item tvb offset 4 then none else
      let offset := to_gint32 (offset + 4)
      if !proto_tree_add_item tvb offset 4 then none else
      let offset := to_gint32 (offset + 4)
      match tvb_get_guint8 tvb offset with
      | none => none
      | some magic =>
        if !proto_tree_add_item tvb offset 1 then none else
        some { message_size := message_size, base_offset := base_offset, magic := magic,
               offset := to_gint32 (offset + 1) }

/-- What `dissect_kafka_message_new` has read of a batch with magic byte 2
when it calls `decompress`: the codec, the first timestamp, the number of
records, and the position after the header. -/
structure kafka_batch_fields where
  codec : Nat
  first_timestamp : Nat
  count : Nat
  offset : Int
deriving DecidableEq, Repr

/-- The part of `dissect_kafka_message_new` between the test of the magic byte
and the call of `decompress`; `offset` is the position after the magic
byte. -/
def dissect_kafka_batch_fields (tvb : tvbuff_t) (offset : Int) : Option kafka_batch_fields :=
  if !proto_tree_add_item tvb offset 4 then none else
  let offset := to_gint32 (offset + 4)
  if !proto_tree_add_item tvb offset 2 then none else
  match tvb_get_ntohs tvb offset with
  | none => none
  | some attributes =>
    let codec := attributes &&& KAFKA_MESSAGE_CODEC_MASK
    let offset := to_gint32 (offset + 2)
    if !proto_tree_add_item tvb offset 4 then none else
    let offset := to_gint32 (offset + 4)
    match tvb_get_ntoh64 tvb offset with
    | none => none
    | some first_timestamp =>
      if !proto_tree_add_item tvb offset 8 then none else
      let offset := to_gint32 (offset + 8)
      if !proto_tree_add_item tvb offset 8 then none else
      let offset := to_gint32 (offset + 8)
      if !proto_tree_add_item tvb offset 8 then none else
      let offset := to_gint32 (offset + 8)
      if !proto_tree_add_item tvb offset 2 then none else
      let offset := to_gint32 (offset + 2)
      if !proto_tree_add_item tvb offset 4 then none else
      let offset := to_gint32 (offset + 4)
      if !proto_tree_add_item tvb offset 4 then none else
      match tvb_get_ntohl tvb offset with
      | none => none
      | some count =>
        some { codec := codec, first_timestamp := first_timestamp, count := count,
               offset := to_gint32 (offset + 4) }

/-- The part of `dissect_kafka_message_old` up to and with the key: the codec
of the message and the key.  The position returned with the key is the
position of the 4-byte length of the value. -/
def dissect_kafka_message_old_key (tvb : tvbuff_t) (offset : Int) :
    Option (Nat × kafka_field) :=
  let start_offset := offset
  match tvb_get_ntohl tvb (to_gint32 (start_offset + 8)) with
  | none => none
  | some message_size =>
    if !proto_tree_add_subtree tvb start_offset (to_gint32 ((message_size + 12) % 2 ^ 32))
    then none else
    if !proto_tree_add_item tvb offset 8 then none else
    let offset := to_gint32 (offset + 8)
    if !proto_tree_add_item tvb offset 4 then none else
    let offset := to_gint32 (offset + 4)
    if !proto_tree_add_item tvb offset 4 then none else
    let offset := to_gint32 (offset + 4)
    match tvb_get_guint8 tvb offset with
    | none => none
    | some magic =>
      let magic_byte := to_gint8 magic
      if !proto_tree_add_item tvb offset 1 then none else
      let offset := to_gint32 (offset + 1)
      if !proto_tree_add_item tvb offset 1 then none else
      match tvb_get_guint8 tvb offset with
      | none => none
      | some attributes =>
        let codec := attributes &&& KAFKA_MESSAGE_CODEC_MASK
        let offset := to_gint32 (offset + 1)
        match (if magic_byte = 1 then
                 if !proto_tree_add_item tvb offset 8 then none
                 else some (to_gint32 (offset + 8))
               else some offset) with
        | none => none
        | some offset =>
          match dissect_kafka_bytes tvb offset with
          | none => none
          | some key => some (codec, key)

/-- Embedding of `dissect_kafka_message_new`: the position returned and the
diagnostics; `none` is an exception.  The header is read by
`dissect_kafka_batch_head` and `dissect_kafka_batch_fields`. -/
def dissect_kafka_message_new (lib : codec_lib) (tvb : tvbuff_t) (offset : Int) :
    Option kafka_position :=
  let start_offset := offset
  match dissect_kafka_batch_head tvb offset with
  | none => none
  | some p =>
    let message_size := p.message_size
    let magic_byte := to_gint8 p.magic
    if magic_byte ≠ 2 then
      some (to_gint32 (start_offset + 8 + 4 + message_size),
            [.ei_kafka_unknown_message_magic])
    else
      match dissect_kafka_batch_fields tvb p.offset with
      | none => none
      | some f =>
        let offset := f.offset
        let length := to_guint32 (start_offset + 8 + 4 + message_size - offset)
        match decompress lib tvb offset (to_gint32 length) f.codec with
        | none => none
        | some none =>
          some (to_gint32 (start_offset + 8 + 4 + message_size), [])
        | some (some (decompressed_tvb, decompressed_offset)) =>
          match dissect_kafka_records_loop decompressed_tvb p.base_offset
              f.first_timestamp f.count decompressed_offset [] with
          | none => none
          | some (_, diags) =>
            some (to_gint32 (start_offset + 8 + 4 + message_size), diags)

/-- Embedding of `dissect_kafka_message_old`.  `message_set` is
`dissect_kafka_message_set`, called on the decompressed buffer of a
compressed message.  The header and the key are read by
`dissect_kafka_message_old_key`. -/
def dissect_kafka_message_old (lib : codec_lib)
    (message_set : tvbuff_t → Int → Nat → Nat → decoded kafka_position)
    (tvb : tvbuff_t) (offset : Int) : decoded kafka_position :=
  match dissect_kafka_message_old_key tvb offset with
  | none => .exception
  | some (codec, key) =>
    let kd : List expert_info :=
      if key.bad_length then [.ei_kafka_bad_bytes_length] else []
    if codec = 0 then
      match dissect_kafka_bytes tvb key.offset with
      | none => .exception
      | some value =>
        .ok (value.offset,
             kd ++ (if value.bad_length then [.ei_kafka_bad_bytes_length] else []))
    else
      match tvb_get_ntohl tvb key.offset with
      | none => .exception
      | some length =>
        let offset := to_gint32 (key.offset + 4)
        match decompress lib tvb offset (to_gint32 length) codec with
        | none => .exception
        | some none => .ok (to_gint32 (offset + length), kd)
        | some (some (decompressed_tvb, decompressed_offset)) =>
          match message_set decompressed_tvb decompressed_offset
              (decompressed_tvb.length - decompressed_offset.toNat) codec with
          | .exception => .exception
          | .out_of_fuel => .out_of_fuel
          | .ok (_, diags) => .ok (to_gint32 (offset + length), kd ++ diags)

/-- Embedding of `dissect_kafka_message`: the choice between the two message
formats by the magic byte at `offset + 16`. -/
def dissect_kafka_message (lib : codec_lib)
    (message_set : tvbuff_t → Int → Nat → Nat → decoded kafka_position)
    (tvb : tvbuff_t) (offset : Int) : decoded kafka_position :=
  match tvb_get_guint8 tvb (to_gint32 (offset + 16)) with
  | none => .exception
  | some magic =>
    if to_gint8 magic < 2 then dissect_kafka_message_old lib message_set tvb offset
    else
      match dissect_kafka_message_new lib tvb offset with
      | none => .exception
      | some r => .ok r

/-- The loop `while (offset < end_offset)` of `dissect_kafka_message_set`;
`fuel` bounds the number of rounds. -/
def dissect_kafka_message_set_loop (lib : codec_lib)
    (message_set : tvbuff_t → Int → Nat → Nat → decoded kafka_position)
    (tvb : tvbuff_t) (end_offset : Int) :
    Nat → Int → List expert_info → decoded kafka_position
  | 0, _, _ => .out_of_fuel
  | fuel + 1, offset, diags =>
    if offset < end_offset then
      match dissect_kafka_message lib message_set tvb offset with
      | .exception => .exception
      | .out_of_fuel => .out_of_fuel
      | .ok (offset, ds) =>
        dissect_kafka_message_set_loop lib message_set tvb end_offset fuel offset (diags ++ ds)
    else
      .ok (offset,
        if offset ≠ end_offset then diags ++ [.ei_kafka_bad_message_set_length] else diags)

/-- Embedding of `dissect_kafka_message_set`.  `fuel` bounds both the rounds of
the loop and the depth of message sets inside compressed messages. -/
def dissect_kafka_message_set (lib : codec_lib) :
    Nat → tvbuff_t → Int → Nat → Nat → decoded kafka_position
  | 0, _, _, _, _ => .out_of_fuel
  | fuel + 1, tvb, offset, len, _ =>
    let end_offset := to_gint32 (offset + len)
    if !proto_tree_add_subtree tvb offset (-1) then .exception else
    dissect_kafka_message_set_loop lib (dissect_kafka_message_set lib fuel) tvb end_offset
      (fuel + 1) offset []

/-- A codec library in which no codec is compiled in. -/
def no_codecs : codec_lib :=
  { decompress_gzip := fun _ _ _ => some none, decompress_snappy := fun _ _ _ => some none,
    decompress_lz4 := fun _ _ _ => some none, decompress_zstd := fun _ _ _ => some none }

/-- A batch of 17 bytes whose message size is 0xFFFFFFF4 (-12 as a signed
number) and whose magic byte is 3. -/
def looping_batch : tvbuff_t :=
  [0, 0, 0, 0, 0, 0, 0, 0, 0xFF, 0xFF, 0xFF, 0xF4, 0, 0, 0, 0, 3]

/-! ## Arrays -/

/-- What `dissect_kafka_array_ref` hands back: the returned position, the
count stored through `p_count`, the positions at which the element decoder was
called, in the order of the calls, and the diagnostics. -/
structure kafka_array where
  offset : Int
  count : Int
  calls : List Int
  diags : List expert_info
deriving DecidableEq, Repr

/-- The loop `for (i=0; i<count; i++)` of `dissect_kafka_array_ref`, with `n`
elements left.  `func` is the element decoder (`none` is its exception);
`calls` collects the positions it was called at. -/
def dissect_kafka_array_loop (func : tvbuff_t → Int → Option kafka_position) (tvb : tvbuff_t) :
    Nat → Int → List Int → List expert_info → Option (Int × List Int × List expert_info)
  | 0, offset, calls, diags => some (offset, calls, diags)
  | n + 1, offset, calls, diags =>
    match func tvb offset with
    | none => none
    | some (next, ds) =>
      dissect_kafka_array_loop func tvb n next (calls ++ [offset]) (diags ++ ds)

/-- Embedding of `dissect_kafka_array_ref`: a signed 32-bit count, then that
many elements, each decoded by `func`. -/
def dissect_kafka_array_ref (func : tvbuff_t → Int → Option kafka_position) (tvb : tvbuff_t)
    (offset : Int) : Option kafka_array :=
  match tvb_get_ntohl tvb offset with
  | none => none
  | some c =>
    let count := to_gint32 c
    let offset := to_gint32 (offset + 4)
    if count < -1 then
      some { offset := offset, count := count, calls := [],
             diags := [.ei_kafka_bad_array_length] }
    else
      match dissect_kafka_array_loop func tvb count.toNat offset [] [] with
      | none => none
      | some (offset, calls, diags) =>
        some { offset := offset, count := count, calls := calls, diags := diags }

/-- Embedding of `dissect_kafka_array`: `dissect_kafka_array_ref` without
`p_count`. -/
def dissect_kafka_array (func : tvbuff_t → Int → Option kafka_position) (tvb : tvbuff_t)
    (offset : Int) : Option kafka_position :=
  (dissect_kafka_array_ref func tvb offset).map (fun r => (r.offset, r.diags))

/-! ## The fields of a record -/

/-- The part of `dissect_kafka_record` that follows the length of the record:
attributes, timestamp delta, offset delta, key, value and headers.  The result
is the position at which the decoding of the fields ends, and the diagnostics
of the fields. -/
def dissect_kafka_record_fields (tvb : tvbuff_t) (offset : Int) (base_offset : Nat)
    (first_timestamp : Nat) : Option kafka_position :=
  if !proto_tree_add_item tvb offset 1 then none else
  let offset := to_gint32 (offset + 1)
  match dissect_kafka_timestamp_delta tvb offset first_timestamp with
  | none => none
  | some (offset, _, d1) =>
    match dissect_kafka_offset_delta tvb offset base_offset with
    | none => none
    | some (offset, _, d2) =>
      match dissect_kafka_bytes_new tvb offset with
      | none => none
      | some key =>
        match dissect_kafka_bytes_new tvb key.offset with
        | none => none
        | some value =>
          match dissect_kafka_record_headers tvb value.offset with
          | none => none
          | some (offset, d5) => some (offset, d1 ++ d2 ++ key.diags ++ value.diags ++ d5)

/-! ## The registry of API keys and error codes -/

/-- Embedding of `kafka_api_info_t`: `api_key`, `min_version` and
`max_version` are `gint16`. -/
structure kafka_api_info_t where
  api_key : Int
  name : String
  min_version : Int
  max_version : Int
deriving DecidableEq, Repr

/-- Embedding of the table `kafka_apis`, with the values of the `KAFKA_...`
constants written out. -/
def kafka_apis : List kafka_api_info_t := [
  { api_key := 0, name := "Produce", min_version := 0, max_version := 7 },
  { api_key := 1, name := "Fetch", min_version := 0, max_version := 11 },
  { api_key := 2, name := "Offsets", min_version := 0, max_version := 5 },
  { api_key := 3, name := "Metadata", min_version := 0, max_version := 8 },
  { api_key := 4, name := "LeaderAndIsr", min_version := 0, max_version := 3 },
  { api_key := 5, name := "StopReplica", min_version := 0, max_version := 1 },
  { api_key := 6, name := "UpdateMetadata", min_version := 0, max_version := 5 },
  { api_key := 7, name := "ControlledShutdown", min_version := 0, max_version := 2 },
  { api_key := 8, name := "OffsetCommit", min_version := 0, max_version := 7 },
  { api_key := 9, name := "OffsetFetch", min_version := 0, max_version := 5 },
  { api_key := 10, name := "FindCoordinator", min_version := 0, max_version := 2 },
  { api_key := 11, name := "JoinGroup", min_version := 0, max_version := 5 },
  { api_key := 12, name := "Heartbeat", min_version := 0, max_version := 3 },
  { api_key := 13, name := "LeaveGroup", min_version := 0, max_version := 3 },
  { api_key := 14, name := "SyncGroup", min_version := 0, max_version := 3 },
  { api_key := 15, name := "DescribeGroups", min_version := 0, max_version := 4 },
  { api_key := 16, name := "ListGroups", min_version := 0, max_version := 2 },
  { api_key := 17, name := "SaslHandshake", min_version := 0, max_version := 1 },
  { api_key := 18, name := "ApiVersions", min_version := 0, max_version := 2 },
  { api_key := 19, name := "CreateTopics", min_version := 0, max_version := 4 },
  { api_key := 20, name := "DeleteTopics", min_version := 0, max_version := 3 },
  { api_key := 21, name := "DeleteRecords", min_version := 0, max_version := 1 },
  { api_key := 22, name := "InitProducerId", min_version := 0, max_version := 1 },
  { api_key := 23, name := "OffsetForLeaderEpoch", min_version := 0, max_version := 3 },
  { api_key := 24, name := "AddPartitionsToTxn", min_version := 0, max_version := 1 },
  { api_key := 25, name := "AddOffsetsToTxn", min_version := 0, max_version := 1 },
  { api_key := 26, name := "EndTxn", min_version := 0, max_version := 1 },
  { api_key := 27, name := "WriteTxnMarkers", min_version := 0, max_version := 0 },
  { api_key := 28, name := "TxnOffsetCommit", min_version := 0, max_version := 2 },
  { api_key := 29, name := "DescribeAcls", min_version := 0, max_version := 1 },
  { api_key := 30, name := "CreateAcls", min_version := 0, max_version := 1 },
  { api_key := 31, name := "DeleteAcls", min_version := 0, max_version := 1 },
  { api_key := 32, name := "DescribeConfigs", min_version := 0, max_version := 2 },
  { api_key := 33, name := "AlterConfigs", min_version := 0, max_version := 1 },
  { api_key := 34, name := "AlterReplicaLogDirs", min_version := 0, max_version := 1 },
  { api_key := 35, name := "DescribeLogDirs", min_version := 0, max_version := 1 },
  { api_key := 36, name := "SaslAuthenticate", min_version := 0, max_version := 1 },
  { api_key := 37, name := "CreatePartitions", min_version := 0, max_version := 1 },
  { api_key := 38, name := "CreateDelegationToken", min_version := 0, max_version := 1 },
  { api_key := 39, name := "RenewDelegationToken", min_version := 0, max_version := 1 },
  { api_key := 40, name := "ExpireDelegationToken", min_version := 0, max_version := 1 },
  { api_key := 41, name := "DescribeDelegationToken", min_version := 0, max_version := 1 },
  { api_key := 42, name := "DeleteGroups", min_version := 0, max_version := 1 },
  { api_key := 43, name := "ElectLeaders", min_version := 0, max_version := 1 },
  { api_key := 44, name := "IncrementalAlterConfigs", min_version := 0, max_version := 0 },
  { api_key := 45, name := "AlterPartitionReassignments", min_version := 0, max_version := 0 },
  { api_key := 46, name := "ListPartitionReassignments", min_version := 0, max_version := 0 }]

/-- Embedding of `kafka_get_api_info`: the entry at index `api_key`, or `none`
for `NULL`.  `array_length(kafka_apis)` is the length of the table. -/
def kafka_get_api_info (api_key : Int) : Option kafka_api_info_t :=
  if api_key ≥ 0 ∧ api_key < to_gint16 kafka_apis.length then kafka_apis[api_key.toNat]?
  else none

/-- Embedding of `kafka_is_api_version_supported`. -/
def kafka_is_api_version_supported (api_info : kafka_api_info_t) (api_version : Int) : Bool :=
  !(decide (api_info.min_version = -1) || decide (api_version < api_info.min_version) ||
    decide (api_version > api_info.max_version))

/-- Embedding of `kafka_check_supported_api_key`: the diagnostics it reports
for the api key of the matcher. -/
def kafka_check_supported_api_key (matcher : kafka_query_response_t) : List expert_info :=
  if kafka_get_api_info matcher.api_key = none then [.ei_kafka_unknown_api_key] else []

/-- Embedding of `kafka_check_supported_api_version`: the diagnostics it
reports for the api key and version of the matcher.  The three texts of the
diagnostic are the same diagnostic. -/
def kafka_check_supported_api_version (matcher : kafka_query_response_t) : List expert_info :=
  match kafka_get_api_info matcher.api_key with
  | none => []
  | some api_info =>
    if !kafka_is_api_version_supported api_info matcher.api_version then
      [.ei_kafka_unsupported_api_version]
    else []

/-- What the request branch of `dissect_kafka` shows of the header: the api
key, the api version and the correlation id as they are added to the tree,
and the diagnostics of the two checks. -/
structure kafka_request_header where
  api_key : Int
  api_version : Int
  correlation_id : Int
  diags : List expert_info
deriving DecidableEq, Repr

/-- The part of the request branch of `dissect_kafka` that adds the api key,
the api version and the correlation id to the tree (from the item
`hf_kafka_request_api_key` to the item `hf_kafka_correlation_id`), for the
matcher `matcher`; `none` is an exception. -/
def dissect_kafka_request_header (matcher : kafka_query_response_t) (tvb : tvbuff_t) :
    Option kafka_request_header :=
  let offset : Int := 4
  match tvb_get_ntohs tvb offset with
  | none => none
  | some api_key =>
    let d1 := kafka_check_supported_api_key matcher
    let offset := to_gint32 (offset + 2)
    match tvb_get_ntohs tvb offset with
    | none => none
    | some api_version =>
      let d2 := kafka_check_supported_api_version matcher
      let offset := to_gint32 (offset + 2)
      match tvb_get_ntohl tvb offset with
      | none => none
      | some correlation_id =>
        some { api_key := to_gint16 api_key, api_version := to_gint16 api_version,
               correlation_id := to_gint32 correlation_id, diags := d1 ++ d2 }

/-- Embedding of `value_string`: `value` as it is written in the table (the C
field is a `guint32`), and the text. -/
structure value_string where
  value : Int
  strptr : String
deriving DecidableEq, Repr

/-- Embedding of the table `kafka_errors`, without the closing `{ 0, NULL }`. -/
def kafka_errors : List value_string := [
  value_string.mk (-1) "Unexpected Server Error",
  value_string.mk 0 "No Error",
  value_string.mk 1 "Offset Out Of Range",
  value_string.mk 2 "Invalid Message",
  value_string.mk 3 "Unknown Topic or Partition",
  value_string.mk 4 "Invalid Message Size",
  value_string.mk 5 "Leader Not Available",
  value_string.mk 6 "Not Leader For Partition",
  value_string.mk 7 "Request Timed Out",
  value_string.mk 8 "Broker Not Available",
  value_string.mk 10 "Message Size Too Large",
  value_string.mk 11 "Stale Controller Epoch Code",
  value_string.mk 12 "Offset Metadata Too Large",
  value_string.mk 14 "Offsets Load In Progress",
  value_string.mk 15 "The Coordinator is not Available",
  value_string.mk 16 "Not Coordinator For Consumer",
  value_string.mk 17 "Invalid topic",
  value_string.mk 18 "Message batch larger than configured server segment size",
  value_string.mk 19 "Not enough in-sync replicas",
  value_string.mk 20 "Message(s) written to insufficient number of in-sync replicas",
  value_string.mk 21 "Invalid required acks value",
  value_string.mk 22 "Specified group generation id is not valid",
  value_string.mk 23 "Inconsistent group protocol",
  value_string.mk 24 "Invalid group.id",
  value_string.mk 25 "Unknown member",
  value_string.mk 26 "Invalid session timeout",
  value_string.mk 27 "Group rebalance in progress",
  value_string.mk 28 "Commit offset data size is not valid",
  value_string.mk 29 "Topic authorization failed",
  value_string.mk 30 "Group authorization failed",
  value_string.mk 31 "Cluster authorization failed",
  value_string.mk 32 "Invalid timestamp",
  value_string.mk 33 "Unsupported SASL mechanism",
  value_string.mk 34 "Illegal SASL state",
  value_string.mk 35 "Unsupported version",
  value_string.mk 36 "Topic already exists",
  value_string.mk 37 "Invalid number of partitions",
  value_string.mk 38 "Invalid replication-factor",
  value_string.mk 39 "Invalid replica assignment",
  value_string.mk 40 "Invalid configuration",
  value_string.mk 41 "Not controller",
  value_string.mk 42 "Invalid request",
  value_string.mk 43 "Unsupported for Message Format",
  value_string.mk 44 "Policy Violation",
  value_string.mk 45 "Out of Order Sequence Number",
  value_string.mk 46 "Duplicate Sequence Number",
  value_string.mk 47 "Invalid Producer Epoch",
  value_string.mk 48 "Invalid Transaction State",
  value_string.mk 49 "Invalid Producer ID Mapping",
  value_string.mk 50 "Invalid Transaction Timeout",
  value_string.mk 51 "Concurrent Transactions",
  value_string.mk 52 "Transaction Coordinator Fenced",
  value_string.mk 53 "Transactional ID Authorization Failed",
  value_string.mk 54 "Security Disabled",
  value_string.mk 55 "Operation not Attempted",
  value_string.mk 56 "Kafka Storage Error",
  value_string.mk 57 "Log Directory not Found",
  value_string.mk 58 "SASL Authentication failed",
  value_string.mk 59 "Unknown Producer ID",
  value_string.mk 60 "Partition Reassignment in Progress",
  value_string.mk 61 "Delegation Token Auth Disabled",
  value_string.mk 62 "Delegation Token not Found",
  value_string.mk 63 "Delegation Token Owner Mismatch",
  value_string.mk 64 "Delegation Token Request not Allowed",
  value_string.mk 65 "Delegation Token Authorization Failed",
  value_string.mk 66 "Delegation Token Expired",
  value_string.mk 67 "Supplied Principal Type Unsupported",
  value_string.mk 68 "Not Empty Group",
  value_string.mk 69 "Group ID not Found",
  value_string.mk 70 "Fetch Session ID not Found",
  value_string.mk 71 "Invalid Fetch Session Epoch",
  value_string.mk 72 "Listener not Found",
  value_string.mk 73 "Topic Deletion Disabled",
  value_string.mk 74 "Fenced Leader Epoch",
  value_string.mk 75 "Unknown Leader Epoch",
  value_string.mk 76 "Unsupported Compression Type",
  value_string.mk 77 "Stale Broker Epoch",
  value_string.mk 78 "Offset not Available",
  value_string.mk 79 "Member ID Required",
  value_string.mk 80 "Preferred Leader not Available",
  value_string.mk 81 "Group Max Size Reached",
  value_string.mk 82 "Fenced Instance ID",
  value_string.mk 83 "Eligible topic partition leaders are not available",
  value_string.mk 84 "Leader election not needed for topic partition",
  value_string.mk 85 "No partition reassignment is in progress"]

/-- Modelled from the spec: `val_to_str` of `epan/value_string.c` is not part
of the source file; "unmapped codes render as Unknown n".  The text of the
first entry whose value is `val`, and otherwise the format applied to `val`;
`fmt` is the text of the format before its `%d`, which prints `val` as a
signed number. -/
def val_to_str (val : Nat) (vs : List value_string) (fmt : String) : String :=
  match vs.find? (fun e => to_guint32 e.value = val) with
  | some e => e.strptr
  | none => fmt ++ toString (to_gint32 val)

/-- Embedding of `kafka_error_to_str`; `error` is a `gint16`, converted to the
`guint32` that `val_to_str` takes. -/
def kafka_error_to_str (error : Int) : String :=
  val_to_str (to_guint32 error) kafka_errors "Unknown "

/-! ## The encoder side of the varints -/

/-- The zig-zag encoding of a signed 64-bit value as an unsigned one,
`(v << 1) ^ (v >> 63)`: 2v for v >= 0 and -2v - 1 for v < 0.  The dissector
only decodes; this definition follows the words of the specification
("unzigzag(zigzag(v)) == v"). -/
def zigzag (v : Int) : Nat := if 0 ≤ v then (2 * v).toNat else (-2 * v - 1).toNat

/-- The little-endian base-128 encoding of `n` in at most `k` bytes: groups of
seven bits, the low group first, the high bit set on every byte but the last.
This definition follows the words of the specification ("a little-endian
base-128 varint (continuation bit = high bit of each byte ...)"). -/
def encode_base128 : Nat → Nat → List guint8
  | 0, _ => []
  | k + 1, n =>
    if n < 128 then [Fin.ofNat n]
    else Fin.ofNat (n % 128 + 128) :: encode_base128 k (n / 128)

/-- The varint encoding of a signed 64-bit value: the base-128 encoding of its
zig-zag encoding (ten bytes hold 64 bits).  From the words of the
specification (`encode_varint`). -/
def encode_varint (v : Int) : List guint8 := encode_base128 FT_VARINT_MAX_LEN (zigzag v)

/-! ## Snappy -/

/-- Conversion of a C int to `size_t` (64 bits). -/
def to_size_t (x : Int) : Nat := (x % 2 ^ 64).toNat

/-- Embedding of `kafka_xerial_header`, the eight bytes that open the framed
(xerial) Snappy format. -/
def kafka_xerial_header : List guint8 := [0x82, 0x53, 0x4e, 0x41, 0x50, 0x50, 0x59, 0x00]

/-- Modelled from the spec: `tvb_memdup` of `epan/tvbuff.c` is not part of the
source file.  A copy of the `length` bytes of the buffer at `offset` (of the
bytes up to the end of the buffer when `length` is -1); `none` is the bounds
exception, raised when the bytes are not all in the buffer. -/
def tvb_memdup (tvb : tvbuff_t) (offset : Int) (length : Int) : Option (List guint8) :=
  if length = -1 then (tvb_abs_offset tvb offset).map (fun a => tvb.drop a)
  else if length < 0 then none
  else tvb_get_bytes tvb offset length.toNat

/-- Modelled from the spec: `tvb_memeql` of `epan/tvbuff.c` is not part of the
source file.  The result is 0 when the `size` bytes of the buffer at `offset`
equal the first `size` bytes of `str`, and -1 when they differ or are not all
in the buffer; no exception is raised. -/
def tvb_memeql (tvb : tvbuff_t) (offset : Int) (str : List guint8) (size : Nat) : Int :=
  match tvb_get_bytes tvb offset size with
  | none => -1
  | some bs => if bs = str.take size then 0 else -1

/-- Modelled from the spec: `tvb_new_child_real_data` of `epan/tvbuff.c` is not
part of the source file.  A buffer over the first `length` bytes of `data`; a
reported length below -1 is refused with an exception (`none`). -/
def tvb_new_child_real_data (data : List guint8) (length : Nat) (reported_length : Int) :
    Option tvbuff_t :=
  if reported_length < -1 then none else some (data.take length)

/-- Modelled from the spec: `tvb_composite_finalize` of
`epan/tvbuff_composite.c` is not part of the source file.  The buffer made of
the members appended so far, in the order of the appends; a composite without
a member is refused by an assertion of the library (`none`, an exception). -/
def tvb_composite_finalize (composite_tvb : List tvbuff_t) : Option tvbuff_t :=
  if composite_tvb = [] then none else some composite_tvb.flatten

/-- The buffer that both paths of `decompress_snappy` make of the output of
the library with `tvb_new_child_real_data(tvb, decompressed_buffer, length,
reported_length)`; an exception of that call is passed on. -/
def snappy_member (decompressed_buffer : List guint8) (length : Nat) (reported_length : Int) :
    decoded (Option tvbuff_t) :=
  match tvb_new_child_real_data decompressed_buffer length reported_length with
  | none => .exception
  | some t => .ok (some t)

/-- What both paths of `decompress_snappy` do with one Snappy block:
`snappy_uncompressed_length`, `snappy_uncompress` and the buffer made of the
output, with the lengths `(guint)uncompressed_size` and
`(gint)uncompressed_size`.  The Snappy library is not part of the source file:
`snappy` stands for the two library calls on one block, `none` when either of
them returns another status than `SNAPPY_OK`.  The result `.ok none` is the
`goto end` with `ret == 0`. -/
def snappy_block (snappy : List guint8 → Option (List guint8)) (block : List guint8) :
    decoded (Option tvbuff_t) :=
  match snappy block with
  | none => .ok none
  | some out => snappy_member out (to_guint32 out.length) (to_gint32 out.length)

/-- The loop `while (pos < length)` of the framed path of `decompress_snappy`,
with the members appended to the composite so far.  `chunk_size` and `pos` are
C ints.  The block handed to the library is `&data[pos]` with the size
`chunk_size` converted to `size_t`; the model hands over the bytes of the copy
that lie in that range. -/
def decompress_snappy_chunks (snappy : List guint8 → Option (List guint8)) (tvb : tvbuff_t)
    (data : List guint8) (offset : Int) (length : Int) :
    Nat → Int → List tvbuff_t → decoded (Option (List tvbuff_t))
  | 0, _, _ => .out_of_fuel
  | fuel + 1, pos, composite_tvb =>
    if pos < length then
      match tvb_get_ntohl tvb (to_gint32 (offset + pos)) with
      | none => .exception
      | some v =>
        let chunk_size := to_gint32 v
        let pos := to_gint32 (pos + 4)
        if to_gint32 (pos + chunk_size) > length then .ok none
        else
          match snappy_block snappy ((data.drop pos.toNat).take (to_size_t chunk_size)) with
          | .out_of_fuel => .out_of_fuel
          | .exception => .exception
          | .ok none => .ok none
          | .ok (some member) =>
            decompress_snappy_chunks snappy tvb data offset length fuel
              (to_gint32 (pos + chunk_size)) (composite_tvb ++ [member])
    else .ok (some composite_tvb)

/-- The framed (xerial) branch of `decompress_snappy`: the chunks are read
from `pos = 16` on and the composite is finalized. -/
def decompress_snappy_framed (snappy : List guint8 → Option (List guint8)) (fuel : Nat)
    (tvb : tvbuff_t) (data : List guint8) (offset : Int) (length : Int) :
    decoded (Option tvbuff_t) :=
  match decompress_snappy_chunks snappy tvb data offset length fuel 16 [] with
  | .out_of_fuel => .out_of_fuel
  | .exception => .exception
  | .ok none => .ok none
  | .ok (some composite_tvb) =>
    match tvb_composite_finalize composite_tvb with
    | none => .exception
    | some t => .ok (some t)

/-- The unframed branch of `decompress_snappy`: the copy of the span is one
Snappy block of `length` bytes. -/
def decompress_snappy_unframed (snappy : List guint8 → Option (List guint8))
    (data : List guint8) (length : Int) : decoded (Option tvbuff_t) :=
  snappy_block snappy (data.take (to_size_t length))

/-- Embedding of `decompress_snappy` (with `HAVE_SNAPPY`) on the span of
`length` bytes at `offset`: `.exception` is a bounds exception or a failed
assertion, `.ok none` the result 0, `.ok (some out)` the result 1 with the
decompressed buffer (read from offset 0), `.out_of_fuel` a chunk loop that has
not ended within `fuel` steps. -/
def decompress_snappy (snappy : List guint8 → Option (List guint8)) (fuel : Nat)
    (tvb : tvbuff_t) (offset : Int) (length : Int) : decoded (Option tvbuff_t) :=
  match tvb_memdup tvb offset length with
  | none => .exception
  | some data =>
    if tvb_memeql tvb offset kafka_xerial_header 8 = 0 then
      decompress_snappy_framed snappy fuel tvb data offset length
    else
      decompress_snappy_unframed snappy data length

/-- The bytes of a framed Snappy stream: the magic, eight more header bytes
(version and compatible version) and the chunks, each after its 4-byte
big-endian length. -/
def xerial_frames (version : List guint8) (chunks : List (List guint8)) : List guint8 :=
  kafka_xerial_header ++ version ++ (chunks.map frame_message).flatten

/-- A stand-in for the Snappy library in the examples: it decodes the blocks
that consist of the length byte `n` and one literal of `n` bytes, for `n` from
1 to 60 (tag byte `(n - 1) * 4`), and reports an error on every other
block. -/
def literal_snappy (block : List guint8) : Option (List guint8) :=
  match block with
  | n :: tag :: bytes =>
    if 1 ≤ n.val ∧ n.val ≤ 60 ∧ tag.val = (n.val - 1) * 4 ∧ bytes.length = n.val then some bytes
    else none
  | _ => none

/-- A buffer of twelve bytes whose first four bytes are a span of their own:
the span is the start of the xerial magic, and the rest of the magic follows
it in the buffer. -/
def short_snappy_span : tvbuff_t :=
  [0x82, 0x53, 0x4e, 0x41, 0x50, 0x50, 0x59, 0x00, 0, 0, 0, 0]

/-- A stand-in for a Snappy library that takes every block for the encoding
of the one byte 0x41. -/
def lenient_snappy (_block : List guint8) : Option (List guint8) := some [0x41]

/-- A framed stream of two chunks, the literals "AB" and "C". -/
def two_chunk_stream : tvbuff_t :=
  xerial_frames [0, 0, 0, 1, 0, 0, 0, 1] [[2, 4, 0x41, 0x42], [1, 0, 0x43]]

/-! ## The local XXH32 and the LZ4 header checksum -/

/-- The C constant `PRIME32_1`. -/
def PRIME32_1 : Nat := 2654435761

/-- The C constant `PRIME32_2`. -/
def PRIME32_2 : Nat := 2246822519

/-- The C constant `PRIME32_3`. -/
def PRIME32_3 : Nat := 3266489917

/-- The C constant `PRIME32_4`. -/
def PRIME32_4 : Nat := 668265263

/-- The C constant `PRIME32_5`. -/
def PRIME32_5 : Nat := 374761393

/-- The C macro `XXH_rotl32(x,r)`, `((x << r) | (x >> (32 - r)))` on a
`guint32`. -/
def XXH_rotl32 (x : Nat) (r : Nat) : Nat := ((x <<< r) % 2 ^ 32) ||| (x >>> (32 - r))

/-- Embedding of `XXH_read32`: the `memcpy` of four bytes into a `guint32`,
whose value depends on the byte order of the host (`cpu_little_endian`).  The
function is only called with four bytes left; a missing byte reads as 0. -/
def XXH_read32 (cpu_little_endian : Bool) (memPtr : List guint8) : Nat :=
  let b0 := (memPtr.getD 0 0).val
  let b1 := (memPtr.getD 1 0).val
  let b2 := (memPtr.getD 2 0).val
  let b3 := (memPtr.getD 3 0).val
  if cpu_little_endian then b0 + b1 * 2 ^ 8 + b2 * 2 ^ 16 + b3 * 2 ^ 24
  else b0 * 2 ^ 24 + b1 * 2 ^ 16 + b2 * 2 ^ 8 + b3

/-- Embedding of `XXH_swap32`. -/
def XXH_swap32 (x : Nat) : Nat :=
  (((x <<< 24) % 2 ^ 32) &&& 0xff000000) |||
  (((x <<< 8) % 2 ^ 32) &&& 0x00ff0000) |||
  ((x >>> 8) &&& 0x0000ff00) |||
  ((x >>> 24) &&& 0x000000ff)

/-- The C macro `XXH_readLE32(ptr, endian)`; `endian` is true for
`XXH_littleEndian`. -/
def XXH_readLE32 (cpu_little_endian : Bool) (ptr : List guint8) (endian : Bool) : Nat :=
  if endian then XXH_read32 cpu_little_endian ptr
  else XXH_swap32 (XXH_read32 cpu_little_endian ptr)

/-- Embedding of `XXH32_round`. -/
def XXH32_round (seed : Nat) (input : Nat) : Nat :=
  let seed := (seed + input * PRIME32_2) % 2 ^ 32
  let seed := XXH_rotl32 seed 13
  (seed * PRIME32_1) % 2 ^ 32

/-- The four accumulators of `XXH32_endian`. -/
structure XXH32_lanes where
  v1 : Nat
  v2 : Nat
  v3 : Nat
  v4 : Nat
deriving DecidableEq, Repr

/-- The loop `do { ... } while (p<=limit)` of `XXH32_endian` over the bytes
`p` that are left (`limit` is sixteen bytes before the end): the accumulators
and the bytes left after it.  The number of rounds is bounded by `fuel`. -/
def XXH32_stripes (cpu_little_endian : Bool) (endian : Bool) :
    Nat → List guint8 → XXH32_lanes → XXH32_lanes × List guint8
  | 0, p, v => (v, p)
  | fuel + 1, p, v =>
    let v1 := XXH32_round v.v1 (XXH_readLE32 cpu_little_endian p endian)
    let p := p.drop 4
    let v2 := XXH32_round v.v2 (XXH_readLE32 cpu_little_endian p endian)
    let p := p.drop 4
    let v3 := XXH32_round v.v3 (XXH_readLE32 cpu_little_endian p endian)
    let p := p.drop 4
    let v4 := XXH32_round v.v4 (XXH_readLE32 cpu_little_endian p endian)
    let p := p.drop 4
    if 16 ≤ p.length then
      XXH32_stripes cpu_little_endian endian fuel p { v1 := v1, v2 := v2, v3 := v3, v4 := v4 }
    else ({ v1 := v1, v2 := v2, v3 := v3, v4 := v4 }, p)

/-- The loop `while (p+4<=bEnd)` of `XXH32_endian`: the hash and the bytes
left after it. -/
def XXH32_words (cpu_little_endian : Bool) (endian : Bool) :
    Nat → List guint8 → Nat → Nat × List guint8
  | 0, p, h32 => (h32, p)
  | fuel + 1, p, h32 =>
    if 4 ≤ p.length then
      let h32 := (h32 + XXH_readLE32 cpu_little_endian p endian * PRIME32_3) % 2 ^ 32
      let h32 := (XXH_rotl32 h32 17 * PRIME32_4) % 2 ^ 32
      XXH32_words cpu_little_endian endian fuel (p.drop 4) h32
    else (h32, p)

/-- The loop `while (p<bEnd)` of `XXH32_endian`.  `p` points to `gint8`: the
byte `*p` is a signed number, converted to `guint32` in the product with
`PRIME32_5`. -/
def XXH32_bytes : List guint8 → Nat → Nat
  | [], h32 => h32
  | b :: p, h32 =>
    let h32 := (h32 + to_guint32 (to_gint8 b.val * PRIME32_5)) % 2 ^ 32
    let h32 := (XXH_rotl32 h32 11 * PRIME32_1) % 2 ^ 32
    XXH32_bytes p h32

/-- Embedding of `XXH32_endian` on the `len` bytes `input`. -/
def XXH32_endian (cpu_little_endian : Bool) (input : List guint8) (seed : Nat)
    (endian : Bool) : Nat :=
  let len := input.length
  let r : Nat × List guint8 :=
    if len ≥ 16 then
      let s := XXH32_stripes cpu_little_endian endian len input
        { v1 := (seed + PRIME32_1 + PRIME32_2) % 2 ^ 32, v2 := (seed + PRIME32_2) % 2 ^ 32,
          v3 := (seed + 0) % 2 ^ 32, v4 := (seed + 2 ^ 32 - PRIME32_1) % 2 ^ 32 }
      ((XXH_rotl32 s.1.v1 1 + XXH_rotl32 s.1.v2 7 + XXH_rotl32 s.1.v3 12 +
        XXH_rotl32 s.1.v4 18) % 2 ^ 32, s.2)
    else ((seed + PRIME32_5) % 2 ^ 32, input)
  let h32 := (r.1 + len % 2 ^ 32) % 2 ^ 32
  let w := XXH32_words cpu_little_endian endian len r.2 h32
  let h32 := XXH32_bytes w.2 w.1
  let h32 := h32 ^^^ (h32 >>> 15)
  let h32 := (h32 * PRIME32_2) % 2 ^ 32
  let h32 := h32 ^^^ (h32 >>> 13)
  let h32 := (h32 * PRIME32_3) % 2 ^ 32
  h32 ^^^ (h32 >>> 16)

/-- Embedding of `XXH32`: the byte order is the one of the host,
`XXH_CPU_LITTLE_ENDIAN`. -/
def XXH32 (cpu_little_endian : Bool) (input : List guint8) (seed : Nat) : Nat :=
  if cpu_little_endian then XXH32_endian cpu_little_endian input seed true
  else XXH32_endian cpu_little_endian input seed false

/-! ### The reference xxHash32 -/

/-- The 32-bit little-endian value of the four bytes at the head of a run of
bytes, as the description of xxHash reads its lanes. -/
def xxh32_lane (bytes : List guint8) : Nat :=
  match bytes with
  | b0 :: b1 :: b2 :: b3 :: _ => b0.val + 256 * (b1.val + 256 * (b2.val + 256 * b3.val))
  | _ => 0

/-- Rotation of a 32-bit value to the left. -/
def xxh32_rotl (x : Nat) (r : Nat) : Nat := (x * 2 ^ r) % 2 ^ 32 + x / 2 ^ (32 - r)

/-- One round of an accumulator of the reference xxHash32 on a lane. -/
def xxh32_round (acc : Nat) (lane : Nat) : Nat :=
  (xxh32_rotl ((acc + lane * 2246822519) % 2 ^ 32) 13 * 2654435761) % 2 ^ 32

/-- The stripes of sixteen bytes of the reference xxHash32: the four
accumulators after all whole stripes, and the bytes that remain. -/
def xxh32_stripes : Nat → List guint8 → Nat × Nat × Nat × Nat → (Nat × Nat × Nat × Nat) × List guint8
  | 0, bytes, acc => (acc, bytes)
  | n + 1, bytes, (a1, a2, a3, a4) =>
    if bytes.length < 16 then ((a1, a2, a3, a4), bytes)
    else
      xxh32_stripes n (bytes.drop 16)
        (xxh32_round a1 (xxh32_lane bytes), xxh32_round a2 (xxh32_lane (bytes.drop 4)),
         xxh32_round a3 (xxh32_lane (bytes.drop 8)), xxh32_round a4 (xxh32_lane (bytes.drop 12)))

/-- The remaining input of the reference xxHash32: four bytes at a time, then
one byte at a time, each byte an unsigned number. -/
def xxh32_remaining : Nat → List guint8 → Nat → Nat
  | 0, _, acc => acc
  | n + 1, bytes, acc =>
    match bytes with
    | [] => acc
    | b :: rest =>
      if 4 ≤ bytes.length then
        xxh32_remaining n (bytes.drop 4)
          ((xxh32_rotl ((acc + xxh32_lane bytes * 3266489917) % 2 ^ 32) 17 * 668265263) % 2 ^ 32)
      else
        xxh32_remaining n rest
          ((xxh32_rotl ((acc + b.val * 374761393) % 2 ^ 32) 11 * 2654435761) % 2 ^ 32)

/-- The final mix of the reference xxHash32. -/
def xxh32_avalanche (acc : Nat) : Nat :=
  let acc := ((acc ^^^ (acc / 2 ^ 15)) * 2246822519) % 2 ^ 32
  let acc := ((acc ^^^ (acc / 2 ^ 13)) * 3266489917) % 2 ^ 32
  acc ^^^ (acc / 2 ^ 16)

/-- The reference xxHash32 digest of a run of bytes with a 32-bit seed, after
the description of the algorithm (xxHash, 32-bit variant): accumulators,
stripes of sixteen bytes read as little-endian lanes, convergence, the input
length, the remaining input, the final mix.  It is defined on the bytes
alone. -/
def xxh32_reference (input : List guint8) (seed : Nat) : Nat :=
  let converged : Nat × List guint8 :=
    if input.length < 16 then ((seed + 374761393) % 2 ^ 32, input)
    else
      let s := xxh32_stripes input.length input
        ((seed + 2654435761 + 2246822519) % 2 ^ 32, (seed + 2246822519) % 2 ^ 32,
         seed % 2 ^ 32, (seed + 2 ^ 32 - 2654435761) % 2 ^ 32)
      ((xxh32_rotl s.1.1 1 + xxh32_rotl s.1.2.1 7 + xxh32_rotl s.1.2.2.1 12 +
        xxh32_rotl s.1.2.2.2 18) % 2 ^ 32, s.2)
  xxh32_avalanche
    (xxh32_remaining input.length converged.2 ((converged.1 + input.length) % 2 ^ 32))

/-- The 39 bytes of the text "Nobody inspects the spammish repetition". -/
def spammish_repetition : List guint8 :=
  [0x4E, 0x6F, 0x62, 0x6F, 0x64, 0x79, 0x20, 0x69, 0x6E, 0x73, 0x70, 0x65, 0x63, 0x74, 0x73,
   0x20, 0x74, 0x68, 0x65, 0x20, 0x73, 0x70, 0x61, 0x6D, 0x6D, 0x69, 0x73, 0x68, 0x20, 0x72,
   0x65, 0x70, 0x65, 0x74, 0x69, 0x74, 0x69, 0x6F, 0x6E]

/-- The frame descriptor of an LZ4 frame with a content size of 2^63 bytes:
FLG 0x68 (version 01, independent blocks, content size), BD 0x40, and the
eight bytes of the content size, the low byte first. -/
def wide_content_descriptor : List guint8 := [0x68, 0x40, 0, 0, 0, 0, 0, 0, 0, 0x80]

/-! ### The LZ4 frame decoder -/

/-- What `decompress_lz4` reads of `LZ4F_frameInfo_t`. -/
structure LZ4F_frameInfo_t where
  blockSizeID : Nat
  contentSize : Nat
deriving DecidableEq, Repr

/-- Modelled from the spec: the constant `LZ4F_max64KB` of `lz4frame.h`, which
is not part of the source file. -/
def LZ4F_max64KB : Nat := 4

/-- Modelled from the spec: the constant `LZ4F_max256KB` of `lz4frame.h`. -/
def LZ4F_max256KB : Nat := 5

/-- Modelled from the spec: the constant `LZ4F_max1MB` of `lz4frame.h`. -/
def LZ4F_max1MB : Nat := 6

/-- Modelled from the spec: the constant `LZ4F_max4MB` of `lz4frame.h`. -/
def LZ4F_max4MB : Nat := 7

/-- Modelled from the spec: the LZ4 frame library (`lz4frame.h`) is not part of
the source file; its three calls are parameters, over a type `ctx` of
decompression contexts.  `none` is an error (`LZ4F_isError`).
`getFrameInfo ctx src` gives the context after the call, the frame
information and the number of bytes of `src` it has read.
`decompress ctx capacity src` gives the context after the call, the bytes
written (at most `capacity`), the number of bytes of `src` it has read and the
result `rc`, which is 0 when the frame is complete. -/
structure lz4f_lib (ctx : Type) where
  createDecompressionContext : Option ctx
  getFrameInfo : ctx → List guint8 → Option (ctx × LZ4F_frameInfo_t × Nat)
  decompress : ctx → Nat → List guint8 → Option (ctx × List guint8 × Nat × Nat)

/-- The statement `if (length > 7) { ... }` of `decompress_lz4` on the copy
`data` of the span: the copy with the header checksum overridden. -/
def lz4_override_header_checksum (cpu_little_endian : Bool) (data : List guint8)
    (length : Int) : List guint8 :=
  if length > 7 then
    let hdr_end : Int := if (data.getD 4 0).val &&& 0x08 ≠ 0 then 6 + 8 else 6
    if hdr_end < length then
      data.set hdr_end.toNat
        (Fin.ofNat (((XXH32 cpu_little_endian ((data.drop 4).take (hdr_end - 4).toNat) 0)
          >>> 8) &&& 0xff))
    else data
  else data

/-- The statement `switch (lz4_info.blockSizeID)` of `decompress_lz4`: the
size of the output buffer, `none` for the `default` case. -/
def lz4_block_size (blockSizeID : Nat) : Option Nat :=
  if blockSizeID = LZ4F_max64KB then some (1 <<< 16)
  else if blockSizeID = LZ4F_max256KB then some (1 <<< 18)
  else if blockSizeID = LZ4F_max1MB then some (1 <<< 20)
  else if blockSizeID = LZ4F_max4MB then some (1 <<< 22)
  else none

/-- What the loop of `decompress_lz4` does with the output of one call of
`LZ4F_decompress`: the member made by `tvb_new_child_real_data` is appended to
the composite and `next` goes on with it. -/
def lz4_append {α : Type} (composite_tvb : List tvbuff_t) (member : decoded (Option tvbuff_t))
    (next : List tvbuff_t → decoded (Option α)) : decoded (Option α) :=
  match member with
  | .out_of_fuel => .out_of_fuel
  | .exception => .exception
  | .ok none => .ok none
  | .ok (some m) => next (composite_tvb ++ [m])

/-- The loop `do { ... } while (rc > 0)` of `decompress_lz4`; `fuel` bounds the
number of rounds.  `dst_size` is both the size of the output buffer handed to
`LZ4F_decompress` and, after the call, the number of bytes written.  The
result `.ok none` is the `goto end` with `ret == 0`. -/
def decompress_lz4_blocks {ctx : Type} (lib : lz4f_lib ctx) (data : List guint8)
    (length : Int) : Nat → ctx → Nat → Nat → List tvbuff_t → decoded (Option (List tvbuff_t))
  | 0, _, _, _, _ => .out_of_fuel
  | fuel + 1, lz4_ctxt, dst_size, src_offset, composite_tvb =>
    let src_size := to_size_t (length - src_offset)
    match lib.decompress lz4_ctxt dst_size ((data.drop src_offset).take src_size) with
    | none => .ok none
    | some (lz4_ctxt, decompressed_buffer, src_size, rc) =>
      let dst_size := decompressed_buffer.length
      lz4_append composite_tvb
        (snappy_member decompressed_buffer (to_guint32 dst_size) (to_gint32 dst_size))
        (fun composite_tvb =>
          let src_offset := src_offset + src_size
          if rc > 0 then
            decompress_lz4_blocks lib data length fuel lz4_ctxt dst_size src_offset composite_tvb
          else .ok (some composite_tvb))

/-- The part of `decompress_lz4` after the override of the header checksum, on
the bytes `data` handed to the library. -/
def decompress_lz4_frame {ctx : Type} (lib : lz4f_lib ctx) (fuel : Nat) (data : List guint8)
    (length : Int) : decoded (Option tvbuff_t) :=
  match lib.createDecompressionContext with
  | none => .ok none
  | some lz4_ctxt =>
    match lib.getFrameInfo lz4_ctxt (data.take (to_size_t length)) with
    | none => .ok none
    | some (lz4_ctxt, lz4_info, src_offset) =>
      match lz4_block_size lz4_info.blockSizeID with
      | none => .ok none
      | some dst_size =>
        let dst_size :=
          if lz4_info.contentSize ≠ 0 ∧ lz4_info.contentSize < dst_size then lz4_info.contentSize
          else dst_size
        match decompress_lz4_blocks lib data length fuel lz4_ctxt dst_size src_offset [] with
        | .out_of_fuel => .out_of_fuel
        | .exception => .exception
        | .ok none => .ok none
        | .ok (some composite_tvb) =>
          match tvb_composite_finalize composite_tvb with
          | none => .exception
          | some t => .ok (some t)

/-- Embedding of `decompress_lz4` (with `HAVE_LZ4FRAME_H`) on the span of
`length` bytes at `offset`: `.exception` is a bounds exception or a failed
assertion, `.ok none` the result 0, `.ok (some out)` the result 1 with the
decompressed buffer, `.out_of_fuel` a block loop that has not ended within
`fuel` rounds. -/
def decompress_lz4 {ctx : Type} (lib : lz4f_lib ctx) (cpu_little_endian : Bool) (fuel : Nat)
    (tvb : tvbuff_t) (offset : Int) (length : Int) : decoded (Option tvbuff_t) :=
  match tvb_memdup tvb offset length with
  | none => .exception
  | some data =>
    decompress_lz4_frame lib fuel (lz4_override_header_checksum cpu_little_endian data length)
      length

/-- A stand-in for the LZ4 frame library in the examples: it takes a frame
whose seventh byte, the header checksum, is 0x82 and hands back the bytes
after the seven header bytes and before the four bytes of the end mark as the
one block of the frame; every other input is an error.  The context counts
the calls. -/
def stored_lz4f : lz4f_lib Nat :=
  { createDecompressionContext := some 0,
    getFrameInfo := fun c src =>
      if src.getD 6 0 = 0x82 then some (c + 1, { blockSizeID := 4, contentSize := 0 }, 7)
      else none,
    decompress := fun c capacity src =>
      if src.length < 4 ∨ capacity < src.length - 4 then none
      else some (c + 1, src.take (src.length - 4), src.length, 0) }

/-- An LZ4 frame as Kafka clients with the old checksum bug write it: magic,
FLG 0x60, BD 0x40, a header checksum byte that is not the one of the frame
format (0x00 instead of 0x82), the bytes "AB" and the end mark. -/
def kafka_lz4_frame : tvbuff_t :=
  [0x04, 0x22, 0x4D, 0x18, 0x60, 0x40, 0x00, 0x41, 0x42, 0, 0, 0, 0]

/-- Where the header checksum byte of an LZ4 frame lies in the span, in the
words of the specification: at span offset 6, or at 14 when bit 0x08 of FLG
(the byte at span offset 4) announces the 8-byte content size. -/
def lz4_checksum_position (data : List guint8) : Nat :=
  if (data.getD 4 0).val &&& 0x08 ≠ 0 then 14 else 6

/-- The frame descriptor bytes of the span, in the words of the specification:
from span offset 4 on, FLG, BD and the content size when it is announced. -/
def lz4_frame_descriptor (data : List guint8) : List guint8 :=
  (data.drop 4).take (lz4_checksum_position data - 4)

/-- The byte that replaces the header checksum, in the words of the
specification: the second byte `(h >> 8) & 0xFF` of `h = XXH32(descriptor,
seed 0)`. -/
def lz4_descriptor_checksum (cpu_little_endian : Bool) (data : List guint8) : guint8 :=
  Fin.ofNat ((XXH32 cpu_little_endian (lz4_frame_descriptor data) 0 >>> 8) &&& 0xff)

/-! ## Sample fields, records and batches -/

/-- A legacy string of declared length 5 without its bytes. -/
def truncated_string : tvbuff_t := [0, 5]

/-- A compact field of declared length 3 (varint 0x06) without its bytes. -/
def truncated_compact : tvbuff_t := [0x06]

/-- A compact field whose varint decodes to 2^32 - 1, followed by one byte. -/
def wide_compact : tvbuff_t := [0xFE, 0xFF, 0xFF, 0xFF, 0x1F, 0x41]

/-- A record of declared length 3 (varint 0x06), followed by three bytes. -/
def short_record : tvbuff_t := [0x06, 0, 0, 0]

/-- A record of declared length 2^32 + 7 (a varint of five bytes) whose fields
take 7 bytes: attributes, two deltas, a null key, the value "A", no header. -/
def wide_record : tvbuff_t := [0x8E, 0x80, 0x80, 0x80, 0x20, 0, 0, 0, 0x01, 0x02, 0x41, 0]

/-- A legacy message (offset, size 14, crc, magic, attributes, null key, empty
value) whose magic byte is 0xFF. -/
def negative_magic_message : tvbuff_t :=
  [0, 0, 0, 0, 0, 0, 0, 0, 0, 0, 0, 14, 0, 0, 0, 0, 0xFF, 0,
   0xFF, 0xFF, 0xFF, 0xFF, 0, 0, 0, 0]

/-- A batch with magic byte 3 that declares 100 bytes, cut after the magic
byte. -/
def cut_batch : tvbuff_t := [0, 0, 0, 0, 0, 0, 0, 0, 0, 0, 0, 100, 0, 0, 0, 0, 3]

/-- The header of a v2 batch (61 bytes, magic byte 2, no compression) with the
given message size and record count, and no record. -/
def v2_batch_header (message_size count : Nat) : tvbuff_t :=
  [0, 0, 0, 0, 0, 0, 0, 0] ++ be32 message_size ++ [0, 0, 0, 0, 2, 0, 0, 0, 0, 0, 0] ++
  [0, 0, 0, 0] ++ List.replicate 24 0 ++ [0, 0, 0, 0, 0, 0] ++ be32 count

/-- A legacy message (magic byte 0) with the given attributes, a null key and
a value of four bytes. -/
def legacy_message (attributes : guint8) : tvbuff_t :=
  [0, 0, 0, 0, 0, 0, 0, 0, 0, 0, 0, 18, 0, 0, 0, 0, 0, attributes,
   0xFF, 0xFF, 0xFF, 0xFF, 0, 0, 0, 4, 1, 2, 3, 4]

/-- The twelve bytes 00 00 00 06 00 12 00 02 00 00 00 07: a length of 6, api
key 18, api version 2, correlation id 7, and no client id. -/
def api_versions_v2_header : tvbuff_t := [0, 0, 0, 6, 0, 0x12, 0, 2, 0, 0, 0, 7]

/-- An element decoder that takes two bytes and reports nothing. -/
def two_byte_element (_tvb : tvbuff_t) (offset : Int) : kafka_position := (offset + 2, [])

/-- A framed Snappy span of twenty bytes: the sixteen header bytes and the
chunk length FF FF FF FC, with no byte after it. -/
def negative_chunk_span : tvbuff_t :=
  kafka_xerial_header ++ [0, 0, 0, 1, 0, 0, 0, 1] ++ [0xFF, 0xFF, 0xFF, 0xFC]

/-- A legacy message (magic byte 0) of 26 bytes with the codec 5, a null key
and a value of declared length 256 of which the buffer holds no byte. -/
def overlong_legacy_message : tvbuff_t :=
  [0, 0, 0, 0, 0, 0, 0, 0, 0, 0, 0, 14, 0, 0, 0, 0, 0, 5,
   0xFF, 0xFF, 0xFF, 0xFF, 0, 0, 1, 0]

/-- The last five bytes of a partition of a Produce request: the length
FF FF FF FF of the message set and one byte of it. -/
def wide_set_length : tvbuff_t := [0xFF, 0xFF, 0xFF, 0xFF, 0]

/-! ## Auxiliary definitions for the correlation proofs -/

/-- The state after the matcher of a request has been created and stored. -/
def created (st : conv_state) (pinfo : packet_info) (key version : Nat) : conv_state :=
  let m : kafka_query_response_t :=
    { api_key := to_gint16 key, api_version := to_gint16 version,
      request_frame := pinfo.num, response_frame := none, response_found := false }
  let st1 := p_add_proto_data { st with heap := st.heap ++ [m] } pinfo.num st.heap.length
  if m.api_key ≠ KAFKA_PRODUCE then wmem_queue_push st1 st.heap.length else st1

/-- Whether the request branch gets as far as the required-acks test of a
Produce request and finds a value other than 0 there. -/
def produce_acks_seen (tvb : tvbuff_t) : Bool :=
  proto_tree_add_item tvb 4 2 && proto_tree_add_item tvb 6 2 && proto_tree_add_item tvb 8 4 &&
  match dissect_kafka_string tvb 12 with
  | none => false
  | some client_id =>
    match tvb_get_ntohs tvb client_id.offset with
    | none => false
    | some acks => acks ≠ KAFKA_ACK_NOT_REQUIRED

/-- The result of the request branch for the matcher `m` at `matcher`. -/
def request_body_result (tvb : tvbuff_t) (matcher : Nat) (m : kafka_query_response_t) :
    kafka_result :=
  if !proto_tree_add_item tvb 4 2 then .exception else
  if !proto_tree_add_item tvb 6 2 then .exception else
  if !proto_tree_add_item tvb 8 4 then .exception else
  match dissect_kafka_string tvb 12 with
  | none => .exception
  | some client_id =>
    if m.api_key = KAFKA_PRODUCE then
      match tvb_get_ntohs tvb client_id.offset with
      | none => .exception
      | some _ => .request matcher m.api_key m.api_version
    else .request matcher m.api_key m.api_version

/-- Every pointer kept in the queue or in the per-frame data was allocated. -/
def conv_state.wf (st : conv_state) : Prop :=
  (∀ p ∈ st.match_queue, p < st.heap.length) ∧ (∀ e ∈ st.proto_data, e.2 < st.heap.length)

/-- The matcher `dissect_kafka` creates for a request. -/
def new_matcher (pinfo : packet_info) (key version : Nat) : kafka_query_response_t :=
  { api_key := to_gint16 key, api_version := to_gint16 version,
    request_frame := pinfo.num, response_frame := none, response_found := false }

/-- The matcher `m` after a response in frame `num` was paired with it. -/
def matched (m : kafka_query_response_t) (num : Nat) : kafka_query_response_t :=
  { m with response_frame := some num, response_found := true }

/-- The three ways a call of `dissect_kafka` can leave the state: as it was,
with a new matcher (queued or not), or with the front of the queue paired. -/
inductive step_shape (st : conv_state) (pinfo : packet_info) : conv_state → Prop where
  | same : step_shape st pinfo st
  | create (key version : Nat) (push : Bool)
      (hs : pinfo.visited = false ∨ p_get_proto_data st pinfo.num = none) :
      step_shape st pinfo
        { heap := st.heap ++ [new_matcher pinfo key version],
          match_queue := if push then st.match_queue ++ [st.heap.length] else st.match_queue,
          proto_data := (pinfo.num, st.heap.length) :: st.proto_data }
  | pair (p : Nat) (q : List Nat) (m : kafka_query_response_t)
      (hs : pinfo.visited = false ∨ p_get_proto_data st pinfo.num = none)
      (hq : st.match_queue = p :: q) (hm : st.heap[p]? = some m)
      (hf : m.request_frame < pinfo.num) :
      step_shape st pinfo
        { heap := st.heap.set p (matched m pinfo.num), match_queue := q,
          proto_data := (pinfo.num, p) :: st.proto_data }

/-- The queue holds each pointer once, and only matchers that have no
response yet. -/
def conv_state.pending (st : conv_state) : Prop :=
  st.match_queue.Nodup ∧
  ∀ p ∈ st.match_queue, ∃ m, st.heap[p]? = some m ∧ m.response_found = false

/-- Invariant of a first pass: the state is well formed, and every queued
request and every stored frame comes from a frame before `bound`. -/
def frames_inv (st : conv_state) (bound : Nat) : Prop :=
  st.wf ∧
  (∀ p ∈ st.match_queue, ∀ m, st.heap[p]? = some m → m.request_frame < bound) ∧
  (∀ e ∈ st.proto_data, e.1 < bound)

/-- The state `st` holds what a second decode of the frame needs to come to
the result `r` again. -/
inductive settled (st : conv_state) (pinfo : packet_info) (tvb : tvbuff_t) :
    kafka_result → Prop where
  | no_length (h0 : proto_tree_add_item tvb 0 4 = false) : settled st pinfo tvb .exception
  | request_fail (hd : pinfo.destport = pinfo.match_uint)
      (hk : tvb_get_ntohs tvb 4 = none ∨ tvb_get_ntohs tvb 6 = none)
      (hl : p_get_proto_data st pinfo.num = none) : settled st pinfo tvb .exception
  | request_stored (hd : pinfo.destport = pinfo.match_uint)
      (h0 : proto_tree_add_item tvb 0 4 = true) (ptr : Nat) (m : kafka_query_response_t)
      (hl : p_get_proto_data st pinfo.num = some ptr) (hm : st.heap[ptr]? = some m) :
      settled st pinfo tvb (request_body_result tvb ptr m)
  | response_short (hd : pinfo.destport ≠ pinfo.match_uint)
      (h4 : proto_tree_add_item tvb 4 4 = false) : settled st pinfo tvb .exception
  | response_stored (hd : pinfo.destport ≠ pinfo.match_uint)
      (h0 : proto_tree_add_item tvb 0 4 = true) (h4 : proto_tree_add_item tvb 4 4 = true)
      (ptr : Nat) (m : kafka_query_response_t)
      (hl : p_get_proto_data st pinfo.num = some ptr) (hm : st.heap[ptr]? = some m) :
      settled st pinfo tvb (.response ptr m.api_key m.api_version)
  | response_missing (hd : pinfo.destport ≠ pinfo.match_uint)
      (h0 : proto_tree_add_item tvb 0 4 = true) (h4 : proto_tree_add_item tvb 4 4 = true)
      (hl : p_get_proto_data st pinfo.num = none)
      (hq : ∀ p ∈ st.match_queue, ∃ m, st.heap[p]? = some m ∧ pinfo.num ≤ m.request_frame) :
      settled st pinfo tvb (.request_missing (tvb_captured_length tvb))

/-- The frames of a first pass: not visited yet, in increasing frame order,
none before `bound`. -/
def first_pass (bound : Nat) (capture : List (packet_info × tvbuff_t)) : Prop :=
  (∀ f ∈ capture, f.1.visited = false ∧ bound ≤ f.1.num) ∧
  (capture.map (fun f => f.1.num)).Pairwise (· < ·)

/-- The request in `tvb` is pushed onto the queue when it is decoded for the
first time (stated on the state of a new conversation). -/
def enqueued_on_first_decode (pinfo : packet_info) (tvb : tvbuff_t) : Prop :=
  (dissect_kafka conv_state.empty pinfo tvb).1.match_queue = [0]

instance (pinfo : packet_info) (tvb : tvbuff_t) : Decidable (enqueued_on_first_decode pinfo tvb) := by
  unfold enqueued_on_first_decode
  infer_instance

/-- The matcher created for the request frame `f`. -/
def request_matcher (f : packet_info × tvbuff_t) : kafka_query_response_t :=
  new_matcher f.1 ((tvb_get_ntohs f.2 4).getD 0) ((tvb_get_ntohs f.2 6).getD 0)

/-- The results of responses paired in order with the requests `reqs`, whose
matchers lie in the heap from `start` on. -/
def paired_results (start : Nat) : List (packet_info × tvbuff_t) → List kafka_result
  | [] => []
  | f :: fs =>
    .response start (request_matcher f).api_key (request_matcher f).api_version ::
      paired_results (start + 1) fs

/-- Messages decoded back to back: `message_run lib message_set tvb end_offset
o p ds` holds when `dissect_kafka_message`, called at `o` and then at each
position it returns as long as that position is before `end_offset`, comes to
the position `p`, which is not before `end_offset`, and `ds` are the
diagnostics of these messages in order. -/
inductive message_run (lib : codec_lib)
    (message_set : tvbuff_t → Int → Nat → Nat → decoded kafka_position)
    (tvb : tvbuff_t) (end_offset : Int) : Int → Int → List expert_info → Prop where
  | done (o : Int) (h : ¬ o < end_offset) : message_run lib message_set tvb end_offset o o []
  | step (o o1 p : Int) (ds ds1 : List expert_info) (h : o < end_offset)
      (hm : dissect_kafka_message lib message_set tvb o = .ok (o1, ds))
      (hr : message_run lib message_set tvb end_offset o1 p ds1) :
      message_run lib message_set tvb end_offset o p (ds ++ ds1)

/-- The queue is ordered by strictly increasing request frame from its front
to its back. -/
def conv_state.queue_ordered (st : conv_state) : Prop :=
  st.match_queue.Pairwise (fun p q => ∀ mp mq, st.heap[p]? = some mp → st.heap[q]? = some mq →
    mp.request_frame < mq.request_frame)

/-- The queue invariant of the correlator while the frame `frame` is decoded:
every pointer of the queue occurs once, points to a matcher without a
response whose request frame is `frame` or an earlier one, and the queue is
ordered by strictly increasing request frame. -/
def queue_invariant (st : conv_state) (frame : Nat) : Prop :=
  st.match_queue.Nodup ∧
  (∀ p ∈ st.match_queue, ∃ m, st.heap[p]? = some m ∧ m.response_found = false ∧
    m.request_frame ≤ frame) ∧
  st.queue_ordered

/-! ## Sample messages -/

/-- Direction of a sample request in frame `n`: towards the server port. -/
def sample_request (n : Nat) : packet_info :=
  { num := n, visited := false, destport := 9092, match_uint := 9092 }

/-- Direction of a sample response in frame `n`: from the server port. -/
def sample_response (n : Nat) : packet_info :=
  { num := n, visited := false, destport := 50000, match_uint := 9092 }

/-- A Metadata v1 request: correlation id 7, empty client id, null topic array. -/
def metadata_request : tvbuff_t :=
  [0, 0, 0, 14, 0, 3, 0, 1, 0, 0, 0, 7, 0, 0, 0xFF, 0xFF, 0xFF, 0xFF]

/-- An ApiVersions v2 request: correlation id 9, empty client id. -/
def api_versions_request : tvbuff_t :=
  [0, 0, 0, 10, 0, 18, 0, 2, 0, 0, 0, 9, 0, 0]

/-- A Produce v3 request with a null transactional id, required acks 0,
timeout 0 and an empty topic array. -/
def produce_v3_acks0_request : tvbuff_t :=
  [0, 0, 0, 22, 0, 0, 0, 3, 0, 0, 0, 8, 0, 0, 0xFF, 0xFF, 0, 0, 0, 0, 0, 0, 0, 0, 0, 0]

/-- A Produce v3 request with an empty transactional id, required acks 1,
timeout 0 and an empty topic array. -/
def produce_v3_acks1_request : tvbuff_t :=
  [0, 0, 0, 22, 0, 0, 0, 3, 0, 0, 0, 8, 0, 0, 0, 0, 0, 1, 0, 0, 0, 0, 0, 0, 0, 0]

/-- A response of which only the length and the correlation id (42) are kept. -/
def short_response : tvbuff_t := [0, 0, 0, 4, 0, 0, 0, 42]

/-- A conversation with one Metadata request of frame 5 waiting for its
response. -/
def one_pending : conv_state :=
  { heap := [{ api_key := 3, api_version := 1, request_frame := 5, response_frame := none,
               response_found := false }],
    match_queue := [0], proto_data := [(5, 0)] }

/-- A capture of four frames: two requests, then a response for each. -/
def sample_capture : List (packet_info × tvbuff_t) :=
  [(sample_request 1, metadata_request), (sample_request 2, api_versions_request),
   (sample_response 3, short_response), (sample_response 4, short_response)]

/-- Two requests carried by the one frame 1: a Metadata request and an
ApiVersions request. -/
def shared_frame_capture : List (packet_info × tvbuff_t) :=
  [(sample_request 1, metadata_request), (sample_request 1, api_versions_request)]

/-- The frames of the sample capture after its first one. -/
def sample_later : List (packet_info × tvbuff_t) :=
  [(sample_request 2, api_versions_request), (sample_response 3, short_response),
   (sample_response 4, short_response)]

/-- The sample run up to its first response. -/
def sample_pre : List (packet_info × tvbuff_t) :=
  [(sample_request 1, metadata_request), (sample_request 2, api_versions_request),
   (sample_response 3, short_response)]

theorem request_body_state (st : conv_state) (pinfo : packet_info) (tvb : tvbuff_t)
    (matcher : Nat) (m : kafka_query_response_t) (hm : st.heap[matcher]? = some m) :
    (dissect_kafka_request_body st pinfo tvb matcher).1 =
      if m.api_key = KAFKA_PRODUCE ∧ produce_acks_seen tvb = true ∧ pinfo.visited = false
      then wmem_queue_push st matcher else st := by
  unfold dissect_kafka_request_body produce_acks_seen
  simp only [hm]
  by_cases h1 : proto_tree_add_item tvb 4 2 = true <;>
  by_cases h2 : proto_tree_add_item tvb 6 2 = true <;>
  by_cases h3 : proto_tree_add_item tvb 8 4 = true <;>
  simp [h1, h2, h3]
  rcases hs : dissect_kafka_string tvb 12 with _ | c
  · simp
  · simp only
    by_cases hk : m.api_key = KAFKA_PRODUCE
    · obtain ⟨x, hx⟩ : ∃ x, tvb_get_ntohs tvb c.offset = x := ⟨_, rfl⟩
      simp only [hx, hk]
      cases x with
      | none => simp
      | some acks => by_cases ha : acks = KAFKA_ACK_NOT_REQUIRED <;> simp [ha]
    · simp [hk]

theorem request_body_snd (st : conv_state) (pinfo : packet_info) (tvb : tvbuff_t)
    (matcher : Nat) (m : kafka_query_response_t) (hm : st.heap[matcher]? = some m) :
    (dissect_kafka_request_body st pinfo tvb matcher).2 = request_body_result tvb matcher m := by
  unfold dissect_kafka_request_body request_body_result
  simp only [hm]
  by_cases h1 : proto_tree_add_item tvb 4 2 = true <;>
  by_cases h2 : proto_tree_add_item tvb 6 2 = true <;>
  by_cases h3 : proto_tree_add_item tvb 8 4 = true <;>
  simp [h1, h2, h3]
  rcases hs : dissect_kafka_string tvb 12 with _ | c
  · simp
  · simp only
    by_cases hk : m.api_key = KAFKA_PRODUCE
    · obtain ⟨x, hx⟩ : ∃ x, tvb_get_ntohs tvb c.offset = x := ⟨_, rfl⟩
      simp only [hx, hk]
      cases x with
      | none => simp
      | some acks => simp
    · simp [hk]

theorem request_body_eq (st : conv_state) (pinfo : packet_info) (tvb : tvbuff_t)
    (matcher : Nat) (m : kafka_query_response_t) (hm : st.heap[matcher]? = some m) :
    dissect_kafka_request_body st pinfo tvb matcher =
      (if m.api_key = KAFKA_PRODUCE ∧ produce_acks_seen tvb = true ∧ pinfo.visited = false
        then wmem_queue_push st matcher else st, request_body_result tvb matcher m) :=
  Prod.ext (request_body_state st pinfo tvb matcher m hm)
    (request_body_snd st pinfo tvb matcher m hm)

theorem request_body_invalid (st : conv_state) (pinfo : packet_info) (tvb : tvbuff_t)
    (matcher : Nat) (hm : st.heap[matcher]? = none) :
    dissect_kafka_request_body st pinfo tvb matcher = (st, .invalid_pointer) := by
  unfold dissect_kafka_request_body
  simp [hm]

theorem response_body_eq (st : conv_state) (matcher : Nat) (m : kafka_query_response_t)
    (hm : st.heap[matcher]? = some m) :
    dissect_kafka_response_body st matcher = (st, .response matcher m.api_key m.api_version) := by
  unfold dissect_kafka_response_body
  simp [hm]

theorem response_body_invalid (st : conv_state) (matcher : Nat)
    (hm : st.heap[matcher]? = none) :
    dissect_kafka_response_body st matcher = (st, .invalid_pointer) := by
  unfold dissect_kafka_response_body
  simp [hm]

/-- The matcher looked up before the direction test. -/
theorem stored_cases (st : conv_state) (pinfo : packet_info) :
    (pinfo.visited = false ∨ p_get_proto_data st pinfo.num = none) ∨
    ∃ m, pinfo.visited = true ∧ p_get_proto_data st pinfo.num = some m := by
  cases hv : pinfo.visited
  · exact Or.inl (Or.inl rfl)
  · rcases hm : p_get_proto_data st pinfo.num with _ | m
    · exact Or.inl (Or.inr rfl)
    · exact Or.inr ⟨m, rfl, rfl⟩

theorem stored_none (st : conv_state) (pinfo : packet_info)
    (hs : pinfo.visited = false ∨ p_get_proto_data st pinfo.num = none) :
    (if pinfo.visited = true then p_get_proto_data st pinfo.num else none) = none := by
  rcases hs with hv | hv <;> simp [hv]

/-- Without the length field the call ends with a bounds exception. -/
theorem dissect_kafka_no_length (st : conv_state) (pinfo : packet_info) (tvb : tvbuff_t)
    (h0 : proto_tree_add_item tvb 0 4 = false) :
    dissect_kafka st pinfo tvb = (st, .exception) := by
  unfold dissect_kafka
  simp [h0]

/-- A request without stored matcher whose api key and version can be read. -/
theorem dissect_kafka_request_new (st : conv_state) (pinfo : packet_info) (tvb : tvbuff_t)
    (key version : Nat)
    (hs : pinfo.visited = false ∨ p_get_proto_data st pinfo.num = none)
    (hd : pinfo.destport = pinfo.match_uint) (h0 : proto_tree_add_item tvb 0 4 = true)
    (hk : tvb_get_ntohs tvb 4 = some key) (hver : tvb_get_ntohs tvb 6 = some version) :
    dissect_kafka st pinfo tvb =
      dissect_kafka_request_body (created st pinfo key version) pinfo tvb st.heap.length := by
  unfold dissect_kafka
  simp only [h0, Bool.not_true, stored_none st pinfo hs, hd, hk, hver]
  simp [created]

/-- A request without stored matcher whose api key or version cannot be read. -/
theorem dissect_kafka_request_fail (st : conv_state) (pinfo : packet_info) (tvb : tvbuff_t)
    (hs : pinfo.visited = false ∨ p_get_proto_data st pinfo.num = none)
    (hd : pinfo.destport = pinfo.match_uint)
    (hk : tvb_get_ntohs tvb 4 = none ∨ tvb_get_ntohs tvb 6 = none) :
    dissect_kafka st pinfo tvb = (st, .exception) := by
  unfold dissect_kafka
  by_cases h0 : proto_tree_add_item tvb 0 4 = true
  · simp only [h0, Bool.not_true, stored_none st pinfo hs, hd]
    rcases hk with hk | hk
    · simp [hk]
    · rcases hkey : tvb_get_ntohs tvb 4 with _ | key <;> simp [hk]
  · simp [h0]

/-- A request whose frame has a stored matcher. -/
theorem dissect_kafka_request_stored (st : conv_state) (pinfo : packet_info) (tvb : tvbuff_t)
    (m : Nat) (hv : pinfo.visited = true) (hm : p_get_proto_data st pinfo.num = some m)
    (hd : pinfo.destport = pinfo.match_uint) (h0 : proto_tree_add_item tvb 0 4 = true) :
    dissect_kafka st pinfo tvb = dissect_kafka_request_body st pinfo tvb m := by
  unfold dissect_kafka
  simp [h0, hv, hm, hd]

/-- A response without its correlation id ends with a bounds exception. -/
theorem dissect_kafka_response_short (st : conv_state) (pinfo : packet_info) (tvb : tvbuff_t)
    (hd : pinfo.destport ≠ pinfo.match_uint) (h4 : proto_tree_add_item tvb 4 4 = false) :
    dissect_kafka st pinfo tvb = (st, .exception) := by
  unfold dissect_kafka
  by_cases h0 : proto_tree_add_item tvb 0 4 = true <;> simp [h0, h4, hd]

/-- A response whose frame has a stored matcher. -/
theorem dissect_kafka_response_stored (st : conv_state) (pinfo : packet_info) (tvb : tvbuff_t)
    (m : Nat) (hv : pinfo.visited = true) (hm : p_get_proto_data st pinfo.num = some m)
    (hd : pinfo.destport ≠ pinfo.match_uint) (h0 : proto_tree_add_item tvb 0 4 = true)
    (h4 : proto_tree_add_item tvb 4 4 = true) :
    dissect_kafka st pinfo tvb = dissect_kafka_response_body st m := by
  unfold dissect_kafka
  simp [h0, h4, hv, hm, hd]

/-- A response without stored matcher, on an empty queue. -/
theorem dissect_kafka_response_empty (st : conv_state) (pinfo : packet_info) (tvb : tvbuff_t)
    (hs : pinfo.visited = false ∨ p_get_proto_data st pinfo.num = none)
    (hd : pinfo.destport ≠ pinfo.match_uint) (h0 : proto_tree_add_item tvb 0 4 = true)
    (h4 : proto_tree_add_item tvb 4 4 = true) (hq : st.match_queue = []) :
    dissect_kafka st pinfo tvb = (st, .request_missing (tvb_captured_length tvb)) := by
  unfold dissect_kafka
  simp [h0, h4, stored_none st pinfo hs, hd, wmem_queue_count, hq]

/-- A response without stored matcher, when the front of the queue is `p`. -/
theorem dissect_kafka_response_head (st : conv_state) (pinfo : packet_info) (tvb : tvbuff_t)
    (p : Nat) (q : List Nat) (m : kafka_query_response_t)
    (hs : pinfo.visited = false ∨ p_get_proto_data st pinfo.num = none)
    (hd : pinfo.destport ≠ pinfo.match_uint) (h0 : proto_tree_add_item tvb 0 4 = true)
    (h4 : proto_tree_add_item tvb 4 4 = true) (hq : st.match_queue = p :: q)
    (hm : st.heap[p]? = some m) :
    dissect_kafka st pinfo tvb =
      if m.request_frame ≥ pinfo.num then (st, .request_missing (tvb_captured_length tvb))
      else
        ({ heap := st.heap.set p
             { m with response_frame := some pinfo.num, response_found := true },
           match_queue := q, proto_data := (pinfo.num, p) :: st.proto_data },
         .response p m.api_key m.api_version) := by
  have hp : p < st.heap.length := by
    rcases Nat.lt_or_ge p st.heap.length with h | h
    · exact h
    · rw [List.getElem?_eq_none h] at hm; cases hm
  unfold dissect_kafka
  simp only [h0, h4, Bool.not_true, stored_none st pinfo hs, hd]
  simp only [Bool.false_eq_true, if_false, wmem_queue_count, hq, wmem_queue_peek,
    List.length_cons, List.head?_cons, Nat.zero_lt_succ, if_true, gt_iff_lt, hm]
  by_cases hf : m.request_frame ≥ pinfo.num
  · simp [hf]
  · simp [hf, wmem_queue_pop, p_add_proto_data, dissect_kafka_response_body, hq, hp]

/-- A response without stored matcher, when the front of the queue was never
allocated. -/
theorem dissect_kafka_response_invalid (st : conv_state) (pinfo : packet_info) (tvb : tvbuff_t)
    (p : Nat) (q : List Nat)
    (hs : pinfo.visited = false ∨ p_get_proto_data st pinfo.num = none)
    (hd : pinfo.destport ≠ pinfo.match_uint) (h0 : proto_tree_add_item tvb 0 4 = true)
    (h4 : proto_tree_add_item tvb 4 4 = true) (hq : st.match_queue = p :: q)
    (hm : st.heap[p]? = none) :
    dissect_kafka st pinfo tvb = (st, .invalid_pointer) := by
  unfold dissect_kafka
  simp only [h0, h4, Bool.not_true, stored_none st pinfo hs, hd]
  simp [wmem_queue_count, hq, wmem_queue_peek, hm]

theorem bool_cases (b : Bool) : b = true ∨ b = false := by
  cases b <;> simp

/-! ## Facts about the created matcher and the stored data -/

theorem ntohs_none_iff (tvb : tvbuff_t) (offset : Int) :
    tvb_get_ntohs tvb offset = none ↔ proto_tree_add_item tvb offset 2 = false := by
  unfold tvb_get_ntohs tvb_get_bytes proto_tree_add_item tvb_bytes_exist
  rw [if_neg (by decide)]
  cases tvb_abs_offset tvb offset with
  | none => simp
  | some a =>
    simp only [Option.map_eq_none']
    by_cases h : a + 2 ≤ tvb.length <;> simp [h]

theorem request_body_result_of_item (tvb : tvbuff_t) (matcher : Nat)
    (m : kafka_query_response_t)
    (h : tvb_get_ntohs tvb 4 = none ∨ tvb_get_ntohs tvb 6 = none) :
    request_body_result tvb matcher m = .exception := by
  unfold request_body_result
  rcases h with h | h
  · simp [(ntohs_none_iff tvb 4).1 h]
  · by_cases h4 : proto_tree_add_item tvb 4 2 = true <;> simp [(ntohs_none_iff tvb 6).1 h, h4]

theorem request_body_result_ne_missing (tvb : tvbuff_t) (matcher : Nat)
    (m : kafka_query_response_t) (n : Nat) :
    request_body_result tvb matcher m ≠ .request_missing n := by
  unfold request_body_result
  repeat' split
  all_goals simp

theorem request_body_ne_missing (st : conv_state) (pinfo : packet_info) (tvb : tvbuff_t)
    (matcher : Nat) (n : Nat) :
    (dissect_kafka_request_body st pinfo tvb matcher).2 ≠ .request_missing n := by
  rcases hm : st.heap[matcher]? with _ | m
  · rw [request_body_invalid st pinfo tvb matcher hm]; simp
  · rw [request_body_snd st pinfo tvb matcher m hm]
    exact request_body_result_ne_missing tvb matcher m n

theorem response_body_ne_missing (st : conv_state) (matcher : Nat) (n : Nat) :
    (dissect_kafka_response_body st matcher).2 ≠ .request_missing n := by
  unfold dissect_kafka_response_body
  split <;> simp

theorem created_heap (st : conv_state) (pinfo : packet_info) (key version : Nat) :
    (created st pinfo key version).heap = st.heap ++
      [{ api_key := to_gint16 key, api_version := to_gint16 version,
         request_frame := pinfo.num, response_frame := none, response_found := false }] := by
  unfold created p_add_proto_data wmem_queue_push
  simp only
  split <;> rfl

theorem created_heap_get (st : conv_state) (pinfo : packet_info) (key version : Nat) :
    (created st pinfo key version).heap[st.heap.length]? =
      some { api_key := to_gint16 key, api_version := to_gint16 version,
             request_frame := pinfo.num, response_frame := none, response_found := false } := by
  rw [created_heap]
  simp

theorem created_proto_data (st : conv_state) (pinfo : packet_info) (key version : Nat) :
    (created st pinfo key version).proto_data = (pinfo.num, st.heap.length) :: st.proto_data := by
  unfold created p_add_proto_data wmem_queue_push
  simp only
  split <;> rfl

theorem created_match_queue (st : conv_state) (pinfo : packet_info) (key version : Nat) :
    (created st pinfo key version).match_queue =
      if to_gint16 key ≠ KAFKA_PRODUCE then st.match_queue ++ [st.heap.length]
      else st.match_queue := by
  unfold created p_add_proto_data wmem_queue_push
  simp only
  split <;> rfl

theorem p_get_proto_data_cons (st : conv_state) (num p : Nat) (pd : List (Nat × Nat))
    (h : st.proto_data = (num, p) :: pd) : p_get_proto_data st num = some p := by
  simp [p_get_proto_data, h]

theorem p_get_proto_data_mem (st : conv_state) (num m : Nat)
    (hm : p_get_proto_data st num = some m) : (num, m) ∈ st.proto_data := by
  unfold p_get_proto_data at hm
  rcases hf : st.proto_data.find? (fun e => e.1 == num) with _ | e
  · simp [hf] at hm
  · simp only [hf, Option.map_some', Option.some.injEq] at hm
    have h1 := List.find?_some hf
    have h2 := List.mem_of_find?_eq_some hf
    simp only [beq_iff_eq] at h1
    rcases e with ⟨a, b⟩
    simp only at h1 hm
    subst h1; subst hm
    exact h2

theorem wf_lookup (st : conv_state) (hwf : st.wf) (num m : Nat)
    (hm : p_get_proto_data st num = some m) : ∃ x, st.heap[m]? = some x := by
  have hlt : m < st.heap.length := hwf.2 _ (p_get_proto_data_mem st num m hm)
  exact ⟨st.heap[m], List.getElem?_eq_getElem hlt⟩

/-! ## A call that reports "request missing" -/

theorem dissect_kafka_missing (st : conv_state) (pinfo : packet_info) (tvb : tvbuff_t) (n : Nat)
    (h : (dissect_kafka st pinfo tvb).2 = .request_missing n) :
    (dissect_kafka st pinfo tvb).1 = st ∧ n = tvb_captured_length tvb := by
  rcases bool_cases (proto_tree_add_item tvb 0 4) with h0 | h0
  swap
  · rw [dissect_kafka_no_length st pinfo tvb h0] at h; cases h
  by_cases hd : pinfo.destport = pinfo.match_uint
  · exfalso
    rcases stored_cases st pinfo with hs | ⟨m, hv, hm⟩
    · rcases hk : tvb_get_ntohs tvb 4 with _ | key
      · rw [dissect_kafka_request_fail st pinfo tvb hs hd (Or.inl hk)] at h; cases h
      · rcases hver : tvb_get_ntohs tvb 6 with _ | version
        · rw [dissect_kafka_request_fail st pinfo tvb hs hd (Or.inr hver)] at h; cases h
        · rw [dissect_kafka_request_new st pinfo tvb key version hs hd h0 hk hver] at h
          exact request_body_ne_missing _ _ _ _ _ h
    · rw [dissect_kafka_request_stored st pinfo tvb m hv hm hd h0] at h
      exact request_body_ne_missing _ _ _ _ _ h
  · rcases bool_cases (proto_tree_add_item tvb 4 4) with h4 | h4
    swap
    · rw [dissect_kafka_response_short st pinfo tvb hd h4] at h; cases h
    rcases stored_cases st pinfo with hs | ⟨m, hv, hm⟩
    · rcases hq : st.match_queue with _ | ⟨p, q⟩
      · rw [dissect_kafka_response_empty st pinfo tvb hs hd h0 h4 hq] at h ⊢
        simp only [kafka_result.request_missing.injEq] at h
        exact ⟨rfl, h.symm⟩
      · rcases hm : st.heap[p]? with _ | m
        · rw [dissect_kafka_response_invalid st pinfo tvb p q hs hd h0 h4 hq hm] at h; cases h
        · rw [dissect_kafka_response_head st pinfo tvb p q m hs hd h0 h4 hq hm] at h ⊢
          by_cases hf : m.request_frame ≥ pinfo.num
          · rw [if_pos hf] at h ⊢
            simp only [kafka_result.request_missing.injEq] at h
            exact ⟨rfl, h.symm⟩
          · rw [if_neg hf] at h; cases h
    · rw [dissect_kafka_response_stored st pinfo tvb m hv hm hd h0 h4] at h
      exact absurd h (response_body_ne_missing _ _ _)

/-! ## Second decode of a request frame -/

theorem dissect_kafka_request_replay (st : conv_state) (pinfo : packet_info) (tvb : tvbuff_t)
    (hwf : st.wf) (hv : pinfo.visited = false) (hd : pinfo.destport = pinfo.match_uint) :
    dissect_kafka (dissect_kafka st pinfo tvb).1 { pinfo with visited := true } tvb =
      dissect_kafka st pinfo tvb := by
  have hd' : ({ pinfo with visited := true } : packet_info).destport =
      ({ pinfo with visited := true } : packet_info).match_uint := hd
  rcases bool_cases (proto_tree_add_item tvb 0 4) with h0 | h0
  swap
  · rw [dissect_kafka_no_length st pinfo tvb h0, dissect_kafka_no_length st _ tvb h0]
  have hfail : tvb_get_ntohs tvb 4 = none ∨ tvb_get_ntohs tvb 6 = none →
      dissect_kafka (dissect_kafka st pinfo tvb).1 { pinfo with visited := true } tvb =
        dissect_kafka st pinfo tvb := by
    intro hk
    rw [dissect_kafka_request_fail st pinfo tvb (Or.inl hv) hd hk]
    rcases stored_cases st { pinfo with visited := true } with hs | ⟨m, hv', hm⟩
    · exact dissect_kafka_request_fail st _ tvb hs hd' hk
    · obtain ⟨x, hx⟩ := wf_lookup st hwf _ m hm
      rw [dissect_kafka_request_stored st _ tvb m hv' hm hd' h0,
        request_body_eq st _ tvb m x hx, request_body_result_of_item tvb m x hk]
      simp
  rcases hk : tvb_get_ntohs tvb 4 with _ | key
  · exact hfail (Or.inl hk)
  rcases hver : tvb_get_ntohs tvb 6 with _ | version
  · exact hfail (Or.inr hver)
  have hg := created_heap_get st pinfo key version
  rw [dissect_kafka_request_new st pinfo tvb key version (Or.inl hv) hd h0 hk hver,
    request_body_eq _ pinfo tvb _ _ hg]
  simp only
  generalize hst1 : (if to_gint16 (key : Int) = KAFKA_PRODUCE ∧ produce_acks_seen tvb = true ∧
      pinfo.visited = false then wmem_queue_push (created st pinfo key version) st.heap.length
      else created st pinfo key version) = st1
  have hpd : st1.proto_data = (pinfo.num, st.heap.length) :: st.proto_data := by
    rw [← hst1]; split <;> simp [wmem_queue_push, created_proto_data]
  have hheap : st1.heap[st.heap.length]? =
      some { api_key := to_gint16 key, api_version := to_gint16 version,
             request_frame := pinfo.num, response_frame := none, response_found := false } := by
    rw [← hst1]; split
    · simpa [wmem_queue_push] using hg
    · exact hg
  have hl : p_get_proto_data st1 ({ pinfo with visited := true } : packet_info).num =
      some st.heap.length := p_get_proto_data_cons st1 _ _ _ hpd
  rw [dissect_kafka_request_stored st1 _ tvb _ rfl hl hd' h0, request_body_eq st1 _ tvb _ _ hheap]
  simp

/-! ## The shape of a step -/

theorem dissect_kafka_shape (st : conv_state) (pinfo : packet_info) (tvb : tvbuff_t) :
    step_shape st pinfo (dissect_kafka st pinfo tvb).1 := by
  rcases bool_cases (proto_tree_add_item tvb 0 4) with h0 | h0
  swap
  · rw [dissect_kafka_no_length st pinfo tvb h0]; exact .same
  by_cases hd : pinfo.destport = pinfo.match_uint
  · rcases stored_cases st pinfo with hs | ⟨m, hv, hm⟩
    · rcases hk : tvb_get_ntohs tvb 4 with _ | key
      · rw [dissect_kafka_request_fail st pinfo tvb hs hd (Or.inl hk)]; exact .same
      · rcases hver : tvb_get_ntohs tvb 6 with _ | version
        · rw [dissect_kafka_request_fail st pinfo tvb hs hd (Or.inr hver)]; exact .same
        · rw [dissect_kafka_request_new st pinfo tvb key version hs hd h0 hk hver,
            request_body_state _ pinfo tvb _ _ (created_heap_get st pinfo key version)]
          by_cases hp : to_gint16 (key : Int) = KAFKA_PRODUCE
          · by_cases ha : produce_acks_seen tvb = true ∧ pinfo.visited = false
            · have := @step_shape.create st pinfo key version true hs
              simpa [hp, ha, created, wmem_queue_push, p_add_proto_data, new_matcher] using this
            · have := @step_shape.create st pinfo key version false hs
              have ha' : ¬ (to_gint16 (key : Int) = KAFKA_PRODUCE ∧ produce_acks_seen tvb = true ∧
                  pinfo.visited = false) := fun h => ha h.2
              rw [if_neg ha']
              simpa [hp, created, wmem_queue_push, p_add_proto_data, new_matcher] using this
          · have := @step_shape.create st pinfo key version true hs
            have ha' : ¬ (to_gint16 (key : Int) = KAFKA_PRODUCE ∧ produce_acks_seen tvb = true ∧
                pinfo.visited = false) := fun h => hp h.1
            rw [if_neg ha']
            simpa [hp, created, wmem_queue_push, p_add_proto_data, new_matcher] using this
    · rw [dissect_kafka_request_stored st pinfo tvb m hv hm hd h0]
      rcases hx : st.heap[m]? with _ | x
      · rw [request_body_invalid st pinfo tvb m hx]; exact .same
      · rw [request_body_state st pinfo tvb m x hx]
        simp only [hv, Bool.true_eq_false, and_false, if_false]
        exact .same
  · rcases bool_cases (proto_tree_add_item tvb 4 4) with h4 | h4
    swap
    · rw [dissect_kafka_response_short st pinfo tvb hd h4]; exact .same
    rcases stored_cases st pinfo with hs | ⟨m, hv, hm⟩
    · rcases hq : st.match_queue with _ | ⟨p, q⟩
      · rw [dissect_kafka_response_empty st pinfo tvb hs hd h0 h4 hq]; exact .same
      · rcases hm : st.heap[p]? with _ | m
        · rw [dissect_kafka_response_invalid st pinfo tvb p q hs hd h0 h4 hq hm]; exact .same
        · rw [dissect_kafka_response_head st pinfo tvb p q m hs hd h0 h4 hq hm]
          by_cases hf : m.request_frame ≥ pinfo.num
          · rw [if_pos hf]; exact .same
          · rw [if_neg hf]
            exact .pair p q m hs hq hm (Nat.lt_of_not_ge hf)
    · rw [dissect_kafka_response_stored st pinfo tvb m hv hm hd h0 h4]
      rcases hx : st.heap[m]? with _ | x
      · rw [response_body_invalid st m hx]; exact .same
      · rw [response_body_eq st m x hx]; exact .same

/-! ## Invariants of the state -/

theorem getElem?_lt {α : Type} (l : List α) (p : Nat) (x : α) (h : l[p]? = some x) :
    p < l.length := by
  rcases Nat.lt_or_ge p l.length with h1 | h1
  · exact h1
  · rw [List.getElem?_eq_none h1] at h; cases h

theorem shape_wf (st st1 : conv_state) (pinfo : packet_info) (h : step_shape st pinfo st1)
    (hwf : st.wf) : st1.wf := by
  cases h with
  | same => exact hwf
  | create key version push hs =>
    constructor
    · intro p hp
      simp only [List.length_append, List.length_singleton]
      split at hp
      · rcases List.mem_append.1 hp with h | h
        · exact Nat.lt_succ_of_lt (hwf.1 p h)
        · simp only [List.mem_singleton] at h; omega
      · exact Nat.lt_succ_of_lt (hwf.1 p hp)
    · intro e he
      simp only [List.length_append, List.length_singleton]
      rcases List.mem_cons.1 he with h | h
      · subst h; simp
      · exact Nat.lt_succ_of_lt (hwf.2 e h)
  | pair p q m hs hq hm hf =>
    constructor
    · intro x hx
      simp only [List.length_set]
      exact hwf.1 x (by rw [hq]; exact List.mem_cons_of_mem _ hx)
    · intro e he
      simp only [List.length_set]
      rcases List.mem_cons.1 he with h | h
      · subst h; exact getElem?_lt _ _ _ hm
      · exact hwf.2 e h

theorem dissect_kafka_wf (st : conv_state) (pinfo : packet_info) (tvb : tvbuff_t)
    (hwf : st.wf) : (dissect_kafka st pinfo tvb).1.wf :=
  shape_wf st _ pinfo (dissect_kafka_shape st pinfo tvb) hwf

theorem empty_wf : conv_state.empty.wf := by
  constructor <;> intro x hx <;> simp [conv_state.empty] at hx

theorem shape_pending (st st1 : conv_state) (pinfo : packet_info) (h : step_shape st pinfo st1)
    (hwf : st.wf) (hp : st.pending) : st1.pending := by
  cases h with
  | same => exact hp
  | create key version push hs =>
    have hfresh : st.heap.length ∉ st.match_queue := fun h => Nat.lt_irrefl _ (hwf.1 _ h)
    have hold : ∀ p ∈ st.match_queue, ∃ m,
        (st.heap ++ [new_matcher pinfo key version])[p]? = some m ∧ m.response_found = false := by
      intro p hpq
      obtain ⟨m, hm, hfound⟩ := hp.2 p hpq
      exact ⟨m, by rw [List.getElem?_append_left (getElem?_lt _ _ _ hm)]; exact hm, hfound⟩
    cases push with
    | false => exact ⟨hp.1, hold⟩
    | true =>
      constructor
      · simp only [if_true]
        exact List.Nodup.append hp.1 (List.nodup_singleton _)
          (by
            intro a ha hb
            simp only [List.mem_singleton] at hb
            exact hfresh (hb ▸ ha))
      · intro p hpq
        simp only [if_true] at hpq
        rcases List.mem_append.1 hpq with h | h
        · exact hold p h
        · simp only [List.mem_singleton] at h
          subst h
          exact ⟨new_matcher pinfo key version, by simp, rfl⟩
  | pair p q m hs hq hm hf =>
    have hnd : (p :: q).Nodup := hq ▸ hp.1
    constructor
    · exact (List.nodup_cons.1 hnd).2
    · intro x hx
      have hne : p ≠ x := fun h => (List.nodup_cons.1 hnd).1 (h ▸ hx)
      obtain ⟨mx, hmx, hfound⟩ := hp.2 x (by rw [hq]; exact List.mem_cons_of_mem _ hx)
      refine ⟨mx, ?_, hfound⟩
      simp only
      rw [List.getElem?_set_ne hne]
      exact hmx

theorem empty_pending : conv_state.empty.pending := by
  constructor
  · simp [conv_state.empty]
  · intro x hx; simp [conv_state.empty] at hx

theorem request_body_result_congr (tvb : tvbuff_t) (ptr : Nat) (m m1 : kafka_query_response_t)
    (hk : m1.api_key = m.api_key) (hv : m1.api_version = m.api_version) :
    request_body_result tvb ptr m1 = request_body_result tvb ptr m := by
  unfold request_body_result
  rw [hk, hv]

theorem settled_replay (st : conv_state) (pinfo : packet_info) (tvb : tvbuff_t)
    (r : kafka_result) (h : settled st pinfo tvb r) :
    dissect_kafka st { pinfo with visited := true } tvb = (st, r) := by
  cases h with
  | no_length h0 => exact dissect_kafka_no_length st _ tvb h0
  | request_fail hd hk hl =>
    exact dissect_kafka_request_fail st { pinfo with visited := true } tvb (Or.inr hl) hd hk
  | request_stored hd h0 ptr m hl hm =>
    rw [dissect_kafka_request_stored st { pinfo with visited := true } tvb ptr rfl hl hd h0,
      request_body_eq st _ tvb ptr m hm]
    simp
  | response_short hd h4 =>
    exact dissect_kafka_response_short st { pinfo with visited := true } tvb hd h4
  | response_stored hd h0 h4 ptr m hl hm =>
    rw [dissect_kafka_response_stored st { pinfo with visited := true } tvb ptr rfl hl hd h0 h4,
      response_body_eq st ptr m hm]
  | response_missing hd h0 h4 hl hq =>
    rcases hmq : st.match_queue with _ | ⟨p, q⟩
    · exact dissect_kafka_response_empty st { pinfo with visited := true } tvb (Or.inr hl) hd
        h0 h4 hmq
    · obtain ⟨m, hm, hle⟩ := hq p (by rw [hmq]; exact List.mem_cons_self _ _)
      rw [dissect_kafka_response_head st { pinfo with visited := true } tvb p q m (Or.inr hl) hd
        h0 h4 hmq hm]
      exact if_pos hle

/-- A step keeps the api key, the api version and the request frame of every
allocated matcher. -/
theorem shape_heap (st st1 : conv_state) (pinfo : packet_info) (h : step_shape st pinfo st1)
    (p : Nat) (m : kafka_query_response_t) (hm : st.heap[p]? = some m) :
    ∃ m1, st1.heap[p]? = some m1 ∧ m1.api_key = m.api_key ∧ m1.api_version = m.api_version ∧
      m1.request_frame = m.request_frame := by
  cases h with
  | same => exact ⟨m, hm, rfl, rfl, rfl⟩
  | create key version push hs =>
    refine ⟨m, ?_, rfl, rfl, rfl⟩
    simp only
    rw [List.getElem?_append_left (getElem?_lt _ _ _ hm)]; exact hm
  | pair p0 q m0 hs hq hm0 hf =>
    by_cases hp : p0 = p
    · subst hp
      have hmm : m0 = m := by rw [hm0] at hm; exact Option.some.inj hm
      subst hmm
      exact ⟨matched m0 pinfo.num, by simp [getElem?_lt _ _ _ hm0], rfl, rfl, rfl⟩
    · refine ⟨m, ?_, rfl, rfl, rfl⟩
      simp only
      rw [List.getElem?_set_ne hp]; exact hm

theorem shape_lookup (st st1 : conv_state) (g : packet_info) (h : step_shape st g st1)
    (num : Nat) (hne : g.num ≠ num) : p_get_proto_data st1 num = p_get_proto_data st num := by
  cases h with
  | same => rfl
  | create key version push hs => simp [p_get_proto_data, List.find?_cons, hne]
  | pair p0 q m0 hs hq hm0 hf => simp [p_get_proto_data, List.find?_cons, hne]

/-- A step of the first pass keeps the invariant, with the next bound. -/
theorem shape_inv (st st1 : conv_state) (g : packet_info) (bound : Nat)
    (h : step_shape st g st1) (hinv : frames_inv st bound) (hb : bound ≤ g.num) :
    frames_inv st1 (g.num + 1) := by
  refine ⟨shape_wf st st1 g h hinv.1, ?_, ?_⟩
  · cases h with
    | same =>
      intro p hp m hm
      have := hinv.2.1 p hp m hm
      omega
    | create key version push hs =>
      intro p hp m hm
      simp only at hm hp
      by_cases hlt : p < st.heap.length
      · rw [List.getElem?_append_left hlt] at hm
        have hmem : p ∈ st.match_queue := by
          cases push with
          | false => simpa using hp
          | true =>
            simp only [if_true] at hp
            rcases List.mem_append.1 hp with h | h
            · exact h
            · simp only [List.mem_singleton] at h; omega
        have := hinv.2.1 p hmem m hm
        omega
      · have hp2 : p = st.heap.length := by
          have := getElem?_lt _ _ _ hm
          simp only [List.length_append, List.length_singleton] at this
          omega
        subst hp2
        simp only [List.getElem?_concat_length, Option.some.injEq] at hm
        rw [← hm]
        simp [new_matcher]
    | pair p0 q m0 hs hq hm0 hf =>
      intro p hp m hm
      simp only at hm hp
      have hmem : p ∈ st.match_queue := by rw [hq]; exact List.mem_cons_of_mem _ hp
      by_cases hpp : p0 = p
      · subst hpp
        rw [List.getElem?_set_self (getElem?_lt _ _ _ hm0)] at hm
        simp only [Option.some.injEq] at hm
        have := hinv.2.1 p0 hmem m0 hm0
        rw [← hm]
        simp only [matched]
        omega
      · rw [List.getElem?_set_ne hpp] at hm
        have := hinv.2.1 p hmem m hm
        omega
  · have hold : ∀ e ∈ st.proto_data, e.1 < g.num + 1 := by
      intro e he
      have := hinv.2.2 e he
      omega
    cases h with
    | same => exact hold
    | create key version push hs =>
      intro e he
      rcases List.mem_cons.1 he with h | h
      · subst h; simp
      · exact hold e h
    | pair p0 q m0 hs hq hm0 hf =>
      intro e he
      rcases List.mem_cons.1 he with h | h
      · subst h; simp
      · exact hold e h

theorem empty_inv : frames_inv conv_state.empty 0 := by
  refine ⟨empty_wf, ?_, ?_⟩ <;> intro x hx <;> simp [conv_state.empty] at hx

/-! ## Runs -/

theorem dissect_frames_nil (st : conv_state) : dissect_frames st [] = (st, []) := rfl

theorem dissect_frames_cons (st : conv_state) (pinfo : packet_info) (tvb : tvbuff_t)
    (rest : List (packet_info × tvbuff_t)) :
    dissect_frames st ((pinfo, tvb) :: rest) =
      ((dissect_frames (dissect_kafka st pinfo tvb).1 rest).1,
       (dissect_kafka st pinfo tvb).2 :: (dissect_frames (dissect_kafka st pinfo tvb).1 rest).2) :=
  rfl

theorem dissect_frames_append (st : conv_state) (a b : List (packet_info × tvbuff_t)) :
    dissect_frames st (a ++ b) =
      ((dissect_frames (dissect_frames st a).1 b).1,
       (dissect_frames st a).2 ++ (dissect_frames (dissect_frames st a).1 b).2) := by
  induction a generalizing st with
  | nil => simp [dissect_frames_nil]
  | cons f rest ih =>
    obtain ⟨pinfo, tvb⟩ := f
    simp only [List.cons_append, dissect_frames_cons, ih, List.cons_append]

theorem dissect_frames_length (st : conv_state) (a : List (packet_info × tvbuff_t)) :
    (dissect_frames st a).2.length = a.length := by
  induction a generalizing st with
  | nil => rfl
  | cons f rest ih =>
    obtain ⟨pinfo, tvb⟩ := f
    simp [dissect_frames_cons, ih]

theorem first_pass_tail (bound : Nat) (pinfo : packet_info) (tvb : tvbuff_t)
    (rest : List (packet_info × tvbuff_t)) (h : first_pass bound ((pinfo, tvb) :: rest)) :
    first_pass (pinfo.num + 1) rest := by
  constructor
  · intro f hf
    refine ⟨(h.1 f (List.mem_cons_of_mem _ hf)).1, ?_⟩
    have := h.2
    simp only [List.map_cons, List.pairwise_cons, List.mem_map, forall_exists_index, and_imp,
      forall_apply_eq_imp_iff₂] at this
    exact this.1 f hf
  · have := h.2
    simp only [List.map_cons, List.pairwise_cons] at this
    exact this.2

/-- Second decodes of settled frames leave the state as it is. -/
theorem dissect_frames_replays (st : conv_state) (again : List (packet_info × tvbuff_t))
    (h : ∀ a ∈ again, ∃ pinfo r, settled st pinfo a.2 r ∧ a.1 = { pinfo with visited := true }) :
    (dissect_frames st again).1 = st := by
  induction again with
  | nil => rfl
  | cons a rest ih =>
    obtain ⟨pa, tvb⟩ := a
    obtain ⟨pinfo, r, hset, hpa⟩ := h (pa, tvb) (List.mem_cons_self _ _)
    simp only at hset hpa
    rw [dissect_frames_cons, hpa, settled_replay st pinfo tvb r hset]
    exact ih (fun a ha => h a (List.mem_cons_of_mem _ ha))

/-! ## Requests followed by their responses -/

/-- First decode of a request that is enqueued, in any state. -/
theorem dissect_kafka_enqueued (st : conv_state) (pinfo : packet_info) (tvb : tvbuff_t)
    (hv : pinfo.visited = false) (hd : pinfo.destport = pinfo.match_uint)
    (he : enqueued_on_first_decode pinfo tvb) :
    (∃ key version, tvb_get_ntohs tvb 4 = some key ∧ tvb_get_ntohs tvb 6 = some version) ∧
    (dissect_kafka st pinfo tvb).1 =
      { heap := st.heap ++ [request_matcher (pinfo, tvb)],
        match_queue := st.match_queue ++ [st.heap.length],
        proto_data := (pinfo.num, st.heap.length) :: st.proto_data } := by
  unfold enqueued_on_first_decode at he
  rcases bool_cases (proto_tree_add_item tvb 0 4) with h0 | h0
  swap
  · rw [dissect_kafka_no_length _ pinfo tvb h0] at he
    simp [conv_state.empty] at he
  rcases hk : tvb_get_ntohs tvb 4 with _ | key
  · rw [dissect_kafka_request_fail _ pinfo tvb (Or.inl hv) hd (Or.inl hk)] at he
    simp [conv_state.empty] at he
  rcases hver : tvb_get_ntohs tvb 6 with _ | version
  · rw [dissect_kafka_request_fail _ pinfo tvb (Or.inl hv) hd (Or.inr hver)] at he
    simp [conv_state.empty] at he
  refine ⟨⟨key, version, rfl, rfl⟩, ?_⟩
  rw [dissect_kafka_request_new _ pinfo tvb key version (Or.inl hv) hd h0 hk hver,
    request_body_state _ pinfo tvb _ _ (created_heap_get _ pinfo key version)] at he
  rw [dissect_kafka_request_new st pinfo tvb key version (Or.inl hv) hd h0 hk hver,
    request_body_state _ pinfo tvb _ _ (created_heap_get st pinfo key version)]
  simp only [request_matcher, hk, hver, Option.getD_some]
  by_cases hp : to_gint16 (key : Int) = KAFKA_PRODUCE
  · by_cases ha : produce_acks_seen tvb = true
    · simp [hp, ha, hv, created, wmem_queue_push, p_add_proto_data, new_matcher]
    · simp [hp, ha, created, wmem_queue_push, p_add_proto_data, conv_state.empty] at he
  · simp [hp, hv, created, wmem_queue_push, p_add_proto_data, new_matcher]

/-- A run of enqueued requests appends their matchers to the heap and their
pointers to the queue. -/
theorem dissect_frames_requests (st : conv_state) (reqs : List (packet_info × tvbuff_t))
    (hreq : ∀ f ∈ reqs, f.1.visited = false ∧ f.1.destport = f.1.match_uint ∧
      enqueued_on_first_decode f.1 f.2) :
    ∃ pd, (dissect_frames st reqs).1 =
      { heap := st.heap ++ reqs.map request_matcher,
        match_queue := st.match_queue ++ List.range' st.heap.length reqs.length,
        proto_data := pd } := by
  induction reqs generalizing st with
  | nil => exact ⟨st.proto_data, by simp [dissect_frames_nil]⟩
  | cons f rest ih =>
    obtain ⟨pinfo, tvb⟩ := f
    obtain ⟨hv, hd, he⟩ := hreq (pinfo, tvb) (List.mem_cons_self _ _)
    have hstep := (dissect_kafka_enqueued st pinfo tvb hv hd he).2
    obtain ⟨pd, hpd⟩ := ih (dissect_kafka st pinfo tvb).1
      (fun f hf => hreq f (List.mem_cons_of_mem _ hf))
    refine ⟨pd, ?_⟩
    rw [dissect_frames_cons]
    simp only
    rw [hpd, hstep]
    simp [List.range'_succ]

/-- A run of responses pairs them in order with the queued requests. -/
theorem dissect_frames_responses (H : List kafka_query_response_t)
    (reqs resps : List (packet_info × tvbuff_t)) (pd : List (Nat × Nat))
    (hlen : reqs.length = resps.length)
    (hresp : ∀ g ∈ resps, g.1.visited = false ∧ g.1.destport ≠ g.1.match_uint ∧
      proto_tree_add_item g.2 0 4 = true ∧ proto_tree_add_item g.2 4 4 = true)
    (hlt : ∀ f ∈ reqs, ∀ g ∈ resps, f.1.num < g.1.num) :
    ∃ pd1, dissect_frames
        { heap := H ++ reqs.map request_matcher,
          match_queue := List.range' H.length reqs.length, proto_data := pd } resps =
      ({ heap := H ++ List.zipWith (fun f g => matched (request_matcher f) g.1.num) reqs resps,
         match_queue := [], proto_data := pd1 },
       paired_results H.length reqs) := by
  induction reqs generalizing H resps pd with
  | nil =>
    cases resps with
    | nil => exact ⟨pd, by simp [dissect_frames_nil, paired_results]⟩
    | cons g gs => simp at hlen
  | cons f rest ih =>
    cases resps with
    | nil => simp at hlen
    | cons g gs =>
      obtain ⟨pinfo, tvb⟩ := g
      obtain ⟨hv, hd, h0, h4⟩ := hresp (pinfo, tvb) (List.mem_cons_self _ _)
      simp only at hv hd h0 h4
      have hf : (request_matcher f).request_frame < pinfo.num :=
        hlt f (List.mem_cons_self _ _) (pinfo, tvb) (List.mem_cons_self _ _)
      have hstep := dissect_kafka_response_head
        { heap := H ++ (f :: rest).map request_matcher,
          match_queue := List.range' H.length (f :: rest).length, proto_data := pd }
        pinfo tvb H.length (List.range' (H.length + 1) rest.length) (request_matcher f)
        (Or.inl hv) hd h0 h4 (by simp [List.range'_succ])
        (by
          show (H ++ (f :: rest).map request_matcher)[H.length]? = some (request_matcher f)
          rw [List.getElem?_append_right (Nat.le_refl _)]
          simp)
      rw [if_neg (by omega)] at hstep
      obtain ⟨pd1, hpd1⟩ := ih (H ++ [matched (request_matcher f) pinfo.num]) gs
        ((pinfo.num, H.length) :: pd) (by simpa using hlen)
        (fun g hg => hresp g (List.mem_cons_of_mem _ hg))
        (fun f hf g hg => hlt f (List.mem_cons_of_mem _ hf) g (List.mem_cons_of_mem _ hg))
      refine ⟨pd1, ?_⟩
      rw [dissect_frames_cons, hstep]
      simp only [matched, paired_results] at hpd1 ⊢
      simp only [List.length_append, List.length_singleton, List.append_assoc,
        List.singleton_append] at hpd1
      simp only [List.map_cons, List.set_append_right _ _ (Nat.le_refl _), Nat.sub_self,
        List.set_cons_zero, List.zipWith_cons_cons]
      rw [hpd1]

theorem paired_results_get (start : Nat) (reqs : List (packet_info × tvbuff_t)) (i : Nat)
    (hi : i < reqs.length) :
    (paired_results start reqs)[i]? =
      some (.response (start + i) (request_matcher reqs[i]).api_key
        (request_matcher reqs[i]).api_version) := by
  induction reqs generalizing start i with
  | nil => simp at hi
  | cons f rest ih =>
    cases i with
    | zero => simp [paired_results]
    | succ j =>
      simp only [paired_results, List.getElem?_cons_succ, List.getElem_cons_succ]
      rw [ih (start + 1) j (by simpa using hi)]
      simp only [Option.some.injEq, kafka_result.response.injEq, and_self, and_true]
      omega

/-! ## The correlator: the claims -/

theorem item_nat (tvb : tvbuff_t) (a l : Nat) :
    proto_tree_add_item tvb (a : Int) (l : Int) = decide (a + l ≤ tvb.length) := by
  unfold proto_tree_add_item tvb_bytes_exist tvb_abs_offset
  rw [if_neg (by omega)]
  simp only [Int.natCast_nonneg, if_true, Int.toNat_ofNat, decide_True, Bool.true_and]
  by_cases h : a ≤ tvb.length
  · simp [h]
  · simp only [h, if_false]
    symm
    rw [decide_eq_false_iff_not]
    omega

theorem item_0_of_item_4 (tvb : tvbuff_t) (h : proto_tree_add_item tvb 4 4 = true) :
    proto_tree_add_item tvb 0 4 = true := by
  have h4 := item_nat tvb 4 4
  have h0 := item_nat tvb 0 4
  simp only [Nat.cast_ofNat, Nat.cast_zero] at h4 h0
  rw [h4] at h
  rw [h0]
  simp only [decide_eq_true_eq] at h ⊢
  omega

/-- C1. FIFO correlation: from an empty queue, after requests in frames
f1 < ... < fn that are all enqueued, the responses in frames g1 < ... < gn
(g1 > fn) are paired in order: the i-th response is decoded with the api
key and api version of the i-th request, whose matcher gets that response's
frame and `response_found`.  Nothing is assumed about the correlation ids. -/
theorem fifo_correlation (st0 : conv_state) (reqs resps : List (packet_info × tvbuff_t))
    (hq : st0.match_queue = []) (hlen : reqs.length = resps.length)
    (horder : first_pass 0 (reqs ++ resps))
    (hreq : ∀ f ∈ reqs, f.1.destport = f.1.match_uint ∧ enqueued_on_first_decode f.1 f.2)
    (hresp : ∀ g ∈ resps, g.1.destport ≠ g.1.match_uint ∧ proto_tree_add_item g.2 4 4 = true)
    (i : Nat) (f g : packet_info × tvbuff_t) (hf : reqs[i]? = some f) (hg : resps[i]? = some g) :
    ∃ key version,
      tvb_get_ntohs f.2 4 = some key ∧ tvb_get_ntohs f.2 6 = some version ∧
      (dissect_frames st0 (reqs ++ resps)).2[reqs.length + i]? =
        some (.response (st0.heap.length + i) (to_gint16 key) (to_gint16 version)) ∧
      (dissect_frames st0 (reqs ++ resps)).1.heap[st0.heap.length + i]? =
        some { api_key := to_gint16 key, api_version := to_gint16 version,
               request_frame := f.1.num, response_frame := some g.1.num,
               response_found := true } := by
  have hi : i < reqs.length := by
    rcases Nat.lt_or_ge i reqs.length with h | h
    · exact h
    · rw [List.getElem?_eq_none h] at hf; cases hf
  have hi' : i < resps.length := hlen ▸ hi
  have hfi : reqs[i] = f := by
    rw [List.getElem?_eq_getElem hi] at hf; exact Option.some.inj hf
  have hgi : resps[i] = g := by
    rw [List.getElem?_eq_getElem hi'] at hg; exact Option.some.inj hg
  have hfm : f ∈ reqs := hfi ▸ List.getElem_mem _
  have hvis : ∀ x ∈ reqs ++ resps, x.1.visited = false := fun x hx => (horder.1 x hx).1
  have hpw := horder.2
  rw [List.map_append, List.pairwise_append] at hpw
  have hreq' : ∀ f ∈ reqs, f.1.visited = false ∧ f.1.destport = f.1.match_uint ∧
      enqueued_on_first_decode f.1 f.2 :=
    fun f hf => ⟨hvis f (List.mem_append_left _ hf), hreq f hf⟩
  have hresp' : ∀ g ∈ resps, g.1.visited = false ∧ g.1.destport ≠ g.1.match_uint ∧
      proto_tree_add_item g.2 0 4 = true ∧ proto_tree_add_item g.2 4 4 = true :=
    fun g hg => ⟨hvis g (List.mem_append_right _ hg), (hresp g hg).1,
      item_0_of_item_4 g.2 (hresp g hg).2, (hresp g hg).2⟩
  have hlt : ∀ f ∈ reqs, ∀ g ∈ resps, f.1.num < g.1.num := fun f hf g hg =>
    hpw.2.2 _ (List.mem_map_of_mem _ hf) _ (List.mem_map_of_mem _ hg)
  obtain ⟨⟨key, version, hk, hver⟩, -⟩ :=
    dissect_kafka_enqueued st0 f.1 f.2 (hreq' f hfm).1 (hreq' f hfm).2.1 (hreq' f hfm).2.2
  obtain ⟨pd, hpd⟩ := dissect_frames_requests st0 reqs hreq'
  obtain ⟨pd1, hpd1⟩ := dissect_frames_responses st0.heap reqs resps pd hlen hresp' hlt
  have hrm : request_matcher f = new_matcher f.1 key version := by
    simp [request_matcher, hk, hver]
  refine ⟨key, version, hk, hver, ?_, ?_⟩
  · rw [dissect_frames_append, hpd, hq, List.nil_append, hpd1]
    simp only
    rw [List.getElem?_append_right (by rw [dissect_frames_length]; omega),
      dissect_frames_length, Nat.add_sub_cancel_left, paired_results_get _ _ _ hi, hfi, hrm]
    rfl
  · rw [dissect_frames_append, hpd, hq, List.nil_append, hpd1]
    simp only
    rw [List.getElem?_append_right (by omega), Nat.add_sub_cancel_left,
      List.getElem?_eq_getElem (by simp [hi, hi']), List.getElem_zipWith, hfi, hgi, hrm]
    rfl

/-- Witness of C1: a Metadata and an ApiVersions request, then two responses. -/
theorem fifo_correlation_witness :
    ∃ key version,
      tvb_get_ntohs api_versions_request 4 = some key ∧
      tvb_get_ntohs api_versions_request 6 = some version ∧
      (dissect_frames conv_state.empty sample_capture).2[2 + 1]? =
        some (.response (0 + 1) (to_gint16 key) (to_gint16 version)) ∧
      (dissect_frames conv_state.empty sample_capture).1.heap[0 + 1]? =
        some { api_key := to_gint16 key, api_version := to_gint16 version,
               request_frame := 2, response_frame := some 4, response_found := true } :=
  fifo_correlation conv_state.empty
    [(sample_request 1, metadata_request), (sample_request 2, api_versions_request)]
    [(sample_response 3, short_response), (sample_response 4, short_response)]
    rfl rfl (by unfold first_pass; decide) (by decide) (by decide) 1
    (sample_request 2, api_versions_request) (sample_response 4, short_response) rfl rfl

/-- C2. A Produce v3 request whose required-acks field is 0 (transactional id
null) is pushed onto the queue all the same: `dissect_kafka` tests the 16
bits right after the client id, which for api version 3 and later are the
length of the transactional id, while `dissect_kafka_produce_request` reads
required acks after that string.  The next response is then paired with this
request.  Conversely a Produce v3 request with an empty transactional id and
required acks 1 is not enqueued. -/
theorem produce_v3_acks0_is_enqueued :
    (dissect_kafka_string produce_v3_acks0_request 12).map (fun c => c.offset) = some 14 ∧
    dissect_kafka_produce_request produce_v3_acks0_request 14 3 = some (16, 0) ∧
    (dissect_kafka conv_state.empty (sample_request 1) produce_v3_acks0_request).1.match_queue
      = [0] ∧
    (dissect_frames conv_state.empty
      [(sample_request 1, produce_v3_acks0_request), (sample_request 2, metadata_request),
       (sample_response 3, short_response)]).2
      = [.request 0 0 3, .request 1 3 1, .response 0 0 3] ∧
    dissect_kafka_produce_request produce_v3_acks1_request 14 3 = some (16, 1) ∧
    (dissect_kafka conv_state.empty (sample_request 1) produce_v3_acks1_request).1.match_queue
      = [] := by
  decide

/-- C3, as stated, fails: a response in frame 5 meets a queue whose front is
the request of frame 5.  The queue is not empty and the request frame is not
after the response's frame, yet the response is reported as "request
missing" and the front is not popped. -/
theorem response_same_frame_is_missing :
    one_pending.match_queue.head? = some 0 ∧
    one_pending.heap[0]?.map (fun m => m.request_frame) = some 5 ∧
    (sample_response 5).num = 5 ∧
    dissect_kafka one_pending (sample_response 5) short_response
      = (one_pending, .request_missing 8) := by
  decide

/-- C3, amended. On the first decode of a response in frame f whose length
field and correlation id are in the buffer, the response is reported as
"request missing" if and only if the queue is empty or the request frame of
its front is f or later; otherwise (front from a frame before f) the front
is popped, gets `response_found` and `response_frame = f`, and is stored for
the frame. -/
theorem response_matching_rule (st : conv_state) (pinfo : packet_info) (tvb : tvbuff_t)
    (hwf : st.wf) (hv : pinfo.visited = false) (hd : pinfo.destport ≠ pinfo.match_uint)
    (h4 : proto_tree_add_item tvb 4 4 = true) :
    ((dissect_kafka st pinfo tvb).2 = .request_missing (tvb_captured_length tvb) ↔
      st.match_queue = [] ∨
      ∃ p m, st.match_queue.head? = some p ∧ st.heap[p]? = some m ∧
        m.request_frame ≥ pinfo.num) ∧
    (∀ p q m, st.match_queue = p :: q → st.heap[p]? = some m → m.request_frame < pinfo.num →
      dissect_kafka st pinfo tvb =
        ({ heap := st.heap.set p (matched m pinfo.num), match_queue := q,
           proto_data := (pinfo.num, p) :: st.proto_data },
         .response p m.api_key m.api_version)) := by
  have h0 := item_0_of_item_4 tvb h4
  constructor
  · rcases hq : st.match_queue with _ | ⟨p, q⟩
    · rw [dissect_kafka_response_empty st pinfo tvb (Or.inl hv) hd h0 h4 hq]
      simp
    · have hp : p < st.heap.length := hwf.1 p (by rw [hq]; exact List.mem_cons_self _ _)
      have hm : st.heap[p]? = some st.heap[p] := List.getElem?_eq_getElem hp
      rw [dissect_kafka_response_head st pinfo tvb p q _ (Or.inl hv) hd h0 h4 hq hm]
      by_cases hf : st.heap[p].request_frame ≥ pinfo.num
      · rw [if_pos hf]
        simp only [true_iff]
        exact Or.inr ⟨p, st.heap[p], rfl, hm, hf⟩
      · rw [if_neg hf]
        constructor
        · intro h; cases h
        · intro h
          exfalso
          rcases h with h | ⟨p1, m1, hp1, hm1, hf1⟩
          · cases h
          · simp only [List.head?_cons, Option.some.injEq] at hp1
            subst hp1
            rw [hm] at hm1
            cases hm1
            exact hf hf1
  · intro p q m hq hm hf
    rw [dissect_kafka_response_head st pinfo tvb p q m (Or.inl hv) hd h0 h4 hq hm,
      if_neg (by omega)]
    rfl

/-- Witness of C3 (amended): a response in frame 6 for the request of frame 5. -/
theorem response_matching_rule_witness :
    ((dissect_kafka one_pending (sample_response 6) short_response).2 =
        .request_missing (tvb_captured_length short_response) ↔
      one_pending.match_queue = [] ∨
      ∃ p m, one_pending.match_queue.head? = some p ∧ one_pending.heap[p]? = some m ∧
        m.request_frame ≥ (sample_response 6).num) ∧
    (∀ p q m, one_pending.match_queue = p :: q → one_pending.heap[p]? = some m →
      m.request_frame < (sample_response 6).num →
      dissect_kafka one_pending (sample_response 6) short_response =
        ({ heap := one_pending.heap.set p (matched m (sample_response 6).num),
           match_queue := q,
           proto_data := ((sample_response 6).num, p) :: one_pending.proto_data },
         .response p m.api_key m.api_version)) :=
  response_matching_rule one_pending (sample_response 6) short_response
    (by unfold conv_state.wf; decide) rfl (by decide) (by decide)

theorem request_body_result_matcher (tvb : tvbuff_t) (ptr : Nat) (m : kafka_query_response_t)
    (a : Nat) (k v : Int) (h : request_body_result tvb ptr m = .request a k v) : a = ptr := by
  unfold request_body_result at h
  revert h
  repeat' split
  all_goals simp
  all_goals intro h _ _; exact h.symm

/-- A step keeps an entry of the per-frame data for every frame that has
one. -/
theorem shape_lookup_some (st st1 : conv_state) (g : packet_info) (h : step_shape st g st1)
    (num p : Nat) (hp : p_get_proto_data st num = some p) :
    ∃ p1, p_get_proto_data st1 num = some p1 := by
  by_cases hne : g.num = num
  · cases h with
    | same => exact ⟨p, hp⟩
    | create key version push hs => exact ⟨_, p_get_proto_data_cons _ _ _ _ (by rw [hne])⟩
    | pair p0 q m0 hs hq hm0 hf => exact ⟨_, p_get_proto_data_cons _ _ _ _ (by rw [hne])⟩
  · exact ⟨p, by rw [shape_lookup st st1 g h num hne]; exact hp⟩

/-- A step that is not the first decode of another message of the frame `num`
keeps the pointer stored for that frame. -/
theorem shape_lookup_kept (st st1 : conv_state) (g : packet_info) (h : step_shape st g st1)
    (num p : Nat) (hp : p_get_proto_data st num = some p)
    (hg : g.num ≠ num ∨ g.visited = true) : p_get_proto_data st1 num = some p := by
  by_cases hne : g.num = num
  · have hvis : g.visited = true := by
      rcases hg with hg | hg
      · exact absurd hne hg
      · exact hg
    have hno : ¬ (g.visited = false ∨ p_get_proto_data st g.num = none) := by
      intro hs
      rcases hs with hs | hs
      · rw [hvis] at hs; cases hs
      · rw [hne, hp] at hs; cases hs
    cases h with
    | same => exact hp
    | create key version push hs => exact absurd hs hno
    | pair p0 q m0 hs hq hm0 hf => exact absurd hs hno
  · rw [shape_lookup st st1 g h num hne]; exact hp

theorem dissect_frames_wf (later : List (packet_info × tvbuff_t)) :
    ∀ st : conv_state, st.wf → (dissect_frames st later).1.wf := by
  induction later with
  | nil => intro st hwf; exact hwf
  | cons f rest ih =>
    intro st hwf
    obtain ⟨g, t⟩ := f
    rw [dissect_frames_cons]
    exact ih _ (dissect_kafka_wf st g t hwf)

theorem dissect_frames_lookup_some (num : Nat) (later : List (packet_info × tvbuff_t)) :
    ∀ (st : conv_state) (p : Nat), p_get_proto_data st num = some p →
      ∃ p1, p_get_proto_data (dissect_frames st later).1 num = some p1 := by
  induction later with
  | nil => intro st p hp; exact ⟨p, hp⟩
  | cons f rest ih =>
    intro st p hp
    obtain ⟨g, t⟩ := f
    rw [dissect_frames_cons]
    obtain ⟨p1, hp1⟩ := shape_lookup_some st _ g (dissect_kafka_shape st g t) num p hp
    exact ih _ p1 hp1

theorem dissect_frames_lookup_kept (num p : Nat) (later : List (packet_info × tvbuff_t)) :
    ∀ (st : conv_state) (m : kafka_query_response_t),
      (∀ g ∈ later, g.1.num ≠ num ∨ g.1.visited = true) →
      p_get_proto_data st num = some p → st.heap[p]? = some m →
      p_get_proto_data (dissect_frames st later).1 num = some p ∧
      ∃ m1, (dissect_frames st later).1.heap[p]? = some m1 ∧ m1.api_key = m.api_key ∧
        m1.api_version = m.api_version := by
  induction later with
  | nil => intro st m _ hp hm; exact ⟨hp, m, hm, rfl, rfl⟩
  | cons f rest ih =>
    intro st m hl hp hm
    obtain ⟨g, t⟩ := f
    rw [dissect_frames_cons]
    have hs := dissect_kafka_shape st g t
    have hp1 := shape_lookup_kept st _ g hs num p hp (hl (g, t) (List.mem_cons_self _ _))
    obtain ⟨m1, hm1, hk1, hv1, -⟩ := shape_heap st _ g hs p m hm
    obtain ⟨hp2, m2, hm2, hk2, hv2⟩ :=
      ih _ m1 (fun x hx => hl x (List.mem_cons_of_mem _ hx)) hp1 hm1
    exact ⟨hp2, m2, hm2, hk2.trans hk1, hv2.trans hv1⟩

/-- A request whose api key or version cannot be read ends with an exception
and leaves the state as it is, visited or not. -/
theorem dissect_kafka_request_unreadable (st : conv_state) (pinfo : packet_info)
    (tvb : tvbuff_t) (hwf : st.wf) (hd : pinfo.destport = pinfo.match_uint)
    (hk : proto_tree_add_item tvb 0 4 = false ∨ tvb_get_ntohs tvb 4 = none ∨
      tvb_get_ntohs tvb 6 = none) :
    dissect_kafka st pinfo tvb = (st, .exception) := by
  rcases bool_cases (proto_tree_add_item tvb 0 4) with h0 | h0
  swap
  · exact dissect_kafka_no_length st pinfo tvb h0
  have hk' : tvb_get_ntohs tvb 4 = none ∨ tvb_get_ntohs tvb 6 = none := by
    rcases hk with hk | hk
    · rw [h0] at hk; cases hk
    · exact hk
  rcases stored_cases st pinfo with hs | ⟨m, hv, hm⟩
  · exact dissect_kafka_request_fail st pinfo tvb hs hd hk'
  · obtain ⟨x, hx⟩ := wf_lookup st hwf _ m hm
    rw [dissect_kafka_request_stored st pinfo tvb m hv hm hd h0,
      request_body_eq st pinfo tvb m x hx, request_body_result_of_item tvb m x hk']
    simp [hv]

/-- The second decode of a request frame that has stored data, or whose api
key or version cannot be read, leaves the state as it is and uses the pointer
stored last for the frame. -/
theorem dissect_kafka_request_visited (st : conv_state) (pinfo : packet_info) (tvb : tvbuff_t)
    (hwf : st.wf) (hv : pinfo.visited = true) (hd : pinfo.destport = pinfo.match_uint)
    (hs : (∃ p, p_get_proto_data st pinfo.num = some p) ∨
      proto_tree_add_item tvb 0 4 = false ∨ tvb_get_ntohs tvb 4 = none ∨
      tvb_get_ntohs tvb 6 = none) :
    (dissect_kafka st pinfo tvb).1 = st ∧
    ∀ m k v, (dissect_kafka st pinfo tvb).2 = .request m k v →
      p_get_proto_data st pinfo.num = some m := by
  rcases bool_cases (proto_tree_add_item tvb 0 4) with h0 | h0
  swap
  · rw [dissect_kafka_no_length st pinfo tvb h0]
    exact ⟨rfl, fun m k v h => by cases h⟩
  rcases hs with ⟨p, hp⟩ | hs
  · obtain ⟨x, hx⟩ := wf_lookup st hwf _ p hp
    rw [dissect_kafka_request_stored st pinfo tvb p hv hp hd h0,
      request_body_eq st pinfo tvb p x hx]
    refine ⟨by simp [hv], ?_⟩
    intro m k v h
    simp only at h
    rw [request_body_result_matcher tvb p x m k v h]
    exact hp
  · rw [dissect_kafka_request_unreadable st pinfo tvb hwf hd hs]
    exact ⟨rfl, fun m k v h => by cases h⟩

/-- The first decode of a request whose api key and version can be read
stores the new matcher for the frame. -/
theorem dissect_kafka_request_first (st : conv_state) (pinfo : packet_info) (tvb : tvbuff_t)
    (key version : Nat) (hv : pinfo.visited = false) (hd : pinfo.destport = pinfo.match_uint)
    (h0 : proto_tree_add_item tvb 0 4 = true) (hk : tvb_get_ntohs tvb 4 = some key)
    (hver : tvb_get_ntohs tvb 6 = some version) :
    p_get_proto_data (dissect_kafka st pinfo tvb).1 pinfo.num = some st.heap.length ∧
    (dissect_kafka st pinfo tvb).1.heap[st.heap.length]? =
      some (new_matcher pinfo key version) ∧
    (dissect_kafka st pinfo tvb).2 =
      request_body_result tvb st.heap.length (new_matcher pinfo key version) := by
  have hg := created_heap_get st pinfo key version
  rw [dissect_kafka_request_new st pinfo tvb key version (Or.inl hv) hd h0 hk hver,
    request_body_eq _ pinfo tvb _ _ hg]
  simp only
  refine ⟨?_, ?_, rfl⟩
  · apply p_get_proto_data_cons _ _ _ st.proto_data
    split <;> simp [wmem_queue_push, created_proto_data]
  · split
    · simpa [wmem_queue_push] using hg
    · exact hg

/-- C4, counterexample. Two requests carried by the one frame 1, a Metadata
request and an ApiVersions request: their first decodes make the matchers 0
and 1, and the second decode of the Metadata request (frame visited) reuses
the matcher 1 of the ApiVersions request, the one stored last for the frame,
not the matcher 0 of its own first decode. -/
theorem replay_in_shared_frame :
    (dissect_frames conv_state.empty shared_frame_capture).2 =
      [.request 0 3 1, .request 1 18 2] ∧
    p_get_proto_data (dissect_frames conv_state.empty shared_frame_capture).1 1 = some 1 ∧
    dissect_kafka (dissect_frames conv_state.empty shared_frame_capture).1
        { sample_request 1 with visited := true } metadata_request =
      ((dissect_frames conv_state.empty shared_frame_capture).1, .request 1 18 2) := by
  decide

/-- C4, amended. Idempotent replay of a request: after the first decode of a
request frame and whatever frames `later` are decoded after it, the second
decode of the frame (frame visited) leaves the whole state as it was before
it, so the queue is unchanged and no matcher is created, and the matcher it
uses is the one stored last for the frame.  When no other message of the same
frame is decoded for the first time in between, that matcher is the one of the
first decode and the result is the result of the first decode. -/
theorem request_replay_idempotent (st : conv_state) (pinfo : packet_info) (tvb : tvbuff_t)
    (later : List (packet_info × tvbuff_t))
    (hwf : st.wf) (hv : pinfo.visited = false) (hd : pinfo.destport = pinfo.match_uint) :
    (dissect_kafka (dissect_frames (dissect_kafka st pinfo tvb).1 later).1
        { pinfo with visited := true } tvb).1 =
      (dissect_frames (dissect_kafka st pinfo tvb).1 later).1 ∧
    (∀ m k v,
      (dissect_kafka (dissect_frames (dissect_kafka st pinfo tvb).1 later).1
        { pinfo with visited := true } tvb).2 = .request m k v →
      p_get_proto_data (dissect_frames (dissect_kafka st pinfo tvb).1 later).1 pinfo.num =
        some m) ∧
    ((∀ g ∈ later, g.1.num ≠ pinfo.num ∨ g.1.visited = true) →
      (dissect_kafka (dissect_frames (dissect_kafka st pinfo tvb).1 later).1
        { pinfo with visited := true } tvb).2 = (dissect_kafka st pinfo tvb).2 ∧
      ∀ m k v, (dissect_kafka st pinfo tvb).2 = .request m k v →
        p_get_proto_data (dissect_frames (dissect_kafka st pinfo tvb).1 later).1 pinfo.num =
          some m) := by
  have hwf1 : (dissect_kafka st pinfo tvb).1.wf := dissect_kafka_wf st pinfo tvb hwf
  have hwf2 := dissect_frames_wf later _ hwf1
  have hd' : ({ pinfo with visited := true } : packet_info).destport =
      ({ pinfo with visited := true } : packet_info).match_uint := hd
  have hread : (proto_tree_add_item tvb 0 4 = false ∨ tvb_get_ntohs tvb 4 = none ∨
      tvb_get_ntohs tvb 6 = none) ∨
      ∃ key version, proto_tree_add_item tvb 0 4 = true ∧ tvb_get_ntohs tvb 4 = some key ∧
        tvb_get_ntohs tvb 6 = some version := by
    rcases bool_cases (proto_tree_add_item tvb 0 4) with h0 | h0
    swap
    · exact Or.inl (Or.inl h0)
    rcases hk : tvb_get_ntohs tvb 4 with _ | key
    · exact Or.inl (Or.inr (Or.inl rfl))
    rcases hver : tvb_get_ntohs tvb 6 with _ | version
    · exact Or.inl (Or.inr (Or.inr rfl))
    exact Or.inr ⟨key, version, h0, rfl, rfl⟩
  rcases hread with hun | ⟨key, version, h0, hk, hver⟩
  · have h2 := dissect_kafka_request_visited _ { pinfo with visited := true } tvb hwf2 rfl hd'
      (Or.inr hun)
    refine ⟨h2.1, h2.2, fun _ => ?_⟩
    rw [dissect_kafka_request_unreadable _ { pinfo with visited := true } tvb hwf2 hd' hun,
      dissect_kafka_request_unreadable st pinfo tvb hwf hd hun]
    exact ⟨rfl, fun m k v h => by cases h⟩
  · obtain ⟨hp1, hm1, hr1⟩ := dissect_kafka_request_first st pinfo tvb key version hv hd h0 hk hver
    obtain ⟨p2, hp2⟩ := dissect_frames_lookup_some pinfo.num later _ _ hp1
    have h2 := dissect_kafka_request_visited _ { pinfo with visited := true } tvb hwf2 rfl hd'
      (Or.inl ⟨p2, hp2⟩)
    refine ⟨h2.1, h2.2, fun hl => ?_⟩
    obtain ⟨hp3, m3, hm3, hk3, hv3⟩ :=
      dissect_frames_lookup_kept pinfo.num st.heap.length later _ _ hl hp1 hm1
    have hrep := settled_replay _ pinfo tvb _ (settled.request_stored hd h0 _ m3 hp3 hm3)
    rw [hrep, hr1]
    refine ⟨request_body_result_congr tvb _ _ m3 hk3 hv3, ?_⟩
    intro m k v h
    rw [request_body_result_matcher tvb _ _ m k v h]
    exact hp3

/-- Witness of C4 (amended): the Metadata request of frame 1 is decoded again
after the frames 2, 3 and 4 of the sample capture; the state stays as it is
and the result is the one of the first decode, with the matcher 0. -/
theorem request_replay_idempotent_witness :
    (dissect_kafka
        (dissect_frames (dissect_kafka conv_state.empty (sample_request 1) metadata_request).1
          sample_later).1
        { sample_request 1 with visited := true } metadata_request).1 =
      (dissect_frames (dissect_kafka conv_state.empty (sample_request 1) metadata_request).1
        sample_later).1 ∧
    (dissect_kafka
        (dissect_frames (dissect_kafka conv_state.empty (sample_request 1) metadata_request).1
          sample_later).1
        { sample_request 1 with visited := true } metadata_request).2 =
      (dissect_kafka conv_state.empty (sample_request 1) metadata_request).2 ∧
    p_get_proto_data
        (dissect_frames (dissect_kafka conv_state.empty (sample_request 1) metadata_request).1
          sample_later).1 (sample_request 1).num = some 0 :=
  ⟨(request_replay_idempotent conv_state.empty (sample_request 1) metadata_request sample_later
      empty_wf rfl rfl).1,
   ((request_replay_idempotent conv_state.empty (sample_request 1) metadata_request sample_later
      empty_wf rfl rfl).2.2 (by decide)).1,
   ((request_replay_idempotent conv_state.empty (sample_request 1) metadata_request sample_later
      empty_wf rfl rfl).2.2 (by decide)).2 0 3 1 (by decide)⟩

/-- C7. An unmatched response changes nothing: a call that reports "request
missing" leaves the queue, the matchers and the stored data as they were,
returns the captured length of the message, and the messages after it are
decoded as if it had not occurred. -/
theorem unmatched_response_changes_nothing (st : conv_state) (pinfo : packet_info)
    (tvb : tvbuff_t) (n : Nat) (rest : List (packet_info × tvbuff_t))
    (h : (dissect_kafka st pinfo tvb).2 = .request_missing n) :
    (dissect_kafka st pinfo tvb).1 = st ∧ n = tvb_captured_length tvb ∧
    dissect_frames st ((pinfo, tvb) :: rest) =
      ((dissect_frames st rest).1, .request_missing n :: (dissect_frames st rest).2) := by
  obtain ⟨hst, hn⟩ := dissect_kafka_missing st pinfo tvb n h
  refine ⟨hst, hn, ?_⟩
  rw [dissect_frames_cons, hst, h]

/-- Witness of C7: a response on a conversation without pending request. -/
theorem unmatched_response_changes_nothing_witness :
    (dissect_kafka conv_state.empty (sample_response 3) short_response).1 = conv_state.empty ∧
    8 = tvb_captured_length short_response ∧
    dissect_frames conv_state.empty ((sample_response 3, short_response) :: sample_capture) =
      ((dissect_frames conv_state.empty sample_capture).1,
       .request_missing 8 :: (dissect_frames conv_state.empty sample_capture).2) :=
  unmatched_response_changes_nothing conv_state.empty (sample_response 3) short_response 8
    sample_capture (by decide)

/-! ## A matcher is paired at most once -/

theorem be_value_four (a b c d : guint8) :
    be_value [a, b, c, d] = ((a.val * 256 + b.val) * 256 + c.val) * 256 + d.val := by
  simp [be_value]

theorem ntohl_lt (tvb : tvbuff_t) (offset : Int) (l : Nat) (h : tvb_get_ntohl tvb offset = some l) :
    l < 2 ^ 32 := by
  unfold tvb_get_ntohl tvb_get_bytes at h
  cases ha : tvb_abs_offset tvb offset with
  | none => simp [ha] at h
  | some a =>
    simp only [ha] at h
    by_cases hle : a + 4 ≤ tvb.length
    · simp only [hle, if_true, Option.map_some', Option.some.injEq] at h
      have hlen : ((tvb.drop a).take 4).length = 4 := by
        simp only [List.length_take, List.length_drop]; omega
      match hbs : (tvb.drop a).take 4, hlen with
      | [x, y, z, w], _ =>
        rw [hbs, be_value_four] at h
        have := x.isLt; have := y.isLt; have := z.isLt; have := w.isLt
        omega
    · simp [hle] at h

/-- C8, as stated, fails: for the length prefix FF FF FF FF (L = 2^32 - 1)
`get_kafka_pdu_len` returns 3, not L + 4. -/
theorem pdu_len_wraps :
    tvb_get_ntohl max_length_prefix 0 = some (2 ^ 32 - 1) ∧
    get_kafka_pdu_len max_length_prefix 0 = some 3 := by
  decide

/-- C8, amended. For every 4-byte big-endian length prefix L at the cursor,
`get_kafka_pdu_len` returns (L + 4) mod 2^32: the total message size L + 4
whenever L <= 2^32 - 5. -/
theorem pdu_len_total (tvb : tvbuff_t) (offset : Int) (L : Nat)
    (h : tvb_get_ntohl tvb offset = some L) :
    L < 2 ^ 32 ∧ get_kafka_pdu_len tvb offset = some ((L + 4) % 2 ^ 32) ∧
    (L ≤ 2 ^ 32 - 5 → get_kafka_pdu_len tvb offset = some (L + 4)) := by
  have hlt := ntohl_lt tvb offset L h
  refine ⟨hlt, ?_, ?_⟩
  · simp [get_kafka_pdu_len, h, Nat.add_comm]
  · intro hle
    simp only [get_kafka_pdu_len, h, Option.map_some', Option.some.injEq]
    omega

/-- Witness of C8 (amended): the prefix of the Metadata request, L = 14. -/
theorem pdu_len_total_witness :
    14 < 2 ^ 32 ∧ get_kafka_pdu_len metadata_request 0 = some ((14 + 4) % 2 ^ 32) ∧
    (14 ≤ 2 ^ 32 - 5 → get_kafka_pdu_len metadata_request 0 = some (14 + 4)) :=
  pdu_len_total metadata_request 0 14 (by decide)

/-! ## The framer -/

theorem tcp_loop_zero (fl : Nat) (g : tvbuff_t → Int → Option Nat) (buf : List guint8) :
    tcp_dissect_pdus_loop fl g 0 buf = ([], buf) := rfl

theorem tcp_loop_succ (fl : Nat) (g : tvbuff_t → Int → Option Nat) (fuel : Nat)
    (buf : List guint8) :
    tcp_dissect_pdus_loop fl g (fuel + 1) buf =
      if buf.length < fl then ([], buf)
      else
        match g buf 0 with
        | none => ([], buf)
        | some plen =>
          if plen = 0 ∨ plen < fl then ([], buf)
          else if buf.length < plen then ([], buf)
          else
            ((buf.take plen :: (tcp_dissect_pdus_loop fl g fuel (buf.drop plen)).1,
              (tcp_dissect_pdus_loop fl g fuel (buf.drop plen)).2)) := rfl

/-- Fuel beyond the length of the buffer changes nothing. -/
theorem tcp_loop_fuel (fl : Nat) (g : tvbuff_t → Int → Option Nat) (f1 f2 : Nat)
    (buf : List guint8) (h1 : buf.length ≤ f1) (h2 : buf.length ≤ f2) :
    tcp_dissect_pdus_loop fl g f1 buf = tcp_dissect_pdus_loop fl g f2 buf := by
  induction f1 generalizing f2 buf with
  | zero =>
    have hnil : buf = [] := List.length_eq_zero.1 (Nat.le_zero.1 h1)
    subst hnil
    cases f2 with
    | zero => rfl
    | succ n =>
      rw [tcp_loop_zero, tcp_loop_succ]
      by_cases hfl : ([] : List guint8).length < fl
      · rw [if_pos hfl]
      · rw [if_neg hfl]
        cases hg : g [] 0 with
        | none => rfl
        | some plen =>
          simp only
          by_cases hp : plen = 0 ∨ plen < fl
          · rw [if_pos hp]
          · rw [if_neg hp, if_pos (by simp only [List.length_nil]; omega)]
  | succ n ih =>
    cases f2 with
    | zero =>
      have hnil : buf = [] := List.length_eq_zero.1 (Nat.le_zero.1 h2)
      subst hnil
      rw [tcp_loop_zero, tcp_loop_succ]
      by_cases hfl : ([] : List guint8).length < fl
      · rw [if_pos hfl]
      · rw [if_neg hfl]
        cases hg : g [] 0 with
        | none => rfl
        | some plen =>
          simp only
          by_cases hp : plen = 0 ∨ plen < fl
          · rw [if_pos hp]
          · rw [if_neg hp, if_pos (by simp only [List.length_nil]; omega)]
    | succ k =>
      rw [tcp_loop_succ, tcp_loop_succ]
      by_cases hfl : buf.length < fl
      · rw [if_pos hfl, if_pos hfl]
      · rw [if_neg hfl, if_neg hfl]
        cases hg : g buf 0 with
        | none => rfl
        | some plen =>
          simp only
          by_cases hp : plen = 0 ∨ plen < fl
          · rw [if_pos hp, if_pos hp]
          · rw [if_neg hp, if_neg hp]
            by_cases hl : buf.length < plen
            · rw [if_pos hl, if_pos hl]
            · rw [if_neg hl, if_neg hl]
              have hd : (buf.drop plen).length ≤ n := by
                simp only [List.length_drop]; omega
              have hd2 : (buf.drop plen).length ≤ k := by
                simp only [List.length_drop]; omega
              rw [ih k (buf.drop plen) hd hd2]

/-- One round of the loop on a buffer that starts with a complete message. -/
theorem tcp_dissect_pdus_step (fl : Nat) (g : tvbuff_t → Int → Option Nat)
    (buf : List guint8) (plen : Nat) (hfl : fl ≤ buf.length) (hg : g buf 0 = some plen)
    (hp : 0 < plen) (hpf : fl ≤ plen) (hl : plen ≤ buf.length) :
    tcp_dissect_pdus fl g buf =
      (buf.take plen :: (tcp_dissect_pdus fl g (buf.drop plen)).1,
       (tcp_dissect_pdus fl g (buf.drop plen)).2) := by
  unfold tcp_dissect_pdus
  obtain ⟨n, hn⟩ : ∃ n, buf.length = n + 1 := ⟨buf.length - 1, by omega⟩
  rw [hn, tcp_loop_succ, if_neg (by omega), hg]
  simp only
  rw [if_neg (by omega), if_neg (by omega)]
  rw [tcp_loop_fuel fl g n (buf.drop plen).length (buf.drop plen)
    (by simp only [List.length_drop]; omega) (Nat.le_refl _)]

/-- A buffer that does not start with a complete message is kept whole. -/
theorem tcp_dissect_pdus_stop (fl : Nat) (g : tvbuff_t → Int → Option Nat)
    (buf : List guint8)
    (h : buf.length < fl ∨ g buf 0 = none ∨
      ∃ plen, g buf 0 = some plen ∧ (plen = 0 ∨ plen < fl ∨ buf.length < plen)) :
    tcp_dissect_pdus fl g buf = ([], buf) := by
  unfold tcp_dissect_pdus
  cases hn : buf.length with
  | zero => rfl
  | succ n =>
    rw [tcp_loop_succ, hn]
    rw [hn] at h
    by_cases hfl : n + 1 < fl
    · rw [if_pos hfl]
    · rw [if_neg hfl]
      rcases h with h | h | ⟨plen, hg, hp⟩
      · exact absurd h hfl
      · rw [h]
      · rw [hg]
        simp only
        by_cases hp1 : plen = 0 ∨ plen < fl
        · rw [if_pos hp1]
        · rw [if_neg hp1]
          rcases hp with hp | hp | hp
          · exact absurd (Or.inl hp) hp1
          · exact absurd (Or.inr hp) hp1
          · rw [if_pos hp]

theorem tcp_dissect_pdus_cases (fl : Nat) (g : tvbuff_t → Int → Option Nat)
    (buf : List guint8) :
    (buf.length < fl ∨ g buf 0 = none ∨
      ∃ plen, g buf 0 = some plen ∧ (plen = 0 ∨ plen < fl ∨ buf.length < plen)) ∨
    ∃ plen, fl ≤ buf.length ∧ g buf 0 = some plen ∧ 0 < plen ∧ fl ≤ plen ∧
      plen ≤ buf.length := by
  by_cases hfl : buf.length < fl
  · exact Or.inl (Or.inl hfl)
  · cases hg : g buf 0 with
    | none => exact Or.inl (Or.inr (Or.inl rfl))
    | some plen =>
      by_cases hp : plen = 0 ∨ plen < fl ∨ buf.length < plen
      · exact Or.inl (Or.inr (Or.inr ⟨plen, rfl, hp⟩))
      · refine Or.inr ⟨plen, by omega, rfl, by omega, by omega, by omega⟩

/-- Bytes that arrive later do not change the messages found before: framing
`buf ++ more` is framing `buf` and then framing what was kept with `more`. -/
theorem tcp_dissect_pdus_append (fl : Nat) (g : tvbuff_t → Int → Option Nat)
    (hg : ∀ buf more : List guint8, fl ≤ buf.length → g (buf ++ more) 0 = g buf 0)
    (buf more : List guint8) :
    tcp_dissect_pdus fl g (buf ++ more) =
      ((tcp_dissect_pdus fl g buf).1 ++
         (tcp_dissect_pdus fl g ((tcp_dissect_pdus fl g buf).2 ++ more)).1,
       (tcp_dissect_pdus fl g ((tcp_dissect_pdus fl g buf).2 ++ more)).2) := by
  generalize hn : buf.length = n
  induction n using Nat.strong_induction_on generalizing buf with
  | _ n ih =>
    rcases tcp_dissect_pdus_cases fl g buf with hstop | ⟨plen, hfl, hgb, hp, hpf, hl⟩
    · rw [tcp_dissect_pdus_stop fl g buf hstop]
      simp
    · rw [tcp_dissect_pdus_step fl g buf plen hfl hgb hp hpf hl]
      have hstep := tcp_dissect_pdus_step fl g (buf ++ more) plen
        (by simp only [List.length_append]; omega) (by rw [hg buf more hfl]; exact hgb) hp hpf
        (by simp only [List.length_append]; omega)
      rw [hstep, List.take_append_of_le_length hl, List.drop_append_of_le_length hl]
      have hlt : (buf.drop plen).length < n := by
        simp only [List.length_drop]; omega
      rw [ih _ hlt (buf.drop plen) rfl]
      simp

/-- What the framer keeps holds no complete message. -/
theorem tcp_dissect_pdus_kept (fl : Nat) (g : tvbuff_t → Int → Option Nat)
    (hg : ∀ buf more : List guint8, fl ≤ buf.length → g (buf ++ more) 0 = g buf 0)
    (buf : List guint8) :
    tcp_dissect_pdus fl g (tcp_dissect_pdus fl g buf).2 = ([], (tcp_dissect_pdus fl g buf).2) := by
  have h := tcp_dissect_pdus_append fl g hg buf []
  simp only [List.append_nil] at h
  have h1 := congrArg Prod.fst h
  have h2 := congrArg Prod.snd h
  simp only at h1 h2
  have h1' : (tcp_dissect_pdus fl g (tcp_dissect_pdus fl g buf).2).1 = [] := by
    have := List.self_eq_append_right.1 h1
    exact this
  exact Prod.ext h1' h2.symm

theorem ntohl_append (buf more : List guint8) (h : 4 ≤ buf.length) :
    tvb_get_ntohl (buf ++ more) 0 = tvb_get_ntohl buf 0 := by
  unfold tvb_get_ntohl tvb_get_bytes tvb_abs_offset
  simp only [le_refl, if_true, Int.toNat_zero, Nat.zero_le, Nat.zero_add, List.drop_zero,
    List.length_append]
  rw [if_pos (by omega), if_pos h, List.take_append_of_le_length h]

theorem pdu_len_append (buf more : List guint8) (h : 4 ≤ buf.length) :
    get_kafka_pdu_len (buf ++ more) 0 = get_kafka_pdu_len buf 0 := by
  unfold get_kafka_pdu_len
  rw [ntohl_append buf more h]

/-- The stream in chunks is framed as the stream in one piece. -/
theorem dissect_kafka_stream_eq (chunks : List (List guint8)) (kept : List guint8)
    (hkept : dissect_kafka_tcp kept = ([], kept)) :
    dissect_kafka_stream kept chunks = dissect_kafka_tcp (kept ++ chunks.flatten) := by
  induction chunks generalizing kept with
  | nil => simp [dissect_kafka_stream, hkept]
  | cons c cs ih =>
    have hk : dissect_kafka_tcp (dissect_kafka_tcp (kept ++ c)).2 =
        ([], (dissect_kafka_tcp (kept ++ c)).2) :=
      tcp_dissect_pdus_kept 4 get_kafka_pdu_len pdu_len_append (kept ++ c)
    have happ : dissect_kafka_tcp (kept ++ c ++ cs.flatten) =
        ((dissect_kafka_tcp (kept ++ c)).1 ++
           (dissect_kafka_tcp ((dissect_kafka_tcp (kept ++ c)).2 ++ cs.flatten)).1,
         (dissect_kafka_tcp ((dissect_kafka_tcp (kept ++ c)).2 ++ cs.flatten)).2) :=
      tcp_dissect_pdus_append 4 get_kafka_pdu_len pdu_len_append (kept ++ c) cs.flatten
    simp only [dissect_kafka_stream, List.flatten_cons]
    rw [ih _ hk, ← List.append_assoc, happ]

theorem be_value_be32 (n : Nat) (h : n < 2 ^ 32) : be_value (be32 n) = n := by
  unfold be32
  rw [be_value_four]
  simp only [Fin.ofNat, Fin.val_mk]
  omega

theorem ntohl_frame (p rest : List guint8) (h : p.length < 2 ^ 32) :
    tvb_get_ntohl (frame_message p ++ rest) 0 = some p.length := by
  unfold tvb_get_ntohl tvb_get_bytes tvb_abs_offset frame_message
  simp only [le_refl, if_true, Int.toNat_zero, Nat.zero_le, Nat.zero_add, List.drop_zero]
  rw [if_pos (by simp [be32])]
  have : List.take 4 (be32 p.length ++ p ++ rest) = be32 p.length := by
    simp [be32]
  rw [this]
  simp [be_value_be32 p.length h]

/-- A stream of framed payloads in one piece yields the framed payloads. -/
theorem dissect_kafka_tcp_frame_stream (payloads : List (List guint8))
    (h : ∀ p ∈ payloads, p.length + 4 < 2 ^ 32) :
    dissect_kafka_tcp (frame_stream payloads) = (payloads.map frame_message, []) := by
  induction payloads with
  | nil => rfl
  | cons p ps ih =>
    have hp := h p (List.mem_cons_self _ _)
    have hlen : (frame_message p).length = 4 + p.length := by
      unfold frame_message be32
      rw [List.length_append]
      rfl
    have hs : frame_stream (p :: ps) = frame_message p ++ frame_stream ps := by
      simp [frame_stream]
    have hplen : get_kafka_pdu_len (frame_message p ++ frame_stream ps) 0 =
        some (4 + p.length) := by
      unfold get_kafka_pdu_len
      rw [ntohl_frame p _ (by omega)]
      simp only [Option.map_some', Option.some.injEq]
      omega
    unfold dissect_kafka_tcp at ih ⊢
    rw [hs, tcp_dissect_pdus_step 4 get_kafka_pdu_len _ (4 + p.length)
      (by simp only [List.length_append, hlen]; omega) hplen (by omega) (by omega)
      (by simp only [List.length_append, hlen]; omega)]
    rw [List.take_append_of_le_length (by omega), List.drop_append_of_le_length (by omega),
      ← hlen, List.take_length, List.drop_length, List.nil_append,
      ih (fun q hq => h q (List.mem_cons_of_mem _ hq))]
    simp

theorem huge_payload_length : huge_payload.length = 2 ^ 32 - 4 := by
  unfold huge_payload
  exact List.length_replicate _ _

/-- C9, as stated, fails: a payload of 2^32 - 4 bytes with its 4-byte length
prefix FF FF FF FC.  `get_kafka_pdu_len` computes the length 0 for it, and
the framer hands no message to `dissect_kafka`: it keeps the whole stream. -/
theorem framing_huge_payload :
    get_kafka_pdu_len (frame_stream [huge_payload]) 0 = some 0 ∧
    dissect_kafka_stream [] [frame_stream [huge_payload]] =
      ([], frame_stream [huge_payload]) := by
  have hs : frame_stream [huge_payload] = frame_message huge_payload ++ [] := by
    simp [frame_stream]
  have hlen : get_kafka_pdu_len (frame_stream [huge_payload]) 0 = some 0 := by
    unfold get_kafka_pdu_len
    rw [hs, ntohl_frame huge_payload [] (by rw [huge_payload_length]; decide),
      huge_payload_length]
    decide
  refine ⟨hlen, ?_⟩
  have hstop : dissect_kafka_tcp (frame_stream [huge_payload]) =
      ([], frame_stream [huge_payload]) :=
    tcp_dissect_pdus_stop 4 get_kafka_pdu_len _ (Or.inr (Or.inr ⟨0, hlen, Or.inl rfl⟩))
  simp only [dissect_kafka_stream, List.nil_append, hstop, List.append_nil]

/-- C9, amended. Round-trip framing: for every sequence of payloads of at most
2^32 - 5 bytes each, prefixed by their 4-byte big-endian lengths and
concatenated, and for every way of cutting that stream into consecutive
chunks, the framer hands `dissect_kafka` exactly the framed payloads, in
order and byte for byte, and keeps no byte. -/
theorem framing_round_trip (payloads chunks : List (List guint8))
    (hsize : ∀ p ∈ payloads, p.length + 4 < 2 ^ 32)
    (hchunks : chunks.flatten = frame_stream payloads) :
    dissect_kafka_stream [] chunks = (payloads.map frame_message, []) := by
  rw [dissect_kafka_stream_eq chunks [] rfl, List.nil_append, hchunks]
  exact dissect_kafka_tcp_frame_stream payloads hsize

/-- Witness of C9 (amended): two payloads, the stream cut inside the first
length prefix and inside the second one. -/
theorem framing_round_trip_witness :
    dissect_kafka_stream [] [[0, 0, 0], [2, 1, 2, 0, 0], [0, 1, 3]] =
      ([[1, 2], [3]].map frame_message, []) :=
  framing_round_trip [[1, 2], [3]] [[0, 0, 0], [2, 1, 2, 0, 0], [0, 1, 3]]
    (by decide) (by decide)

/-! ## Message sets: the claim -/

theorem looping_batch_message (lib : codec_lib)
    (message_set : tvbuff_t → Int → Nat → Nat → decoded kafka_position) :
    dissect_kafka_message lib message_set looping_batch 0 =
      .ok (0, [.ei_kafka_unknown_message_magic]) := by
  rfl

theorem looping_batch_loop (lib : codec_lib)
    (message_set : tvbuff_t → Int → Nat → Nat → decoded kafka_position) (n : Nat)
    (diags : List expert_info) :
    dissect_kafka_message_set_loop lib message_set looping_batch 17 n 0 diags =
      .out_of_fuel := by
  induction n generalizing diags with
  | zero => rfl
  | succ k ih =>
    unfold dissect_kafka_message_set_loop
    rw [if_pos (by decide), looping_batch_message]
    exact ih _

/-- C10. The claim fails on the code: on a batch of 17 bytes with message size
0xFFFFFFF4 and magic byte 3, `dissect_kafka_message` returns the position it
started at (0 + 12 + 0xFFFFFFF4 wraps to 0 in 32-bit arithmetic), for every
codec library, and the loop of `dissect_kafka_message_set` from offset 0 with
length 17 does not end: whatever the number of rounds allowed, they are used
up. -/
theorem message_set_does_not_terminate :
    (∀ lib message_set, dissect_kafka_message lib message_set looping_batch 0 =
      .ok (0, [.ei_kafka_unknown_message_magic])) ∧
    (∀ lib fuel, dissect_kafka_message_set lib fuel looping_batch 0 17 0 = .out_of_fuel) := by
  refine ⟨looping_batch_message, ?_⟩
  intro lib fuel
  cases fuel with
  | zero => rfl
  | succ k =>
    unfold dissect_kafka_message_set
    have h1 : to_gint32 ((0 : Int) + ((17 : Nat) : Int)) = 17 := by decide
    have h2 : proto_tree_add_subtree looping_batch 0 (-1) = true := by decide
    simp only [h1, h2, Bool.not_true, Bool.false_eq_true, if_false]
    exact looping_batch_loop lib _ _ _

/-! ## Machine arithmetic and bounds of the reads -/

theorem to_gint32_of_int (x : Int) (h1 : -2 ^ 31 ≤ x) (h2 : x < 2 ^ 31) : to_gint32 x = x := by
  unfold to_gint32
  norm_num at h1 h2 ⊢
  omega

theorem to_gint32_add (a b : Int) : to_gint32 (to_gint32 a + b) = to_gint32 (a + b) := by
  unfold to_gint32
  norm_num
  omega

theorem abs_offset_bounds (tvb : tvbuff_t) (o : Int) (a : Nat)
    (h : tvb_abs_offset tvb o = some a) :
    a ≤ tvb.length ∧ ((0 ≤ o ∧ (a : Int) = o) ∨ (o < 0 ∧ (a : Int) = tvb.length + o)) := by
  unfold tvb_abs_offset at h
  by_cases h0 : 0 ≤ o
  · rw [if_pos h0] at h
    by_cases h1 : o.toNat ≤ tvb.length
    · rw [if_pos h1] at h
      cases h
      exact ⟨h1, Or.inl ⟨h0, by omega⟩⟩
    · rw [if_neg h1] at h
      cases h
  · rw [if_neg h0] at h
    by_cases h1 : (-o).toNat ≤ tvb.length
    · rw [if_pos h1] at h
      cases h
      exact ⟨by omega, Or.inr ⟨by omega, by omega⟩⟩
    · rw [if_neg h1] at h
      cases h

/-- A read of `n` bytes that succeeds lies inside the buffer. -/
theorem get_bytes_bounds (tvb : tvbuff_t) (o : Int) (n : Nat) (bs : List guint8)
    (h : tvb_get_bytes tvb o n = some bs) :
    -(tvb.length : Int) ≤ o ∧ o + n ≤ tvb.length ∧ tvb_bytes_exist tvb o n = true := by
  unfold tvb_get_bytes at h
  unfold tvb_bytes_exist
  cases ha : tvb_abs_offset tvb o with
  | none => rw [ha] at h; cases h
  | some a =>
    rw [ha] at h
    have hb := abs_offset_bounds tvb o a ha
    by_cases h1 : a + n ≤ tvb.length
    · simp only [Int.natCast_nonneg, decide_True, Int.toNat_ofNat, h1, Bool.and_self, and_true]
      omega
    · simp only [h1, if_false] at h
      cases h

/-- An item of `l` bytes that passes the bounds test lies inside the buffer. -/
theorem item_bounds (tvb : tvbuff_t) (o l : Int) (hl : 0 ≤ l)
    (h : proto_tree_add_item tvb o l = true) :
    -(tvb.length : Int) ≤ o ∧ o + l ≤ tvb.length := by
  unfold proto_tree_add_item at h
  rw [if_neg (by omega)] at h
  unfold tvb_bytes_exist at h
  cases ha : tvb_abs_offset tvb o with
  | none => rw [ha] at h; cases h
  | some a =>
    rw [ha] at h
    have hb := abs_offset_bounds tvb o a ha
    simp only [Bool.and_eq_true, decide_eq_true_eq] at h
    omega

theorem item_of_exist (tvb : tvbuff_t) (o : Int) (n : Nat)
    (h : tvb_bytes_exist tvb o n = true) : proto_tree_add_item tvb o n = true := by
  unfold proto_tree_add_item
  rw [if_neg (by omega)]
  exact h

theorem guint8_bounds (tvb : tvbuff_t) (o : Int) (b : Nat) (h : tvb_get_guint8 tvb o = some b) :
    -(tvb.length : Int) ≤ o ∧ o + 1 ≤ tvb.length ∧ proto_tree_add_item tvb o 1 = true := by
  unfold tvb_get_guint8 at h
  obtain ⟨bs, hbs, _⟩ := Option.map_eq_some'.1 h
  have := get_bytes_bounds tvb o 1 bs hbs
  exact ⟨this.1, by simpa using this.2.1, item_of_exist tvb o 1 this.2.2⟩

theorem ntohs_bounds (tvb : tvbuff_t) (o : Int) (b : Nat) (h : tvb_get_ntohs tvb o = some b) :
    -(tvb.length : Int) ≤ o ∧ o + 2 ≤ tvb.length ∧ proto_tree_add_item tvb o 2 = true := by
  unfold tvb_get_ntohs at h
  obtain ⟨bs, hbs, _⟩ := Option.map_eq_some'.1 h
  have := get_bytes_bounds tvb o 2 bs hbs
  exact ⟨this.1, by simpa using this.2.1, item_of_exist tvb o 2 this.2.2⟩

theorem ntohl_bounds (tvb : tvbuff_t) (o : Int) (b : Nat) (h : tvb_get_ntohl tvb o = some b) :
    -(tvb.length : Int) ≤ o ∧ o + 4 ≤ tvb.length ∧ proto_tree_add_item tvb o 4 = true := by
  unfold tvb_get_ntohl at h
  obtain ⟨bs, hbs, _⟩ := Option.map_eq_some'.1 h
  have := get_bytes_bounds tvb o 4 bs hbs
  exact ⟨this.1, by simpa using this.2.1, item_of_exist tvb o 4 this.2.2⟩

/-- Inside the buffer every read and every item succeeds. -/
theorem exist_of_bounds (tvb : tvbuff_t) (o : Int) (n : Nat) (h0 : 0 ≤ o)
    (h : o + n ≤ tvb.length) : tvb_bytes_exist tvb o n = true := by
  unfold tvb_bytes_exist tvb_abs_offset
  rw [if_pos h0, if_pos (by omega)]
  simp only [Int.natCast_nonneg, decide_True, Int.toNat_ofNat, Bool.true_and, decide_eq_true_eq]
  omega

theorem get_bytes_of_bounds (tvb : tvbuff_t) (o : Int) (n : Nat) (h0 : 0 ≤ o)
    (h : o + n ≤ tvb.length) : ∃ bs, tvb_get_bytes tvb o n = some bs := by
  unfold tvb_get_bytes tvb_abs_offset
  rw [if_pos h0, if_pos (by omega)]
  simp only
  rw [if_pos (by omega)]
  exact ⟨_, rfl⟩

/-! ## The varint reader -/

/-- Where a byte can be read, a subtree "to the end of the buffer" can start. -/
theorem subtree_of_guint8 (tvb : tvbuff_t) (o : Int) (b : Nat)
    (h : tvb_get_guint8 tvb o = some b) : proto_tree_add_subtree tvb o (-1) = true := by
  unfold tvb_get_guint8 tvb_get_bytes at h
  unfold proto_tree_add_subtree proto_tree_add_item tvb_ensure_captured_length_remaining
  rw [if_pos rfl]
  cases ha : tvb_abs_offset tvb o with
  | none => rw [ha] at h; cases h
  | some a =>
    rw [ha] at h
    by_cases h1 : a + 1 ≤ tvb.length
    · have h2 : ¬ tvb.length = 0 := by omega
      have h3 : ¬ tvb.length - a = 0 := by omega
      simp [h2, h3]
    · simp only [h1, if_false, Option.map_none'] at h
      cases h

/-- The bytes that `tvb_get_varint` has looked at could all be read: `w` bytes
for a varint of width `w`, all `n` bytes for a varint that does not end. -/
theorem varint_loop_reads (tvb : tvbuff_t) (offset : Int) (n : Nat) :
    ∀ (i value w v : Nat), tvb_get_varint_loop tvb offset n i value = some (w, v) →
      (w = 0 ∨ (i < w ∧ w ≤ i + n)) ∧
      ∀ j, i ≤ j → j < (if w = 0 then i + n else w) →
        ∃ b, tvb_get_guint8 tvb (to_gint32 (offset + j)) = some b := by
  induction n with
  | zero =>
    intro i value w v h
    simp only [tvb_get_varint_loop, Option.some.injEq, Prod.mk.injEq] at h
    obtain ⟨rfl, _⟩ := h
    refine ⟨Or.inl rfl, ?_⟩
    intro j h1 h2
    simp only [if_true] at h2
    omega
  | succ n ih =>
    intro i value w v h
    rw [tvb_get_varint_loop] at h
    cases hb : tvb_get_guint8 tvb (to_gint32 (offset + i)) with
    | none => rw [hb] at h; cases h
    | some b =>
      rw [hb] at h
      simp only at h
      by_cases hlt : b < 0x80
      · rw [if_pos hlt] at h
        simp only [Option.some.injEq, Prod.mk.injEq] at h
        obtain ⟨rfl, _⟩ := h
        refine ⟨Or.inr ⟨by omega, by omega⟩, ?_⟩
        intro j h1 h2
        rw [if_neg (by omega)] at h2
        have : j = i := by omega
        subst this
        exact ⟨b, hb⟩
      · rw [if_neg hlt] at h
        obtain ⟨h1, h2⟩ := ih (i + 1) _ w v h
        refine ⟨?_, ?_⟩
        · rcases h1 with h1 | h1
          · exact Or.inl h1
          · exact Or.inr ⟨by omega, by omega⟩
        · intro j hj1 hj2
          by_cases hji : j = i
          · subst hji
            exact ⟨b, hb⟩
          · apply h2 j (by omega)
            by_cases hw : w = 0
            · rw [if_pos hw] at hj2 ⊢
              omega
            · rw [if_neg hw] at hj2 ⊢
              exact hj2

/-- Bytes read one after the other from a position that is a C `int` lie in
the buffer, and so does the position after them. -/
theorem reads_span (tvb : tvbuff_t) (offset : Int) (hlen : tvb.length < 2 ^ 31)
    (h1 : -2 ^ 31 ≤ offset) (h2 : offset < 2 ^ 31) (k : Nat)
    (h : ∀ j, j < k + 1 → ∃ b, tvb_get_guint8 tvb (to_gint32 (offset + j)) = some b) :
    -(tvb.length : Int) ≤ offset ∧ offset + (k + 1 : Nat) ≤ tvb.length := by
  have hlen' : (tvb.length : Int) < 2 ^ 31 := by exact_mod_cast hlen
  induction k with
  | zero =>
    obtain ⟨b, hb⟩ := h 0 (by omega)
    have e : to_gint32 (offset + (0 : Nat)) = offset := by
      simp only [Nat.cast_zero, add_zero]
      exact to_gint32_of_int _ h1 h2
    rw [e] at hb
    obtain ⟨b1, b2, _⟩ := guint8_bounds tvb offset b hb
    exact ⟨b1, by simpa using b2⟩
  | succ k ih =>
    obtain ⟨i1, i2⟩ := ih (fun j hj => h j (by omega))
    obtain ⟨b, hb⟩ := h (k + 1) (by omega)
    have e : to_gint32 (offset + (k + 1 : Nat)) = offset + (k + 1 : Nat) :=
      to_gint32_of_int _ (by norm_num at h1 ⊢; omega) (by norm_num at hlen' ⊢; omega)
    rw [e] at hb
    obtain ⟨_, b2, _⟩ := guint8_bounds tvb _ b hb
    exact ⟨i1, by push_cast at b2 ⊢; omega⟩

/-- A varint of width `w` that was read at a position `offset` lies in the
buffer; its width is at most `maxlen`, and a subtree can start at `offset`. -/
theorem varint_span (tvb : tvbuff_t) (offset : Int) (maxlen w v : Nat)
    (hlen : tvb.length < 2 ^ 31) (h1 : -2 ^ 31 ≤ offset) (h2 : offset < 2 ^ 31)
    (h : tvb_get_varint tvb offset maxlen = some (w, v)) (hw : w ≠ 0) :
    w ≤ maxlen ∧ w ≤ FT_VARINT_MAX_LEN ∧ -(tvb.length : Int) ≤ offset ∧
    offset + w ≤ tvb.length ∧ to_gint32 (offset + w) = offset + w ∧
    proto_tree_add_subtree tvb offset (-1) = true := by
  unfold tvb_get_varint at h
  obtain ⟨a1, a2⟩ := varint_loop_reads tvb offset _ 0 0 w v h
  rcases a1 with a1 | a1
  · exact absurd a1 hw
  rw [if_neg hw] at a2
  obtain ⟨k, rfl⟩ : ∃ k, w = k + 1 := ⟨w - 1, by omega⟩
  obtain ⟨s1, s2⟩ := reads_span tvb offset hlen h1 h2 k (fun j hj => a2 j (by omega) hj)
  have hlen' : (tvb.length : Int) < 2 ^ 31 := by exact_mod_cast hlen
  obtain ⟨b, hb⟩ := a2 0 (by omega) (by omega)
  have e : to_gint32 (offset + (0 : Nat)) = offset := by
    simp only [Nat.cast_zero, add_zero]
    exact to_gint32_of_int _ h1 h2
  rw [e] at hb
  have hmin := a1.2
  refine ⟨?_, ?_, s1, s2, ?_, subtree_of_guint8 tvb offset b hb⟩
  · have := Nat.min_le_right FT_VARINT_MAX_LEN maxlen
    omega
  · have := Nat.min_le_left FT_VARINT_MAX_LEN maxlen
    omega
  · exact to_gint32_of_int _ (by norm_num at h1 ⊢; omega) (by norm_num at hlen' ⊢; omega)

/-- A varint that does not end within `maxlen` bytes (`maxlen` at most 10, at
least 1): all `maxlen` bytes lie in the buffer. -/
theorem varint_span_zero (tvb : tvbuff_t) (offset : Int) (maxlen v : Nat)
    (hlen : tvb.length < 2 ^ 31) (h1 : -2 ^ 31 ≤ offset) (h2 : offset < 2 ^ 31)
    (hm : 1 ≤ maxlen) (hm' : maxlen ≤ FT_VARINT_MAX_LEN)
    (h : tvb_get_varint tvb offset maxlen = some (0, v)) :
    -(tvb.length : Int) ≤ offset ∧ offset + maxlen ≤ tvb.length ∧
    to_gint32 (offset + maxlen) = offset + maxlen ∧
    proto_tree_add_subtree tvb offset (-1) = true := by
  unfold tvb_get_varint at h
  rw [Nat.min_eq_right hm'] at h
  obtain ⟨_, a2⟩ := varint_loop_reads tvb offset _ 0 0 0 v h
  rw [if_pos rfl] at a2
  obtain ⟨k, rfl⟩ : ∃ k, maxlen = k + 1 := ⟨maxlen - 1, by omega⟩
  obtain ⟨s1, s2⟩ := reads_span tvb offset hlen h1 h2 k (fun j hj => a2 j (by omega) (by omega))
  have hlen' : (tvb.length : Int) < 2 ^ 31 := by exact_mod_cast hlen
  obtain ⟨b, hb⟩ := a2 0 (by omega) (by omega)
  have e : to_gint32 (offset + (0 : Nat)) = offset := by
    simp only [Nat.cast_zero, add_zero]
    exact to_gint32_of_int _ h1 h2
  rw [e] at hb
  exact ⟨s1, s2, to_gint32_of_int _ (by norm_num at h1 ⊢; omega)
    (by norm_num at hlen' ⊢; omega), subtree_of_guint8 tvb offset b hb⟩

/-! ## The legacy length-prefixed readers -/

theorem dissect_kafka_string_unfold (tvb : tvbuff_t) (offset : Int) (l : Nat)
    (hlen : tvb.length < 2 ^ 31) (h : tvb_get_ntohs tvb offset = some l) :
    dissect_kafka_string tvb offset =
      if to_gint16 l < -1 then
        some { offset := offset + 2, value_offset := offset + 2, value_len := to_gint16 l,
               bad_length := true }
      else if to_gint16 l = -1 then
        some { offset := offset + 2, value_offset := offset + 2, value_len := to_gint16 l,
               bad_length := false }
      else if proto_tree_add_item tvb (offset + 2) (to_gint16 l) then
        some { offset := offset + 2 + to_gint16 l, value_offset := offset + 2,
               value_len := to_gint16 l, bad_length := false }
      else none := by
  obtain ⟨h1, h2, h3⟩ := ntohs_bounds tvb offset l h
  have hlen' : (tvb.length : Int) < 2 ^ 31 := by exact_mod_cast hlen
  have e2 : to_gint32 (offset + 2) = offset + 2 :=
    to_gint32_of_int _ (by norm_num at hlen' ⊢; omega) (by norm_num at hlen' ⊢; omega)
  unfold dissect_kafka_string
  simp only [h, h3, e2, Bool.not_true, Bool.false_eq_true, if_false]
  by_cases c1 : to_gint16 l < -1
  · simp only [c1, if_true]
  · simp only [c1, if_false]
    by_cases c2 : to_gint16 l = -1
    · simp only [c2, if_true]
    · simp only [c2, if_false]
      rcases bool_cases (proto_tree_add_item tvb (offset + 2) (to_gint16 l)) with c3 | c3
      · obtain ⟨b1, b2⟩ := item_bounds tvb (offset + 2) (to_gint16 l) (by omega) c3
        have e3 : to_gint32 (offset + 2 + to_gint16 l) = offset + 2 + to_gint16 l :=
          to_gint32_of_int _ (by norm_num at hlen' ⊢; omega) (by norm_num at hlen' ⊢; omega)
        simp only [c3, e3, Bool.not_true, Bool.false_eq_true, if_false, if_true]
      · simp only [c3, Bool.not_false, if_true, Bool.false_eq_true, if_false]

theorem dissect_kafka_bytes_unfold (tvb : tvbuff_t) (offset : Int) (l : Nat)
    (hlen : tvb.length < 2 ^ 31) (h : tvb_get_ntohl tvb offset = some l) :
    dissect_kafka_bytes tvb offset =
      if to_gint32 l < -1 then
        some { offset := offset + 4, value_offset := offset + 4, value_len := to_gint32 l,
               bad_length := true }
      else if to_gint32 l = -1 then
        some { offset := offset + 4, value_offset := offset + 4, value_len := to_gint32 l,
               bad_length := false }
      else if proto_tree_add_item tvb (offset + 4) (to_gint32 l) then
        some { offset := offset + 4 + to_gint32 l, value_offset := offset + 4,
               value_len := to_gint32 l, bad_length := false }
      else none := by
  obtain ⟨h1, h2, h3⟩ := ntohl_bounds tvb offset l h
  have hlen' : (tvb.length : Int) < 2 ^ 31 := by exact_mod_cast hlen
  have e2 : to_gint32 (offset + 4) = offset + 4 :=
    to_gint32_of_int _ (by norm_num at hlen' ⊢; omega) (by norm_num at hlen' ⊢; omega)
  unfold dissect_kafka_bytes
  simp only [h, h3, e2, Bool.not_true, Bool.false_eq_true, if_false]
  by_cases c1 : to_gint32 l < -1
  · simp only [c1, if_true]
  · simp only [c1, if_false]
    by_cases c2 : to_gint32 l = -1
    · simp only [c2, if_true]
    · simp only [c2, if_false]
      rcases bool_cases (proto_tree_add_item tvb (offset + 4) (to_gint32 l)) with c3 | c3
      · obtain ⟨b1, b2⟩ := item_bounds tvb (offset + 4) (to_gint32 l) (by omega) c3
        have e3 : to_gint32 (offset + 4 + to_gint32 l) = offset + 4 + to_gint32 l :=
          to_gint32_of_int _ (by norm_num at hlen' ⊢; omega) (by norm_num at hlen' ⊢; omega)
        simp only [c3, e3, Bool.not_true, Bool.false_eq_true, if_false, if_true]
      · simp only [c3, Bool.not_false, if_true, Bool.false_eq_true, if_false]

/-- C16, counterexample. A legacy string that declares L = 5 payload bytes in a
buffer that ends after the length field: `dissect_kafka_string` consumes no
payload and returns no position, it ends with the bounds exception; so does
`dissect_kafka_bytes` on a 4-byte length of 5. -/
theorem legacy_reader_truncated :
    tvb_get_ntohs truncated_string 0 = some 5 ∧ to_gint16 5 = 5 ∧
    dissect_kafka_string truncated_string 0 = none ∧
    tvb_get_ntohl [0, 0, 0, 5] 0 = some 5 ∧ to_gint32 5 = 5 ∧
    dissect_kafka_bytes [0, 0, 0, 5] 0 = none := by
  decide

/-- C16, amended. `dissect_kafka_string` (signed 16-bit length L) and
`dissect_kafka_bytes` (signed 32-bit length L) obey the same contract on every
buffer in which the length field can be read: the reported payload start is
the position right after the length field and the reported length is L; for
L = -1 the value is null and the returned position is right after the length
field; for L < -1 the bad-length diagnostic is reported and the returned
position is right after the length field; for L >= 0 with the L payload bytes
in the buffer exactly L bytes are consumed and the returned position is (after
the length field) + L; for L >= 0 with payload bytes missing the reader ends
with the bounds exception. -/
theorem legacy_reader_contract (tvb : tvbuff_t) (offset : Int) (ls ll : Nat)
    (hlen : tvb.length < 2 ^ 31) :
    (tvb_get_ntohs tvb offset = some ls →
      (to_gint16 ls = -1 → dissect_kafka_string tvb offset =
        some { offset := offset + 2, value_offset := offset + 2, value_len := -1,
               bad_length := false }) ∧
      (to_gint16 ls < -1 → dissect_kafka_string tvb offset =
        some { offset := offset + 2, value_offset := offset + 2, value_len := to_gint16 ls,
               bad_length := true }) ∧
      (0 ≤ to_gint16 ls → tvb_bytes_exist tvb (offset + 2) (to_gint16 ls) = true →
        dissect_kafka_string tvb offset =
          some { offset := offset + 2 + to_gint16 ls, value_offset := offset + 2,
                 value_len := to_gint16 ls, bad_length := false }) ∧
      (0 ≤ to_gint16 ls → tvb_bytes_exist tvb (offset + 2) (to_gint16 ls) = false →
        dissect_kafka_string tvb offset = none)) ∧
    (tvb_get_ntohl tvb offset = some ll →
      (to_gint32 ll = -1 → dissect_kafka_bytes tvb offset =
        some { offset := offset + 4, value_offset := offset + 4, value_len := -1,
               bad_length := false }) ∧
      (to_gint32 ll < -1 → dissect_kafka_bytes tvb offset =
        some { offset := offset + 4, value_offset := offset + 4, value_len := to_gint32 ll,
               bad_length := true }) ∧
      (0 ≤ to_gint32 ll → tvb_bytes_exist tvb (offset + 4) (to_gint32 ll) = true →
        dissect_kafka_bytes tvb offset =
          some { offset := offset + 4 + to_gint32 ll, value_offset := offset + 4,
                 value_len := to_gint32 ll, bad_length := false }) ∧
      (0 ≤ to_gint32 ll → tvb_bytes_exist tvb (offset + 4) (to_gint32 ll) = false →
        dissect_kafka_bytes tvb offset = none)) := by
  constructor
  · intro h
    rw [dissect_kafka_string_unfold tvb offset ls hlen h]
    refine ⟨?_, ?_, ?_, ?_⟩
    · intro c
      rw [if_neg (by omega), if_pos c, c]
    · intro c
      rw [if_pos c]
    · intro c e
      have e' : proto_tree_add_item tvb (offset + 2) (to_gint16 ls) = true := by
        unfold proto_tree_add_item
        rw [if_neg (by omega)]
        exact e
      rw [if_neg (by omega), if_neg (by omega), e']
      rfl
    · intro c e
      have e' : proto_tree_add_item tvb (offset + 2) (to_gint16 ls) = false := by
        unfold proto_tree_add_item
        rw [if_neg (by omega)]
        exact e
      rw [if_neg (by omega), if_neg (by omega), e']
      rfl
  · intro h
    rw [dissect_kafka_bytes_unfold tvb offset ll hlen h]
    refine ⟨?_, ?_, ?_, ?_⟩
    · intro c
      rw [if_neg (by omega), if_pos c, c]
    · intro c
      rw [if_pos c]
    · intro c e
      have e' : proto_tree_add_item tvb (offset + 4) (to_gint32 ll) = true := by
        unfold proto_tree_add_item
        rw [if_neg (by omega)]
        exact e
      rw [if_neg (by omega), if_neg (by omega), e']
      rfl
    · intro c e
      have e' : proto_tree_add_item tvb (offset + 4) (to_gint32 ll) = false := by
        unfold proto_tree_add_item
        rw [if_neg (by omega)]
        exact e
      rw [if_neg (by omega), if_neg (by omega), e']
      rfl

/-- Witness of C16 (amended): the string "A" with its 16-bit length 1, and a
null value with its 32-bit length -1. -/
theorem legacy_reader_contract_witness :
    dissect_kafka_string [0, 1, 0x41, 0xFF] 0 =
      some { offset := 0 + 2 + to_gint16 1, value_offset := 0 + 2, value_len := to_gint16 1,
             bad_length := false } ∧
    dissect_kafka_bytes [0xFF, 0xFF, 0xFF, 0xFF] 0 =
      some { offset := 0 + 4, value_offset := 0 + 4, value_len := -1, bad_length := false } :=
  ⟨((legacy_reader_contract [0, 1, 0x41, 0xFF] 0 1 0 (by decide)).1 (by decide)).2.2.1
      (by decide) (by decide),
   ((legacy_reader_contract [0xFF, 0xFF, 0xFF, 0xFF] 0 0 (2 ^ 32 - 1) (by decide)).2
      (by decide)).1 (by decide)⟩

/-! ## The compact (varint length) readers -/

/-- The compact reader on a varint of width `w`, with exact positions. -/
theorem dissect_kafka_compact_unfold (bad : expert_info) (tvb : tvbuff_t) (offset : Int)
    (w v : Nat) (hlen : tvb.length < 2 ^ 31) (h1 : -2 ^ 31 ≤ offset) (h2 : offset < 2 ^ 31)
    (h : tvb_get_varint tvb offset 5 = some (w, v)) (hw : w ≠ 0) :
    dissect_kafka_compact bad tvb offset =
      if to_gint64 v > 0 then
        if !proto_tree_add_item tvb (offset + w) (to_gint32 (to_gint64 v)) then none
        else
          some { offset := to_gint32 (offset + w + to_gint32 (to_gint64 v)),
                 value_offset := offset + w, value_len := to_gint32 (to_gint64 v),
                 shown := .value, diags := [] }
      else if to_gint64 v = 0 then
        some { offset := offset + w, value_offset := offset + w, value_len := 0,
               shown := .empty, diags := [] }
      else if to_gint64 v = -1 then
        some { offset := offset + w, value_offset := offset + w, value_len := 0,
               shown := .null, diags := [] }
      else
        some { offset := offset + w, value_offset := offset + w, value_len := 0,
               shown := .invalid, diags := [bad] } := by
  obtain ⟨_, _, _, _, e, _⟩ := varint_span tvb offset 5 w v hlen h1 h2 h hw
  unfold dissect_kafka_compact
  simp only [h, hw, if_false, add_zero, e]

/-- The compact reader on a value that is present, with its bytes in the
buffer. -/
theorem dissect_kafka_compact_value (bad : expert_info) (tvb : tvbuff_t) (offset : Int)
    (w v : Nat) (hlen : tvb.length < 2 ^ 31) (h1 : -2 ^ 31 ≤ offset) (h2 : offset < 2 ^ 31)
    (h : tvb_get_varint tvb offset 5 = some (w, v)) (hw : w ≠ 0)
    (hp : 0 < to_gint64 v) (hi : to_gint64 v < 2 ^ 31)
    (he : tvb_bytes_exist tvb (offset + w) (to_gint64 v) = true) :
    dissect_kafka_compact bad tvb offset =
      some { offset := offset + w + to_gint64 v, value_offset := offset + w,
             value_len := to_gint64 v, shown := .value, diags := [] } := by
  rw [dissect_kafka_compact_unfold bad tvb offset w v hlen h1 h2 h hw, if_pos hp]
  have e1 : to_gint32 (to_gint64 v) = to_gint64 v :=
    to_gint32_of_int _ (by norm_num; omega) hi
  have e2 : proto_tree_add_item tvb (offset + w) (to_gint64 v) = true := by
    unfold proto_tree_add_item
    rw [if_neg (by omega)]
    exact he
  obtain ⟨b1, b2⟩ := item_bounds tvb _ _ (by omega) e2
  have hlen' : (tvb.length : Int) < 2 ^ 31 := by exact_mod_cast hlen
  have e3 : to_gint32 (offset + w + to_gint64 v) = offset + w + to_gint64 v :=
    to_gint32_of_int _ (by norm_num at h1 ⊢; omega) (by norm_num at hlen' ⊢; omega)
  simp only [e1, e2, e3, Bool.not_true, Bool.false_eq_true, if_false]

/-- The compact reader on a length that is not positive. -/
theorem dissect_kafka_compact_absent (bad : expert_info) (tvb : tvbuff_t) (offset : Int)
    (w v : Nat) (hlen : tvb.length < 2 ^ 31) (h1 : -2 ^ 31 ≤ offset) (h2 : offset < 2 ^ 31)
    (h : tvb_get_varint tvb offset 5 = some (w, v)) (hw : w ≠ 0) (hn : to_gint64 v ≤ 0) :
    dissect_kafka_compact bad tvb offset =
      some { offset := offset + w, value_offset := offset + w, value_len := 0,
             shown := if to_gint64 v = 0 then .empty
                      else if to_gint64 v = -1 then .null else .invalid,
             diags := if to_gint64 v < -1 then [bad] else [] } := by
  rw [dissect_kafka_compact_unfold bad tvb offset w v hlen h1 h2 h hw, if_neg (by omega)]
  by_cases c1 : to_gint64 v = 0
  · rw [if_pos c1, if_pos c1, if_neg (by omega)]
  · rw [if_neg c1, if_neg c1]
    by_cases c2 : to_gint64 v = -1
    · rw [if_pos c2, if_pos c2, if_neg (by omega)]
    · rw [if_neg c2, if_neg c2, if_pos (by omega)]

/-- C17, counterexample. A compact string whose varint (width 5) decodes to
N = 2^32 - 1: the reader takes N as the 32-bit number -1, reports the length
-1 and returns offset + 5 - 1.  And a compact string with N = 3 in a buffer
that ends after the varint: the reader ends with the bounds exception. -/
theorem compact_reader_wide_length :
    tvb_get_varint wide_compact 0 5 = some (5, 2 ^ 32 - 1) ∧
    to_gint64 (2 ^ 32 - 1 : Nat) = 4294967295 ∧
    dissect_kafka_string_new wide_compact 0 =
      some { offset := 4, value_offset := 5, value_len := -1, shown := .value, diags := [] } ∧
    tvb_get_varint truncated_compact 0 5 = some (1, 3) ∧
    dissect_kafka_string_new truncated_compact 0 = none := by
  decide

/-- C17, amended. For every input on which the zig-zag varint at the cursor
(a C `int` position in a buffer shorter than 2^31 bytes) decodes with width w
to the value N, `dissect_kafka_string_new` and `dissect_kafka_bytes_new`
report the payload start offset + w and: for 0 < N < 2^31 with the N payload
bytes in the buffer they consume N bytes (reported length N, returned position
offset + w + N); for N = 0 the value is empty and present (length 0, position
offset + w); for N = -1 it is null (length 0, position offset + w); for
N < -1 the bad-length diagnostic is reported and the value has length zero
(position offset + w). -/
theorem compact_reader_contract (tvb : tvbuff_t) (offset : Int) (w v : Nat)
    (hlen : tvb.length < 2 ^ 31) (h1 : -2 ^ 31 ≤ offset) (h2 : offset < 2 ^ 31)
    (h : tvb_get_varint tvb offset 5 = some (w, v)) (hw : w ≠ 0) :
    (0 < to_gint64 v → to_gint64 v < 2 ^ 31 →
      tvb_bytes_exist tvb (offset + w) (to_gint64 v) = true →
      dissect_kafka_string_new tvb offset =
        some { offset := offset + w + to_gint64 v, value_offset := offset + w,
               value_len := to_gint64 v, shown := .value, diags := [] } ∧
      dissect_kafka_bytes_new tvb offset =
        some { offset := offset + w + to_gint64 v, value_offset := offset + w,
               value_len := to_gint64 v, shown := .value, diags := [] }) ∧
    (to_gint64 v = 0 →
      dissect_kafka_string_new tvb offset =
        some { offset := offset + w, value_offset := offset + w, value_len := 0,
               shown := .empty, diags := [] } ∧
      dissect_kafka_bytes_new tvb offset =
        some { offset := offset + w, value_offset := offset + w, value_len := 0,
               shown := .empty, diags := [] }) ∧
    (to_gint64 v = -1 →
      dissect_kafka_string_new tvb offset =
        some { offset := offset + w, value_offset := offset + w, value_len := 0,
               shown := .null, diags := [] } ∧
      dissect_kafka_bytes_new tvb offset =
        some { offset := offset + w, value_offset := offset + w, value_len := 0,
               shown := .null, diags := [] }) ∧
    (to_gint64 v < -1 →
      dissect_kafka_string_new tvb offset =
        some { offset := offset + w, value_offset := offset + w, value_len := 0,
               shown := .invalid, diags := [.ei_kafka_bad_string_length] } ∧
      dissect_kafka_bytes_new tvb offset =
        some { offset := offset + w, value_offset := offset + w, value_len := 0,
               shown := .invalid, diags := [.ei_kafka_bad_bytes_length] }) := by
  unfold dissect_kafka_string_new dissect_kafka_bytes_new
  refine ⟨?_, ?_, ?_, ?_⟩
  · intro hp hi he
    exact ⟨dissect_kafka_compact_value _ tvb offset w v hlen h1 h2 h hw hp hi he,
      dissect_kafka_compact_value _ tvb offset w v hlen h1 h2 h hw hp hi he⟩
  · intro c
    rw [dissect_kafka_compact_absent _ tvb offset w v hlen h1 h2 h hw (by omega),
      dissect_kafka_compact_absent _ tvb offset w v hlen h1 h2 h hw (by omega)]
    simp [c]
  · intro c
    rw [dissect_kafka_compact_absent _ tvb offset w v hlen h1 h2 h hw (by omega),
      dissect_kafka_compact_absent _ tvb offset w v hlen h1 h2 h hw (by omega)]
    simp [c]
  · intro c
    have c1 : ¬ to_gint64 v = 0 := by omega
    have c2 : ¬ to_gint64 v = -1 := by omega
    rw [dissect_kafka_compact_absent _ tvb offset w v hlen h1 h2 h hw (by omega),
      dissect_kafka_compact_absent _ tvb offset w v hlen h1 h2 h hw (by omega)]
    simp only [c, c1, c2, if_false, if_true, and_self]

/-- Witness of C17 (amended): the compact value "AB" (varint 0x04, N = 2). -/
theorem compact_reader_contract_witness :
    dissect_kafka_string_new [0x04, 0x41, 0x42] 0 =
      some { offset := 0 + (1 : Nat) + to_gint64 (2 : Nat), value_offset := 0 + (1 : Nat),
             value_len := to_gint64 (2 : Nat), shown := .value, diags := [] } ∧
    dissect_kafka_bytes_new [0x04, 0x41, 0x42] 0 =
      some { offset := 0 + (1 : Nat) + to_gint64 (2 : Nat), value_offset := 0 + (1 : Nat),
             value_len := to_gint64 (2 : Nat), shown := .value, diags := [] } :=
  (compact_reader_contract [0x04, 0x41, 0x42] 0 1 2 (by decide) (by decide) (by decide)
    (by decide) (by decide)).1 (by decide) (by decide) (by decide)

/-! ## Null, empty and malformed compact values -/

/-- A varint of one byte. -/
theorem varint_one_byte (tvb : tvbuff_t) (offset : Int) (b : Nat) (hlen : tvb.length < 2 ^ 31)
    (h : tvb_get_guint8 tvb offset = some b) (hb : b < 0x80) :
    tvb_get_varint tvb offset 5 =
      some (1, unzigzag ((0 ||| ((b &&& 0x7F) <<< (0 * 7))) % 2 ^ 64)) := by
  obtain ⟨b1, b2, _⟩ := guint8_bounds tvb offset b h
  have hlen' : (tvb.length : Int) < 2 ^ 31 := by exact_mod_cast hlen
  have e : to_gint32 offset = offset :=
    to_gint32_of_int _ (by norm_num at hlen' ⊢; omega) (by norm_num at hlen' ⊢; omega)
  have hm : min FT_VARINT_MAX_LEN 5 = 4 + 1 := by decide
  unfold tvb_get_varint
  rw [hm, tvb_get_varint_loop]
  simp only [Nat.cast_zero, add_zero, e, h]
  rw [if_pos hb]

/-- C18. Null versus empty: on the one-byte varint 0x01 (zig-zag -1)
`dissect_kafka_string_new` yields a null string, on the one-byte varint 0x00
(zig-zag 0) an empty, present string; the two results differ, and both return
offset + 1. -/
theorem null_versus_empty_string (tvb : tvbuff_t) (offset : Int)
    (hlen : tvb.length < 2 ^ 31) :
    (tvb_get_guint8 tvb offset = some 0x01 →
      dissect_kafka_string_new tvb offset =
        some { offset := offset + 1, value_offset := offset + 1, value_len := 0,
               shown := .null, diags := [] }) ∧
    (tvb_get_guint8 tvb offset = some 0x00 →
      dissect_kafka_string_new tvb offset =
        some { offset := offset + 1, value_offset := offset + 1, value_len := 0,
               shown := .empty, diags := [] }) ∧
    ({ offset := offset + 1, value_offset := offset + 1, value_len := 0,
       shown := .null, diags := [] } : kafka_compact_field) ≠
      { offset := offset + 1, value_offset := offset + 1, value_len := 0,
        shown := .empty, diags := [] } := by
  have hlen' : (tvb.length : Int) < 2 ^ 31 := by exact_mod_cast hlen
  refine ⟨?_, ?_, ?_⟩
  · intro h
    obtain ⟨b1, b2, _⟩ := guint8_bounds tvb offset _ h
    have hv := varint_one_byte tvb offset 1 hlen h (by decide)
    have hz : unzigzag ((0 ||| ((1 &&& 0x7F) <<< (0 * 7))) % 2 ^ 64) = 2 ^ 64 - 1 := by decide
    rw [hz] at hv
    have hn : to_gint64 ((2 ^ 64 - 1 : Nat) : Int) = -1 := by decide
    unfold dissect_kafka_string_new
    rw [dissect_kafka_compact_absent _ tvb offset 1 _ hlen (by norm_num at hlen' ⊢; omega)
      (by norm_num at hlen' ⊢; omega) hv (by decide) (by rw [hn]; decide), hn]
    simp
  · intro h
    obtain ⟨b1, b2, _⟩ := guint8_bounds tvb offset _ h
    have hv := varint_one_byte tvb offset 0 hlen h (by decide)
    have hz : unzigzag ((0 ||| ((0 &&& 0x7F) <<< (0 * 7))) % 2 ^ 64) = 0 := by decide
    rw [hz] at hv
    have hn : to_gint64 ((0 : Nat) : Int) = 0 := by decide
    unfold dissect_kafka_string_new
    rw [dissect_kafka_compact_absent _ tvb offset 1 _ hlen (by norm_num at hlen' ⊢; omega)
      (by norm_num at hlen' ⊢; omega) hv (by decide) (by rw [hn]), hn]
    simp
  · intro h
    cases h

/-- Witness of C18: the two one-byte buffers. -/
theorem null_versus_empty_string_witness :
    dissect_kafka_string_new [0x01] 0 =
      some { offset := 0 + 1, value_offset := 0 + 1, value_len := 0, shown := .null,
             diags := [] } ∧
    dissect_kafka_string_new [0x00] 0 =
      some { offset := 0 + 1, value_offset := 0 + 1, value_len := 0, shown := .empty,
             diags := [] } :=
  ⟨(null_versus_empty_string [0x01] 0 (by decide)).1 (by decide),
   (null_versus_empty_string [0x00] 0 (by decide)).2.1 (by decide)⟩

/-- C19. A varint that cannot be decoded (the varint decoder reports 0 bytes
consumed): `dissect_kafka_string_new` and `dissect_kafka_bytes_new` report the
bad-varint diagnostic and no other, a payload of length 0, and return exactly
offset + 5. -/
theorem malformed_varint_compact (tvb : tvbuff_t) (offset : Int) (v : Nat)
    (hlen : tvb.length < 2 ^ 31) (h1 : -2 ^ 31 ≤ offset) (h2 : offset < 2 ^ 31)
    (h : tvb_get_varint tvb offset 5 = some (0, v)) :
    dissect_kafka_string_new tvb offset =
      some { offset := offset + 5, value_offset := offset + 5, value_len := 0,
             shown := .invalid, diags := [.ei_kafka_bad_varint] } ∧
    dissect_kafka_bytes_new tvb offset =
      some { offset := offset + 5, value_offset := offset + 5, value_len := 0,
             shown := .invalid, diags := [.ei_kafka_bad_varint] } := by
  obtain ⟨_, _, e, _⟩ := varint_span_zero tvb offset 5 v hlen h1 h2 (by decide) (by decide) h
  have e' : to_gint32 (offset + 5) = offset + 5 := by simpa using e
  unfold dissect_kafka_string_new dissect_kafka_bytes_new dissect_kafka_compact
  simp only [h, if_true, add_zero, e', and_self]

/-- Witness of C19: five bytes with the continuation bit set. -/
theorem malformed_varint_compact_witness :
    dissect_kafka_string_new [0x80, 0x80, 0x80, 0x80, 0x80] 0 =
      some { offset := 0 + 5, value_offset := 0 + 5, value_len := 0,
             shown := .invalid, diags := [.ei_kafka_bad_varint] } ∧
    dissect_kafka_bytes_new [0x80, 0x80, 0x80, 0x80, 0x80] 0 =
      some { offset := 0 + 5, value_offset := 0 + 5, value_len := 0,
             shown := .invalid, diags := [.ei_kafka_bad_varint] } :=
  malformed_varint_compact [0x80, 0x80, 0x80, 0x80, 0x80] 0 0 (by decide) (by decide)
    (by decide) (by decide)

/-! ## The array reader -/

/-- The loop of the array reader over an element decoder that returns at every
position: `n` calls, each at the position returned by the call before. -/
theorem array_loop_total (g : tvbuff_t → Int → kafka_position) (tvb : tvbuff_t) (n : Nat) :
    ∀ (o : Int) (calls : List Int) (diags : List expert_info),
      dissect_kafka_array_loop (fun t o => some (g t o)) tvb n o calls diags =
        some ((fun o => (g tvb o).1)^[n] o,
              calls ++ List.iterate (fun o => (g tvb o).1) o n,
              diags ++ ((List.iterate (fun o => (g tvb o).1) o n).map
                (fun o => (g tvb o).2)).flatten) := by
  induction n with
  | zero =>
    intro o calls diags
    simp [dissect_kafka_array_loop, List.iterate]
  | succ n ih =>
    intro o calls diags
    rw [dissect_kafka_array_loop]
    simp only
    rw [ih]
    simp [List.iterate, Function.iterate_succ_apply]

/-- The array reader over an element decoder that returns at every position. -/
theorem dissect_kafka_array_ref_total (g : tvbuff_t → Int → kafka_position) (tvb : tvbuff_t)
    (offset : Int) (c : Nat) (hlen : tvb.length < 2 ^ 31)
    (h : tvb_get_ntohl tvb offset = some c) :
    dissect_kafka_array_ref (fun t o => some (g t o)) tvb offset =
      if to_gint32 c < -1 then
        some { offset := offset + 4, count := to_gint32 c, calls := [],
               diags := [.ei_kafka_bad_array_length] }
      else
        some { offset := (fun o => (g tvb o).1)^[(to_gint32 c).toNat] (offset + 4),
               count := to_gint32 c,
               calls := List.iterate (fun o => (g tvb o).1) (offset + 4) (to_gint32 c).toNat,
               diags := ((List.iterate (fun o => (g tvb o).1) (offset + 4)
                 (to_gint32 c).toNat).map (fun o => (g tvb o).2)).flatten } := by
  obtain ⟨b1, b2, _⟩ := ntohl_bounds tvb offset c h
  have hlen' : (tvb.length : Int) < 2 ^ 31 := by exact_mod_cast hlen
  have e : to_gint32 (offset + 4) = offset + 4 :=
    to_gint32_of_int _ (by norm_num at hlen' ⊢; omega) (by norm_num at hlen' ⊢; omega)
  have key : ∀ count o : Int,
      (if count < -1 then
        some ({ offset := o, count := count, calls := [],
                diags := [.ei_kafka_bad_array_length] } : kafka_array)
      else
        match dissect_kafka_array_loop (fun t o => some (g t o)) tvb count.toNat o [] [] with
        | none => none
        | some (offset, calls, diags) =>
          some { offset := offset, count := count, calls := calls, diags := diags }) =
      if count < -1 then
        some { offset := o, count := count, calls := [],
               diags := [.ei_kafka_bad_array_length] }
      else
        some { offset := (fun o => (g tvb o).1)^[count.toNat] o,
               count := count,
               calls := List.iterate (fun o => (g tvb o).1) o count.toNat,
               diags := ((List.iterate (fun o => (g tvb o).1) o
                 count.toNat).map (fun o => (g tvb o).2)).flatten } := by
    intro count o
    by_cases c1 : count < -1
    · simp only [c1, if_true]
    · simp only [c1, if_false, array_loop_total, List.nil_append]
  have k := key (to_gint32 c) (offset + 4)
  unfold dissect_kafka_array_ref
  rw [h, e]
  exact k

/-- C20. The array reader `dissect_kafka_array_ref` reads a signed 32-bit count
C at the cursor and reports C through `p_count`.  For C >= 0 it calls the
element decoder exactly C times, the first call at offset + 4 and each further
call at the position returned by the call before, and returns the position
returned by the last call; for C = -1 it makes no call, reports no diagnostic
and returns offset + 4; for C < -1 it makes no call, reports the
bad-array-length diagnostic and returns offset + 4.  The counts -1 and 0 both
give zero elements and differ in the count reported. -/
theorem array_reader_contract (g : tvbuff_t → Int → kafka_position) (tvb : tvbuff_t)
    (offset : Int) (c : Nat) (hlen : tvb.length < 2 ^ 31)
    (h : tvb_get_ntohl tvb offset = some c) :
    ∃ r, dissect_kafka_array_ref (fun t o => some (g t o)) tvb offset = some r ∧
      r.count = to_gint32 c ∧
      (0 ≤ to_gint32 c →
        (r.calls.length : Int) = to_gint32 c ∧
        r.calls = List.iterate (fun o => (g tvb o).1) (offset + 4) (to_gint32 c).toNat ∧
        r.offset = (fun o => (g tvb o).1)^[(to_gint32 c).toNat] (offset + 4) ∧
        r.diags = (r.calls.map (fun o => (g tvb o).2)).flatten) ∧
      (to_gint32 c = -1 → r.calls = [] ∧ r.diags = [] ∧ r.offset = offset + 4) ∧
      (to_gint32 c < -1 →
        r.calls = [] ∧ r.diags = [.ei_kafka_bad_array_length] ∧ r.offset = offset + 4) := by
  rw [dissect_kafka_array_ref_total g tvb offset c hlen h]
  generalize to_gint32 (c : Int) = count
  by_cases c1 : count < -1
  · rw [if_pos c1]
    refine ⟨_, rfl, rfl, ?_, ?_, ?_⟩
    · intro c2; omega
    · intro c2; omega
    · intro _; exact ⟨rfl, rfl, rfl⟩
  · rw [if_neg c1]
    refine ⟨_, rfl, rfl, ?_, ?_, ?_⟩
    · intro c2
      refine ⟨?_, rfl, rfl, rfl⟩
      simp only [List.length_iterate]
      omega
    · intro c2
      have c3 : count.toNat = 0 := by omega
      simp only [c3, List.iterate, Function.iterate_zero, id_eq, List.map_nil, List.flatten_nil,
        and_self]
    · intro c2; omega

/-- Witness of C20: an array of two elements of two bytes each. -/
theorem array_reader_contract_witness :
    ∃ r, dissect_kafka_array_ref (fun t o => some (two_byte_element t o))
          [0, 0, 0, 2, 1, 1, 2, 2] 0 = some r ∧
      r.count = to_gint32 (2 : Nat) ∧
      (0 ≤ to_gint32 (2 : Nat) →
        (r.calls.length : Int) = to_gint32 (2 : Nat) ∧
        r.calls = List.iterate (fun o => (two_byte_element [0, 0, 0, 2, 1, 1, 2, 2] o).1)
          (0 + 4) (to_gint32 (2 : Nat)).toNat ∧
        r.offset = (fun o => (two_byte_element [0, 0, 0, 2, 1, 1, 2, 2] o).1)^[
          (to_gint32 (2 : Nat)).toNat] (0 + 4) ∧
        r.diags = (r.calls.map
          (fun o => (two_byte_element [0, 0, 0, 2, 1, 1, 2, 2] o).2)).flatten) ∧
      (to_gint32 (2 : Nat) = -1 → r.calls = [] ∧ r.diags = [] ∧ r.offset = 0 + 4) ∧
      (to_gint32 (2 : Nat) < -1 →
        r.calls = [] ∧ r.diags = [.ei_kafka_bad_array_length] ∧ r.offset = 0 + 4) :=
  array_reader_contract two_byte_element [0, 0, 0, 2, 1, 1, 2, 2] 0 2 (by decide) (by decide)

/-! ## The diagnostics of the fields of a record -/

theorem compact_diags (bad : expert_info) (tvb : tvbuff_t) (o : Int) (f : kafka_compact_field)
    (hb : bad ≠ .ei_kafka_bad_record_length) (h : dissect_kafka_compact bad tvb o = some f) :
    ∀ d ∈ f.diags, d ≠ .ei_kafka_bad_record_length := by
  unfold dissect_kafka_compact at h
  split at h
  · cases h
  · simp only at h
    split_ifs at h <;> simp only [Option.some.injEq] at h <;> subst h <;> simp [hb]

theorem timestamp_delta_diags (tvb : tvbuff_t) (o : Int) (ft : Nat) (p : Int) (m : Nat)
    (ds : List expert_info) (h : dissect_kafka_timestamp_delta tvb o ft = some (p, m, ds)) :
    ∀ d ∈ ds, d ≠ .ei_kafka_bad_record_length := by
  unfold dissect_kafka_timestamp_delta at h
  split at h
  · cases h
  · simp only at h
    split_ifs at h <;> simp only [Option.some.injEq, Prod.mk.injEq] at h <;>
      obtain ⟨_, _, rfl⟩ := h <;> simp

theorem offset_delta_diags (tvb : tvbuff_t) (o : Int) (bo : Nat) (p : Int) (m : Int)
    (ds : List expert_info) (h : dissect_kafka_offset_delta tvb o bo = some (p, m, ds)) :
    ∀ d ∈ ds, d ≠ .ei_kafka_bad_record_length := by
  unfold dissect_kafka_offset_delta at h
  split at h
  · cases h
  · simp only at h
    split_ifs at h <;> simp only [Option.some.injEq, Prod.mk.injEq] at h <;>
      obtain ⟨_, _, rfl⟩ := h <;> simp

theorem headers_header_diags (tvb : tvbuff_t) (o p : Int) (ds : List expert_info)
    (h : dissect_kafka_record_headers_header tvb o = some (p, ds)) :
    ∀ d ∈ ds, d ≠ .ei_kafka_bad_record_length := by
  unfold dissect_kafka_record_headers_header at h
  split_ifs at h
  cases hk : dissect_kafka_string_new tvb o with
  | none => rw [hk] at h; cases h
  | some key =>
    rw [hk] at h
    simp only at h
    cases hv : dissect_kafka_bytes_new tvb key.offset with
    | none => rw [hv] at h; cases h
    | some value =>
      rw [hv] at h
      simp only at h
      split_ifs at h
      simp only [Option.some.injEq, Prod.mk.injEq] at h
      obtain ⟨_, rfl⟩ := h
      intro d hd
      rcases List.mem_append.1 hd with hd | hd
      · exact compact_diags _ tvb o key (by decide) hk d hd
      · exact compact_diags _ tvb key.offset value (by decide) hv d hd

theorem headers_loop_diags (tvb : tvbuff_t) (n : Nat) :
    ∀ (o p : Int) (init ds : List expert_info),
      dissect_kafka_record_headers_loop tvb n o init = some (p, ds) →
      (∀ d ∈ init, d ≠ .ei_kafka_bad_record_length) →
      ∀ d ∈ ds, d ≠ .ei_kafka_bad_record_length := by
  induction n with
  | zero =>
    intro o p init ds h hi
    simp only [dissect_kafka_record_headers_loop, Option.some.injEq, Prod.mk.injEq] at h
    obtain ⟨_, rfl⟩ := h
    exact hi
  | succ n ih =>
    intro o p init ds h hi
    rw [dissect_kafka_record_headers_loop] at h
    cases hh : dissect_kafka_record_headers_header tvb o with
    | none => rw [hh] at h; cases h
    | some r =>
      obtain ⟨q, hs⟩ := r
      rw [hh] at h
      simp only at h
      apply ih q p (init ++ hs) ds h
      intro d hd
      rcases List.mem_append.1 hd with hd | hd
      · exact hi d hd
      · exact headers_header_diags tvb o q hs hh d hd

theorem record_headers_diags (tvb : tvbuff_t) (o p : Int) (ds : List expert_info)
    (h : dissect_kafka_record_headers tvb o = some (p, ds)) :
    ∀ d ∈ ds, d ≠ .ei_kafka_bad_record_length := by
  unfold dissect_kafka_record_headers at h
  split_ifs at h
  split at h
  · cases h
  · simp only at h
    apply headers_loop_diags tvb _ _ p _ ds h
    intro d hd
    split_ifs at hd <;> simp at hd <;> subst hd <;> decide

/-- The fields of a record never report the bad-record-length diagnostic. -/
theorem record_fields_diags (tvb : tvbuff_t) (o : Int) (bo ft : Nat) (p : Int)
    (ds : List expert_info) (h : dissect_kafka_record_fields tvb o bo ft = some (p, ds)) :
    ∀ d ∈ ds, d ≠ .ei_kafka_bad_record_length := by
  unfold dissect_kafka_record_fields at h
  split_ifs at h
  simp only at h
  cases h1 : dissect_kafka_timestamp_delta tvb (to_gint32 (o + 1)) ft with
  | none => rw [h1] at h; cases h
  | some r1 =>
    obtain ⟨o1, m1, d1⟩ := r1
    rw [h1] at h
    simp only at h
    cases h2 : dissect_kafka_offset_delta tvb o1 bo with
    | none => rw [h2] at h; cases h
    | some r2 =>
      obtain ⟨o2, m2, d2⟩ := r2
      rw [h2] at h
      simp only at h
      cases h3 : dissect_kafka_bytes_new tvb o2 with
      | none => rw [h3] at h; cases h
      | some key =>
        rw [h3] at h
        simp only at h
        cases h4 : dissect_kafka_bytes_new tvb key.offset with
        | none => rw [h4] at h; cases h
        | some value =>
          rw [h4] at h
          simp only at h
          cases h5 : dissect_kafka_record_headers tvb value.offset with
          | none => rw [h5] at h; cases h
          | some r5 =>
            obtain ⟨o5, d5⟩ := r5
            rw [h5] at h
            simp only [Option.some.injEq, Prod.mk.injEq] at h
            obtain ⟨_, rfl⟩ := h
            intro d hd
            simp only [List.mem_append] at hd
            rcases hd with (((hd | hd) | hd) | hd) | hd
            · exact timestamp_delta_diags tvb _ ft o1 m1 d1 h1 d hd
            · exact offset_delta_diags tvb _ bo o2 m2 d2 h2 d hd
            · exact compact_diags _ tvb o2 key (by decide) h3 d hd
            · exact compact_diags _ tvb key.offset value (by decide) h4 d hd
            · exact record_headers_diags tvb _ o5 d5 h5 d hd

/-- `dissect_kafka_record` in terms of the decoding of its fields. -/
theorem dissect_kafka_record_eq (tvb : tvbuff_t) (start : Int) (bo ft : Nat) :
    dissect_kafka_record tvb start bo ft =
      if !proto_tree_add_subtree tvb start (-1) then none else
      match tvb_get_varint tvb start 5 with
      | none => none
      | some (len, s) =>
        if len = 0 then some (to_gint32 (start + 5), [.ei_kafka_bad_varint])
        else if to_gint64 s < 6 then
          some (to_gint32 (start + len), [.ei_kafka_bad_record_length])
        else
          match dissect_kafka_record_fields tvb (to_gint32 (start + len)) bo ft with
          | none => none
          | some (cursor, diags) =>
            some (to_gint32 (start + len + to_gint32 (to_gint64 s)),
              if cursor ≠ to_gint32 (start + len + to_gint32 (to_gint64 s)) then
                diags ++ [.ei_kafka_bad_record_length]
              else diags) := by
  unfold dissect_kafka_record dissect_kafka_record_fields
  rcases bool_cases (proto_tree_add_subtree tvb start (-1)) with hs | hs
  swap
  · simp only [hs, Bool.not_false, if_true]
  simp only [hs, Bool.not_true, Bool.false_eq_true, if_false]
  cases tvb_get_varint tvb start 5 with
  | none => rfl
  | some r =>
    obtain ⟨len, s⟩ := r
    simp only
    by_cases hl : len = 0
    · simp only [hl, if_true]
    simp only [hl, if_false]
    by_cases h6 : to_gint64 s < 6
    · simp only [h6, if_true]
    simp only [h6, if_false]
    rcases bool_cases (proto_tree_add_item tvb (to_gint32 (start + len)) 1) with hi | hi
    swap
    · simp only [hi, Bool.not_false, if_true]
    simp only [hi, Bool.not_true, Bool.false_eq_true, if_false]
    cases dissect_kafka_timestamp_delta tvb (to_gint32 (to_gint32 (start + len) + 1)) ft with
    | none => rfl
    | some r1 =>
      obtain ⟨o1, m1, d1⟩ := r1
      simp only
      cases dissect_kafka_offset_delta tvb o1 bo with
      | none => rfl
      | some r2 =>
        obtain ⟨o2, m2, d2⟩ := r2
        simp only
        cases dissect_kafka_bytes_new tvb o2 with
        | none => rfl
        | some key =>
          simp only
          cases dissect_kafka_bytes_new tvb key.offset with
          | none => rfl
          | some value =>
            simp only
            cases dissect_kafka_record_headers tvb value.offset with
            | none => rfl
            | some r5 =>
              obtain ⟨o5, d5⟩ := r5
              rfl

/-! ## Records: short records and the declared end -/

/-- C12, counterexample. A record whose declared length is 3 (varint 0x06 of
width 1) at position 0: the record decoder reports bad-record-length and
returns 1, the position right after the varint, not 0 + 1 + 3. -/
theorem short_record_not_skipped :
    tvb_get_varint short_record 0 5 = some (1, 3) ∧ to_gint64 (3 : Nat) = 3 ∧
    dissect_kafka_record short_record 0 0 0 = some (1, [.ei_kafka_bad_record_length]) := by
  decide

/-- C12, amended. For every record whose zig-zag-varint declared length size
decodes successfully (width w) and is less than 6, the record decoder reports
the bad-record-length diagnostic and no other, decodes none of the fields of
the record, and returns start + w: it skips the length varint only. -/
theorem short_record_contract (tvb : tvbuff_t) (start : Int) (base_offset first_timestamp : Nat)
    (w s : Nat) (hlen : tvb.length < 2 ^ 31) (h1 : -2 ^ 31 ≤ start) (h2 : start < 2 ^ 31)
    (h : tvb_get_varint tvb start 5 = some (w, s)) (hw : w ≠ 0) (hs : to_gint64 s < 6) :
    dissect_kafka_record tvb start base_offset first_timestamp =
      some (start + w, [.ei_kafka_bad_record_length]) := by
  obtain ⟨_, _, _, _, e, hsub⟩ := varint_span tvb start 5 w s hlen h1 h2 h hw
  rw [dissect_kafka_record_eq]
  simp only [hsub, h, hw, hs, e, Bool.not_true, Bool.false_eq_true, if_false, if_true]

/-- Witness of C12 (amended): the record of declared length 3. -/
theorem short_record_contract_witness :
    dissect_kafka_record short_record 0 0 0 =
      some ((0 : Int) + (1 : Nat), [.ei_kafka_bad_record_length]) :=
  short_record_contract short_record 0 0 0 1 3 (by decide) (by decide) (by decide) (by decide)
    (by decide) (by decide)

/-- C13, counterexample. A record whose declared length is 2^32 + 7 (a varint
of width 5) and whose fields take 7 bytes: the decoding of the fields ends at
position 12, the record decoder returns 12 and reports nothing, although the
declared end is 0 + 5 + 2^32 + 7. -/
theorem record_wide_length :
    tvb_get_varint wide_record 0 5 = some (5, 2 ^ 32 + 7) ∧
    to_gint64 (2 ^ 32 + 7 : Nat) = 4294967303 ∧
    dissect_kafka_record_fields wide_record 5 0 0 = some (12, []) ∧
    dissect_kafka_record wide_record 0 0 0 = some (12, []) := by
  decide

/-- C13, amended. For every record whose declared length size (varint width w)
is at least 6 and whose fields can be read, the record decoder returns the
declared end computed in C `int` arithmetic, start + w + (int) size, whatever
the position at which the decoding of the fields ends, and it reports the
bad-record-length diagnostic exactly when the decoding of the fields did not
end at that position.  The position returned is start + w + size whenever
size and start + w + size are below 2^31. -/
theorem record_resync (tvb : tvbuff_t) (start : Int) (base_offset first_timestamp : Nat)
    (w s : Nat) (cursor : Int) (diags : List expert_info)
    (hlen : tvb.length < 2 ^ 31) (h1 : -2 ^ 31 ≤ start) (h2 : start < 2 ^ 31)
    (h : tvb_get_varint tvb start 5 = some (w, s)) (hw : w ≠ 0) (hs : 6 ≤ to_gint64 s)
    (hf : dissect_kafka_record_fields tvb (start + w) base_offset first_timestamp =
      some (cursor, diags)) :
    ∃ ds, dissect_kafka_record tvb start base_offset first_timestamp =
        some (to_gint32 (start + w + to_gint32 (to_gint64 s)), ds) ∧
      ds = (if cursor ≠ to_gint32 (start + w + to_gint32 (to_gint64 s)) then
              diags ++ [.ei_kafka_bad_record_length] else diags) ∧
      (.ei_kafka_bad_record_length ∈ ds ↔
        cursor ≠ to_gint32 (start + w + to_gint32 (to_gint64 s))) ∧
      (to_gint64 s < 2 ^ 31 → start + w + to_gint64 s < 2 ^ 31 →
        to_gint32 (start + w + to_gint32 (to_gint64 s)) = start + w + to_gint64 s) := by
  obtain ⟨_, _, _, _, e, hsub⟩ := varint_span tvb start 5 w s hlen h1 h2 h hw
  have hnot := record_fields_diags tvb (start + w) base_offset first_timestamp cursor diags hf
  have h6 : ¬ to_gint64 s < 6 := by omega
  refine ⟨_, ?_, rfl, ?_, ?_⟩
  · rw [dissect_kafka_record_eq]
    simp only [hsub, h, hw, h6, e, hf, Bool.not_true, Bool.false_eq_true, if_false]
  · by_cases hc : cursor = to_gint32 (start + w + to_gint32 (to_gint64 s))
    · simp only [hc, ne_eq, not_true_eq_false, if_false, iff_false]
      intro hm
      exact hnot _ hm rfl
    · simp only [ne_eq, hc, not_false_eq_true, if_true, List.mem_append, List.mem_singleton,
        or_true]
  · intro c1 c2
    have e1 : to_gint32 (to_gint64 s) = to_gint64 s :=
      to_gint32_of_int _ (by norm_num; omega) c1
    rw [e1]
    exact to_gint32_of_int _ (by norm_num at h1 ⊢; omega) c2

/-- Witness of C13 (amended): a record of declared length 6 (null key, null
value, no header) whose fields end at the declared end. -/
theorem record_resync_witness :
    ∃ ds, dissect_kafka_record [0x0C, 0, 0, 0, 0x01, 0x01, 0] 0 0 0 =
        some (to_gint32 (0 + (1 : Nat) + to_gint32 (to_gint64 (6 : Nat))), ds) ∧
      ds = (if (7 : Int) ≠ to_gint32 (0 + (1 : Nat) + to_gint32 (to_gint64 (6 : Nat))) then
              [] ++ [.ei_kafka_bad_record_length] else []) ∧
      (.ei_kafka_bad_record_length ∈ ds ↔
        (7 : Int) ≠ to_gint32 (0 + (1 : Nat) + to_gint32 (to_gint64 (6 : Nat)))) ∧
      (to_gint64 (6 : Nat) < 2 ^ 31 → 0 + (1 : Nat) + to_gint64 (6 : Nat) < 2 ^ 31 →
        to_gint32 (0 + (1 : Nat) + to_gint32 (to_gint64 (6 : Nat))) =
          0 + (1 : Nat) + to_gint64 (6 : Nat)) :=
  record_resync [0x0C, 0, 0, 0, 0x01, 0x01, 0] 0 0 0 1 6 7 [] (by decide) (by decide)
    (by decide) (by decide) (by decide) (by decide) (by decide)

/-! ## The choice of the message format -/

theorem guint8_lt (tvb : tvbuff_t) (o : Int) (b : Nat) (h : tvb_get_guint8 tvb o = some b) :
    b < 256 := by
  unfold tvb_get_guint8 tvb_get_bytes at h
  cases ha : tvb_abs_offset tvb o with
  | none => rw [ha] at h; cases h
  | some a =>
    rw [ha] at h
    by_cases h1 : a + 1 ≤ tvb.length
    · simp only [h1, if_true, Option.map_some', Option.some.injEq] at h
      subst h
      have hl : ((tvb.drop a).take 1).length = 1 := by
        rw [List.length_take, List.length_drop]
        omega
      match hbs : (tvb.drop a).take 1, hl with
      | [x], _ =>
        simp only [be_value, List.foldl_cons, List.foldl_nil, zero_mul, zero_add]
        exact x.isLt
    · simp only [h1, if_false, Option.map_none'] at h
      cases h

/-- The signed reading of a byte is below 2 for the bytes 0, 1 and 0x80..0xFF. -/
theorem to_gint8_lt_two (b : Nat) (hb : b < 256) :
    to_gint8 b < 2 ↔ b = 0 ∨ b = 1 ∨ 128 ≤ b := by
  unfold to_gint8
  norm_num
  omega

/-- C11. The claim fails on the code: `dissect_kafka_message` reads the byte at
start + 16 into a signed 8-bit variable and takes the legacy path when that
variable is below 2, so every byte 0x80..0xFF takes the legacy path, not the
v2 path.  On a 26-byte message with magic byte 0xFF the result is the one of
`dissect_kafka_message_old` (position 26, no diagnostic), not the one of
`dissect_kafka_message_new` (the unknown-magic diagnostic). -/
theorem negative_magic_takes_legacy_path :
    tvb_get_guint8 negative_magic_message (0 + 16) = some 0xFF ∧
    (∀ lib message_set,
      dissect_kafka_message lib message_set negative_magic_message 0 = .ok (26, [])) ∧
    (∀ lib message_set,
      dissect_kafka_message_old lib message_set negative_magic_message 0 = .ok (26, [])) ∧
    (∀ lib, dissect_kafka_message_new lib negative_magic_message 0 =
      some (26, [.ei_kafka_unknown_message_magic])) ∧
    (∀ lib message_set tvb offset magic,
      tvb_get_guint8 tvb (to_gint32 (offset + 16)) = some magic →
      (magic = 0 ∨ magic = 1 ∨ 128 ≤ magic) →
      dissect_kafka_message lib message_set tvb offset =
        dissect_kafka_message_old lib message_set tvb offset) ∧
    (∀ lib message_set tvb offset magic,
      tvb_get_guint8 tvb (to_gint32 (offset + 16)) = some magic →
      (2 ≤ magic ∧ magic < 128) →
      dissect_kafka_message lib message_set tvb offset =
        (match dissect_kafka_message_new lib tvb offset with
         | none => .exception
         | some r => .ok r)) := by
  refine ⟨by decide, fun _ _ => rfl, fun _ _ => rfl, fun _ => rfl, ?_, ?_⟩
  · intro lib message_set tvb offset magic h c
    have hb := guint8_lt tvb _ magic h
    unfold dissect_kafka_message
    simp only [h]
    rw [if_pos ((to_gint8_lt_two magic hb).2 c)]
  · intro lib message_set tvb offset magic h c
    have hb := guint8_lt tvb _ magic h
    have hn : ¬ to_gint8 magic < 2 := by
      intro hlt
      have := (to_gint8_lt_two magic hb).1 hlt
      omega
    unfold dissect_kafka_message
    simp only [h]
    rw [if_neg hn]

/-! ## The header of a batch -/

theorem item_of_bounds (tvb : tvbuff_t) (o : Int) (n : Nat) (h0 : 0 ≤ o)
    (h : o + n ≤ tvb.length) : proto_tree_add_item tvb o n = true :=
  item_of_exist tvb o n (exist_of_bounds tvb o n h0 h)

theorem ntoh64_of_bounds (tvb : tvbuff_t) (o : Int) (h0 : 0 ≤ o) (h : o + 8 ≤ tvb.length) :
    ∃ v, tvb_get_ntoh64 tvb o = some v := by
  obtain ⟨bs, hbs⟩ := get_bytes_of_bounds tvb o 8 h0 (by simpa using h)
  exact ⟨be_value bs, by unfold tvb_get_ntoh64; rw [hbs]; rfl⟩

/-- The signed reading of a byte is 2 for the byte 2 only. -/
theorem to_gint8_eq_two (b : Nat) (hb : b < 256) : to_gint8 b = 2 ↔ b = 2 := by
  unfold to_gint8
  norm_num
  omega

/-- The first 17 bytes of a batch: when the magic byte can be read and the
span of the batch passes the bounds test, the part of the batch decoder before
the test of the magic byte succeeds. -/
theorem batch_head_of_reads (tvb : tvbuff_t) (start : Int) (ms magic : Nat)
    (hlen : tvb.length < 2 ^ 31) (h0 : 0 ≤ start)
    (hms : tvb_get_ntohl tvb (start + 8) = some ms)
    (hmagic : tvb_get_guint8 tvb (start + 16) = some magic)
    (hsub : proto_tree_add_subtree tvb start (to_gint32 (((ms : Int) + 12) % 2 ^ 32)) = true) :
    ∃ base, dissect_kafka_batch_head tvb start =
      some { message_size := ms, base_offset := base, magic := magic, offset := start + 17 } := by
  obtain ⟨_, b2, i16⟩ := guint8_bounds tvb _ magic hmagic
  have hlen' : (tvb.length : Int) < 2 ^ 31 := by exact_mod_cast hlen
  have e8 : to_gint32 (start + 8) = start + 8 :=
    to_gint32_of_int _ (by norm_num; omega) (by norm_num at hlen' ⊢; omega)
  have e12 : to_gint32 (start + 8 + 4) = start + 12 := by
    rw [to_gint32_of_int _ (by norm_num; omega) (by norm_num at hlen' ⊢; omega)]
    ring
  have e16 : to_gint32 (start + 12 + 4) = start + 16 := by
    rw [to_gint32_of_int _ (by norm_num; omega) (by norm_num at hlen' ⊢; omega)]
    ring
  have e17 : to_gint32 (start + 16 + 1) = start + 17 := by
    rw [to_gint32_of_int _ (by norm_num; omega) (by norm_num at hlen' ⊢; omega)]
    ring
  obtain ⟨base, hbase⟩ := ntoh64_of_bounds tvb start h0 (by omega)
  have i0 : proto_tree_add_item tvb start 8 = true :=
    item_of_bounds tvb start 8 h0 (by push_cast; omega)
  have i8 : proto_tree_add_item tvb (start + 8) 4 = true :=
    item_of_bounds tvb (start + 8) 4 (by omega) (by push_cast; omega)
  have i12 : proto_tree_add_item tvb (start + 12) 4 = true :=
    item_of_bounds tvb (start + 12) 4 (by omega) (by push_cast; omega)
  refine ⟨base, ?_⟩
  unfold dissect_kafka_batch_head
  simp only [e8, hms, hsub, hbase, i0, i8, e12, i12, e16, hmagic, i16, e17, Bool.not_true,
    Bool.false_eq_true, if_false]

/-! ## Batches with an unknown magic byte -/

/-- The batch decoder on a batch whose magic byte is not 2. -/
theorem message_new_unknown_magic (lib : codec_lib) (tvb : tvbuff_t) (start : Int)
    (p : kafka_batch_head) (hp : dissect_kafka_batch_head tvb start = some p)
    (hm : to_gint8 p.magic ≠ 2) :
    dissect_kafka_message_new lib tvb start =
      some (to_gint32 (start + 8 + 4 + p.message_size), [.ei_kafka_unknown_message_magic]) := by
  unfold dissect_kafka_message_new
  rw [hp]
  simp only [hm, ne_eq, not_false_eq_true, if_true]

/-- C14, counterexample. A batch with magic byte 3 and message size
0xFFFFFFF4: the batch decoder returns 0, not 0 + 12 + 4294967284.  And a batch
with magic byte 3 that declares 100 bytes in a buffer of 17 bytes: the batch
decoder reports nothing and returns no position, it ends with the bounds
exception. -/
theorem unknown_magic_wraps_or_throws :
    tvb_get_ntohl looping_batch (0 + 8) = some 4294967284 ∧
    tvb_get_guint8 looping_batch (0 + 16) = some 3 ∧
    (∀ lib, dissect_kafka_message_new lib looping_batch 0 =
      some (0, [.ei_kafka_unknown_message_magic])) ∧
    tvb_get_ntohl cut_batch (0 + 8) = some 100 ∧
    tvb_get_guint8 cut_batch (0 + 16) = some 3 ∧
    (∀ lib, dissect_kafka_message_new lib cut_batch 0 = none) := by
  refine ⟨by decide, by decide, fun _ => rfl, by decide, by decide, fun _ => rfl⟩

/-- C14, amended. For every batch at a position start >= 0 whose magic byte is
in the buffer and whose span of 12 + message_size bytes (a C `int`) passes the
bounds test of the subtree: when the magic byte is not 2,
`dissect_kafka_message_new` reports the unknown-message-magic diagnostic and
nothing else, whatever the codec library (no decompression, no record, no
further header field), and returns start + 12 + message_size computed in
32-bit arithmetic; `dissect_kafka_message` does so for the magic bytes 3..127;
the position is start + 12 + message_size whenever 12 + message_size is below
2^31. -/
theorem unknown_magic_contract (lib : codec_lib)
    (message_set : tvbuff_t → Int → Nat → Nat → decoded kafka_position)
    (tvb : tvbuff_t) (start : Int) (ms magic : Nat)
    (hlen : tvb.length < 2 ^ 31) (h0 : 0 ≤ start)
    (hms : tvb_get_ntohl tvb (start + 8) = some ms)
    (hmagic : tvb_get_guint8 tvb (start + 16) = some magic)
    (hsub : proto_tree_add_subtree tvb start (to_gint32 (((ms : Int) + 12) % 2 ^ 32)) = true) :
    (magic ≠ 2 → dissect_kafka_message_new lib tvb start =
      some (to_gint32 (start + 12 + ms), [.ei_kafka_unknown_message_magic])) ∧
    (3 ≤ magic → magic < 128 → dissect_kafka_message lib message_set tvb start =
      .ok (to_gint32 (start + 12 + ms), [.ei_kafka_unknown_message_magic])) ∧
    ((ms : Int) + 12 < 2 ^ 31 → to_gint32 (start + 12 + ms) = start + 12 + ms) := by
  obtain ⟨base, hp⟩ := batch_head_of_reads tvb start ms magic hlen h0 hms hmagic hsub
  have hb := guint8_lt tvb _ magic hmagic
  obtain ⟨_, b2, _⟩ := guint8_bounds tvb _ magic hmagic
  have hlen' : (tvb.length : Int) < 2 ^ 31 := by exact_mod_cast hlen
  have e : start + 8 + 4 + (ms : Int) = start + 12 + ms := by ring
  have hnew : magic ≠ 2 → dissect_kafka_message_new lib tvb start =
      some (to_gint32 (start + 12 + ms), [.ei_kafka_unknown_message_magic]) := by
    intro hne
    have hm : to_gint8 magic ≠ 2 := fun h => hne ((to_gint8_eq_two magic hb).1 h)
    rw [message_new_unknown_magic lib tvb start _ hp hm]
    simp only [e]
  refine ⟨hnew, ?_, ?_⟩
  · intro h3 h128
    have e16 : to_gint32 (start + 16) = start + 16 :=
      to_gint32_of_int _ (by norm_num; omega) (by norm_num at hlen' ⊢; omega)
    have hn : ¬ to_gint8 magic < 2 := by
      intro hlt
      have := (to_gint8_lt_two magic hb).1 hlt
      omega
    unfold dissect_kafka_message
    rw [e16, hmagic]
    simp only [hn, if_false, hnew (by omega)]
  · intro hsmall
    have hmod : ((ms : Int) + 12) % 2 ^ 32 = ms + 12 := by
      norm_num at hsmall ⊢
      omega
    rw [hmod] at hsub
    have e32 : to_gint32 ((ms : Int) + 12) = ms + 12 :=
      to_gint32_of_int _ (by norm_num; omega) hsmall
    rw [e32] at hsub
    obtain ⟨_, b3⟩ := item_bounds tvb start _ (by omega) hsub
    exact to_gint32_of_int _ (by norm_num; omega) (by norm_num at hlen' ⊢; omega)

/-- Witness of C14 (amended): a batch of 17 bytes with message size 5 and magic
byte 3. -/
theorem unknown_magic_contract_witness :
    dissect_kafka_message no_codecs (fun _ _ _ _ => .exception)
        [0, 0, 0, 0, 0, 0, 0, 0, 0, 0, 0, 5, 0, 0, 0, 0, 3] 0 =
      .ok (to_gint32 (0 + 12 + (5 : Nat)), [.ei_kafka_unknown_message_magic]) :=
  (unknown_magic_contract no_codecs (fun _ _ _ _ => .exception)
    [0, 0, 0, 0, 0, 0, 0, 0, 0, 0, 0, 5, 0, 0, 0, 0, 3] 0 5 3 (by decide) (by decide)
    (by decide) (by decide) (by decide)).2.1 (by decide) (by decide)

/-! ## The position after a compressed batch or message -/

/-- The batch decoder after the header of a v2 batch, when `decompress` reports
a failure. -/
theorem message_new_v2_failure (lib : codec_lib) (tvb : tvbuff_t) (start : Int)
    (p : kafka_batch_head) (f : kafka_batch_fields)
    (hp : dissect_kafka_batch_head tvb start = some p) (hm : to_gint8 p.magic = 2)
    (hf : dissect_kafka_batch_fields tvb p.offset = some f)
    (hd : decompress lib tvb f.offset
      (to_gint32 (to_guint32 (start + 8 + 4 + p.message_size - f.offset))) f.codec =
        some none) :
    dissect_kafka_message_new lib tvb start =
      some (to_gint32 (start + 8 + 4 + p.message_size), []) := by
  unfold dissect_kafka_message_new
  rw [hp]
  simp only [hm, ne_eq, not_true_eq_false, if_false]
  rw [hf]
  simp only
  rw [hd]

/-- The batch decoder after the header of a v2 batch, when `decompress` hands
a buffer back: the records are decoded, and the position is the same. -/
theorem message_new_v2_success (lib : codec_lib) (tvb : tvbuff_t) (start : Int)
    (p : kafka_batch_head) (f : kafka_batch_fields)
    (hp : dissect_kafka_batch_head tvb start = some p) (hm : to_gint8 p.magic = 2)
    (hf : dissect_kafka_batch_fields tvb p.offset = some f)
    (dtvb : tvbuff_t) (doff : Int)
    (hd : decompress lib tvb f.offset
      (to_gint32 (to_guint32 (start + 8 + 4 + p.message_size - f.offset))) f.codec =
        some (some (dtvb, doff))) :
    dissect_kafka_message_new lib tvb start =
      (dissect_kafka_records_loop dtvb p.base_offset f.first_timestamp f.count doff []).map
        (fun q => (to_gint32 (start + 8 + 4 + p.message_size), q.2)) := by
  unfold dissect_kafka_message_new
  rw [hp]
  simp only [hm, ne_eq, not_true_eq_false, if_false]
  rw [hf]
  simp only
  rw [hd]
  simp only
  cases dissect_kafka_records_loop dtvb p.base_offset f.first_timestamp f.count doff [] <;> rfl

theorem message_new_v2_exception (lib : codec_lib) (tvb : tvbuff_t) (start : Int)
    (p : kafka_batch_head) (f : kafka_batch_fields)
    (hp : dissect_kafka_batch_head tvb start = some p) (hm : to_gint8 p.magic = 2)
    (hf : dissect_kafka_batch_fields tvb p.offset = some f)
    (hd : decompress lib tvb f.offset
      (to_gint32 (to_guint32 (start + 8 + 4 + p.message_size - f.offset))) f.codec = none) :
    dissect_kafka_message_new lib tvb start = none := by
  unfold dissect_kafka_message_new
  rw [hp]
  simp only [hm, ne_eq, not_true_eq_false, if_false]
  rw [hf]
  simp only
  rw [hd]

theorem message_new_no_fields (lib : codec_lib) (tvb : tvbuff_t) (start : Int)
    (p : kafka_batch_head)
    (hp : dissect_kafka_batch_head tvb start = some p) (hm : to_gint8 p.magic = 2)
    (hf : dissect_kafka_batch_fields tvb p.offset = none) :
    dissect_kafka_message_new lib tvb start = none := by
  unfold dissect_kafka_message_new
  rw [hp]
  simp only [hm, ne_eq, not_true_eq_false, if_false]
  rw [hf]

theorem message_new_no_head (lib : codec_lib) (tvb : tvbuff_t) (start : Int)
    (hp : dissect_kafka_batch_head tvb start = none) :
    dissect_kafka_message_new lib tvb start = none := by
  unfold dissect_kafka_message_new
  rw [hp]

/-- The position returned by the batch decoder, whenever it returns. -/
theorem message_new_position (lib : codec_lib) (tvb : tvbuff_t) (start : Int)
    (r : kafka_position) (h : dissect_kafka_message_new lib tvb start = some r) :
    ∃ p, dissect_kafka_batch_head tvb start = some p ∧
      r.1 = to_gint32 (start + 8 + 4 + p.message_size) := by
  cases hp : dissect_kafka_batch_head tvb start with
  | none =>
    rw [message_new_no_head lib tvb start hp] at h
    cases h
  | some p =>
    refine ⟨p, rfl, ?_⟩
    by_cases hm : to_gint8 p.magic = 2
    · cases hf : dissect_kafka_batch_fields tvb p.offset with
      | none =>
        rw [message_new_no_fields lib tvb start p hp hm hf] at h
        cases h
      | some f =>
        obtain ⟨d, hd⟩ : ∃ d, decompress lib tvb f.offset
          (to_gint32 (to_guint32 (start + 8 + 4 + p.message_size - f.offset))) f.codec = d :=
          ⟨_, rfl⟩
        match d, hd with
        | none, hd =>
          rw [message_new_v2_exception lib tvb start p f hp hm hf hd] at h
          cases h
        | some none, hd =>
          rw [message_new_v2_failure lib tvb start p f hp hm hf hd] at h
          simp only [Option.some.injEq] at h
          rw [← h]
        | some (some (dtvb, doff)), hd =>
          rw [message_new_v2_success lib tvb start p f hp hm hf dtvb doff hd] at h
          obtain ⟨q, _, hq⟩ := Option.map_eq_some'.1 h
          rw [← hq]
    · rw [message_new_unknown_magic lib tvb start p hp hm] at h
      simp only [Option.some.injEq] at h
      rw [← h]

/-- The legacy decoder on a compressed message, when `decompress` reports a
failure: no nested message set is decoded. -/
theorem message_old_failure (lib : codec_lib)
    (message_set : tvbuff_t → Int → Nat → Nat → decoded kafka_position)
    (tvb : tvbuff_t) (start : Int) (codec : Nat) (key : kafka_field) (length : Nat)
    (hk : dissect_kafka_message_old_key tvb start = some (codec, key)) (hc : codec ≠ 0)
    (hl : tvb_get_ntohl tvb key.offset = some length)
    (hd : decompress lib tvb (to_gint32 (key.offset + 4)) (to_gint32 length) codec =
      some none) :
    dissect_kafka_message_old lib message_set tvb start =
      .ok (to_gint32 (key.offset + 4 + length),
           if key.bad_length then [.ei_kafka_bad_bytes_length] else []) := by
  unfold dissect_kafka_message_old
  rw [hk]
  simp only [hc, if_false]
  rw [hl]
  simp only
  rw [hd]
  simp only [to_gint32_add]

/-- The position returned by the legacy decoder on a compressed message,
whenever it returns. -/
theorem message_old_position (lib : codec_lib)
    (message_set : tvbuff_t → Int → Nat → Nat → decoded kafka_position)
    (tvb : tvbuff_t) (start : Int) (codec : Nat) (key : kafka_field) (length : Nat)
    (r : kafka_position)
    (hk : dissect_kafka_message_old_key tvb start = some (codec, key)) (hc : codec ≠ 0)
    (hl : tvb_get_ntohl tvb key.offset = some length)
    (h : dissect_kafka_message_old lib message_set tvb start = .ok r) :
    r.1 = to_gint32 (key.offset + 4 + length) := by
  unfold dissect_kafka_message_old at h
  rw [hk] at h
  simp only [hc, if_false] at h
  rw [hl] at h
  simp only at h
  obtain ⟨d, hd⟩ : ∃ d, decompress lib tvb (to_gint32 (key.offset + 4)) (to_gint32 length)
    codec = d := ⟨_, rfl⟩
  rw [hd] at h
  match d, h with
  | some none, h =>
    simp only [decoded.ok.injEq] at h
    rw [← h, to_gint32_add]
  | some (some (dtvb, doff)), h =>
    simp only at h
    obtain ⟨m, hm⟩ : ∃ m, message_set dtvb doff (dtvb.length - doff.toNat) codec = m :=
      ⟨_, rfl⟩
    rw [hm] at h
    match m, h with
    | .ok (q, diags), h =>
      simp only [decoded.ok.injEq] at h
      rw [← h, to_gint32_add]

/-- C15, counterexample. Two v2 batches without compression, decoded at
position 0.  With message size 0xFFFFFFF4 and no record the batch decoder
returns 0, not 0 + 12 + 4294967284.  With message size 49 and a record count
of 1 in a buffer that ends after the header, decompression succeeds, the
decoding of the record ends with the bounds exception and the batch decoder
returns no position. -/
theorem batch_position_wraps_or_throws :
    tvb_get_ntohl (v2_batch_header (2 ^ 32 - 12) 0) (0 + 8) = some 4294967284 ∧
    tvb_get_guint8 (v2_batch_header (2 ^ 32 - 12) 0) (0 + 16) = some 2 ∧
    (∀ lib, dissect_kafka_message_new lib (v2_batch_header (2 ^ 32 - 12) 0) 0 =
      some (0, [])) ∧
    tvb_get_ntohl (v2_batch_header 49 1) (0 + 8) = some 49 ∧
    tvb_get_guint8 (v2_batch_header 49 1) (0 + 16) = some 2 ∧
    (∀ lib, decompress lib (v2_batch_header 49 1) 61 0 0 =
      some (some (v2_batch_header 49 1, 61))) ∧
    (∀ lib, dissect_kafka_message_new lib (v2_batch_header 49 1) 0 = none) := by
  refine ⟨by decide, by decide, fun _ => rfl, by decide, by decide, fun _ => rfl,
    fun _ => rfl⟩

/-- C15, amended. A decompression failure does not move the cursor
differently.  Whenever `dissect_kafka_message_new` returns, for every codec,
record count and decompression outcome, it returns start + 12 + message_size
computed in 32-bit arithmetic, and when `decompress` fails on a batch with
magic byte 2 it returns that position and decodes no record.  Whenever
`dissect_kafka_message_old` returns on a message with a codec other than none,
it returns (position of the 4-byte length of the value) + 4 + declared length
of the value computed in 32-bit arithmetic, for every decompression outcome,
and when `decompress` fails it returns that position and decodes no nested
message. -/
theorem decompress_outcome_position (lib : codec_lib)
    (message_set : tvbuff_t → Int → Nat → Nat → decoded kafka_position)
    (tvb : tvbuff_t) (start : Int) :
    (∀ r, dissect_kafka_message_new lib tvb start = some r →
      ∃ p, dissect_kafka_batch_head tvb start = some p ∧
        r.1 = to_gint32 (start + 12 + p.message_size)) ∧
    (∀ p f, dissect_kafka_batch_head tvb start = some p → to_gint8 p.magic = 2 →
      dissect_kafka_batch_fields tvb p.offset = some f →
      decompress lib tvb f.offset
        (to_gint32 (to_guint32 (start + 12 + p.message_size - f.offset))) f.codec =
          some none →
      dissect_kafka_message_new lib tvb start =
        some (to_gint32 (start + 12 + p.message_size), [])) ∧
    (∀ codec key length r, dissect_kafka_message_old_key tvb start = some (codec, key) →
      codec ≠ 0 → tvb_get_ntohl tvb key.offset = some length →
      dissect_kafka_message_old lib message_set tvb start = .ok r →
      r.1 = to_gint32 (key.offset + 4 + length)) ∧
    (∀ codec key length, dissect_kafka_message_old_key tvb start = some (codec, key) →
      codec ≠ 0 → tvb_get_ntohl tvb key.offset = some length →
      decompress lib tvb (to_gint32 (key.offset + 4)) (to_gint32 length) codec = some none →
      dissect_kafka_message_old lib message_set tvb start =
        .ok (to_gint32 (key.offset + 4 + length),
             if key.bad_length then [.ei_kafka_bad_bytes_length] else [])) := by
  have e : ∀ n : Nat, start + 12 + (n : Int) = start + 8 + 4 + n := fun n => by ring
  refine ⟨?_, ?_, ?_, ?_⟩
  · intro r h
    obtain ⟨p, hp, hr⟩ := message_new_position lib tvb start r h
    exact ⟨p, hp, by rw [e]; exact hr⟩
  · intro p f hp hm hf hd
    rw [e] at hd ⊢
    exact message_new_v2_failure lib tvb start p f hp hm hf hd
  · intro codec key length r hk hc hl h
    exact message_old_position lib message_set tvb start codec key length r hk hc hl h
  · intro codec key length hk hc hl hd
    exact message_old_failure lib message_set tvb start codec key length hk hc hl hd

/-- Example for C15 (amended): a legacy message with the gzip codec, decoded
with a library in which no codec is compiled in; the length field of the value
is at position 22 and declares 4 bytes. -/
theorem decompress_outcome_position_example :
    dissect_kafka_message_old no_codecs (fun _ _ _ _ => .exception) (legacy_message 1) 0 =
      .ok (to_gint32 (22 + 4 + (4 : Nat)), []) :=
  (decompress_outcome_position no_codecs (fun _ _ _ _ => .exception) (legacy_message 1)
    0).2.2.2 1 { offset := 22, value_offset := 22, value_len := -1, bad_length := false } 4
    (by decide) (by decide) (by decide) (by decide)

/-! ## The registry of API keys -/

theorem kafka_apis_keys :
    ∀ n : Fin 47, (kafka_apis[n.val]?).map (fun d => d.api_key) = some (n.val : Int) := by
  decide

/-- C23. Registry lookup: `kafka_get_api_info k` returns a descriptor exactly
for 0 <= k <= 46, the descriptor is the entry of `kafka_apis` whose own
`api_key` is k, and every other key yields no descriptor. -/
theorem api_info_lookup (k : Int) :
    ((kafka_get_api_info k).isSome ↔ 0 ≤ k ∧ k ≤ 46) ∧
    (∀ d, kafka_get_api_info k = some d → d ∈ kafka_apis ∧ d.api_key = k) ∧
    (k < 0 ∨ 46 < k → kafka_get_api_info k = none) := by
  have hl : to_gint16 kafka_apis.length = 47 := by decide
  have hsome : 0 ≤ k → k ≤ 46 →
      ∃ d, kafka_get_api_info k = some d ∧ d ∈ kafka_apis ∧ d.api_key = k := by
    intro h0 h46
    have hk := kafka_apis_keys ⟨k.toNat, by omega⟩
    obtain ⟨d, hd, hkey⟩ := Option.map_eq_some'.1 hk
    refine ⟨d, ?_, List.mem_iff_getElem?.2 ⟨_, hd⟩, ?_⟩
    · unfold kafka_get_api_info
      rw [hl, if_pos ⟨by omega, by omega⟩]
      exact hd
    · rw [hkey]
      simp only
      omega
  have hnone : k < 0 ∨ 46 < k → kafka_get_api_info k = none := by
    intro h
    unfold kafka_get_api_info
    rw [hl, if_neg (by omega)]
  refine ⟨?_, ?_, hnone⟩
  · constructor
    · intro h
      by_contra hc
      rw [hnone (by omega)] at h
      cases h
    · intro h
      obtain ⟨d, hd, _⟩ := hsome h.1 h.2
      rw [hd]
      rfl
  · intro d hd
    by_cases hr : 0 ≤ k ∧ k ≤ 46
    · obtain ⟨d2, hd2, hm, hk⟩ := hsome hr.1 hr.2
      rw [hd2] at hd
      cases hd
      exact ⟨hm, hk⟩
    · rw [hnone (by omega)] at hd
      cases hd

/-- C24. Version support check: `kafka_is_api_version_supported d v` holds
exactly when `d.min_version` is not -1 and `d.min_version <= v <=
d.max_version`; a descriptor whose `min_version` is -1 supports no version,
not even v = -1 = `max_version`. -/
theorem version_supported_iff (d : kafka_api_info_t) (v : Int) :
    (kafka_is_api_version_supported d v = true ↔
      d.min_version ≠ -1 ∧ d.min_version ≤ v ∧ v ≤ d.max_version) ∧
    (d.min_version = -1 → kafka_is_api_version_supported d v = false) ∧
    kafka_is_api_version_supported
      { api_key := d.api_key, name := d.name, min_version := -1, max_version := -1 } (-1) =
        false := by
  have key : kafka_is_api_version_supported d v = true ↔
      d.min_version ≠ -1 ∧ d.min_version ≤ v ∧ v ≤ d.max_version := by
    unfold kafka_is_api_version_supported
    simp only [Bool.not_eq_true', Bool.or_eq_false_iff, decide_eq_false_iff_not, ne_eq,
      not_lt, gt_iff_lt, and_assoc]
  refine ⟨key, ?_, rfl⟩
  intro h
  cases hb : kafka_is_api_version_supported d v with
  | false => rfl
  | true => exact absurd h (key.1 hb).1

/-- C27. Registry invariant: every entry of `kafka_apis` whose `min_version`
is not -1 has `min_version <= max_version`. -/
theorem api_table_versions_ordered :
    ∀ d ∈ kafka_apis, d.min_version ≠ -1 → d.min_version ≤ d.max_version := by
  decide

/-- Witness of C27: the entry of ApiVersions. -/
theorem api_table_versions_ordered_witness : (0 : Int) ≤ 2 :=
  api_table_versions_ordered
    { api_key := 18, name := "ApiVersions", min_version := 0, max_version := 2 }
    (by decide) (by decide)

/-- C26, refuted as stated. No header gets both diagnostics: there is no api
key and version for which `kafka_check_supported_api_key` reports the
unknown-API-key diagnostic and `kafka_check_supported_api_version` reports the
unsupported-API-version diagnostic. -/
theorem api_checks_never_both :
    ¬ ∃ m : kafka_query_response_t,
      expert_info.ei_kafka_unknown_api_key ∈ kafka_check_supported_api_key m ∧
      expert_info.ei_kafka_unsupported_api_version ∈ kafka_check_supported_api_version m := by
  rintro ⟨m, h1, h2⟩
  unfold kafka_check_supported_api_key at h1
  unfold kafka_check_supported_api_version at h2
  cases hg : kafka_get_api_info m.api_key with
  | none =>
    rw [hg] at h2
    simp at h2
  | some d =>
    rw [hg] at h1
    simp at h1

/-- C26, amended. Each of the two registry checks decides on its own whether
to report its diagnostic: `kafka_check_supported_api_key` reports the
unknown-API-key diagnostic exactly when the api key has no descriptor, and
`kafka_check_supported_api_version` reports the unsupported-API-version
diagnostic exactly when the api key has a descriptor that does not support the
version.  The two diagnostics are mutually exclusive: a header gets at most
one of them. -/
theorem api_checks_exclusive (m : kafka_query_response_t) :
    (kafka_check_supported_api_key m =
      if kafka_get_api_info m.api_key = none then [.ei_kafka_unknown_api_key] else []) ∧
    (kafka_get_api_info m.api_key = none → kafka_check_supported_api_version m = []) ∧
    (∀ d, kafka_get_api_info m.api_key = some d →
      kafka_check_supported_api_key m = [] ∧
      kafka_check_supported_api_version m =
        if kafka_is_api_version_supported d m.api_version then []
        else [.ei_kafka_unsupported_api_version]) ∧
    (kafka_check_supported_api_key m = [] ∨ kafka_check_supported_api_version m = []) := by
  have h2 : kafka_get_api_info m.api_key = none → kafka_check_supported_api_version m = [] := by
    intro h
    unfold kafka_check_supported_api_version
    rw [h]
  have h3 : ∀ d, kafka_get_api_info m.api_key = some d →
      kafka_check_supported_api_key m = [] ∧
      kafka_check_supported_api_version m =
        if kafka_is_api_version_supported d m.api_version then []
        else [.ei_kafka_unsupported_api_version] := by
    intro d h
    unfold kafka_check_supported_api_key kafka_check_supported_api_version
    rw [h]
    cases hb : kafka_is_api_version_supported d m.api_version <;> simp [hb]
  refine ⟨rfl, h2, h3, ?_⟩
  cases hg : kafka_get_api_info m.api_key with
  | none => exact Or.inr (h2 hg)
  | some d => exact Or.inl (h3 d hg).1

/-! ## The error codes -/

theorem kafka_errors_values :
    ∀ e ∈ kafka_errors, -1 ≤ e.value ∧ e.value ≤ 85 ∧ e.value ≠ 9 ∧ e.value ≠ 13 := by
  decide

theorem kafka_errors_own_name :
    ∀ e ∈ kafka_errors, kafka_error_to_str e.value = e.strptr := by
  decide

theorem kafka_errors_codes :
    ∀ i : Fin 87, (i.val : Int) - 1 ≠ 9 → (i.val : Int) - 1 ≠ 13 →
      ∃ e ∈ kafka_errors, e.value = (i.val : Int) - 1 := by
  decide

theorem to_guint32_inj (a b : Int) (ha : -2 ^ 31 ≤ a) (ha' : a < 2 ^ 31) (hb : -2 ^ 31 ≤ b)
    (hb' : b < 2 ^ 31) (h : to_guint32 a = to_guint32 b) : a = b := by
  unfold to_guint32 at h
  have h' : a % 2 ^ 32 = b % 2 ^ 32 := by
    have := congrArg (fun n : Nat => (n : Int)) h
    simp only at this
    rwa [Int.toNat_of_nonneg (Int.emod_nonneg _ (by norm_num)),
      Int.toNat_of_nonneg (Int.emod_nonneg _ (by norm_num))] at this
  norm_num at ha ha' hb hb' h'
  omega

theorem to_gint32_to_guint32 (a : Int) (ha : -2 ^ 31 ≤ a) (ha' : a < 2 ^ 31) :
    to_gint32 (to_guint32 a) = a := by
  unfold to_gint32 to_guint32
  rw [Int.toNat_of_nonneg (Int.emod_nonneg _ (by norm_num))]
  norm_num at ha ha' ⊢
  omega

/-- C28, counterexample. The codes 9 and 13 lie between -1 and 85 and have no
entry in `kafka_errors`: `kafka_error_to_str` gives "Unknown 9" and
"Unknown 13". -/
theorem error_codes_9_and_13_unmapped :
    kafka_error_to_str 9 = "Unknown 9" ∧ kafka_error_to_str 13 = "Unknown 13" ∧
    (∀ e ∈ kafka_errors, e.value ≠ 9 ∧ e.value ≠ 13) := by
  decide

/-- C28, amended. `kafka_error_to_str` maps every code from -1 through 85
other than 9 and 13 to its fixed name in the `kafka_errors` table, and every
other signed 16-bit code n, the codes 9 and 13 among them, to the text
"Unknown n". -/
theorem error_code_mapping (n : Int) (h1 : -2 ^ 15 ≤ n) (h2 : n < 2 ^ 15) :
    (-1 ≤ n → n ≤ 85 → n ≠ 9 → n ≠ 13 →
      ∃ e ∈ kafka_errors, e.value = n ∧ kafka_error_to_str n = e.strptr) ∧
    (n < -1 ∨ 85 < n ∨ n = 9 ∨ n = 13 → kafka_error_to_str n = "Unknown " ++ toString n) := by
  constructor
  · intro a b c d
    obtain ⟨e, he, hv⟩ := kafka_errors_codes ⟨(n + 1).toNat, by omega⟩
      (by simp only; omega) (by simp only; omega)
    have hv' : e.value = n := by
      rw [hv]
      simp only
      omega
    exact ⟨e, he, hv', by rw [← hv']; exact kafka_errors_own_name e he⟩
  · intro h
    unfold kafka_error_to_str val_to_str
    have hf : kafka_errors.find? (fun e => to_guint32 e.value = to_guint32 n) = none := by
      rw [List.find?_eq_none]
      intro e he
      have hr := kafka_errors_values e he
      simp only [decide_eq_true_eq]
      intro heq
      have := to_guint32_inj e.value n (by norm_num; omega) (by norm_num; omega)
        (by norm_num at h1 ⊢; omega) (by norm_num at h2 ⊢; omega) heq
      omega
    rw [hf]
    simp only
    rw [to_gint32_to_guint32 n (by norm_num at h1 ⊢; omega) (by norm_num at h2 ⊢; omega)]

/-- Witness of C28 (amended): the code 7 has the name "Request Timed Out". -/
theorem error_code_mapping_witness :
    ∃ e ∈ kafka_errors, e.value = 7 ∧ kafka_error_to_str 7 = e.strptr :=
  (error_code_mapping 7 (by decide) (by decide)).1 (by decide) (by decide) (by decide)
    (by decide)

/-! ## The choice of the codec -/

/-- C29. Codec dispatch: with codec 0 (none) `decompress` succeeds for every
span and hands back the very same buffer and the same offset; the codecs 1, 2,
3 and 4 go to gzip, snappy, lz4 and zstd; every other codec (5, 6, 7 of the
3-bit field) is a failure. -/
theorem codec_dispatch (lib : codec_lib) (tvb : tvbuff_t) (offset length : Int) (codec : Nat) :
    decompress lib tvb offset length 0 = some (some (tvb, offset)) ∧
    decompress lib tvb offset length 1 =
      (lib.decompress_gzip tvb offset length).map (Option.map (fun t => (t, 0))) ∧
    decompress lib tvb offset length 2 =
      (lib.decompress_snappy tvb offset length).map (Option.map (fun t => (t, 0))) ∧
    decompress lib tvb offset length 3 =
      (lib.decompress_lz4 tvb offset length).map (Option.map (fun t => (t, 0))) ∧
    decompress lib tvb offset length 4 =
      (lib.decompress_zstd tvb offset length).map (Option.map (fun t => (t, 0))) ∧
    (5 ≤ codec → decompress lib tvb offset length codec = some none) := by
  refine ⟨rfl, rfl, rfl, rfl, rfl, ?_⟩
  intro h
  unfold decompress
  rw [if_neg (by omega), if_neg (by omega), if_neg (by omega), if_neg (by omega),
    if_neg (by omega)]

/-! ## The deltas of a record -/

theorem to_gint64_add (a b : Int) : to_gint64 (a + to_gint64 b) = to_gint64 (a + b) := by
  unfold to_gint64
  norm_num
  omega

/-- C22. Per-record delta resolution: when the delta varint decodes (width w,
value delta as a signed 64-bit number), `dissect_kafka_offset_delta` shows
base_offset + delta and `dissect_kafka_timestamp_delta` shows the timestamp
first_timestamp + delta in milliseconds, both sums in 64-bit two's-complement
arithmetic, and each reader returns the position offset + w. -/
theorem delta_resolution (tvb : tvbuff_t) (offset : Int) (base_offset first_timestamp : Nat)
    (w val : Nat) (hlen : tvb.length < 2 ^ 31) (h1 : -2 ^ 31 ≤ offset) (h2 : offset < 2 ^ 31)
    (h : tvb_get_varint tvb offset FT_VARINT_MAX_LEN = some (w, val)) (hw : w ≠ 0) :
    dissect_kafka_offset_delta tvb offset base_offset =
      some (offset + w, to_gint64 (base_offset + to_gint64 val), []) ∧
    (∃ milliseconds, dissect_kafka_timestamp_delta tvb offset first_timestamp =
        some (offset + w, milliseconds, []) ∧
      (milliseconds : Int) = (first_timestamp + to_gint64 val) % 2 ^ 64) := by
  obtain ⟨_, _, _, _, e, _⟩ := varint_span tvb offset FT_VARINT_MAX_LEN w val hlen h1 h2 h hw
  constructor
  · unfold dissect_kafka_offset_delta
    rw [h]
    simp only [hw, if_false, e, to_gint64_add]
  · refine ⟨(first_timestamp + val) % 2 ^ 64, ?_, ?_⟩
    · unfold dissect_kafka_timestamp_delta
      rw [h]
      simp only [hw, if_false, e]
    · unfold to_gint64
      push_cast
      omega

/-- Witness of C22: the delta -3 (varint 0x05) on base offset 10 and first
timestamp 1000. -/
theorem delta_resolution_witness :
    dissect_kafka_offset_delta [0x05] 0 10 =
      some ((0 : Int) + (1 : Nat), to_gint64 ((10 : Nat) + to_gint64 (2 ^ 64 - 3 : Nat)), []) ∧
    (∃ milliseconds, dissect_kafka_timestamp_delta [0x05] 0 1000 =
        some ((0 : Int) + (1 : Nat), milliseconds, []) ∧
      (milliseconds : Int) = ((1000 : Nat) + to_gint64 (2 ^ 64 - 3 : Nat)) % 2 ^ 64) :=
  delta_resolution [0x05] 0 10 1000 1 (2 ^ 64 - 3) (by decide) (by decide) (by decide)
    (by decide) (by decide)

/-! ## The ApiVersions scenario -/

/-- C25, counterexample. The framer cuts the twelve bytes 00 00 00 06 00 12
00 02 00 00 00 07 at their framing length: the message is the first ten bytes,
`dissect_kafka` decodes api key 18 and api version 2 from it and ends with the
bounds exception at the correlation id, of which the message holds two
bytes. -/
theorem framed_scenario_has_no_correlation_id :
    dissect_kafka_tcp api_versions_v2_header =
      ([[0, 0, 0, 6, 0, 0x12, 0, 2, 0, 0]], [0, 7]) ∧
    proto_tree_add_item [0, 0, 0, 6, 0, 0x12, 0, 2, 0, 0] 8 4 = false ∧
    (∀ m, dissect_kafka_request_header m [0, 0, 0, 6, 0, 0x12, 0, 2, 0, 0] = none) ∧
    dissect_kafka conv_state.empty (sample_request 1) [0, 0, 0, 6, 0, 0x12, 0, 2, 0, 0] =
      ({ heap := [{ api_key := 18, api_version := 2, request_frame := 1,
                    response_frame := none, response_found := false }],
         match_queue := [0], proto_data := [(1, 0)] }, .exception) := by
  refine ⟨by decide, by decide, fun _ => rfl, by decide⟩

/-- C25, amended. `dissect_kafka` applied to the twelve bytes 00 00 00 06 00
12 00 02 00 00 00 07 themselves as a request stores the api key 18 and the api
version 2 in the matcher and shows exactly the header fields api_key = 18,
api_version = 2, correlation_id = 7; api key 18 resolves to the ApiVersions
descriptor, which supports version 2, and neither the unknown-key nor the
unsupported-version diagnostic is reported.  The call then ends with the
bounds exception at the client id, which the twelve bytes do not hold. -/
theorem api_versions_scenario :
    dissect_kafka conv_state.empty (sample_request 1) api_versions_v2_header =
      ({ heap := [{ api_key := 18, api_version := 2, request_frame := 1,
                    response_frame := none, response_found := false }],
         match_queue := [0], proto_data := [(1, 0)] }, .exception) ∧
    dissect_kafka_request_header
        { api_key := 18, api_version := 2, request_frame := 1, response_frame := none,
          response_found := false } api_versions_v2_header =
      some { api_key := 18, api_version := 2, correlation_id := 7, diags := [] } ∧
    kafka_get_api_info 18 =
      some { api_key := 18, name := "ApiVersions", min_version := 0, max_version := 2 } ∧
    kafka_is_api_version_supported
      { api_key := 18, name := "ApiVersions", min_version := 0, max_version := 2 } 2 = true ∧
    dissect_kafka_string api_versions_v2_header 12 = none := by
  decide

/-! ## Zig-zag and base-128, encoder against decoder -/

theorem xor_all_ones (m : Nat) (h : m < 2 ^ 64) : m ^^^ (2 ^ 64 - 1) = 2 ^ 64 - 1 - m := by
  apply Nat.eq_of_testBit_eq
  intro i
  have e : 2 ^ 64 - 1 - m = 2 ^ 64 - (m + 1) := by omega
  rw [Nat.testBit_xor, Nat.testBit_two_pow_sub_one, e, Nat.testBit_two_pow_sub_succ h]
  by_cases hi : i < 64
  · simp [hi]
  · have hm : m.testBit i = false :=
      Nat.testBit_lt_two_pow (lt_of_lt_of_le h (Nat.pow_le_pow_right (by decide) (by omega)))
    simp [hi, hm]

theorem unzigzag_even (n : Nat) : unzigzag (2 * n) = n := by
  unfold unzigzag
  have h0 : (2 * n) &&& 1 = 0 := by rw [Nat.and_one_is_mod]; omega
  have h1 : (2 * n) >>> 1 = n := by rw [Nat.shiftRight_eq_div_pow]; omega
  rw [h0, h1, if_neg (by decide), Nat.xor_zero]

theorem unzigzag_odd (m : Nat) (h : m < 2 ^ 64) : unzigzag (2 * m + 1) = 2 ^ 64 - 1 - m := by
  unfold unzigzag
  have h0 : (2 * m + 1) &&& 1 = 1 := by rw [Nat.and_one_is_mod]; omega
  have h1 : (2 * m + 1) >>> 1 = m := by rw [Nat.shiftRight_eq_div_pow]; omega
  rw [h0, h1, if_pos rfl, xor_all_ones m h]

theorem zigzag_lt (v : Int) (h1 : -2 ^ 63 ≤ v) (h2 : v < 2 ^ 63) : zigzag v < 2 ^ 64 := by
  unfold zigzag
  norm_num at h1 h2 ⊢
  split <;> omega

/-- Un-zigzagging the zig-zag encoding of a signed 64-bit value gives the
value back. -/
theorem unzigzag_zigzag (v : Int) (h1 : -2 ^ 63 ≤ v) (h2 : v < 2 ^ 63) :
    to_gint64 (unzigzag (zigzag v)) = v := by
  norm_num at h1 h2
  by_cases h0 : 0 ≤ v
  · have e : zigzag v = 2 * v.toNat := by
      unfold zigzag
      rw [if_pos h0]
      omega
    rw [e, unzigzag_even]
    unfold to_gint64
    norm_num
    omega
  · have e : zigzag v = 2 * (-v - 1).toNat + 1 := by
      unfold zigzag
      rw [if_neg h0]
      omega
    have hm : (-v - 1).toNat < 2 ^ 64 := by norm_num; omega
    rw [e, unzigzag_odd _ hm]
    unfold to_gint64
    norm_num at hm ⊢
    omega

theorem guint8_append (pre : List guint8) (b : guint8) (tail : List guint8) :
    tvb_get_guint8 (pre ++ b :: tail) (pre.length : Int) = some b.val := by
  unfold tvb_get_guint8 tvb_get_bytes tvb_abs_offset
  rw [if_pos (Int.natCast_nonneg _), Int.toNat_ofNat, if_pos (by simp)]
  simp only
  rw [if_pos (by simp), List.drop_left]
  simp [be_value]

/-- One step of the decoder on a byte that carries the group `g`. -/
theorem varint_step_value (acc g i b : Nat) (hacc : acc < 2 ^ (i * 7)) (hb : b % 128 = g)
    (hsum : acc + g * 2 ^ (i * 7) < 2 ^ 64) :
    (acc ||| ((b &&& 0x7F) <<< (i * 7))) % 2 ^ 64 = acc + g * 2 ^ (i * 7) := by
  have h7 : b &&& 0x7F = g := by
    have := Nat.and_pow_two_sub_one_eq_mod b 7
    norm_num at this
    rw [this, hb]
  rw [h7, Nat.shiftLeft_eq, Nat.lor_comm, Nat.mul_comm g, ← Nat.mul_add_lt_is_or hacc g,
    Nat.mod_eq_of_lt (by rw [Nat.mul_comm, Nat.add_comm]; exact hsum), Nat.add_comm]

theorem encode_base128_length (k : Nat) : ∀ n, (encode_base128 k n).length ≤ k := by
  induction k with
  | zero => intro n; simp [encode_base128]
  | succ k ih =>
    intro n
    unfold encode_base128
    split
    · simp
    · simp only [List.length_cons]
      have := ih (n / 128)
      omega

/-- More room does not change the encoding of a number that fits. -/
theorem encode_base128_fits (j : Nat) : ∀ k n, n < 2 ^ (7 * (j + 1)) → j + 1 ≤ k →
    encode_base128 k n = encode_base128 (j + 1) n := by
  induction j with
  | zero =>
    intro k n hn hk
    obtain ⟨k', rfl⟩ : ∃ k', k = k' + 1 := ⟨k - 1, by omega⟩
    have : n < 128 := by simpa using hn
    simp [encode_base128, this]
  | succ j ih =>
    intro k n hn hk
    obtain ⟨k', rfl⟩ : ∃ k', k = k' + 1 := ⟨k - 1, by omega⟩
    unfold encode_base128
    by_cases h : n < 128
    · simp [h]
    · simp only [h, if_false]
      rw [ih k' (n / 128) ?_ (by omega)]
      have : 2 ^ (7 * (j + 1 + 1)) = 128 * 2 ^ (7 * (j + 1)) := by
        rw [show 7 * (j + 1 + 1) = 7 + 7 * (j + 1) by ring, pow_add]
        norm_num
      rw [this] at hn
      exact Nat.div_lt_of_lt_mul hn

/-- One round of the decoder on the byte `b` at index `i`. -/
theorem varint_loop_step (pre : List guint8) (b : guint8) (tail : List guint8) (f acc : Nat)
    (hi : pre.length < 2 ^ 31) :
    tvb_get_varint_loop (pre ++ b :: tail) 0 (f + 1) pre.length acc =
      if b.val < 0x80 then
        some (pre.length + 1,
          unzigzag ((acc ||| ((b.val &&& 0x7F) <<< (pre.length * 7))) % 2 ^ 64))
      else
        tvb_get_varint_loop (pre ++ b :: tail) 0 f (pre.length + 1)
          ((acc ||| ((b.val &&& 0x7F) <<< (pre.length * 7))) % 2 ^ 64) := by
  have e : to_gint32 ((0 : Int) + (pre.length : Nat)) = (pre.length : Nat) := by
    rw [zero_add]
    exact to_gint32_of_int _ (by norm_num; omega) (by exact_mod_cast hi)
  rw [tvb_get_varint_loop, e, guint8_append]

/-- The decoder on the base-128 encoding of `n`, from the byte at index `i`
on, with the groups before it collected in `acc`. -/
theorem varint_loop_encode (rest : List guint8) (j : Nat) :
    ∀ (n acc fuel : Nat) (pre : List guint8),
      n < 2 ^ (7 * (j + 1)) → acc < 2 ^ (pre.length * 7) →
      acc + n * 2 ^ (pre.length * 7) < 2 ^ 64 → pre.length + j + 1 < 100 → j + 1 ≤ fuel →
      tvb_get_varint_loop (pre ++ (encode_base128 (j + 1) n ++ rest)) 0 fuel pre.length acc =
        some (pre.length + (encode_base128 (j + 1) n).length,
              unzigzag (acc + n * 2 ^ (pre.length * 7))) := by
  have last : ∀ (n acc fuel k : Nat) (pre : List guint8), n < 128 →
      acc < 2 ^ (pre.length * 7) → acc + n * 2 ^ (pre.length * 7) < 2 ^ 64 →
      pre.length < 100 → 1 ≤ fuel →
      tvb_get_varint_loop (pre ++ (encode_base128 (k + 1) n ++ rest)) 0 fuel pre.length acc =
        some (pre.length + (encode_base128 (k + 1) n).length,
              unzigzag (acc + n * 2 ^ (pre.length * 7))) := by
    intro n acc fuel k pre hn hacc hsum hi hf
    obtain ⟨f, rfl⟩ : ∃ f, fuel = f + 1 := ⟨fuel - 1, by omega⟩
    have henc : encode_base128 (k + 1) n = [Fin.ofNat n] := by
      unfold encode_base128
      rw [if_pos hn]
    have hv : ((Fin.ofNat n : guint8) : Nat) = n := by
      show n % 256 = n
      omega
    rw [henc, List.singleton_append, varint_loop_step pre _ rest f acc (by omega), hv,
      if_pos (by omega), varint_step_value acc n pre.length n hacc (by omega) hsum]
    rfl
  induction j with
  | zero =>
    intro n acc fuel pre hn hacc hsum hi hf
    exact last n acc fuel 0 pre (by simpa using hn) hacc hsum (by omega) hf
  | succ j ih =>
    intro n acc fuel pre hn hacc hsum hi hf
    by_cases h : n < 128
    · exact last n acc fuel (j + 1) pre h hacc hsum (by omega) (by omega)
    · obtain ⟨f, rfl⟩ : ∃ f, fuel = f + 1 := ⟨fuel - 1, by omega⟩
      have henc : encode_base128 (j + 1 + 1) n =
          Fin.ofNat (n % 128 + 128) :: encode_base128 (j + 1) (n / 128) := by
        conv => lhs; unfold encode_base128
        rw [if_neg h]
      have hv : ((Fin.ofNat (n % 128 + 128) : guint8) : Nat) = n % 128 + 128 := by
        show (n % 128 + 128) % 256 = n % 128 + 128
        omega
      have hp : 2 ^ ((pre.length + 1) * 7) = 128 * 2 ^ (pre.length * 7) := by
        rw [show (pre.length + 1) * 7 = 7 + pre.length * 7 by ring, pow_add]
        norm_num
      have hn' : n / 128 < 2 ^ (7 * (j + 1)) := by
        have : 2 ^ (7 * (j + 1 + 1)) = 128 * 2 ^ (7 * (j + 1)) := by
          rw [show 7 * (j + 1 + 1) = 7 + 7 * (j + 1) by ring, pow_add]
          norm_num
        rw [this] at hn
        exact Nat.div_lt_of_lt_mul hn
      have hsplit : n * 2 ^ (pre.length * 7) =
          n % 128 * 2 ^ (pre.length * 7) + n / 128 * (128 * 2 ^ (pre.length * 7)) := by
        conv => lhs; rw [← Nat.div_add_mod n 128]
        ring
      have hg : n % 128 * 2 ^ (pre.length * 7) ≤ 127 * 2 ^ (pre.length * 7) :=
        Nat.mul_le_mul_right _ (by omega)
      have hstep := varint_step_value acc (n % 128) pre.length (n % 128 + 128) hacc
        (by omega) (by omega)
      have hrec := ih (n / 128) (acc + n % 128 * 2 ^ (pre.length * 7)) f
        (pre ++ [Fin.ofNat (n % 128 + 128)]) hn'
        (by rw [List.length_append, List.length_singleton, hp]; omega)
        (by rw [List.length_append, List.length_singleton, hp]; omega)
        (by rw [List.length_append, List.length_singleton]; omega) (by omega)
      rw [List.length_append, List.length_singleton, hp, List.append_assoc,
        List.singleton_append] at hrec
      rw [henc, List.cons_append, varint_loop_step pre _ _ f acc (by omega), hv,
        if_neg (by omega), hstep, hrec, List.length_cons, hsplit]
      rw [Nat.add_assoc acc, Nat.add_assoc pre.length, Nat.add_comm 1]

/-- C21, counterexample. The value 2^34 has a zig-zag varint of six bytes: the
compact readers, which call the decoder with a maximum of five bytes, get 0
bytes consumed and the value 0, not 2^34 and 6. -/
theorem compact_varint_too_wide :
    encode_varint (2 ^ 34) = [0x80, 0x80, 0x80, 0x80, 0x80, 0x01] ∧
    tvb_get_varint (encode_varint (2 ^ 34)) 0 5 = some (0, 0) ∧
    (dissect_kafka_string_new (encode_varint (2 ^ 34)) 0).map (fun f => f.diags) =
      some [.ei_kafka_bad_varint] := by
  decide

/-- C21, amended. Varint/zig-zag round trip: for every signed 64-bit value v,
un-zigzagging the zig-zag encoding of v gives v, and the zig-zag varint decode
as the delta readers call it (at most ten bytes), applied to the little-endian
base-128 encoding of zigzag(v), whatever bytes follow it, returns v together
with the number of bytes of that encoding; as the compact readers call it (at
most five bytes) it does so for every v with -2^34 <= v < 2^34. -/
theorem varint_round_trip (v : Int) (rest : List guint8) (h1 : -2 ^ 63 ≤ v)
    (h2 : v < 2 ^ 63) :
    to_gint64 (unzigzag (zigzag v)) = v ∧
    (∃ x, tvb_get_varint (encode_varint v ++ rest) 0 FT_VARINT_MAX_LEN =
        some ((encode_varint v).length, x) ∧ to_gint64 x = v) ∧
    (-2 ^ 34 ≤ v → v < 2 ^ 34 →
      ∃ x, tvb_get_varint (encode_varint v ++ rest) 0 5 =
        some ((encode_varint v).length, x) ∧ to_gint64 x = v) := by
  have hz := unzigzag_zigzag v h1 h2
  have hlt := zigzag_lt v h1 h2
  refine ⟨hz, ⟨unzigzag (zigzag v), ?_, hz⟩, ?_⟩
  · have h := varint_loop_encode rest 9 (zigzag v) 0 10 []
      (lt_of_lt_of_le hlt (by norm_num)) (by simp) (by simpa using hlt) (by simp) (by omega)
    simp only [List.nil_append, List.length_nil, zero_add, zero_mul, pow_zero, mul_one] at h
    exact h
  · intro h3 h4
    have hsmall : zigzag v < 2 ^ (7 * (4 + 1)) := by
      unfold zigzag
      norm_num at h3 h4 ⊢
      split <;> omega
    have hfit : encode_varint v = encode_base128 (4 + 1) (zigzag v) :=
      encode_base128_fits 4 FT_VARINT_MAX_LEN (zigzag v) hsmall (by decide)
    have h := varint_loop_encode rest 4 (zigzag v) 0 5 [] hsmall (by simp)
      (by simpa using hlt) (by simp) (by omega)
    simp only [List.nil_append, List.length_nil, zero_add, zero_mul, pow_zero, mul_one] at h
    refine ⟨unzigzag (zigzag v), ?_, hz⟩
    rw [hfit]
    exact h

/-- Witness of C21 (amended): the value -3, encoded in the one byte 0x05. -/
theorem varint_round_trip_witness :
    to_gint64 (unzigzag (zigzag (-3))) = -3 ∧
    (∃ x, tvb_get_varint (encode_varint (-3) ++ [0xAA]) 0 FT_VARINT_MAX_LEN =
        some ((encode_varint (-3)).length, x) ∧ to_gint64 x = -3) ∧
    (-2 ^ 34 ≤ (-3 : Int) → (-3 : Int) < 2 ^ 34 →
      ∃ x, tvb_get_varint (encode_varint (-3) ++ [0xAA]) 0 5 =
        some ((encode_varint (-3)).length, x) ∧ to_gint64 x = -3) :=
  varint_round_trip (-3) [0xAA] (by decide) (by decide)

/-! ## Spans of a buffer and the chunk loop of the Snappy decoder -/

theorem get_bytes_append (pre rest : List guint8) (n : Nat) :
    tvb_get_bytes (pre ++ rest) pre.length n =
      if n ≤ rest.length then some (rest.take n) else none := by
  unfold tvb_get_bytes tvb_abs_offset
  rw [if_pos (Int.natCast_nonneg _)]
  simp only [Int.toNat_ofNat, List.length_append]
  rw [if_pos (by omega)]
  simp only [List.drop_left]
  by_cases h : n ≤ rest.length
  · rw [if_pos h, if_pos (by omega)]
  · rw [if_neg h, if_neg (by omega)]

theorem memdup_span (pre data post : List guint8) :
    tvb_memdup (pre ++ data ++ post) pre.length data.length = some data := by
  unfold tvb_memdup
  rw [if_neg (by omega), if_neg (by omega), List.append_assoc, Int.toNat_ofNat,
    get_bytes_append, if_pos (by simp)]
  simp

theorem memeql_span (pre rest : List guint8) :
    tvb_memeql (pre ++ rest) pre.length kafka_xerial_header 8 = 0 ↔
      rest.take 8 = kafka_xerial_header := by
  unfold tvb_memeql
  rw [get_bytes_append]
  by_cases h : 8 ≤ rest.length
  · rw [if_pos h]
    have e : List.take 8 kafka_xerial_header = kafka_xerial_header := rfl
    simp only [e]
    by_cases hh : List.take 8 rest = kafka_xerial_header
    · simp [hh]
    · simp [hh]
  · rw [if_neg h]
    simp only [Int.reduceNeg, Int.neg_eq_zero, one_ne_zero, false_iff]
    intro hh
    have hl := congrArg List.length hh
    rw [List.length_take] at hl
    have : kafka_xerial_header.length = 8 := rfl
    omega

theorem ntohl_be32 (pre rest : List guint8) (n : Nat) (h : n < 2 ^ 32) :
    tvb_get_ntohl (pre ++ (be32 n ++ rest)) pre.length = some n := by
  unfold tvb_get_ntohl
  rw [get_bytes_append, if_pos (by simp [be32])]
  have : List.take 4 (be32 n ++ rest) = be32 n := by simp [be32]
  rw [this]
  simp [be_value_be32 n h]

theorem to_guint32_of_nat (n : Nat) (h : n < 2 ^ 32) : to_guint32 n = n := by
  unfold to_guint32
  norm_num at h ⊢
  omega

theorem child_real_data_small (out : List guint8) (h : out.length < 2 ^ 31) :
    tvb_new_child_real_data out (to_guint32 out.length) (to_gint32 out.length) = some out := by
  unfold tvb_new_child_real_data
  have h' : ((out.length : Nat) : Int) < 2 ^ 31 := by exact_mod_cast h
  rw [to_gint32_of_int _ (by omega) h', to_guint32_of_nat _ (by omega), if_neg (by omega),
    List.take_length]

theorem snappy_member_of (out : List guint8) (n : Nat) (r : Int)
    (h : tvb_new_child_real_data out n r = some out) :
    snappy_member out n r = .ok (some out) := by
  unfold snappy_member
  rw [h]

theorem snappy_block_small (snappy : List guint8 → Option (List guint8))
    (block out : List guint8) (hs : snappy block = some out) (h : out.length < 2 ^ 31) :
    snappy_block snappy block = .ok (some out) := by
  unfold snappy_block
  rewrite [hs]
  exact snappy_member_of out _ _ (child_real_data_small out h)

theorem snappy_block_none (snappy : List guint8 → Option (List guint8))
    (block : List guint8) (hs : snappy block = none) :
    snappy_block snappy block = .ok none := by
  unfold snappy_block
  rw [hs]

theorem snappy_chunks_step (snappy : List guint8 → Option (List guint8)) (tvb : tvbuff_t)
    (data : List guint8) (offset length : Int) (fuel : Nat) (pos : Int) (acc : List tvbuff_t)
    (v : Nat) (member : List guint8) (cs p2 p3 : Int)
    (hpos : pos < length) (hv : tvb_get_ntohl tvb (to_gint32 (offset + pos)) = some v)
    (hcs : to_gint32 v = cs) (hp2 : to_gint32 (pos + 4) = p2)
    (hp3 : to_gint32 (p2 + cs) = p3) (hfit : ¬ p3 > length)
    (hm : snappy_block snappy ((data.drop p2.toNat).take (to_size_t cs)) =
      .ok (some member)) :
    decompress_snappy_chunks snappy tvb data offset length (fuel + 1) pos acc =
      decompress_snappy_chunks snappy tvb data offset length fuel p3 (acc ++ [member]) := by
  rw [decompress_snappy_chunks, if_pos hpos, hv]
  simp only []
  rw [hcs, hp2, hp3, if_neg hfit, hm]

theorem snappy_chunks_done (snappy : List guint8 → Option (List guint8)) (tvb : tvbuff_t)
    (data : List guint8) (offset length : Int) (fuel : Nat) (pos : Int) (acc : List tvbuff_t)
    (hpos : ¬ pos < length) :
    decompress_snappy_chunks snappy tvb data offset length (fuel + 1) pos acc =
      .ok (some acc) := by
  rw [decompress_snappy_chunks, if_neg hpos]

theorem frame_message_length (c : List guint8) : (frame_message c).length = 4 + c.length := by
  unfold frame_message be32
  rw [List.length_append]
  rfl

theorem snappy_chunks_loop (snappy : List guint8 → Option (List guint8))
    (pre post : List guint8) (cs : List (List guint8)) :
    ∀ (done : List guint8) (acc : List tvbuff_t) (fuel : Nat),
      (pre ++ (done ++ (cs.map frame_message).flatten) ++ post).length < 2 ^ 31 →
      cs.length < fuel →
      (∀ c ∈ cs, ∃ o, snappy c = some o ∧ o.length < 2 ^ 31) →
      decompress_snappy_chunks snappy (pre ++ (done ++ (cs.map frame_message).flatten) ++ post)
        (done ++ (cs.map frame_message).flatten) pre.length
        (done ++ (cs.map frame_message).flatten).length fuel done.length acc =
      .ok (some (acc ++ cs.filterMap snappy)) := by
  induction cs with
  | nil =>
    intro done acc fuel _ hf _
    obtain ⟨k, rfl⟩ : ∃ k, fuel = k + 1 := ⟨fuel - 1, by simp at hf; omega⟩
    rw [snappy_chunks_done _ _ _ _ _ _ _ _ (by simp)]
    simp
  | cons c cs ih =>
    intro done acc fuel hlen hf hs
    obtain ⟨k, rfl⟩ : ∃ k, fuel = k + 1 := ⟨fuel - 1, by simp at hf; omega⟩
    obtain ⟨o, ho, hol⟩ := hs c (List.mem_cons_self _ _)
    have hfl := frame_message_length c
    have e1 : done ++ ((c :: cs).map frame_message).flatten =
        (done ++ frame_message c) ++ (cs.map frame_message).flatten := by
      simp
    have e2 : pre ++ (done ++ ((c :: cs).map frame_message).flatten) ++ post =
        (pre ++ done) ++ (be32 c.length ++ (c ++ ((cs.map frame_message).flatten ++ post))) := by
      simp [frame_message]
    have hl : (pre ++ (done ++ ((c :: cs).map frame_message).flatten) ++ post).length =
        pre.length + (done.length + (4 + c.length + ((cs.map frame_message).flatten).length))
          + post.length := by
      simp only [List.length_append, List.map_cons, List.flatten_cons, hfl]
    have hdl : (done ++ ((c :: cs).map frame_message).flatten).length =
        done.length + (4 + c.length + ((cs.map frame_message).flatten).length) := by
      simp only [List.length_append, List.map_cons, List.flatten_cons, hfl]
    rw [hl] at hlen
    have hv : tvb_get_ntohl (pre ++ (done ++ ((c :: cs).map frame_message).flatten) ++ post)
        (to_gint32 ((pre.length : Int) + (done.length : Int))) = some c.length := by
      rw [to_gint32_of_int _ (by omega) (by omega), e2]
      have := ntohl_be32 (pre ++ done) (c ++ ((cs.map frame_message).flatten ++ post)) c.length
        (by omega)
      rw [List.length_append] at this
      exact_mod_cast this
    have hdrop : ((done ++ ((c :: cs).map frame_message).flatten).drop
        ((done.length : Int) + 4).toNat).take (to_size_t (c.length : Int)) = c := by
      have a1 : ((done.length : Int) + 4).toNat = (done ++ be32 c.length).length := by
        simp [be32]
        omega
      have a2 : to_size_t (c.length : Int) = c.length := by
        unfold to_size_t
        omega
      have a3 : done ++ ((c :: cs).map frame_message).flatten =
          (done ++ be32 c.length) ++ (c ++ (cs.map frame_message).flatten) := by
        simp [frame_message]
      rw [a1, a2, a3, List.drop_left, List.take_left]
    rw [snappy_chunks_step snappy _ _ _ _ k _ acc c.length o (c.length : Int)
      ((done.length : Int) + 4) ((done ++ frame_message c).length : Nat)
      (by rw [hdl]; push_cast; omega) hv
      (to_gint32_of_int _ (by omega) (by omega))
      (to_gint32_of_int _ (by omega) (by omega))
      (by rw [to_gint32_of_int _ (by omega) (by omega), List.length_append, hfl]
          push_cast; omega)
      (by rw [hdl, List.length_append, hfl]; push_cast; omega)
      (by rw [hdrop]; exact snappy_block_small snappy c o ho hol)]
    rw [e1]
    rw [e1, hl] at *
    have := ih (done ++ frame_message c) (acc ++ [o]) k
      (by simp only [List.length_append, hfl] at hlen ⊢; omega)
      (by simp at hf; omega)
      (fun c' hc' => hs c' (List.mem_cons_of_mem _ hc'))
    rw [this]
    simp [ho]

/-! ## The two Snappy formats -/

theorem to_size_t_of_nat (n : Nat) (h : n < 2 ^ 31) : to_size_t (n : Int) = n := by
  unfold to_size_t
  omega

theorem decompress_snappy_span (snappy : List guint8 → Option (List guint8))
    (pre data post : List guint8) (fuel : Nat) :
    decompress_snappy snappy fuel (pre ++ data ++ post) pre.length data.length =
      if (data ++ post).take 8 = kafka_xerial_header then
        decompress_snappy_framed snappy fuel (pre ++ data ++ post) data pre.length data.length
      else decompress_snappy_unframed snappy data data.length := by
  unfold decompress_snappy
  rewrite [memdup_span]
  simp only []
  have hm := memeql_span pre (data ++ post)
  rw [← List.append_assoc] at hm
  by_cases h : (data ++ post).take 8 = kafka_xerial_header
  · rw [if_pos (hm.2 h), if_pos h]
  · rw [if_neg (fun e => h (hm.1 e)), if_neg h]

theorem decompress_snappy_unframed_span (snappy : List guint8 → Option (List guint8))
    (data : List guint8) (h : data.length < 2 ^ 31) :
    decompress_snappy_unframed snappy data data.length = snappy_block snappy data := by
  unfold decompress_snappy_unframed
  rw [to_size_t_of_nat _ h, List.take_length]

theorem filterMap_of_all_some (snappy : List guint8 → Option (List guint8))
    (chunks : List (List guint8)) (h : ∀ c ∈ chunks, ∃ o, snappy c = some o ∧ o.length < 2 ^ 31)
    (hne : chunks ≠ []) : chunks.filterMap snappy ≠ [] := by
  cases chunks with
  | nil => exact absurd rfl hne
  | cons c cs =>
    obtain ⟨o, ho, _⟩ := h c (List.mem_cons_self _ _)
    simp [List.filterMap_cons, ho]

theorem decompress_snappy_framed_frames (snappy : List guint8 → Option (List guint8))
    (pre post version : List guint8) (chunks : List (List guint8)) (fuel : Nat)
    (hlen : (pre ++ xerial_frames version chunks ++ post).length < 2 ^ 31)
    (hv : version.length = 8) (hne : chunks ≠ [])
    (hs : ∀ c ∈ chunks, ∃ o, snappy c = some o ∧ o.length < 2 ^ 31)
    (hf : chunks.length < fuel) :
    decompress_snappy_framed snappy fuel (pre ++ xerial_frames version chunks ++ post)
      (xerial_frames version chunks) pre.length (xerial_frames version chunks).length =
      .ok (some (chunks.filterMap snappy).flatten) := by
  have h16 : ((kafka_xerial_header ++ version).length : Int) = 16 := by
    rw [List.length_append, hv]
    rfl
  have hloop := snappy_chunks_loop snappy pre post chunks (kafka_xerial_header ++ version) []
    fuel hlen hf hs
  rw [h16] at hloop
  unfold decompress_snappy_framed
  unfold xerial_frames at hlen ⊢
  rewrite [hloop]
  simp only [List.nil_append]
  unfold tvb_composite_finalize
  rw [if_neg (filterMap_of_all_some snappy chunks hs hne)]

/-- C30, counterexample. A buffer of twelve bytes starts with the xerial
magic; the span handed to `decompress_snappy` is its first four bytes, so it
is shorter than eight bytes and does not hold the magic.  The comparison is
made on eight bytes of the buffer, the framed path is taken, its loop ends at
once without a chunk, and no Snappy block is decompressed: the result is not
that of decompressing the four bytes as one block. -/
theorem short_span_takes_framed_path :
    tvb_memdup short_snappy_span 0 4 = some [0x82, 0x53, 0x4e, 0x41] ∧
    tvb_memeql short_snappy_span 0 kafka_xerial_header 8 = 0 ∧
    decompress_snappy_chunks lenient_snappy short_snappy_span [0x82, 0x53, 0x4e, 0x41] 0 4 5
      16 [] = .ok (some []) ∧
    decompress_snappy_unframed lenient_snappy [0x82, 0x53, 0x4e, 0x41] 4 = .ok (some [0x41]) ∧
    decompress_snappy lenient_snappy 5 short_snappy_span 0 4 =
      decompress_snappy_framed lenient_snappy 5 short_snappy_span [0x82, 0x53, 0x4e, 0x41] 0 4 ∧
    decompress_snappy lenient_snappy 5 short_snappy_span 0 4 ≠
      decompress_snappy_unframed lenient_snappy [0x82, 0x53, 0x4e, 0x41] 4 := by
  decide

/-- C30, amended. For a span `data` that lies in a buffer of less than 2^31
bytes, between the bytes `pre` and `post`: `decompress_snappy` takes the framed
path if and only if the eight bytes of the buffer from the start of the span
on exist and are 82 53 4E 41 50 50 59 00; for a span of eight bytes or more
these are the first eight bytes of the span.  Otherwise the whole span is
handed to the Snappy library as one block: the call fails when the library
fails and yields the output of the library (of less than 2^31 bytes)
otherwise.  A span that consists of the magic, eight more header bytes and one
chunk or more, each after its 4-byte big-endian length and each decompressed
by the library to less than 2^31 bytes, is decoded on the framed path, given
fuel for one step more than there are chunks, to the outputs of the chunks
concatenated in order. -/
theorem snappy_format_selection (snappy : List guint8 → Option (List guint8))
    (pre data post : List guint8) (fuel : Nat)
    (hlen : (pre ++ data ++ post).length < 2 ^ 31) :
    (decompress_snappy snappy fuel (pre ++ data ++ post) pre.length data.length =
      if (data ++ post).take 8 = kafka_xerial_header then
        decompress_snappy_framed snappy fuel (pre ++ data ++ post) data pre.length data.length
      else decompress_snappy_unframed snappy data data.length) ∧
    (8 ≤ data.length →
      ((data ++ post).take 8 = kafka_xerial_header ↔ data.take 8 = kafka_xerial_header)) ∧
    (snappy data = none → decompress_snappy_unframed snappy data data.length = .ok none) ∧
    (∀ out, snappy data = some out → out.length < 2 ^ 31 →
      decompress_snappy_unframed snappy data data.length = .ok (some out)) ∧
    (∀ version chunks, data = xerial_frames version chunks → version.length = 8 →
      chunks ≠ [] → (∀ c ∈ chunks, ∃ o, snappy c = some o ∧ o.length < 2 ^ 31) →
      chunks.length < fuel →
      decompress_snappy snappy fuel (pre ++ data ++ post) pre.length data.length =
        .ok (some (chunks.filterMap snappy).flatten)) := by
  have hd : data.length < 2 ^ 31 := by
    simp only [List.length_append] at hlen
    omega
  refine ⟨decompress_snappy_span snappy pre data post fuel, ?_, ?_, ?_, ?_⟩
  · intro h8
    rw [List.take_append_of_le_length h8]
  · intro hs
    rw [decompress_snappy_unframed_span snappy data hd]
    exact snappy_block_none snappy data hs
  · intro out hs ho
    rw [decompress_snappy_unframed_span snappy data hd]
    exact snappy_block_small snappy data out hs ho
  · intro version chunks hdata hv hne hs hf
    subst hdata
    rw [decompress_snappy_span, if_pos]
    · exact decompress_snappy_framed_frames snappy pre post version chunks fuel hlen hv hne hs hf
    · have e : xerial_frames version chunks ++ post =
          kafka_xerial_header ++ (version ++ (chunks.map frame_message).flatten ++ post) := by
        simp [xerial_frames]
      rw [e]
      exact List.take_left' rfl

theorem snappy_format_selection_witness :
    ([] ++ two_chunk_stream ++ [0xFF] : List guint8).length < 2 ^ 31 ∧
    decompress_snappy literal_snappy 3 ([] ++ two_chunk_stream ++ [0xFF])
        (([] : List guint8).length : Nat) (two_chunk_stream.length : Nat) =
      .ok (some [0x41, 0x42, 0x43]) :=
  ⟨by decide,
   (snappy_format_selection literal_snappy [] two_chunk_stream [0xFF] 3 (by decide)).2.2.2.2
     [0, 0, 0, 1, 0, 0, 0, 1] [[2, 4, 0x41, 0x42], [1, 0, 0x43]] rfl rfl (by decide)
     (by decide) (by decide)⟩

/-! ## The header checksum of an LZ4 frame -/

theorem lz4_override_eq (cpu : Bool) (data : List guint8) (h7 : 7 < data.length)
    (hlt : lz4_checksum_position data < data.length) :
    lz4_override_header_checksum cpu data data.length =
      data.set (lz4_checksum_position data) (lz4_descriptor_checksum cpu data) := by
  unfold lz4_override_header_checksum lz4_descriptor_checksum lz4_frame_descriptor
  unfold lz4_checksum_position at hlt ⊢
  rw [if_pos (by omega)]
  by_cases hf : (data.getD 4 0).val &&& 0x08 ≠ 0
  · rw [if_pos hf] at hlt
    simp only [hf, ne_eq, not_false_eq_true, if_true]
    rw [if_pos (by omega)]
    rfl
  · rw [if_neg hf] at hlt
    simp only [hf, ne_eq, if_false]
    rw [if_pos (by omega)]
    rfl

theorem lz4_position_set (data : List guint8) (b : guint8) :
    lz4_checksum_position (data.set (lz4_checksum_position data) b) =
      lz4_checksum_position data := by
  have h4 : ∀ n, 4 < n → (data.set n b).getD 4 0 = data.getD 4 0 := by
    intro n hn
    simp only [List.getD_eq_getElem?_getD]
    rw [List.getElem?_set_ne (by omega)]
  unfold lz4_checksum_position
  by_cases hf : (data.getD 4 0).val &&& 0x08 ≠ 0
  · simp only [hf, ne_eq, not_false_eq_true, if_true]
    rw [h4 14 (by omega)]
    simp only [hf, ne_eq, not_false_eq_true, if_true]
  · simp only [hf, ne_eq, if_false]
    rw [h4 6 (by omega)]
    simp only [hf, ne_eq, if_false]

theorem lz4_descriptor_set (data : List guint8) (b : guint8) :
    lz4_frame_descriptor (data.set (lz4_checksum_position data) b) =
      lz4_frame_descriptor data := by
  unfold lz4_frame_descriptor
  rw [lz4_position_set]
  have hp : 4 ≤ lz4_checksum_position data := by
    unfold lz4_checksum_position
    split <;> omega
  apply List.ext_getElem?
  intro i
  simp only [List.getElem?_take, List.getElem?_drop]
  by_cases hi : i < lz4_checksum_position data - 4
  · rw [if_pos hi, if_pos hi, List.getElem?_set_ne (by omega)]
  · rw [if_neg hi, if_neg hi]

/-- C32. LZ4 header-checksum override: for every span `data` of more than 7
bytes that holds its header checksum byte (at span offset 6, or at 14 when
bit 0x08 of FLG announces the content size), as every LZ4 frame does, the
bytes `decompress_lz4` hands to the frame library are the span with that byte
replaced by the second byte of XXH32 (seed 0) of the frame descriptor: they do
not depend on the value of the checksum byte in the input, and every other
byte of the span is passed through unchanged. -/
theorem lz4_header_checksum_override {ctx : Type} (lib : lz4f_lib ctx) (cpu : Bool)
    (fuel : Nat) (pre data post : List guint8) (h7 : 7 < data.length)
    (hlt : lz4_checksum_position data < data.length) :
    decompress_lz4 lib cpu fuel (pre ++ data ++ post) pre.length data.length =
      decompress_lz4_frame lib fuel
        (data.set (lz4_checksum_position data) (lz4_descriptor_checksum cpu data))
        data.length ∧
    (∀ b : guint8,
      decompress_lz4 lib cpu fuel (pre ++ data.set (lz4_checksum_position data) b ++ post)
          pre.length data.length =
        decompress_lz4_frame lib fuel
          (data.set (lz4_checksum_position data) (lz4_descriptor_checksum cpu data))
          data.length) ∧
    (data.set (lz4_checksum_position data) (lz4_descriptor_checksum cpu data))[
        lz4_checksum_position data]? = some (lz4_descriptor_checksum cpu data) ∧
    (∀ i, i ≠ lz4_checksum_position data →
      (data.set (lz4_checksum_position data) (lz4_descriptor_checksum cpu data))[i]? =
        data[i]?) ∧
    (lz4_checksum_position data = 6 ∨ lz4_checksum_position data = 14) ∧
    lz4_frame_descriptor data = (data.drop 4).take (lz4_checksum_position data - 4) := by
  have key : ∀ d : List guint8, 7 < d.length → lz4_checksum_position d < d.length →
      decompress_lz4 lib cpu fuel (pre ++ d ++ post) pre.length d.length =
        decompress_lz4_frame lib fuel
          (d.set (lz4_checksum_position d) (lz4_descriptor_checksum cpu d)) d.length := by
    intro d h7 hlt
    unfold decompress_lz4
    rewrite [memdup_span]
    simp only []
    rw [lz4_override_eq cpu d h7 hlt]
  refine ⟨key data h7 hlt, ?_, ?_, ?_, ?_, rfl⟩
  · intro b
    have h := key (data.set (lz4_checksum_position data) b)
      (by rw [List.length_set]; exact h7)
      (by rw [lz4_position_set, List.length_set]; exact hlt)
    rw [List.length_set] at h
    rw [h, lz4_position_set, List.set_set]
    unfold lz4_descriptor_checksum
    rw [lz4_descriptor_set]
  · simp [List.getElem?_set, hlt]
  · intro i hi
    rw [List.getElem?_set_ne (fun e => hi e.symm)]
  · unfold lz4_checksum_position
    split
    · exact Or.inr rfl
    · exact Or.inl rfl

/-- Witness of C32: the frame of a Kafka client with the checksum byte 0x00
is handed to the library with the checksum byte 0x82. -/
theorem lz4_header_checksum_override_witness :
    decompress_lz4 stored_lz4f true 3 ([] ++ kafka_lz4_frame ++ [])
        (([] : List guint8).length : Nat) (kafka_lz4_frame.length : Nat) =
      decompress_lz4_frame stored_lz4f 3
        (kafka_lz4_frame.set (lz4_checksum_position kafka_lz4_frame)
          (lz4_descriptor_checksum true kafka_lz4_frame))
        kafka_lz4_frame.length :=
  (lz4_header_checksum_override stored_lz4f true 3 [] kafka_lz4_frame [] (by decide)
    (by decide)).1

/-! ## The local XXH32 against the reference -/

/-- The reference definition gives the published digests of the empty input,
of "a", of "abc" and of a text of 39 bytes, and the local `XXH32` agrees with
it on that text for both byte orders of the host. -/
theorem xxh32_reference_digests :
    xxh32_reference [] 0 = 0x02CC5D05 ∧
    xxh32_reference [0x61] 0 = 0x550D7456 ∧
    xxh32_reference [0x61, 0x62, 0x63] 0 = 0x32D153FF ∧
    xxh32_reference spammish_repetition 0 = 0xE2293B2F ∧
    XXH32 true spammish_repetition 0 = 0xE2293B2F ∧
    XXH32 false spammish_repetition 0 = 0xE2293B2F ∧
    (XXH32 true [0x64, 0x40] 0 >>> 8) &&& 0xff = 0xA7 ∧
    (XXH32 true [0x60, 0x40] 0 >>> 8) &&& 0xff = 0x82 := by
  decide

/-- C36. The local `XXH32` is not the reference xxHash32 on every input: the
bytes after the last whole word are read through a pointer to `gint8`, so a
byte of 0x80 or more enters the hash as a negative number.  On the ten
descriptor bytes 68 40 00 00 00 00 00 00 00 80 (and on the one byte 80) the
local function gives, for both byte orders of the host, another digest than
the reference, and another header checksum byte. -/
theorem xxh32_signed_tail_byte :
    XXH32 true wide_content_descriptor 0 = 3036652750 ∧
    XXH32 false wide_content_descriptor 0 = 3036652750 ∧
    xxh32_reference wide_content_descriptor 0 = 4115413807 ∧
    (XXH32 true wide_content_descriptor 0 >>> 8) &&& 0xff = 0xA4 ∧
    (xxh32_reference wide_content_descriptor 0 >>> 8) &&& 0xff = 0x3B ∧
    XXH32 true [0x80] 0 = 3105938511 ∧
    XXH32 false [0x80] 0 = 3105938511 ∧
    xxh32_reference [0x80] 0 = 767482102 ∧
    XXH32_bytes [0x80] 0 ≠ XXH32_bytes [] ((XXH_rotl32 ((0x80 * PRIME32_5) % 2 ^ 32) 11 *
      PRIME32_1) % 2 ^ 32) := by
  decide

/-! ## Chunk lengths of the framed Snappy format -/

/-- A chunk whose declared length is below 2^31 and larger than what is left
of the span after its length field is a failure, whatever the library would
return. -/
theorem snappy_chunk_overrun_small (snappy : List guint8 → Option (List guint8))
    (tvb : tvbuff_t) (data : List guint8) (offset length : Int) (fuel : Nat) (pos : Int)
    (acc : List tvbuff_t) (v : Nat) (hpos : pos < length)
    (hv : tvb_get_ntohl tvb (to_gint32 (offset + pos)) = some v) (hv31 : v < 2 ^ 31)
    (h0 : 0 ≤ pos) (hfit : length < pos + 4 + v) (hno : pos + 4 + v < 2 ^ 31) :
    decompress_snappy_chunks snappy tvb data offset length (fuel + 1) pos acc = .ok none := by
  have hv' : ((v : Nat) : Int) < 2 ^ 31 := by exact_mod_cast hv31
  have e1 : to_gint32 (v : Int) = v := to_gint32_of_int _ (by omega) hv'
  have e2 : to_gint32 (pos + 4) = pos + 4 :=
    to_gint32_of_int _ (by norm_num; omega) (by norm_num at hno ⊢; omega)
  have e3 : to_gint32 (pos + 4 + v) = pos + 4 + v :=
    to_gint32_of_int _ (by norm_num; omega) hno
  rw [decompress_snappy_chunks, if_pos hpos, hv]
  simp only []
  rw [e1, e2, e3, if_pos (by omega)]

theorem negative_chunk_loops (fuel : Nat) :
    ∀ acc : List tvbuff_t,
      decompress_snappy_chunks lenient_snappy negative_chunk_span negative_chunk_span 0 20
        fuel 16 acc = .out_of_fuel := by
  induction fuel with
  | zero =>
    intro acc
    rfl
  | succ n ih =>
    intro acc
    rw [snappy_chunks_step lenient_snappy negative_chunk_span negative_chunk_span 0 20 n 16 acc
      4294967292 [0x41] (-4) 20 16 (by decide) (by decide) (by decide) (by decide) (by decide)
      (by decide) (by decide)]
    exact ih _

/-- C31. The chunk length FF FF FF FC of a framed span of twenty bytes is
4294967292 as an unsigned number, more than the 0 bytes that are left after
the length field.  `chunk_size` is a C `int`, -4: the test
`pos+chunk_size > length` does not fire, the library is called on the chunk,
and the outcome is the one of the library: with a library that accepts the
block the loop goes back to the same length field and never ends, with a
library that refuses it the call fails. -/
theorem snappy_negative_chunk_size :
    negative_chunk_span.length = 20 ∧
    tvb_memeql negative_chunk_span 0 kafka_xerial_header 8 = 0 ∧
    tvb_get_ntohl negative_chunk_span 16 = some 4294967292 ∧
    to_gint32 (4294967292 : Nat) = -4 ∧
    (∀ fuel, decompress_snappy lenient_snappy fuel negative_chunk_span 0 20 = .out_of_fuel) ∧
    decompress_snappy literal_snappy 2 negative_chunk_span 0 20 = .ok none ∧
    decompress_snappy_chunks lenient_snappy negative_chunk_span negative_chunk_span 0 20 1 16
      [] ≠ .ok none := by
  refine ⟨by decide, by decide, by decide, by decide, ?_, by decide, by decide⟩
  intro fuel
  have h := negative_chunk_loops fuel []
  have hd : tvb_memdup negative_chunk_span 0 20 = some negative_chunk_span := by decide
  have hm : tvb_memeql negative_chunk_span 0 kafka_xerial_header 8 = 0 := by decide
  unfold decompress_snappy
  rewrite [hd]
  simp only []
  rw [if_pos hm]
  unfold decompress_snappy_framed
  rewrite [h]
  rfl

/-! ## Where the message decoders can return -/

theorem message_set_loop_run (lib : codec_lib)
    (message_set : tvbuff_t → Int → Nat → Nat → decoded kafka_position)
    (tvb : tvbuff_t) (end_offset : Int) (n : Nat) :
    ∀ (offset : Int) (diags : List expert_info) (r : kafka_position),
      dissect_kafka_message_set_loop lib message_set tvb end_offset n offset diags = .ok r →
      ∃ ds, message_run lib message_set tvb end_offset offset r.1 ds ∧
        r.2 = (if r.1 ≠ end_offset then diags ++ ds ++ [.ei_kafka_bad_message_set_length]
               else diags ++ ds) := by
  induction n with
  | zero =>
    intro offset diags r h
    rw [dissect_kafka_message_set_loop] at h
    cases h
  | succ n ih =>
    intro offset diags r h
    rw [dissect_kafka_message_set_loop] at h
    by_cases c : offset < end_offset
    · rw [if_pos c] at h
      cases hm : dissect_kafka_message lib message_set tvb offset with
      | exception =>
        rw [hm] at h
        cases h
      | out_of_fuel =>
        rw [hm] at h
        cases h
      | ok q =>
        rw [hm] at h
        obtain ⟨o1, d1⟩ := q
        simp only [] at h
        obtain ⟨ds, hrun, hd⟩ := ih o1 _ r h
        refine ⟨d1 ++ ds, message_run.step offset o1 r.1 d1 ds c hm hrun, ?_⟩
        rw [hd]
        simp only [List.append_assoc]
    · rw [if_neg c] at h
      cases h
      refine ⟨[], message_run.done offset c, ?_⟩
      simp only [List.append_nil]

theorem message_run_end (lib : codec_lib)
    (message_set : tvbuff_t → Int → Nat → Nat → decoded kafka_position)
    (tvb : tvbuff_t) (end_offset o p : Int) (ds : List expert_info)
    (h : message_run lib message_set tvb end_offset o p ds) : end_offset ≤ p := by
  induction h with
  | done o h => omega
  | step o o1 p ds ds1 h hm hr ih => exact ih

/-- When the messages decode one after the other, the loop returns: with one
round of fuel more than there are messages it comes to the end of the run. -/
theorem message_run_returns (lib : codec_lib)
    (message_set : tvbuff_t → Int → Nat → Nat → decoded kafka_position)
    (tvb : tvbuff_t) (end_offset o p : Int) (ds : List expert_info)
    (h : message_run lib message_set tvb end_offset o p ds) :
    ∃ n, ∀ fuel diags, n ≤ fuel →
      dissect_kafka_message_set_loop lib message_set tvb end_offset (fuel + 1) o diags =
        .ok (p, if p ≠ end_offset then diags ++ ds ++ [.ei_kafka_bad_message_set_length]
                else diags ++ ds) := by
  induction h with
  | done o h =>
    refine ⟨0, fun fuel diags _ => ?_⟩
    rw [dissect_kafka_message_set_loop, if_neg h]
    simp only [List.append_nil]
  | step o o1 p ds ds1 h hm hr ih =>
    obtain ⟨n, hn⟩ := ih
    refine ⟨n + 1, fun fuel diags hf => ?_⟩
    obtain ⟨k, rfl⟩ : ∃ k, fuel = k + 1 := ⟨fuel - 1, by omega⟩
    rw [dissect_kafka_message_set_loop, if_pos h, hm]
    simp only []
    rw [hn k _ (by omega)]
    simp only [List.append_assoc]

/-- C35, counterexample. A message set of declared length FF FF FF FF at
position 4 of a buffer of five bytes: `end_offset` is 3 as a C `int`, no
message is decoded, and the position returned is 4, which is not at or after
offset + len = 4 + 4294967295. -/
theorem wide_set_length_returns_start :
    tvb_get_ntohl wide_set_length 0 = some 4294967295 ∧
    to_gint32 ((4 : Int) + (4294967295 : Nat)) = 3 ∧
    (∀ lib, dissect_kafka_message_set lib 1 wide_set_length 4 4294967295 0 =
      .ok (4, [.ei_kafka_bad_message_set_length])) ∧
    ¬ ((4 : Int) ≥ 4 + (4294967295 : Nat)) := by
  refine ⟨by decide, by decide, fun _ => rfl, by decide⟩

/-- C35, amended. Message-set length check, with `end_offset` = offset + len
taken as a C `int` (32 bits), as `dissect_kafka_message_set` computes it:
whenever the function returns, it has decoded messages back to back starting at
offset until the cursor reached or passed `end_offset`, the returned position
is at or after `end_offset`, and its diagnostics are those of the messages
followed by the bad-message-set-length diagnostic if and only if the returned
position differs from `end_offset`; the mismatch does not abort the decode.
When offset + len is below 2^31, `end_offset` is offset + len. -/
theorem message_set_length_check (lib : codec_lib) (fuel : Nat) (tvb : tvbuff_t)
    (offset : Int) (len codec : Nat) (r : kafka_position)
    (h : dissect_kafka_message_set lib (fuel + 1) tvb offset len codec = .ok r) :
    (∃ ds, message_run lib (dissect_kafka_message_set lib fuel) tvb (to_gint32 (offset + len))
        offset r.1 ds ∧
      r.2 = (if r.1 ≠ to_gint32 (offset + len)
             then ds ++ [.ei_kafka_bad_message_set_length] else ds)) ∧
    to_gint32 (offset + len) ≤ r.1 ∧
    (-2 ^ 31 ≤ offset + len → offset + len < 2 ^ 31 → to_gint32 (offset + len) = offset + len) := by
  rw [dissect_kafka_message_set] at h
  split at h
  · cases h
  · obtain ⟨ds, hrun, hd⟩ := message_set_loop_run lib _ tvb _ (fuel + 1) offset [] r h
    refine ⟨⟨ds, hrun, ?_⟩, message_run_end lib _ tvb _ offset r.1 ds hrun,
      fun h1 h2 => to_gint32_of_int _ h1 h2⟩
    rw [hd]
    simp only [List.nil_append]

/-- Witness of C35 (amended): the set of one legacy message with codec 5 that
returns past its declared end, with the diagnostic. -/
theorem message_set_length_check_witness :
    (∃ ds, message_run no_codecs (dissect_kafka_message_set no_codecs 1) overlong_legacy_message
        (to_gint32 ((0 : Int) + (26 : Nat))) 0
        ((282 : Int), [expert_info.ei_kafka_bad_message_set_length]).1 ds ∧
      ((282 : Int), [expert_info.ei_kafka_bad_message_set_length]).2 =
        (if ((282 : Int), [expert_info.ei_kafka_bad_message_set_length]).1 ≠
            to_gint32 ((0 : Int) + (26 : Nat))
         then ds ++ [.ei_kafka_bad_message_set_length] else ds)) ∧
    to_gint32 ((0 : Int) + (26 : Nat)) ≤
      ((282 : Int), [expert_info.ei_kafka_bad_message_set_length]).1 ∧
    (-2 ^ 31 ≤ (0 : Int) + (26 : Nat) → (0 : Int) + (26 : Nat) < 2 ^ 31 →
      to_gint32 ((0 : Int) + (26 : Nat)) = (0 : Int) + (26 : Nat)) :=
  message_set_length_check no_codecs 1 overlong_legacy_message 0 26 0
    (282, [.ei_kafka_bad_message_set_length]) rfl

/-! ## The size of a legacy message -/

/-- The header of a legacy message: when its fields lie in the buffer and the
span of the message passes the bounds test, the part of the legacy decoder
before the key succeeds and goes on with the key. -/
theorem old_key_of_reads (tvb : tvbuff_t) (start : Int) (ms magic attributes : Nat)
    (hlen : tvb.length < 2 ^ 31) (h0 : 0 ≤ start)
    (hms : tvb_get_ntohl tvb (start + 8) = some ms)
    (hmagic : tvb_get_guint8 tvb (start + 16) = some magic)
    (hattr : tvb_get_guint8 tvb (start + 17) = some attributes)
    (hsub : proto_tree_add_subtree tvb start (to_gint32 (((ms : Int) + 12) % 2 ^ 32)) = true)
    (hts : to_gint8 magic = 1 → start + 26 ≤ tvb.length) :
    dissect_kafka_message_old_key tvb start =
      (dissect_kafka_bytes tvb (start + 18 + (if to_gint8 magic = 1 then 8 else 0))).map
        (fun key => (attributes &&& KAFKA_MESSAGE_CODEC_MASK, key)) := by
  obtain ⟨_, b2, i17⟩ := guint8_bounds tvb _ attributes hattr
  obtain ⟨_, _, i16⟩ := guint8_bounds tvb _ magic hmagic
  have hlen' : (tvb.length : Int) < 2 ^ 31 := by exact_mod_cast hlen
  have e8 : to_gint32 (start + 8) = start + 8 :=
    to_gint32_of_int _ (by norm_num; omega) (by norm_num at hlen' ⊢; omega)
  have e12 : to_gint32 (start + 8 + 4) = start + 12 := by
    rw [to_gint32_of_int _ (by norm_num; omega) (by norm_num at hlen' ⊢; omega)]
    ring
  have e16 : to_gint32 (start + 12 + 4) = start + 16 := by
    rw [to_gint32_of_int _ (by norm_num; omega) (by norm_num at hlen' ⊢; omega)]
    ring
  have e17 : to_gint32 (start + 16 + 1) = start + 17 := by
    rw [to_gint32_of_int _ (by norm_num; omega) (by norm_num at hlen' ⊢; omega)]
    ring
  have e18 : to_gint32 (start + 17 + 1) = start + 18 := by
    rw [to_gint32_of_int _ (by norm_num; omega) (by norm_num at hlen' ⊢; omega)]
    ring
  have i0 : proto_tree_add_item tvb start 8 = true :=
    item_of_bounds tvb start 8 h0 (by push_cast; omega)
  have i8 : proto_tree_add_item tvb (start + 8) 4 = true :=
    item_of_bounds tvb (start + 8) 4 (by omega) (by push_cast; omega)
  have i12 : proto_tree_add_item tvb (start + 12) 4 = true :=
    item_of_bounds tvb (start + 12) 4 (by omega) (by push_cast; omega)
  unfold dissect_kafka_message_old_key
  simp only [e8, hms, hsub, i0, i8, e12, i12, e16, hmagic, i16, e17, i17, hattr, e18,
    Bool.not_true, Bool.false_eq_true, if_false]
  by_cases c : to_gint8 magic = 1
  · have i18 : proto_tree_add_item tvb (start + 18) 8 = true :=
      item_of_bounds tvb (start + 18) 8 (by omega) (by push_cast; have := hts c; omega)
    have e26 : to_gint32 (start + 18 + 8) = start + 18 + 8 :=
      to_gint32_of_int _ (by norm_num; omega)
        (by norm_num at hlen' ⊢; have := hts c; omega)
    simp only [c, if_true, i18, e26, Bool.not_true, Bool.false_eq_true, if_false]
    cases dissect_kafka_bytes tvb (start + 18 + 8) <;> rfl
  · simp only [c, if_false, add_zero]
    cases dissect_kafka_bytes tvb (start + 18) <;> rfl

/-- A legacy bytes field whose length is -1 or more and whose bytes lie in the
buffer is read without a diagnostic, up to the end of its bytes. -/
theorem bytes_well_formed (tvb : tvbuff_t) (o : Int) (l : Nat) (hlen : tvb.length < 2 ^ 31)
    (h0 : 0 ≤ o) (hl : tvb_get_ntohl tvb o = some l) (hK : -1 ≤ to_gint32 l)
    (hin : o + 4 + max (to_gint32 l) 0 ≤ tvb.length) :
    ∃ f, dissect_kafka_bytes tvb o = some f ∧ f.offset = o + 4 + max (to_gint32 l) 0 ∧
      f.bad_length = false := by
  rw [dissect_kafka_bytes_unfold tvb o l hlen hl]
  obtain ⟨len, hlen2⟩ : ∃ len, to_gint32 (l : Int) = len := ⟨_, rfl⟩
  rw [hlen2] at hK hin ⊢
  rw [if_neg (by omega)]
  by_cases c : len = -1
  · rw [if_pos c]
    refine ⟨_, rfl, ?_, rfl⟩
    subst c
    simp
  · rw [if_neg c]
    have hm : max len 0 = len := max_eq_left (by omega)
    rw [hm] at hin ⊢
    have hi : proto_tree_add_item tvb (o + 4) len = true := by
      have := item_of_bounds tvb (o + 4) len.toNat (by omega)
        (by rw [Int.toNat_of_nonneg (by omega)]; omega)
      rwa [Int.toNat_of_nonneg (by omega)] at this
    rw [hi]
    exact ⟨_, rfl, rfl, rfl⟩

/-- C38. Legacy envelope size consistency: for every legacy message with magic
0 or 1 and codec none that lies in a buffer of less than 2^31 bytes, whose key
and value lengths K and V are -1 or more and whose message size is the number
of bytes it occupies after the size field (4 crc, 1 magic, 1 attributes, 8
timestamp if magic is 1, 4 + max(K,0), 4 + max(V,0)),
`dissect_kafka_message_old` returns start + 12 + message_size without a
diagnostic, the position the v2 path computes from the size field. -/
theorem legacy_envelope_size (lib : codec_lib)
    (message_set : tvbuff_t → Int → Nat → Nat → decoded kafka_position)
    (tvb : tvbuff_t) (start : Int) (ms magic attributes kl vl : Nat)
    (hlen : tvb.length < 2 ^ 31) (h0 : 0 ≤ start)
    (hms : tvb_get_ntohl tvb (start + 8) = some ms)
    (hmagic : tvb_get_guint8 tvb (start + 16) = some magic) (hm01 : magic = 0 ∨ magic = 1)
    (hattr : tvb_get_guint8 tvb (start + 17) = some attributes)
    (hcodec : attributes &&& KAFKA_MESSAGE_CODEC_MASK = 0)
    (hk : tvb_get_ntohl tvb (start + 18 + (if magic = 1 then 8 else 0)) = some kl)
    (hK : -1 ≤ to_gint32 kl)
    (hv : tvb_get_ntohl tvb
      (start + 18 + (if magic = 1 then 8 else 0) + 4 + max (to_gint32 kl) 0) = some vl)
    (hV : -1 ≤ to_gint32 vl)
    (hsize : (ms : Int) = 4 + 1 + 1 + (if magic = 1 then 8 else 0) + 4 + max (to_gint32 kl) 0 +
      4 + max (to_gint32 vl) 0)
    (hin : start + 12 + ms ≤ tvb.length) :
    dissect_kafka_message_old lib message_set tvb start = .ok (start + 12 + ms, []) ∧
    to_gint32 (start + 8 + 4 + ms) = start + 12 + ms := by
  have hlen' : (tvb.length : Int) < 2 ^ 31 := by exact_mod_cast hlen
  obtain ⟨K, hKe⟩ : ∃ K, to_gint32 (kl : Int) = K := ⟨_, rfl⟩
  obtain ⟨V, hVe⟩ : ∃ V, to_gint32 (vl : Int) = V := ⟨_, rfl⟩
  have hg : (to_gint8 (magic : Nat) = 1) ↔ magic = 1 := by
    rcases hm01 with h | h <;> subst h <;> decide
  obtain ⟨ts, hts⟩ : ∃ ts : Int, (if magic = 1 then (8 : Int) else 0) = ts := ⟨_, rfl⟩
  have hts2 : (if to_gint8 (magic : Nat) = 1 then (8 : Int) else 0) = ts := by
    rw [← hts]
    by_cases c : magic = 1
    · rw [if_pos c, if_pos (hg.2 c)]
    · rw [if_neg c, if_neg (fun e => c (hg.1 e))]
  have hts01 : ts = 0 ∨ ts = 8 := by
    rw [← hts]
    by_cases c : magic = 1
    · rw [if_pos c]; exact Or.inr rfl
    · rw [if_neg c]; exact Or.inl rfl
  rw [hts] at hk hv hsize
  rw [hKe] at hK hv hsize
  rw [hVe] at hV hsize
  have hsub : proto_tree_add_subtree tvb start (to_gint32 (((ms : Int) + 12) % 2 ^ 32)) =
      true := by
    have hi := item_of_bounds tvb start (ms + 12) h0 (by push_cast; omega)
    push_cast at hi
    have e : to_gint32 (((ms : Int) + 12) % 2 ^ 32) = (ms : Int) + 12 := by
      unfold to_gint32
      norm_num at hlen' ⊢
      omega
    rw [e]
    exact hi
  have hkey := old_key_of_reads tvb start ms magic attributes hlen h0 hms hmagic hattr hsub
    (by
      intro c
      have := hg.1 c
      rw [if_pos this] at hts
      omega)
  rw [hts2, hcodec] at hkey
  obtain ⟨key, hkd, hko, hkb⟩ := bytes_well_formed tvb (start + 18 + ts) kl hlen (by omega) hk
    (by rw [hKe]; exact hK) (by rw [hKe]; omega)
  rw [hKe] at hko
  obtain ⟨value, hvd, hvo, hvb⟩ := bytes_well_formed tvb (start + 18 + ts + 4 + max K 0) vl hlen
    (by omega) hv (by rw [hVe]; exact hV) (by rw [hVe]; omega)
  rw [hVe] at hvo
  rw [hkd] at hkey
  constructor
  · unfold dissect_kafka_message_old
    rw [hkey]
    simp only [Option.map_some', if_true, hkb, Bool.false_eq_true, if_false, hko]
    rw [hvd]
    simp only [hvb, Bool.false_eq_true, if_false, List.append_nil, hvo]
    have hpos : start + 18 + ts + 4 + max K 0 + 4 + max V 0 = start + 12 + ms := by omega
    rw [hpos]
  · rw [to_gint32_of_int (start + 8 + 4 + ms) (by norm_num; omega)
      (by norm_num at hlen' ⊢; omega)]
    ring

/-- Witness of C38: the legacy message of 30 bytes with a null key and a value
of four bytes, whose message size is 18. -/
theorem legacy_envelope_size_witness :
    dissect_kafka_message_old no_codecs (fun _ _ _ _ => .exception) (legacy_message 0) 0 =
      .ok ((0 : Int) + 12 + (18 : Nat), []) ∧
    to_gint32 ((0 : Int) + 8 + 4 + (18 : Nat)) = (0 : Int) + 12 + (18 : Nat) :=
  legacy_envelope_size no_codecs (fun _ _ _ _ => .exception) (legacy_message 0) 0 18 0 0
    (2 ^ 32 - 1) 4 (by decide) (by decide) (by decide) (by decide) (by decide) (by decide)
    (by decide) (by decide) (by decide) (by decide) (by decide) (by decide) (by decide)

/-! ## The record region of a v2 batch -/

theorem ntohs_of_bounds (tvb : tvbuff_t) (o : Int) (h0 : 0 ≤ o) (h : o + 2 ≤ tvb.length) :
    ∃ v, tvb_get_ntohs tvb o = some v := by
  obtain ⟨bs, hbs⟩ := get_bytes_of_bounds tvb o 2 h0 (by simpa using h)
  exact ⟨be_value bs, by unfold tvb_get_ntohs; rw [hbs]; rfl⟩

theorem ntohl_of_bounds (tvb : tvbuff_t) (o : Int) (h0 : 0 ≤ o) (h : o + 4 ≤ tvb.length) :
    ∃ v, tvb_get_ntohl tvb o = some v := by
  obtain ⟨bs, hbs⟩ := get_bytes_of_bounds tvb o 4 h0 (by simpa using h)
  exact ⟨be_value bs, by unfold tvb_get_ntohl; rw [hbs]; rfl⟩

/-- The 44 bytes of a batch header after the magic byte: when they lie in the
buffer, the part of the batch decoder between the magic byte and the call of
`decompress` succeeds and ends 44 bytes further. -/
theorem batch_fields_of_bounds (tvb : tvbuff_t) (o : Int) (hlen : tvb.length < 2 ^ 31)
    (h0 : 0 ≤ o) (hin : o + 44 ≤ tvb.length) :
    ∃ attributes first_timestamp count,
      tvb_get_ntohs tvb (o + 4) = some attributes ∧ tvb_get_ntohl tvb (o + 40) = some count ∧
      dissect_kafka_batch_fields tvb o =
        some { codec := attributes &&& KAFKA_MESSAGE_CODEC_MASK,
               first_timestamp := first_timestamp, count := count, offset := o + 44 } := by
  have hlen' : (tvb.length : Int) < 2 ^ 31 := by exact_mod_cast hlen
  have e (a : Int) (k : Int) (ha : 0 ≤ a) (hk : 0 ≤ k) (hb : a + k ≤ tvb.length) :
      to_gint32 (a + k) = a + k :=
    to_gint32_of_int _ (by norm_num; omega) (by norm_num at hlen' ⊢; omega)
  have e4 : to_gint32 (o + 4) = o + 4 := e o 4 h0 (by omega) (by omega)
  have e6 : to_gint32 (o + 4 + 2) = o + 6 := by
    rw [e (o + 4) 2 (by omega) (by omega) (by omega)]; ring
  have e10 : to_gint32 (o + 6 + 4) = o + 10 := by
    rw [e (o + 6) 4 (by omega) (by omega) (by omega)]; ring
  have e18 : to_gint32 (o + 10 + 8) = o + 18 := by
    rw [e (o + 10) 8 (by omega) (by omega) (by omega)]; ring
  have e26 : to_gint32 (o + 18 + 8) = o + 26 := by
    rw [e (o + 18) 8 (by omega) (by omega) (by omega)]; ring
  have e34 : to_gint32 (o + 26 + 8) = o + 34 := by
    rw [e (o + 26) 8 (by omega) (by omega) (by omega)]; ring
  have e36 : to_gint32 (o + 34 + 2) = o + 36 := by
    rw [e (o + 34) 2 (by omega) (by omega) (by omega)]; ring
  have e40 : to_gint32 (o + 36 + 4) = o + 40 := by
    rw [e (o + 36) 4 (by omega) (by omega) (by omega)]; ring
  have e44 : to_gint32 (o + 40 + 4) = o + 44 := by
    rw [e (o + 40) 4 (by omega) (by omega) (by omega)]; ring
  have i0 : proto_tree_add_item tvb o 4 = true :=
    item_of_bounds tvb o 4 h0 (by push_cast; omega)
  have i4 : proto_tree_add_item tvb (o + 4) 2 = true :=
    item_of_bounds tvb (o + 4) 2 (by omega) (by push_cast; omega)
  have i6 : proto_tree_add_item tvb (o + 6) 4 = true :=
    item_of_bounds tvb (o + 6) 4 (by omega) (by push_cast; omega)
  have i10 : proto_tree_add_item tvb (o + 10) 8 = true :=
    item_of_bounds tvb (o + 10) 8 (by omega) (by push_cast; omega)
  have i18 : proto_tree_add_item tvb (o + 18) 8 = true :=
    item_of_bounds tvb (o + 18) 8 (by omega) (by push_cast; omega)
  have i26 : proto_tree_add_item tvb (o + 26) 8 = true :=
    item_of_bounds tvb (o + 26) 8 (by omega) (by push_cast; omega)
  have i34 : proto_tree_add_item tvb (o + 34) 2 = true :=
    item_of_bounds tvb (o + 34) 2 (by omega) (by push_cast; omega)
  have i36 : proto_tree_add_item tvb (o + 36) 4 = true :=
    item_of_bounds tvb (o + 36) 4 (by omega) (by push_cast; omega)
  have i40 : proto_tree_add_item tvb (o + 40) 4 = true :=
    item_of_bounds tvb (o + 40) 4 (by omega) (by push_cast; omega)
  obtain ⟨attributes, ha⟩ := ntohs_of_bounds tvb (o + 4) (by omega) (by omega)
  obtain ⟨ft, hft⟩ := ntoh64_of_bounds tvb (o + 10) (by omega) (by omega)
  obtain ⟨count, hc⟩ := ntohl_of_bounds tvb (o + 40) (by omega) (by omega)
  refine ⟨attributes, ft, count, ha, hc, ?_⟩
  unfold dissect_kafka_batch_fields
  simp only [i0, e4, i4, ha, e6, i6, e10, hft, i10, e18, i18, e26, i26, e34, i34, e36, i36,
    e40, i40, hc, e44, Bool.not_true, Bool.false_eq_true, if_false]

theorem record_region_length (ms : Nat) (hms : ms < 2 ^ 32) :
    (49 ≤ ms → (to_guint32 ((ms : Int) - 49) : Int) = ms - 49) ∧
    (ms < 49 → 2 ^ 32 - 49 ≤ to_guint32 ((ms : Int) - 49) ∧
      (to_guint32 ((ms : Int) - 49) : Int) = ms - 49 + 2 ^ 32) ∧
    (to_guint32 ((ms : Int) - 49) < 2 ^ 31 →
      to_gint32 (to_guint32 ((ms : Int) - 49)) = to_guint32 ((ms : Int) - 49)) := by
  have hms' : ((ms : Nat) : Int) < 2 ^ 32 := by exact_mod_cast hms
  obtain ⟨n, hn⟩ : ∃ n, to_guint32 ((ms : Int) - 49) = n := ⟨_, rfl⟩
  have hcast : (n : Int) = ((ms : Int) - 49) % 2 ^ 32 := by
    rw [← hn]
    unfold to_guint32
    exact Int.toNat_of_nonneg (Int.emod_nonneg _ (by norm_num))
  rw [hn]
  refine ⟨?_, ?_, ?_⟩
  · intro h
    norm_num at hms' hcast ⊢
    omega
  · intro h
    norm_num at hms' hcast ⊢
    omega
  · intro h
    have h' : ((n : Nat) : Int) < 2 ^ 31 := by exact_mod_cast h
    exact to_gint32_of_int _ (by omega) h'

/-- C39. The record region of a v2 batch: for every batch with magic byte 2
whose header of 61 bytes lies in a buffer of less than 2^31 bytes and whose
span passes the bounds test, `decompress` is called on the span that starts at
start + 61 with the length message_size - 49 computed as a `guint32` (and
handed over as a C `int`), and the batch decoder goes on by its result.  For
message_size >= 49 the length is message_size - 49 and the span ends at
start + 12 + message_size; for message_size < 49 the length wraps to
message_size - 49 + 2^32, which is at least 2^32 - 49. -/
theorem v2_record_region (lib : codec_lib) (tvb : tvbuff_t) (start : Int) (ms : Nat)
    (hlen : tvb.length < 2 ^ 31) (h0 : 0 ≤ start)
    (hms : tvb_get_ntohl tvb (start + 8) = some ms)
    (hmagic : tvb_get_guint8 tvb (start + 16) = some 2)
    (hsub : proto_tree_add_subtree tvb start (to_gint32 (((ms : Int) + 12) % 2 ^ 32)) = true)
    (h61 : start + 61 ≤ tvb.length) :
    (∃ attributes base first_timestamp count,
      tvb_get_ntohs tvb (start + 21) = some attributes ∧
      tvb_get_ntohl tvb (start + 57) = some count ∧
      (decompress lib tvb (start + 61) (to_gint32 (to_guint32 ((ms : Int) - 49)))
          (attributes &&& KAFKA_MESSAGE_CODEC_MASK) = none →
        dissect_kafka_message_new lib tvb start = none) ∧
      (decompress lib tvb (start + 61) (to_gint32 (to_guint32 ((ms : Int) - 49)))
          (attributes &&& KAFKA_MESSAGE_CODEC_MASK) = some none →
        dissect_kafka_message_new lib tvb start =
          some (to_gint32 (start + 8 + 4 + ms), [])) ∧
      (∀ dtvb doff,
        decompress lib tvb (start + 61) (to_gint32 (to_guint32 ((ms : Int) - 49)))
          (attributes &&& KAFKA_MESSAGE_CODEC_MASK) = some (some (dtvb, doff)) →
        dissect_kafka_message_new lib tvb start =
          (dissect_kafka_records_loop dtvb base first_timestamp count doff []).map
            (fun q => (to_gint32 (start + 8 + 4 + ms), q.2)))) ∧
    (49 ≤ ms → (to_guint32 ((ms : Int) - 49) : Int) = ms - 49 ∧
      start + 61 + (to_guint32 ((ms : Int) - 49) : Int) = start + 12 + ms) ∧
    (ms < 49 → 2 ^ 32 - 49 ≤ to_guint32 ((ms : Int) - 49) ∧
      (to_guint32 ((ms : Int) - 49) : Int) = ms - 49 + 2 ^ 32) ∧
    (to_guint32 ((ms : Int) - 49) < 2 ^ 31 →
      to_gint32 (to_guint32 ((ms : Int) - 49)) = to_guint32 ((ms : Int) - 49)) := by
  obtain ⟨r1, r2, r3⟩ := record_region_length ms (ntohl_lt tvb _ _ hms)
  refine ⟨?_, fun h => ⟨r1 h, by rw [r1 h]; ring⟩, r2, r3⟩
  obtain ⟨base, hhead⟩ := batch_head_of_reads tvb start ms 2 hlen h0 hms hmagic hsub
  obtain ⟨attributes, ft, count, ha, hc, hfields⟩ :=
    batch_fields_of_bounds tvb (start + 17) hlen (by omega) (by omega)
  have a21 : start + 17 + 4 = start + 21 := by ring
  have a57 : start + 17 + 40 = start + 57 := by ring
  have a61 : start + 17 + 44 = start + 61 := by ring
  rw [a21] at ha
  rw [a57] at hc
  rw [a61] at hfields
  have earg : start + 8 + 4 + (ms : Int) - (start + 61) = (ms : Int) - 49 := by ring
  have hm : to_gint8 ((2 : Nat) : Int) = 2 := by decide
  refine ⟨attributes, base, ft, count, ha, hc, ?_, ?_, ?_⟩
  · intro hd
    exact message_new_v2_exception lib tvb start _ _ hhead hm hfields (by
      simp only [earg]
      exact hd)
  · intro hd
    exact message_new_v2_failure lib tvb start _ _ hhead hm hfields (by
      simp only [earg]
      exact hd)
  · intro dtvb doff hd
    exact message_new_v2_success lib tvb start _ _ hhead hm hfields dtvb doff (by
      simp only [earg]
      exact hd)

/-- Witness of C39: the batch header of 61 bytes with message size 49 and no
record. -/
theorem v2_record_region_witness :
    (∃ attributes base first_timestamp count,
      tvb_get_ntohs (v2_batch_header 49 0) ((0 : Int) + 21) = some attributes ∧
      tvb_get_ntohl (v2_batch_header 49 0) ((0 : Int) + 57) = some count ∧
      (decompress no_codecs (v2_batch_header 49 0) ((0 : Int) + 61) (to_gint32 (to_guint32 (((49 : Nat) : Int) - 49)))
          (attributes &&& KAFKA_MESSAGE_CODEC_MASK) = none →
        dissect_kafka_message_new no_codecs (v2_batch_header 49 0) 0 = none) ∧
      (decompress no_codecs (v2_batch_header 49 0) ((0 : Int) + 61) (to_gint32 (to_guint32 (((49 : Nat) : Int) - 49)))
          (attributes &&& KAFKA_MESSAGE_CODEC_MASK) = some none →
        dissect_kafka_message_new no_codecs (v2_batch_header 49 0) 0 =
          some (to_gint32 ((0 : Int) + 8 + 4 + (49 : Nat)), [])) ∧
      (∀ dtvb doff,
        decompress no_codecs (v2_batch_header 49 0) ((0 : Int) + 61) (to_gint32 (to_guint32 (((49 : Nat) : Int) - 49)))
          (attributes &&& KAFKA_MESSAGE_CODEC_MASK) = some (some (dtvb, doff)) →
        dissect_kafka_message_new no_codecs (v2_batch_header 49 0) 0 =
          (dissect_kafka_records_loop dtvb base first_timestamp count doff []).map
            (fun q => (to_gint32 ((0 : Int) + 8 + 4 + (49 : Nat)), q.2)))) ∧
    (49 ≤ (49 : Nat) → (to_guint32 (((49 : Nat) : Int) - 49) : Int) = ((49 : Nat) : Int) - 49 ∧
      (0 : Int) + 61 + (to_guint32 (((49 : Nat) : Int) - 49) : Int) = (0 : Int) + 12 + (49 : Nat)) ∧
    ((49 : Nat) < 49 → 2 ^ 32 - 49 ≤ to_guint32 (((49 : Nat) : Int) - 49) ∧
      (to_guint32 (((49 : Nat) : Int) - 49) : Int) = ((49 : Nat) : Int) - 49 + 2 ^ 32) ∧
    (to_guint32 (((49 : Nat) : Int) - 49) < 2 ^ 31 →
      to_gint32 (to_guint32 (((49 : Nat) : Int) - 49)) = to_guint32 (((49 : Nat) : Int) - 49)) :=
  v2_record_region no_codecs (v2_batch_header 49 0) 0 49 (by decide) (by decide)
    (by decide) (by decide) (by decide) (by decide)

/-! ## When the primitive readers return -/

theorem item_iff_bounds (tvb : tvbuff_t) (o len : Int) (h0 : 0 ≤ o) (hl : 0 ≤ len) :
    proto_tree_add_item tvb o len = true ↔ o + len ≤ tvb.length := by
  constructor
  · intro h
    exact (item_bounds tvb o len hl h).2
  · intro h
    have := item_of_bounds tvb o len.toNat h0 (by rw [Int.toNat_of_nonneg hl]; exact h)
    rwa [Int.toNat_of_nonneg hl] at this

theorem legacy_string_returns (tvb : tvbuff_t) (offset : Int) (l : Nat)
    (hlen : tvb.length < 2 ^ 31) (h0 : 0 ≤ offset) (hl : tvb_get_ntohs tvb offset = some l) :
    (dissect_kafka_string tvb offset).isSome = true ↔
      (to_gint16 l < 0 ∨ offset + 2 + to_gint16 l ≤ tvb.length) := by
  rw [dissect_kafka_string_unfold tvb offset l hlen hl]
  obtain ⟨len, hlen2⟩ : ∃ len, to_gint16 (l : Int) = len := ⟨_, rfl⟩
  rw [hlen2]
  by_cases c1 : len < -1
  · rw [if_pos c1]
    simp only [Option.isSome_some, true_iff]
    exact Or.inl (by omega)
  · rw [if_neg c1]
    by_cases c2 : len = -1
    · rw [if_pos c2]
      simp only [Option.isSome_some, true_iff]
      exact Or.inl (by omega)
    · rw [if_neg c2]
      have hi := item_iff_bounds tvb (offset + 2) len (by omega) (by omega)
      cases hb : proto_tree_add_item tvb (offset + 2) len with
      | true =>
        simp only [if_true, Option.isSome_some, true_iff]
        exact Or.inr (by have := hi.1 hb; omega)
      | false =>
        simp only [Bool.false_eq_true, if_false, Option.isSome_none, false_iff, not_or]
        refine ⟨by omega, fun h => ?_⟩
        have := hi.2 (by omega)
        rw [hb] at this
        cases this

theorem legacy_bytes_returns (tvb : tvbuff_t) (offset : Int) (l : Nat)
    (hlen : tvb.length < 2 ^ 31) (h0 : 0 ≤ offset) (hl : tvb_get_ntohl tvb offset = some l) :
    (dissect_kafka_bytes tvb offset).isSome = true ↔
      (to_gint32 l < 0 ∨ offset + 4 + to_gint32 l ≤ tvb.length) := by
  rw [dissect_kafka_bytes_unfold tvb offset l hlen hl]
  obtain ⟨len, hlen2⟩ : ∃ len, to_gint32 (l : Int) = len := ⟨_, rfl⟩
  rw [hlen2]
  by_cases c1 : len < -1
  · rw [if_pos c1]
    simp only [Option.isSome_some, true_iff]
    exact Or.inl (by omega)
  · rw [if_neg c1]
    by_cases c2 : len = -1
    · rw [if_pos c2]
      simp only [Option.isSome_some, true_iff]
      exact Or.inl (by omega)
    · rw [if_neg c2]
      have hi := item_iff_bounds tvb (offset + 4) len (by omega) (by omega)
      cases hb : proto_tree_add_item tvb (offset + 4) len with
      | true =>
        simp only [if_true, Option.isSome_some, true_iff]
        exact Or.inr (by have := hi.1 hb; omega)
      | false =>
        simp only [Bool.false_eq_true, if_false, Option.isSome_none, false_iff, not_or]
        refine ⟨by omega, fun h => ?_⟩
        have := hi.2 (by omega)
        rw [hb] at this
        cases this

/-- A field "to the end of the buffer" at a position that is not negative is
in a buffer that is not empty when a byte is left at that position. -/
theorem item_to_end (tvb : tvbuff_t) (o : Int) (h0 : 0 ≤ o) (hne : 0 < tvb.length) :
    proto_tree_add_item tvb o (-1) = true ↔ o < tvb.length := by
  unfold proto_tree_add_item
  rw [if_pos rfl, if_neg (by omega)]
  unfold tvb_ensure_captured_length_remaining tvb_abs_offset
  rw [if_pos h0]
  by_cases c : o.toNat ≤ tvb.length
  · rw [if_pos c]
    simp only []
    by_cases d : tvb.length - o.toNat = 0
    · rw [if_pos d]
      simp only [Option.isSome_none, Bool.false_eq_true, false_iff]
      omega
    · rw [if_neg d]
      simp only [Option.isSome_some, true_iff]
      omega
  · rw [if_neg c]
    simp only [Option.isSome_none, Bool.false_eq_true, false_iff]
    omega

/-- A field of a length below -1 is refused. -/
theorem item_negative (tvb : tvbuff_t) (o len : Int) (h : len < -1) :
    proto_tree_add_item tvb o len = false := by
  unfold proto_tree_add_item
  rw [if_neg (by omega)]
  unfold tvb_bytes_exist
  cases tvb_abs_offset tvb o with
  | none => rfl
  | some a =>
    simp only [Bool.and_eq_false_imp, decide_eq_true_eq]
    intro hc
    omega

theorem compact_returns (bad : expert_info) (tvb : tvbuff_t) (offset : Int) (w v : Nat)
    (hlen : tvb.length < 2 ^ 31) (h0 : 0 ≤ offset) (ho : offset ≤ tvb.length)
    (h : tvb_get_varint tvb offset 5 = some (w, v)) :
    (w = 0 ∨ to_gint64 v ≤ 0 → (dissect_kafka_compact bad tvb offset).isSome = true) ∧
    (w ≠ 0 → 0 < to_gint64 v → to_gint64 v < 2 ^ 31 →
      ((dissect_kafka_compact bad tvb offset).isSome = true ↔
        offset + w + to_gint64 v ≤ tvb.length)) ∧
    (w ≠ 0 → 0 < to_gint64 v →
      ((dissect_kafka_compact bad tvb offset).isSome = true ↔
        (0 ≤ to_gint32 (to_gint64 v) ∧
          offset + w + to_gint32 (to_gint64 v) ≤ tvb.length) ∨
        (to_gint32 (to_gint64 v) = -1 ∧ offset + w < tvb.length))) := by
  have hlen' : (tvb.length : Int) < 2 ^ 31 := by exact_mod_cast hlen
  have hgen : w ≠ 0 → 0 < to_gint64 v →
      ((dissect_kafka_compact bad tvb offset).isSome = true ↔
        (0 ≤ to_gint32 (to_gint64 v) ∧
          offset + w + to_gint32 (to_gint64 v) ≤ tvb.length) ∨
        (to_gint32 (to_gint64 v) = -1 ∧ offset + w < tvb.length)) := by
    intro hw hp
    obtain ⟨_, _, _, hspan, _, _⟩ :=
      varint_span tvb offset 5 w v hlen (by omega) (by omega) h hw
    have hpos : 0 < tvb.length := by omega
    rw [dissect_kafka_compact_unfold bad tvb offset w v hlen (by omega) (by omega) h hw,
      if_pos hp]
    obtain ⟨L, hL⟩ : ∃ L, to_gint32 (to_gint64 v) = L := ⟨_, rfl⟩
    rw [hL]
    have hcase : proto_tree_add_item tvb (offset + w) L = true ↔
        (0 ≤ L ∧ offset + w + L ≤ tvb.length) ∨ (L = -1 ∧ offset + w < tvb.length) := by
      by_cases c0 : 0 ≤ L
      · have := item_iff_bounds tvb (offset + w) L (by omega) c0
        constructor
        · intro hi
          exact Or.inl ⟨c0, this.1 hi⟩
        · intro hi
          rcases hi with hi | hi
          · exact this.2 hi.2
          · omega
      · by_cases c1 : L = -1
        · subst c1
          have := item_to_end tvb (offset + w) (by omega) hpos
          constructor
          · intro hi
            exact Or.inr ⟨rfl, this.1 hi⟩
          · intro hi
            rcases hi with hi | hi
            · omega
            · exact this.2 hi.2
        · rw [item_negative tvb (offset + w) L (by omega)]
          constructor
          · intro hi
            cases hi
          · intro hi
            omega
    cases hb : proto_tree_add_item tvb (offset + w) L with
    | true =>
      simp only [Bool.not_true, Bool.false_eq_true, if_false, Option.isSome_some, true_iff]
      exact hcase.1 hb
    | false =>
      simp only [Bool.not_false, if_true, Option.isSome_none, Bool.false_eq_true, false_iff]
      intro hc
      have := hcase.2 hc
      rw [hb] at this
      cases this
  refine ⟨?_, ?_, hgen⟩
  · intro hc
    by_cases hw : w = 0
    · unfold dissect_kafka_compact
      rw [h]
      simp only [hw, if_true, Option.isSome_some]
    · have hn : to_gint64 v ≤ 0 := by
        rcases hc with hc | hc
        · exact absurd hc hw
        · exact hc
      rw [dissect_kafka_compact_absent bad tvb offset w v hlen (by omega) (by omega) h hw hn]
      rfl
  · intro hw hp hi
    have e1 : to_gint32 (to_gint64 v) = to_gint64 v :=
      to_gint32_of_int _ (by norm_num; omega) hi
    rw [hgen hw hp]
    obtain ⟨L, hL⟩ : ∃ L, to_gint32 (to_gint64 v) = L := ⟨_, rfl⟩
    obtain ⟨V, hV⟩ : ∃ V, to_gint64 (v : Int) = V := ⟨_, rfl⟩
    rw [hL, hV] at e1
    rw [hV] at hp
    rw [hL, hV, e1]
    constructor
    · intro hh
      rcases hh with hh | hh
      · exact hh.2
      · omega
    · intro hh
      exact Or.inl ⟨by omega, hh⟩

theorem compact_no_varint (bad : expert_info) (tvb : tvbuff_t) (offset : Int)
    (h : tvb_get_varint tvb offset 5 = none) : dissect_kafka_compact bad tvb offset = none := by
  unfold dissect_kafka_compact
  rw [h]

/-- C34, counterexample. Each primitive reader ends with the bounds exception
on a truncated input, at the position 0 of a buffer that is not empty: a
legacy string and a legacy bytes field of declared length 5 without their
bytes, a compact string and a compact bytes field of declared length 3 without
their bytes, and an array whose count field has two bytes only. -/
theorem primitives_abort_on_truncated_input :
    dissect_kafka_string [0, 5] 0 = none ∧
    dissect_kafka_bytes [0, 0, 0, 5] 0 = none ∧
    tvb_get_varint [0x06] 0 5 = some (1, 3) ∧
    dissect_kafka_string_new [0x06] 0 = none ∧
    dissect_kafka_bytes_new [0x06] 0 = none ∧
    dissect_kafka_array_ref (fun t o => some (two_byte_element t o)) [0, 0] 0 = none := by
  decide

/-- C34, amended. For every buffer of less than 2^31 bytes and every cursor
position inside it, each primitive reader returns a position exactly when the
bytes it has to read lie in the buffer, and ends with the bounds exception
otherwise: `dissect_kafka_string` and `dissect_kafka_bytes` return when their
length field is in the buffer and the declared length is negative or the
declared bytes are in the buffer; `dissect_kafka_string_new` and
`dissect_kafka_bytes_new` return when the varint can be read and it is
malformed, or the declared length is not positive, or the declared length
taken as a C `int` (the declared length itself when it is below 2^31) is not
negative and that many bytes are in the buffer, or it is -1 and a byte is left
after the varint; `dissect_kafka_array_ref` with an element decoder that
always returns does so when its count field is in the buffer.  A length below
-1 shows up as a diagnostic only. -/
theorem primitives_return_in_bounds (tvb : tvbuff_t) (offset : Int)
    (hlen : tvb.length < 2 ^ 31) (h0 : 0 ≤ offset) (ho : offset ≤ tvb.length) :
    (∀ l, tvb_get_ntohs tvb offset = some l →
      ((dissect_kafka_string tvb offset).isSome = true ↔
        (to_gint16 l < 0 ∨ offset + 2 + to_gint16 l ≤ tvb.length)) ∧
      (to_gint16 l < -1 → dissect_kafka_string tvb offset =
        some { offset := offset + 2, value_offset := offset + 2, value_len := to_gint16 l,
               bad_length := true })) ∧
    (tvb_get_ntohs tvb offset = none → dissect_kafka_string tvb offset = none) ∧
    (∀ l, tvb_get_ntohl tvb offset = some l →
      ((dissect_kafka_bytes tvb offset).isSome = true ↔
        (to_gint32 l < 0 ∨ offset + 4 + to_gint32 l ≤ tvb.length)) ∧
      (to_gint32 l < -1 → dissect_kafka_bytes tvb offset =
        some { offset := offset + 4, value_offset := offset + 4, value_len := to_gint32 l,
               bad_length := true })) ∧
    (tvb_get_ntohl tvb offset = none → dissect_kafka_bytes tvb offset = none) ∧
    (∀ w v, tvb_get_varint tvb offset 5 = some (w, v) →
      (w = 0 ∨ to_gint64 v ≤ 0 →
        (dissect_kafka_string_new tvb offset).isSome = true ∧
        (dissect_kafka_bytes_new tvb offset).isSome = true) ∧
      (w ≠ 0 → 0 < to_gint64 v → to_gint64 v < 2 ^ 31 →
        ((dissect_kafka_string_new tvb offset).isSome = true ↔
          offset + w + to_gint64 v ≤ tvb.length) ∧
        ((dissect_kafka_bytes_new tvb offset).isSome = true ↔
          offset + w + to_gint64 v ≤ tvb.length)) ∧
      (w ≠ 0 → 0 < to_gint64 v →
        ((dissect_kafka_string_new tvb offset).isSome = true ↔
          (0 ≤ to_gint32 (to_gint64 v) ∧
            offset + w + to_gint32 (to_gint64 v) ≤ tvb.length) ∨
          (to_gint32 (to_gint64 v) = -1 ∧ offset + w < tvb.length)) ∧
        ((dissect_kafka_bytes_new tvb offset).isSome = true ↔
          (0 ≤ to_gint32 (to_gint64 v) ∧
            offset + w + to_gint32 (to_gint64 v) ≤ tvb.length) ∨
          (to_gint32 (to_gint64 v) = -1 ∧ offset + w < tvb.length)))) ∧
    (tvb_get_varint tvb offset 5 = none →
      dissect_kafka_string_new tvb offset = none ∧ dissect_kafka_bytes_new tvb offset = none) ∧
    (∀ (g : tvbuff_t → Int → kafka_position) c, tvb_get_ntohl tvb offset = some c →
      (dissect_kafka_array_ref (fun t o => some (g t o)) tvb offset).isSome = true) ∧
    (∀ func, tvb_get_ntohl tvb offset = none → dissect_kafka_array_ref func tvb offset = none) := by
  refine ⟨?_, ?_, ?_, ?_, ?_, ?_, ?_, ?_⟩
  · intro l hl
    refine ⟨legacy_string_returns tvb offset l hlen h0 hl, fun c => ?_⟩
    rw [dissect_kafka_string_unfold tvb offset l hlen hl, if_pos c]
  · intro h
    unfold dissect_kafka_string
    rw [h]
  · intro l hl
    refine ⟨legacy_bytes_returns tvb offset l hlen h0 hl, fun c => ?_⟩
    rw [dissect_kafka_bytes_unfold tvb offset l hlen hl, if_pos c]
  · intro h
    unfold dissect_kafka_bytes
    rw [h]
  · intro w v h
    unfold dissect_kafka_string_new dissect_kafka_bytes_new
    have h1 := compact_returns .ei_kafka_bad_string_length tvb offset w v hlen h0 ho h
    have h2 := compact_returns .ei_kafka_bad_bytes_length tvb offset w v hlen h0 ho h
    exact ⟨fun c => ⟨h1.1 c, h2.1 c⟩, fun hw hp hi => ⟨h1.2.1 hw hp hi, h2.2.1 hw hp hi⟩,
      fun hw hp => ⟨h1.2.2 hw hp, h2.2.2 hw hp⟩⟩
  · intro h
    unfold dissect_kafka_string_new dissect_kafka_bytes_new
    exact ⟨compact_no_varint _ tvb offset h, compact_no_varint _ tvb offset h⟩
  · intro g c hc
    rw [dissect_kafka_array_ref_total g tvb offset c hlen hc]
    split <;> rfl
  · intro func h
    unfold dissect_kafka_array_ref
    rw [h]

/-- Witness of C34 (amended): the legacy string "A" in a buffer of four
bytes, and the compact string of declared length 2^32 - 1, -1 as a C `int`,
in a buffer of six bytes. -/
theorem primitives_return_in_bounds_witness :
    (((dissect_kafka_string [0, 1, 0x41, 0xFF] 0).isSome = true ↔
      (to_gint16 (1 : Nat) < 0 ∨
        (0 : Int) + 2 + to_gint16 (1 : Nat) ≤ (([0, 1, 0x41, 0xFF] : tvbuff_t).length : Nat))) ∧
    (to_gint16 (1 : Nat) < -1 → dissect_kafka_string [0, 1, 0x41, 0xFF] 0 =
      some { offset := 0 + 2, value_offset := 0 + 2, value_len := to_gint16 (1 : Nat),
             bad_length := true })) ∧
    (((dissect_kafka_string_new wide_compact 0).isSome = true ↔
      (0 ≤ to_gint32 (to_gint64 (4294967295 : Nat)) ∧
        (0 : Int) + (5 : Nat) + to_gint32 (to_gint64 (4294967295 : Nat)) ≤
          (wide_compact.length : Nat)) ∨
      (to_gint32 (to_gint64 (4294967295 : Nat)) = -1 ∧
        (0 : Int) + (5 : Nat) < (wide_compact.length : Nat))) ∧
    ((dissect_kafka_bytes_new wide_compact 0).isSome = true ↔
      (0 ≤ to_gint32 (to_gint64 (4294967295 : Nat)) ∧
        (0 : Int) + (5 : Nat) + to_gint32 (to_gint64 (4294967295 : Nat)) ≤
          (wide_compact.length : Nat)) ∨
      (to_gint32 (to_gint64 (4294967295 : Nat)) = -1 ∧
        (0 : Int) + (5 : Nat) < (wide_compact.length : Nat)))) :=
  ⟨(primitives_return_in_bounds [0, 1, 0x41, 0xFF] 0 (by decide) (by decide) (by decide)).1 1
      (by decide),
   ((primitives_return_in_bounds wide_compact 0 (by decide) (by decide)
      (by decide)).2.2.2.2.1 5 4294967295 (by decide)).2.2 (by decide) (by decide)⟩

/-! ## The queue invariant of the correlator -/

theorem shape_ordered (st st1 : conv_state) (g : packet_info) (bound : Nat)
    (h : step_shape st g st1) (hinv : frames_inv st bound) (hb : bound ≤ g.num)
    (hp : st.pending) (ho : st.queue_ordered) : st1.queue_ordered := by
  unfold conv_state.queue_ordered at ho ⊢
  cases h with
  | same => exact ho
  | create key version push hs =>
    have hold : st.match_queue.Pairwise (fun p q => ∀ mp mq,
        (st.heap ++ [new_matcher g key version])[p]? = some mp →
        (st.heap ++ [new_matcher g key version])[q]? = some mq →
        mp.request_frame < mq.request_frame) := by
      refine List.Pairwise.imp_of_mem ?_ ho
      intro a b ha hb' hr mp mq hmp hmq
      rw [List.getElem?_append_left (hinv.1.1 a ha)] at hmp
      rw [List.getElem?_append_left (hinv.1.1 b hb')] at hmq
      exact hr mp mq hmp hmq
    cases push with
    | false => exact hold
    | true =>
      simp only [if_true]
      rw [List.pairwise_append]
      refine ⟨hold, List.pairwise_singleton _ _, ?_⟩
      intro a ha b hb'
      simp only [List.mem_singleton] at hb'
      subst hb'
      intro mp mq hmp hmq
      rw [List.getElem?_append_left (hinv.1.1 a ha)] at hmp
      simp only [List.getElem?_concat_length, Option.some.injEq] at hmq
      have := hinv.2.1 a ha mp hmp
      rw [← hmq]
      simp only [new_matcher]
      omega
  | pair p q m hs hq hm hf =>
    have hnd : (p :: q).Nodup := hq ▸ hp.1
    rw [hq] at ho
    have hq2 := (List.pairwise_cons.1 ho).2
    refine List.Pairwise.imp_of_mem ?_ hq2
    intro a b ha hb' hr mp mq hmp hmq
    have hna : p ≠ a := fun e => (List.nodup_cons.1 hnd).1 (e ▸ ha)
    have hnb : p ≠ b := fun e => (List.nodup_cons.1 hnd).1 (e ▸ hb')
    simp only at hmp hmq
    rw [List.getElem?_set_ne hna] at hmp
    rw [List.getElem?_set_ne hnb] at hmq
    exact hr mp mq hmp hmq

theorem frames_inv_mono (st : conv_state) (b1 b2 : Nat) (h : frames_inv st b1) (hb : b1 ≤ b2) :
    frames_inv st b2 := by
  refine ⟨h.1, ?_, ?_⟩
  · intro p hp m hm
    have := h.2.1 p hp m hm
    omega
  · intro e he
    have := h.2.2 e he
    omega

theorem dissect_frames_ordered (capture : List (packet_info × tvbuff_t)) :
    ∀ (st : conv_state) (bound b2 : Nat), frames_inv st bound → st.pending → st.queue_ordered →
      first_pass bound capture → (∀ f ∈ capture, f.1.num < b2) → bound ≤ b2 →
      frames_inv (dissect_frames st capture).1 b2 ∧ (dissect_frames st capture).1.pending ∧
        (dissect_frames st capture).1.queue_ordered := by
  induction capture with
  | nil =>
    intro st bound b2 hinv hp ho _ _ hb
    exact ⟨frames_inv_mono st bound b2 hinv hb, hp, ho⟩
  | cons f rest ih =>
    intro st bound b2 hinv hp ho hfp hall hb
    obtain ⟨pinfo, tvb⟩ := f
    rw [dissect_frames_cons]
    have hsh := dissect_kafka_shape st pinfo tvb
    have hbn : bound ≤ pinfo.num := (hfp.1 (pinfo, tvb) (List.mem_cons_self _ _)).2
    have hlt : pinfo.num < b2 := hall (pinfo, tvb) (List.mem_cons_self _ _)
    exact ih _ (pinfo.num + 1) b2 (shape_inv st _ pinfo bound hsh hinv hbn)
      (shape_pending st _ pinfo hsh hinv.1 hp)
      (shape_ordered st _ pinfo bound hsh hinv hbn hp ho)
      (first_pass_tail bound pinfo tvb rest hfp)
      (fun f hf => hall f (List.mem_cons_of_mem _ hf)) (by omega)

theorem queue_invariant_of (st : conv_state) (bound frame : Nat) (h : frames_inv st bound)
    (hp : st.pending) (ho : st.queue_ordered) (hb : bound ≤ frame + 1) :
    queue_invariant st frame := by
  refine ⟨hp.1, ?_, ho⟩
  intro p hpq
  obtain ⟨m, hm, hf⟩ := hp.2 p hpq
  have := h.2.1 p hpq m hm
  exact ⟨m, hm, hf, by omega⟩

theorem first_pass_append (capture : List (packet_info × tvbuff_t)) (f : packet_info × tvbuff_t)
    (h : first_pass 0 (capture ++ [f])) :
    first_pass 0 capture ∧ ∀ x ∈ capture, x.1.num < f.1.num := by
  have h2 := h.2
  rw [List.map_append, List.pairwise_append] at h2
  refine ⟨⟨fun x hx => h.1 x (List.mem_append_left _ hx), h2.1⟩, ?_⟩
  intro x hx
  exact h2.2.2 x.1.num (List.mem_map_of_mem (fun f => f.1.num) hx) f.1.num (by simp)

/-- C37. Queue invariant of the correlator: when the frames of a connection
are decoded once each, in strictly increasing order of their frame numbers,
then in the state in which the frame `pinfo` is decoded and in the state after
it every pointer of the queue occurs once, points to a matcher with
`response_found` false whose request frame is at most the frame being decoded,
and the queue is ordered by strictly increasing request frame from its front
to its back. -/
theorem queue_invariant_first_pass (capture : List (packet_info × tvbuff_t))
    (pinfo : packet_info) (tvb : tvbuff_t) (h : first_pass 0 (capture ++ [(pinfo, tvb)])) :
    queue_invariant (dissect_frames conv_state.empty capture).1 pinfo.num ∧
    queue_invariant (dissect_frames conv_state.empty (capture ++ [(pinfo, tvb)])).1
      pinfo.num := by
  obtain ⟨hc, hlt⟩ := first_pass_append capture (pinfo, tvb) h
  have hempty : conv_state.empty.queue_ordered := by
    unfold conv_state.queue_ordered
    simp [conv_state.empty]
  constructor
  · obtain ⟨h1, h2, h3⟩ := dissect_frames_ordered capture conv_state.empty 0 pinfo.num empty_inv
      empty_pending hempty hc hlt (Nat.zero_le _)
    exact queue_invariant_of _ pinfo.num pinfo.num h1 h2 h3 (by omega)
  · obtain ⟨h1, h2, h3⟩ := dissect_frames_ordered (capture ++ [(pinfo, tvb)]) conv_state.empty 0
      (pinfo.num + 1) empty_inv empty_pending hempty h
      (by
        intro f hf
        rcases List.mem_append.1 hf with hf | hf
        · have := hlt f hf
          simp only at this
          omega
        · simp only [List.mem_singleton] at hf
          subst hf
          simp)
      (Nat.zero_le _)
    exact queue_invariant_of _ (pinfo.num + 1) pinfo.num h1 h2 h3 (by omega)

/-- Witness of C37: two requests and the response of the first one, then the
response of the second one in frame 4. -/
theorem queue_invariant_first_pass_witness :
    queue_invariant (dissect_frames conv_state.empty sample_pre).1 (sample_response 4).num ∧
    queue_invariant
      (dissect_frames conv_state.empty (sample_pre ++ [(sample_response 4, short_response)])).1
      (sample_response 4).num :=
  queue_invariant_first_pass sample_pre (sample_response 4) short_response
    (by unfold first_pass; decide)

end Kafka
